import Mathlib

/-!
# CART file system: frame cache and storage driver

A shallow embedding of `cart_cache.c` / `cart_cache.h` (the LRU frame cache) and of
`cart_driver.c` / `cart_driver.h` (the storage driver), followed by theorems about them.

Conventions of the embedding.

* C `int`, `int16_t`, `int32_t` values are `Int`; unsigned values are `Nat`; conversions
  between widths are written out (`toInt32`, `toUInt16`, `% 2 ^ 64`).
* A pointer to a `cache_node` is `Option Nat` (`none` is `NULL`); the heap maps addresses to
  live nodes; `malloc` hands out the next unused address and `free` kills the node.
* A function returns `none` exactly when the C code would dereference `NULL` or a freed node,
  free a dead node, or index one of the global arrays outside its declared bounds.
* The constants of `cart_controller.h` (frame size, frames per cartridge, number of
  cartridges) are not part of the sources and are parameters (`Geometry`).
* The frame device behind `cart_io_bus` is external; it is modelled from the specification
  (`Device`, `cart_io_bus`), with an oracle saying which commands fail.
* Local frame buffers are lists of `CART_FRAME_SIZE` bytes. `cart_write` copies the staged
  bytes to `&read_in[write_location_bytes]`, and the offset is `-1` when the position is the
  "unset" value `-1`: a byte addressed below the buffer is not part of the frame and is
  dropped by `copy_at`; a byte read outside a buffer is undefined and yields `none`.
-/

namespace Cart

/-! ## Constants and machine integers -/

/-- Geometry of the device: the constants `CART_FRAME_SIZE`, `CART_CARTRIDGE_SIZE` and
`CART_MAX_CARTRIDGES` of `cart_controller.h`, taken as parameters. -/
structure Geometry where
  CART_FRAME_SIZE : Nat
  CART_CARTRIDGE_SIZE : Nat
  CART_MAX_CARTRIDGES : Nat
deriving DecidableEq, Repr

/-- Default size for the cache (`cart_cache.h`). -/
def DEFAULT_CART_FRAME_CACHE_SIZE : Int := 1024

/-- Conversion of an unsigned 32-bit value to `int` / `int32_t` (two's complement). -/
def toInt32 (n : Nat) : Int :=
  if n % 2 ^ 32 < 2 ^ 31 then ((n % 2 ^ 32 : Nat) : Int) else ((n % 2 ^ 32 : Nat) : Int) - 2 ^ 32

/-- Conversion of an `int` to an unsigned 16-bit index (`CartridgeIndex`, `CartFrameIndex`). -/
def toUInt16 (x : Int) : Nat := (x % 65536).toNat

/-- Pointwise update of a one-dimensional array. -/
def upd {α : Type} (f : Nat → α) (i : Nat) (v : α) : Nat → α :=
  fun k => if k = i then v else f k

/-- Pointwise update of a two-dimensional array. -/
def upd2 {α : Type} (f : Nat → Nat → α) (i j : Nat) (v : α) : Nat → Nat → α :=
  fun k l => if k = i ∧ l = j then v else f k l

/-- The byte copy `memcpy(dst, src, n)` on buffers held as lists: the first `n` bytes of
`dst` are replaced by the first `n` bytes of `src`. -/
def memcpy (dst src : List Nat) (n : Nat) : List Nat :=
  src.take n ++ dst.drop n

/-! ## Frame cache (`cart_cache.h`, `cart_cache.c`) -/

/-- A pointer to a cache node; `none` is `NULL`. -/
abbrev Ptr := Option Nat

/-- The LRU struct `cache_node`. -/
structure cache_node where
  data : List Nat
  cart : Int
  frame : Int
  next : Ptr
  prev : Ptr
deriving DecidableEq, Repr

/-- The cache struct `Cache`, with the heap its nodes live in. The lookup table
`filled_cache_frames` has the slots `[cart][frame]` with `cart < CART_MAX_CARTRIDGES` and
`frame < CART_CARTRIDGE_SIZE`; accesses are checked against these bounds. -/
structure Cache where
  max_cache_size : Int
  filled_cache_frames : Nat → Nat → Ptr
  current_cache_size : Int
  head : Ptr
  tail : Ptr
  heap : Nat → Option cache_node
  brk : Nat

/-- The global `cache` before any call: zero-initialised, no node allocated. -/
def Cache.zero : Cache :=
  { max_cache_size := 0, filled_cache_frames := fun _ _ => none, current_cache_size := 0,
    head := none, tail := none, heap := fun _ => none, brk := 0 }

/-- Read through a node pointer. -/
def deref (c : Cache) (p : Ptr) : Option cache_node :=
  match p with
  | none => none
  | some a => c.heap a

/-- Write through a node pointer: `p->field = ...`. -/
def poke (c : Cache) (p : Ptr) (f : cache_node → cache_node) : Option Cache :=
  match p with
  | none => none
  | some a =>
    match c.heap a with
    | none => none
    | some n => some { c with heap := upd c.heap a (some (f n)) }

/-- The call `malloc(sizeof(cache_node))` followed by the initialisation of the node. -/
def malloc_node (c : Cache) (n : cache_node) : Cache × Nat :=
  ({ c with heap := upd c.heap c.brk (some n), brk := c.brk + 1 }, c.brk)

/-- The call `free(p)` on a node pointer. -/
def free_node (c : Cache) (p : Ptr) : Option Cache :=
  match p with
  | none => none
  | some a =>
    match c.heap a with
    | none => none
    | some _ => some { c with heap := upd c.heap a none }

/-- Bounds of the lookup table. -/
def inTable (g : Geometry) (cart frm : Nat) : Prop :=
  cart < g.CART_MAX_CARTRIDGES ∧ frm < g.CART_CARTRIDGE_SIZE

instance (g : Geometry) (cart frm : Nat) : Decidable (inTable g cart frm) := by
  unfold inTable; infer_instance

/-- Source function `set_cart_cache_size`. -/
def set_cart_cache_size (c : Cache) (max_frames : Nat) : Cache × Int :=
  ({ c with max_cache_size := toInt32 max_frames }, 0)

/-- Source function `init_cart_cache`. -/
def init_cart_cache (c : Cache) : Cache × Int :=
  ({ c with
      max_cache_size :=
        if c.max_cache_size = 0 then DEFAULT_CART_FRAME_CACHE_SIZE else c.max_cache_size,
      filled_cache_frames := fun _ _ => none,
      current_cache_size := 0,
      head := none,
      tail := none }, 0)

/-- Source function `get_cart_cache`: the pointer stored in the lookup slot. -/
def get_cart_cache (g : Geometry) (c : Cache) (cart frm : Nat) : Option Ptr :=
  if inTable g cart frm then some (c.filled_cache_frames cart frm) else none

/-- Source function `delete_cart_cache`. -/
def delete_cart_cache (g : Geometry) (c : Cache) (cart blk : Nat) : Option (Cache × Int) :=
  if ¬ inTable g cart blk then none else
  match c.filled_cache_frames cart blk with
  | none => some (c, -1)
  | some d => do
    let c ←
      if c.current_cache_size > 1 then
        if some d = c.head then do
          let h ← deref c c.head
          let c := { c with head := h.prev }
          let h ← deref c c.head
          let c ← poke c h.next (fun n => { n with prev := none })
          poke c c.head (fun n => { n with next := none })
        else if some d = c.tail then do
          let t ← deref c c.tail
          let c := { c with tail := t.next }
          let t ← deref c c.tail
          let c ← poke c t.prev (fun n => { n with next := none })
          poke c c.tail (fun n => { n with prev := none })
        else do
          let n ← deref c (some d)
          let c ← poke c n.prev (fun m => { m with next := n.next })
          let n ← deref c (some d)
          let c ← poke c n.next (fun m => { m with prev := n.prev })
          let c ← poke c (some d) (fun m => { m with prev := none })
          poke c (some d) (fun m => { m with next := none })
      else pure c
    let c ← free_node c (some d)
    pure ({ c with
              filled_cache_frames := upd2 c.filled_cache_frames cart blk none,
              current_cache_size := c.current_cache_size - 1 }, 0)

/-- The two statements `node->next = cache.tail; cache.tail->prev = node;`. -/
def link_before_tail (c : Cache) (node : Ptr) : Option Cache := do
  let c ← poke c node (fun n => { n with next := c.tail })
  poke c c.tail (fun n => { n with prev := node })

/-- The node that the insertion branch of `put_cart_cache` initialises after `malloc`: the
first `CART_FRAME_SIZE` bytes of the buffer, the key, and both links `NULL`. -/
def new_node (g : Geometry) (cart frm : Nat) (buf : List Nat) : cache_node :=
  { data := memcpy [] buf g.CART_FRAME_SIZE, cart := cart, frame := frm,
    next := none, prev := none }

/-- Source function `put_cart_cache`. -/
def put_cart_cache (g : Geometry) (c : Cache) (cart frm : Nat) (buf : List Nat) :
    Option (Cache × Int) :=
  if c.max_cache_size ≤ 0 then some (c, 0) else
  if ¬ inTable g cart frm then none else
  match c.filled_cache_frames cart frm with
  | none => do
    let (c, a) := malloc_node c (new_node g cart frm buf)
    let node : Ptr := some a
    let c ←
      if c.current_cache_size = 0 then pure { c with head := node }
      else if c.current_cache_size < c.max_cache_size then link_before_tail c node
      else do
        let h ← deref c c.head
        let (c, _) ← delete_cart_cache g c (toUInt16 h.cart) (toUInt16 h.frame)
        if c.current_cache_size = 0 then pure { c with head := node }
        else link_before_tail c node
    pure ({ c with
              tail := node,
              current_cache_size := c.current_cache_size + 1,
              filled_cache_frames := upd2 c.filled_cache_frames cart frm node }, 0)
  | some a => do
    let node : Ptr := some a
    let c ←
      if c.current_cache_size > 1 ∧ node ≠ c.tail then
        if node = c.head then do
          let h ← deref c c.head
          let c := { c with head := h.prev }
          let h ← deref c c.head
          let c ← poke c h.next (fun n => { n with next := c.tail })
          let h ← deref c c.head
          let c ← poke c c.tail (fun n => { n with prev := h.next })
          let h ← deref c c.head
          let c := { c with tail := h.next }
          let c ← poke c c.tail (fun n => { n with prev := none })
          poke c c.head (fun n => { n with next := none })
        else do
          let n ← deref c node
          let c ← poke c n.prev (fun m => { m with next := n.next })
          let n ← deref c node
          let c ← poke c n.next (fun m => { m with prev := n.prev })
          let c ← poke c node (fun m => { m with next := c.tail })
          let c ← poke c c.tail (fun m => { m with prev := node })
          let c ← poke c node (fun m => { m with prev := none })
          pure { c with tail := node }
      else pure c
    let c ← poke c node (fun m => { m with data := memcpy m.data buf g.CART_FRAME_SIZE })
    pure (c, 0)

/-- The bytes a lookup finds: `get_cart_cache(cart, frm)->data`, or `none` when the slot is
empty (or the key is outside the table). -/
def cached_bytes (g : Geometry) (c : Cache) (cart frm : Nat) : Option (List Nat) :=
  match get_cart_cache g c cart frm with
  | some (some a) => (c.heap a).map (fun n => n.data)
  | _ => none


/-! ## Frame device (external; `cart_controller.h`) -/

/-- Modelled from the spec: the opcodes of the device command register (section 6: power-on,
zero-cartridge, load-cartridge, read-frame, write-frame, power-off), declared in
`cart_controller.h`, which is not under src/. -/
def CART_OP_INITMS : Nat := 0

/-- Modelled from the spec: opcode zero-cartridge (`cart_controller.h`, not under src/). -/
def CART_OP_BZERO : Nat := 1

/-- Modelled from the spec: opcode load-cartridge (`cart_controller.h`, not under src/). -/
def CART_OP_LDCART : Nat := 2

/-- Modelled from the spec: opcode read-frame (`cart_controller.h`, not under src/). -/
def CART_OP_RDFRME : Nat := 3

/-- Modelled from the spec: opcode write-frame (`cart_controller.h`, not under src/). -/
def CART_OP_WRFRME : Nat := 4

/-- Modelled from the spec: opcode power-off (`cart_controller.h`, not under src/). -/
def CART_OP_POWOFF : Nat := 5

/-- Modelled from the spec: the state of the frame device, which is not under src/. It holds
the cartridge loaded last, the contents of every frame, the number of commands executed so
far, and an oracle telling which command numbers report failure. -/
structure Device where
  loaded : Option Nat
  frames : Nat → Nat → List Nat
  clock : Nat
  fault : Nat → Bool

/-- Modelled from the spec: `cart_io_bus` of the frame device, which is not under src/
(section 6). One command is executed at a time: the opcode is the top byte of the register,
the cartridge and frame fields are the 16-bit fields at bits 31 and 15, and frame transfers
address the frame of the loaded cartridge. The response is the register with the status bit
(bit 47) clear on success and set on failure; a failing command changes nothing. The third
component is the buffer after the call. -/
def cart_io_bus (g : Geometry) (d : Device) (reg : Nat) (buf : Option (List Nat)) :
    Device × Nat × Option (List Nat) :=
  let op := reg >>> 56
  let ct := (reg >>> 31) % 2 ^ 16
  let fm := (reg >>> 15) % 2 ^ 16
  let ok := reg - (if reg.testBit 47 then 2 ^ 47 else 0)
  let ko := ok + 2 ^ 47
  let d1 := { d with clock := d.clock + 1 }
  if d.fault d.clock then (d1, ko, buf)
  else if op = CART_OP_INITMS then ({ d1 with loaded := none }, ok, buf)
  else if op = CART_OP_POWOFF then (d1, ok, buf)
  else if op = CART_OP_LDCART then
    if ct < g.CART_MAX_CARTRIDGES then ({ d1 with loaded := some ct }, ok, buf)
    else (d1, ko, buf)
  else if op = CART_OP_BZERO then
    match d.loaded with
    | some c =>
      ({ d1 with frames := upd d.frames c (fun _ => List.replicate g.CART_FRAME_SIZE 0) },
        ok, buf)
    | none => (d1, ko, buf)
  else if op = CART_OP_RDFRME then
    match d.loaded with
    | some c =>
      if fm < g.CART_CARTRIDGE_SIZE then (d1, ok, some (d.frames c fm)) else (d1, ko, buf)
    | none => (d1, ko, buf)
  else if op = CART_OP_WRFRME then
    match d.loaded, buf with
    | some c, some b =>
      if fm < g.CART_CARTRIDGE_SIZE then
        ({ d1 with frames := upd2 d.frames c fm (b.take g.CART_FRAME_SIZE) }, ok, buf)
      else (d1, ko, buf)
    | _, _ => (d1, ko, buf)
  else (d1, ko, buf)

/-! ## Storage driver (`cart_driver.h`, `cart_driver.c`) -/

/-- Maximum number of files ever (`cart_driver.h`). -/
def CART_MAX_TOTAL_FILES : Nat := 1024

/-- Maximum length of filename length (`cart_driver.h`). -/
def CART_MAX_PATH_LENGTH : Nat := 128

/-- The declared length of `files[]` and `all_handles[]`: `FILES_SIZE` is the macro
`CART_MAX_TOTAL_FILES * 5`, so the arrays have 5120 elements. -/
def FILES_SIZE : Nat := CART_MAX_TOTAL_FILES * 5

/-- Conversion of an `int` to `int16_t` (two's complement). -/
def toInt16 (x : Int) : Int :=
  if x % 65536 < 32768 then x % 65536 else x % 65536 - 65536

/-- Conversion of an `int` to `int32_t` (two's complement). -/
def wrap32 (x : Int) : Int :=
  if x % 2 ^ 32 < 2 ^ 31 then x % 2 ^ 32 else x % 2 ^ 32 - 2 ^ 32

/-- Conversion of a signed value to the 64-bit `CartXferRegister`. -/
def toUInt64 (x : Int) : Nat := (x % 2 ^ 64).toNat

/-- An index into an array of `n` elements; `none` when outside the array. -/
def index? (n : Nat) (i : Int) : Option Nat :=
  if 0 ≤ i ∧ i < n then some i.toNat else none

/-- The frame assignment `struct data_structure` of a file block. -/
structure data_structure where
  cart : Int
  frame : Int
deriving DecidableEq, Repr

/-- The file struct `File`. The field `name` holds the characters stored in `name[]` from
index 0 on. -/
structure File where
  name : List Nat
  handle : Int
  size : Int
  current_position : Int
  is_open : Int
  data : Nat → data_structure

/-- The file system struct `File_System`. -/
structure File_System where
  cart_to_use : Int
  frame_to_use : Int
  last_cart_loaded : Int
  is_on : Int
  current_handle : Int
  files : Nat → File
  all_handles : Nat → Int
  visited : Nat → Nat → Int

/-- The state the driver works on: its own globals, the cache and the device. -/
structure World where
  fs : File_System
  cache : Cache
  dev : Device

/-- The character `name[0]` of a file. -/
def File.name0 (f : File) : Nat := f.name.headD 0

/-- Source function `generate_encoded_opcode`, on 64-bit registers. -/
def generate_encoded_opcode (ky_1 ky_2 ct_1 fm_1 : Nat) : Nat :=
  let base := 0
  let ky_1 := (ky_1 <<< 56) % 2 ^ 64
  let ky_2 := (ky_2 <<< 48) % 2 ^ 64
  let ct_1 := (ct_1 <<< 31) % 2 ^ 64
  let fm_1 := (fm_1 <<< 15) % 2 ^ 64
  let base := base ||| ky_1
  let base := base ||| ky_2
  let base := base ||| ct_1
  let base := base ||| fm_1
  base

/-- Source function `extract_opcode_response`. -/
def extract_opcode_response (response : Nat) : Int :=
  let response := (response <<< 16) % 2 ^ 64
  let response := response >>> 63
  if response = 0 then 0 else -1

/-- Source function `run_opcode`; the third component is the buffer after the call. -/
def run_opcode (g : Geometry) (d : Device) (opcode : Nat) (buf : Option (List Nat)) :
    Device × Int × Option (List Nat) :=
  let r := cart_io_bus g d opcode buf
  (r.1, extract_opcode_response r.2.1, r.2.2)

/-- Source function `hash`, on the characters of the path before its terminator. The macro
`FILES_SIZE` expands textually, so `x % FILES_SIZE` is `x % CART_MAX_TOTAL_FILES * 5`. -/
def hash (str : List Nat) : Int :=
  let factor := 13
  let h := str.foldl
    (fun hash ch => ((hash * factor + ch) % 2 ^ 64 % CART_MAX_TOTAL_FILES * 5) % 2 ^ 64) 0
  ((h % CART_MAX_TOTAL_FILES * 5 : Nat) : Int)

/-- Conversion of an `int32_t` to `uint32_t`. -/
def toUInt32 (x : Int) : Nat := (x % 2 ^ 32).toNat

/-- The byte `buf[i]` of a local buffer; reading outside the buffer is undefined. -/
def byte_at (buf : List Nat) (i : Int) : Option Nat :=
  if 0 ≤ i then buf.get? i.toNat else none

/-- The copy `memcpy(&dst[off], src, len src)` into a local buffer: byte `k` of `src` goes to
index `off + k`; a byte whose index is not an index of `dst` is not stored in `dst`. -/
def copy_at : List Nat → Int → List Nat → List Nat
  | dst, _, [] => dst
  | dst, off, b :: bs => copy_at (if 0 ≤ off then dst.set off.toNat b else dst) (off + 1) bs

/-- One round of the cartridge loop of `cart_poweron`, repeated for the cartridges
`i, i + 1, ...`; the flag tells whether every command succeeded. -/
def poweron_carts (g : Geometry) : Nat → Nat → File_System → Device → File_System × Device × Bool
  | 0, _, fs, d => (fs, d, true)
  | n + 1, i, fs, d =>
    let load := run_opcode g d (generate_encoded_opcode CART_OP_LDCART 0 i 0) none
    if load.2.1 = -1 then (fs, load.1, false) else
    let clear := run_opcode g load.1 (generate_encoded_opcode CART_OP_BZERO 0 0 0) none
    if clear.2.1 = -1 then (fs, clear.1, false) else
    poweron_carts g n (i + 1) { fs with last_cart_loaded := toInt16 i } clear.1

/-- Source function `cart_poweron`. The argument `temp` is the content of the uninitialised
local `File temp`. -/
def cart_poweron (g : Geometry) (temp : File) (w : World) : World × Int :=
  let start := run_opcode g w.dev (generate_encoded_opcode CART_OP_INITMS 0 0 0) none
  let start_cache := init_cart_cache w.cache
  if start.2.1 = -1 ∨ start_cache.2 = -1 then
    ({ w with cache := start_cache.1, dev := start.1 }, -1)
  else
    let fs := { w.fs with is_on := 1, current_handle := 0, cart_to_use := 0, frame_to_use := 0 }
    let r := poweron_carts g g.CART_MAX_CARTRIDGES 0 fs start.1
    if r.2.2 = false then ({ fs := r.1, cache := start_cache.1, dev := r.2.1 }, -1)
    else
      let fs := { r.1 with
        files := fun _ => { temp with name := 48 :: temp.name.tail },
        all_handles := fun _ => -1,
        visited := fun _ _ => 0 }
      ({ fs := fs, cache := start_cache.1, dev := r.2.1 }, 0)

/-- The allocation step shared by `cart_open` and `cart_write`: `frame_to_use++`, and on
reaching the end of the cartridge the cursor moves to frame 0 of the next cartridge. -/
def advance_cursor (g : Geometry) (fs : File_System) : File_System :=
  let fs := { fs with frame_to_use := toInt16 (fs.frame_to_use + 1) }
  if fs.frame_to_use = (g.CART_CARTRIDGE_SIZE : Int) then
    { fs with cart_to_use := toInt16 (fs.cart_to_use + 1), frame_to_use := 0 }
  else fs

/-- Source function `cart_open`; `path` holds the characters before the terminator. -/
def cart_open (g : Geometry) (w : World) (path : List Nat) : Option (World × Int) := do
  let fs := w.fs
  let hashed ← index? FILES_SIZE (hash path)
  let file_handle := fs.all_handles hashed
  if file_handle = -1 then
    let file_handle := fs.current_handle
    if CART_MAX_PATH_LENGTH ≤ path.length then none else
    let new_file : File :=
      { name := path ++ [0],
        handle := toInt16 file_handle,
        size := 0,
        current_position := -1,
        is_open := 1,
        data := fun i =>
          if i = 0 then { cart := fs.cart_to_use, frame := fs.frame_to_use }
          else { cart := -1, frame := -1 } }
    let k ← index? FILES_SIZE file_handle
    let fs := { fs with files := upd fs.files k new_file }
    let fs := { fs with current_handle := file_handle + 1 }
    let fs := { fs with all_handles := upd fs.all_handles hashed file_handle }
    let fs := advance_cursor g fs
    pure ({ w with fs := fs }, toInt16 file_handle)
  else do
    let k ← index? FILES_SIZE file_handle
    if (fs.files k).is_open = 0 then
      let fs := { fs with files := upd fs.files k { fs.files k with is_open := 1 } }
      pure ({ w with fs := fs }, toInt16 file_handle)
    else pure (w, -1)

/-- The test `files[fd].name[0] == '0' || files[fd].is_open != 1` of `cart_close`,
`cart_write` and `cart_seek`. -/
def not_usable (f : File) : Prop := f.name0 = 48 ∨ f.is_open ≠ 1

instance (f : File) : Decidable (not_usable f) := by
  unfold not_usable; infer_instance

/-- Source function `cart_close`. -/
def cart_close (w : World) (fd : Int) : Option (World × Int) := do
  let k ← index? FILES_SIZE fd
  if not_usable (w.fs.files k) then pure (w, -1)
  else
    let fs := { w.fs with files := upd w.fs.files k { w.fs.files k with is_open := 0 } }
    pure ({ w with fs := fs }, 0)

/-- Source function `cart_seek`; `loc` is a `uint32_t`. -/
def cart_seek (w : World) (fd : Int) (loc : Nat) : Option (World × Int) := do
  let loc := loc % 2 ^ 32
  let k ← index? FILES_SIZE fd
  let current := w.fs.files k
  if not_usable current then pure (w, -1)
  else if (loc + 1) % 2 ^ 32 > toUInt32 current.size then pure (w, -1)
  else
    let fs := { w.fs with files := upd w.fs.files k { current with current_position := toInt32 loc } }
    pure ({ w with fs := fs }, 0)

/-- The frame fetch of `cart_read` for block `frame_ix` of the file: the cached copy when
`get_cart_cache` finds one, otherwise a read-frame command. The second component is the
content of `read_in` afterwards, or `none` when the device read failed. -/
def read_fetch (g : Geometry) (w : World) (current : File) (frame_ix : Int)
    (read_in : List Nat) : Option (World × Option (List Nat)) := do
  let k ← index? g.CART_CARTRIDGE_SIZE frame_ix
  let d := current.data k
  let read_cache ← get_cart_cache g w.cache (toUInt16 d.cart) (toUInt16 d.frame)
  match read_cache with
  | some a => do
    let n ← w.cache.heap a
    pure (w, some (memcpy read_in n.data g.CART_FRAME_SIZE))
  | none =>
    let r := run_opcode g w.dev
      (generate_encoded_opcode CART_OP_RDFRME 0 0 (toUInt64 d.frame)) (some read_in)
    if r.2.1 = -1 then pure ({ w with dev := r.1 }, none)
    else pure ({ w with dev := r.1 }, some (r.2.2.getD read_in))

/-- The byte loop of `cart_read`, with `n` bytes still to read; `stored` holds the bytes
read so far. The result is the return value and the bytes copied to the caller. -/
def read_loop (g : Geometry) (current : File) (count : Nat) :
    Nat → World → Int → Int → List Nat → List Nat → Option (World × Int × List Nat)
  | 0, w, _, _, _, stored => some (w, (count : Int), stored)
  | n + 1, w, frame_ix, bytes_ix, read_in, stored =>
    if bytes_ix = (g.CART_FRAME_SIZE : Int) - 1 then
      match read_fetch g w current (frame_ix + 1) read_in with
      | none => none
      | some (w, none) => some (w, -1, [])
      | some (w, some read_in) =>
        match byte_at read_in 0 with
        | none => none
        | some b => read_loop g current count n w (frame_ix + 1) 1 read_in (stored ++ [b])
    else
      match byte_at read_in bytes_ix with
      | none => none
      | some b => read_loop g current count n w frame_ix (bytes_ix + 1) read_in (stored ++ [b])

/-- Source function `cart_read`. The result is the return value and, when it is not `-1`,
the `count` bytes copied into `buf`. -/
def cart_read (g : Geometry) (w : World) (fd : Int) (count : Nat) :
    Option (World × Int × List Nat) := do
  let k ← index? FILES_SIZE fd
  let current := w.fs.files k
  if (g.CART_FRAME_SIZE : Int) - 1 = 0 then none else
  let read_location_frame := Int.tdiv current.current_position ((g.CART_FRAME_SIZE : Int) - 1)
  let read_location_bytes := Int.tmod current.current_position ((g.CART_FRAME_SIZE : Int) - 1)
  let read_in := List.replicate g.CART_FRAME_SIZE 0
  match ← read_fetch g w current read_location_frame read_in with
  | (w, none) => pure (w, -1, [])
  | (w, some read_in) =>
    read_loop g current count count w read_location_frame read_location_bytes read_in []

/-- The outcome of one flush of `cart_write`: the state, the content of `read_in`, and
whether the call goes on (`false`: it returns `-1`). -/
structure Flush where
  w : World
  read_in : List Nat
  ok : Bool

/-- First part of the flush of `cart_write`: the cartridge of the frame is loaded when it is
not the one loaded last. The flag is `false` when the load command failed. -/
def flush_load (g : Geometry) (w : World) (d : data_structure) : World × Bool :=
  if w.fs.last_cart_loaded ≠ d.cart then
    let r := run_opcode g w.dev
      (generate_encoded_opcode CART_OP_LDCART 0 (toUInt64 d.cart) 0) none
    if r.2.1 = -1 then ({ w with dev := r.1 }, false)
    else ({ w with dev := r.1, fs := { w.fs with last_cart_loaded := d.cart } }, true)
  else (w, true)

/-- Second part of the flush of `cart_write`: the current contents of the frame are copied
into `read_in` from the cache when `get_cart_cache` finds the frame, else read from the
device when the frame is marked visited, else `read_in` is left as it is. -/
def flush_fetch (g : Geometry) (w : World) (d : data_structure) (read_in : List Nat) :
    Option Flush := do
  let read_cache ← get_cart_cache g w.cache (toUInt16 d.cart) (toUInt16 d.frame)
  match read_cache with
  | some a => do
    let n ← w.cache.heap a
    pure { w := w, read_in := memcpy read_in n.data g.CART_FRAME_SIZE, ok := true }
  | none => do
    let ci ← index? g.CART_MAX_CARTRIDGES d.cart
    let fi ← index? g.CART_CARTRIDGE_SIZE d.frame
    if w.fs.visited ci fi ≠ 0 then
      let r := run_opcode g w.dev
        (generate_encoded_opcode CART_OP_RDFRME 0 0 (toUInt64 d.frame)) (some read_in)
      if r.2.1 = -1 then pure { w := { w with dev := r.1 }, read_in := read_in, ok := false }
      else pure { w := { w with dev := r.1 }, read_in := r.2.2.getD read_in, ok := true }
    else pure { w := w, read_in := read_in, ok := true }

/-- Third part of the flush of `cart_write`: the frame in `read_in` is written to the
device, put into the cache and marked visited. The second component is the response of the
write-frame command. -/
def flush_store (g : Geometry) (w : World) (d : data_structure) (read_in : List Nat) :
    Option (World × Int) := do
  let r := run_opcode g w.dev
    (generate_encoded_opcode CART_OP_WRFRME 0 0 (toUInt64 d.frame)) (some read_in)
  let w := { w with dev := r.1 }
  let put ← put_cart_cache g w.cache (toUInt16 d.cart) (toUInt16 d.frame) read_in
  let w := { w with cache := put.1 }
  let ci ← index? g.CART_MAX_CARTRIDGES d.cart
  let fi ← index? g.CART_CARTRIDGE_SIZE d.frame
  let w := { w with fs := { w.fs with visited := upd2 w.fs.visited ci fi 1 } }
  pure (w, r.2.1)

/-- The position and size update of the flush of `cart_write` after `n` bytes were written:
`current_position += n`, and the size becomes position + 1 when that is larger. -/
def File.advanced (current : File) (n : Int) : File :=
  let current := { current with current_position := wrap32 (current.current_position + n) }
  if current.current_position + 1 > current.size then
    { current with size := wrap32 (current.current_position + 1) }
  else current

/-- Last part of the flush of `cart_write`, after `n` bytes were written to block `frame_ix`
of the file in slot `k`: the position and size are updated, and when the position is a
multiple of the stride and position + 1 equals the size, block `frame_ix + 1` gets the frame
under the allocation cursor. -/
def flush_advance (g : Geometry) (w : World) (k : Nat) (n frame_ix : Int) : Option World :=
  let current := (w.fs.files k).advanced n
  let w := { w with fs := { w.fs with files := upd w.fs.files k current } }
  if Int.tmod current.current_position ((g.CART_FRAME_SIZE : Int) - 1) = 0
      ∧ current.current_position + 1 = current.size then
    match index? g.CART_CARTRIDGE_SIZE (frame_ix + 1) with
    | none => none
    | some nx =>
      let current := { current with
        data := upd current.data nx { cart := w.fs.cart_to_use, frame := w.fs.frame_to_use } }
      let fs := advance_cursor g { w.fs with files := upd w.fs.files k current }
      some { w with fs := fs }
  else some w

/-- The flush of `cart_write` (the body of the `if` at the stride boundary or at the last
byte) for the file in slot `k`, writing `holding_buffer[0 .. holding_buffer_count]` at
in-frame offset `bytes_ix` of block `frame_ix`. -/
def write_flush (g : Geometry) (w : World) (k : Nat) (read_in holding_buffer : List Nat)
    (holding_buffer_count frame_ix bytes_ix : Int) : Option Flush := do
  let ix ← index? g.CART_CARTRIDGE_SIZE frame_ix
  let d := (w.fs.files k).data ix
  let loaded := flush_load g w d
  if loaded.2 = false then pure { w := loaded.1, read_in := read_in, ok := false } else
  let fetched ← flush_fetch g loaded.1 d read_in
  if fetched.ok = false then pure fetched else
  let read_in := copy_at fetched.read_in bytes_ix
    (holding_buffer.take (holding_buffer_count + 1).toNat)
  let stored ← flush_store g fetched.w d read_in
  if stored.2 = -1 then pure { w := stored.1, read_in := read_in, ok := false } else
  let w ← flush_advance g stored.1 k (holding_buffer_count + 1) frame_ix
  pure { w := w, read_in := read_in, ok := true }

/-- The byte loop of `cart_write` over the bytes still to write (the head of the list is
`char_buf[i]`, and `i == count - 1` when the rest is empty). -/
def write_loop (g : Geometry) (k : Nat) (count : Nat) :
    List Nat → World → List Nat → List Nat → Int → Option (World × Int)
  | [], w, _, _, _ => some (w, (count : Int))
  | b :: rest, w, read_in, holding_buffer, holding_buffer_count =>
    let current := w.fs.files k
    let frame_ix := Int.tdiv current.current_position ((g.CART_FRAME_SIZE : Int) - 1)
    let bytes_ix := Int.tmod current.current_position ((g.CART_FRAME_SIZE : Int) - 1)
    match index? g.CART_FRAME_SIZE holding_buffer_count with
    | none => none
    | some j =>
      let holding_buffer := holding_buffer.set j b
      if holding_buffer_count + bytes_ix + 1 = (g.CART_FRAME_SIZE : Int) - 1 ∨ rest = [] then
        match write_flush g w k read_in holding_buffer holding_buffer_count frame_ix bytes_ix with
        | none => none
        | some fl =>
          if fl.ok = false then some (fl.w, -1)
          else write_loop g k count rest fl.w fl.read_in holding_buffer (-1 + 1)
      else write_loop g k count rest w read_in holding_buffer (holding_buffer_count + 1)

/-- Source function `cart_write`; `buf` is the caller's buffer, of which the first `count`
bytes are written. -/
def cart_write (g : Geometry) (w : World) (fd : Int) (buf : List Nat) (count : Nat) :
    Option (World × Int) := do
  let k ← index? FILES_SIZE fd
  if not_usable (w.fs.files k) then pure (w, -1) else
  if buf.length < count then none else
  if (g.CART_FRAME_SIZE : Int) - 1 = 0 ∧ 0 < count then none else
  write_loop g k count (buf.take count) w
    (List.replicate g.CART_FRAME_SIZE 0) (List.replicate g.CART_FRAME_SIZE 0) 0

/-! ## Initial state and runs -/

/-- The device before power-on: nothing loaded, every frame empty, no command executed,
and the given fault oracle. -/
def Device.fresh (fault : Nat → Bool) : Device :=
  { loaded := none, frames := fun _ _ => [], clock := 0, fault := fault }

/-- The zero-initialised global `file_system`. -/
def File_System.zero : File_System :=
  { cart_to_use := 0, frame_to_use := 0, last_cart_loaded := 0, is_on := 0, current_handle := 0,
    files := fun _ =>
      { name := [], handle := 0, size := 0, current_position := 0, is_open := 0,
        data := fun _ => { cart := 0, frame := 0 } },
    all_handles := fun _ => 0,
    visited := fun _ _ => 0 }

/-- The state at program start, with a device whose commands all succeed. -/
def World.boot : World :=
  { fs := File_System.zero, cache := Cache.zero, dev := Device.fresh (fun _ => false) }

/-- A file content for the uninitialised local of `cart_poweron`. -/
def File.blank : File :=
  { name := [], handle := 0, size := 0, current_position := 0, is_open := 0,
    data := fun _ => { cart := 0, frame := 0 } }

/-! ## Runs and concrete scenarios -/

/-- The state after `cart_open` has re-opened the closed file in slot `k`. -/
def reopened (w : World) (k : Nat) : World :=
  { w with fs := { w.fs with files := upd w.fs.files k { w.fs.files k with is_open := 1 } } }

/-- The state after `cart_seek` has set the position of the file in slot `k`. -/
def positioned (w : World) (k : Nat) (pos : Int) : World :=
  { w with fs := { w.fs with
      files := upd w.fs.files k { w.fs.files k with current_position := pos } } }

/-- A call of the top-level file API. -/
inductive Call where
  | copen (path : List Nat)
  | cclose (fd : Int)
  | cseek (fd : Int) (loc : Nat)
  | cread (fd : Int) (count : Nat)
  | cwrite (fd : Int) (buf : List Nat) (count : Nat)

/-- The effect of one call: the state afterwards, the return value and, for a read, the
bytes delivered. -/
def call (g : Geometry) (w : World) : Call → Option (World × Int × List Nat)
  | .copen path => (cart_open g w path).map fun r => (r.1, r.2, [])
  | .cclose fd => (cart_close w fd).map fun r => (r.1, r.2, [])
  | .cseek fd loc => (cart_seek w fd loc).map fun r => (r.1, r.2, [])
  | .cread fd count => cart_read g w fd count
  | .cwrite fd buf count => (cart_write g w fd buf count).map fun r => (r.1, r.2, [])

/-- A sequence of calls, collecting the return values and delivered bytes in order. -/
def calls (g : Geometry) : World → List Call → Option (World × List (Int × List Nat))
  | w, [] => some (w, [])
  | w, c :: cs =>
    match call g w c with
    | none => none
    | some r =>
      match calls g r.1 cs with
      | none => none
      | some rs => some (rs.1, (r.2.1, r.2.2) :: rs.2)

/-- The return values and delivered bytes of a sequence of calls. -/
def results (g : Geometry) (w : World) (cs : List Call) : Option (List (Int × List Nat)) :=
  (calls g w cs).map Prod.snd

/-- The state after a sequence of calls (the start state when a call is undefined). -/
def after (g : Geometry) (w : World) (cs : List Call) : World :=
  ((calls g w cs).map Prod.fst).getD w

/-- The geometry of the CART assignment: 1024-byte frames, 1024 frames per cartridge,
64 cartridges. -/
def cartGeometry : Geometry :=
  { CART_FRAME_SIZE := 1024, CART_CARTRIDGE_SIZE := 1024, CART_MAX_CARTRIDGES := 64 }

/-- A small geometry: 4-byte frames (stride 3), 2 frames per cartridge, 2 cartridges. -/
def smallGeometry : Geometry :=
  { CART_FRAME_SIZE := 4, CART_CARTRIDGE_SIZE := 2, CART_MAX_CARTRIDGES := 2 }

/-- The state after a successful `cart_poweron` on the program's start state, with the
cache capacity never configured (default 1024). -/
def poweredOn : World := (cart_poweron cartGeometry File.blank World.boot).1

/-- The state after `set_cart_cache_size(1)` and `cart_poweron`, in the small geometry. -/
def poweredOnSmall : World :=
  (cart_poweron smallGeometry File.blank
    { World.boot with cache := (set_cart_cache_size World.boot.cache 1).1 }).1

/-- The path `"/a.txt"`. -/
def path_a_txt : List Nat := [47, 97, 46, 116, 120, 116]

/-- The path `"0.txt"`. -/
def path_0_txt : List Nat := [48, 46, 116, 120, 116]

/-! ## Representation of the cache as a recency list -/

/-- An entry of the cache as the recency list sees it: the address of its node, its key and
its bytes. -/
structure Entry where
  addr : Nat
  cart : Nat
  frame : Nat
  data : List Nat
deriving DecidableEq, Repr

/-- The key of an entry. -/
def Entry.key (e : Entry) : Nat × Nat := (e.cart, e.frame)

/-- The first address of a list, or the given pointer when the list is empty. -/
def headOr (l : List Nat) (n : Ptr) : Ptr :=
  match l with
  | [] => n
  | a :: _ => some a

/-- The last address of a list, or the given pointer when the list is empty. -/
def lastOr (l : List Nat) (p : Ptr) : Ptr :=
  match l.getLast? with
  | none => p
  | some a => some a

/-- The nodes at the addresses `l`, in this order, form a stretch of the doubly linked list:
the `next` pointer of each node is the address before it (`p` for the first) and its `prev`
pointer is the address after it (`n` for the last). The head of the cache is the first
address and the tail the last, as `put_cart_cache` links a new node with
`node->next = cache.tail; cache.tail->prev = node`. -/
def seg (h : Nat → Option cache_node) : Ptr → List Nat → Ptr → Prop
  | _, [], _ => True
  | p, a :: r, n => (∃ x, h a = some x ∧ x.next = p ∧ x.prev = headOr r n) ∧ seg h (some a) r n

/-- The key and bytes of the node at an address, when the node is live. -/
def content (h : Nat → Option cache_node) (a : Nat) : Option (Int × Int × List Nat) :=
  (h a).map fun x => (x.cart, x.frame, x.data)

/-- The cache state `c` represents the recency list `L`, least recently put entry first:
the nodes of `L` are linked from `head` to `tail` in this order, hold the keys and bytes of
`L`, and the lookup table has exactly the slots of these keys filled, each with the address
of its node. -/
structure Rep (g : Geometry) (c : Cache) (L : List Entry) : Prop where
  nodup : (L.map Entry.addr).Nodup
  links : seg c.heap none (L.map Entry.addr) none
  node : ∀ e ∈ L, content c.heap e.addr = some ((e.cart : Int), (e.frame : Int), e.data)
  table : ∀ e ∈ L, inTable g e.cart e.frame ∧ c.filled_cache_frames e.cart e.frame = some e.addr
  slot : ∀ i j a, c.filled_cache_frames i j = some a →
    ∃ e ∈ L, e.addr = a ∧ e.cart = i ∧ e.frame = j
  head : ∀ e ∈ L.head?, c.head = some e.addr
  tail : ∀ e ∈ L.getLast?, c.tail = some e.addr
  size : c.current_cache_size = (L.length : Int)
  fresh : ∀ e ∈ L, e.addr < c.brk
  len : ∀ e ∈ L, e.data.length ≤ g.CART_FRAME_SIZE

/-- The recency list without the entry of key `(i, j)`. -/
def without (L : List Entry) (i j : Nat) : List Entry :=
  L.filter fun e => ¬ (e.cart = i ∧ e.frame = j)

/-- The entry of key `(i, j)` in a recency list, if there is one. -/
def lookup (L : List Entry) (i j : Nat) : Option Entry :=
  L.find? fun e => e.cart = i ∧ e.frame = j

/-! ## Cache operations, runs, and the recency list of the specification -/

/-- An operation on the cache. -/
inductive CacheOp where
  | put (cart frm : Nat) (buf : List Nat)
  | get (cart frm : Nat)
  | delete (cart frm : Nat)
deriving DecidableEq, Repr

/-- The key an operation works on. -/
def CacheOp.key : CacheOp → Nat × Nat
  | .put i j _ => (i, j)
  | .get i j => (i, j)
  | .delete i j => (i, j)

/-- One cache operation on a state: `none` when the operation is undefined. -/
def cache_step (g : Geometry) (c : Cache) : CacheOp → Option Cache
  | .put i j buf => (put_cart_cache g c i j buf).map Prod.fst
  | .get i j => (get_cart_cache g c i j).map fun _ => c
  | .delete i j => (delete_cart_cache g c i j).map Prod.fst

/-- A sequence of cache operations, from left to right. -/
def cache_run (g : Geometry) : Cache → List CacheOp → Option Cache
  | c, [] => some c
  | c, op :: ops =>
    match cache_step g c op with
    | none => none
    | some c' => cache_run g c' ops

/-- The cache of the specification (sections 3 and 4.1): the recency list of the cached keys
with their bytes, from least recently updated to most recently updated. -/
abbrev SpecCache := List ((Nat × Nat) × List Nat)

/-- Specification `get`: the bytes of the entry if present. -/
def spec_get (A : SpecCache) (k : Nat × Nat) : Option (List Nat) :=
  (A.find? fun p => p.1 = k).map Prod.snd

/-- Specification `delete`: the entry is removed from the recency list. -/
def spec_delete (A : SpecCache) (k : Nat × Nat) : SpecCache :=
  A.filter fun p => p.1 ≠ k

/-- Specification `put`: nothing when the capacity is not positive; otherwise, if the key is
absent and the cache is at capacity the least recently updated entry is evicted first, then
the entry's bytes (one frame) are inserted or overwritten and the entry becomes the most
recently updated one. -/
def spec_put (cap : Int) (frameSize : Nat) (A : SpecCache) (k : Nat × Nat) (b : List Nat) :
    SpecCache :=
  if cap ≤ 0 then A
  else
    let A1 := if spec_get A k = none ∧ cap ≤ (A.length : Int) then A.tail else A
    spec_delete A1 k ++ [(k, b.take frameSize)]

/-- One operation on the specification's cache. -/
def spec_step (cap : Int) (frameSize : Nat) (A : SpecCache) : CacheOp → SpecCache
  | .put i j buf => spec_put cap frameSize A (i, j) buf
  | .get _ _ => A
  | .delete i j => spec_delete A (i, j)

/-- A sequence of operations on the specification's cache, starting from the empty cache. -/
def spec_run (cap : Int) (frameSize : Nat) (ops : List CacheOp) : SpecCache :=
  ops.foldl (spec_step cap frameSize) []

/-- The recency list of keys and bytes that a list of entries stands for. -/
def absOf (L : List Entry) : SpecCache :=
  L.map fun e => ((e.cart, e.frame), e.data)

/-- The number of non-empty slots of the lookup table. -/
def filled_count (g : Geometry) (c : Cache) : Nat :=
  ((Finset.range g.CART_MAX_CARTRIDGES ×ˢ Finset.range g.CART_CARTRIDGE_SIZE).filter
    fun ij => c.filled_cache_frames ij.1 ij.2 ≠ none).card

/-- The test of `put_age`: the operation is a `put` of key `k`. -/
def is_put_of (k : Nat × Nat) (op : CacheOp) : Bool :=
  match op with
  | .put i j _ => decide ((i, j) = k)
  | _ => false

/-- The number of operations of `ops` that come after the most recent `put` of key `k`;
`none` when `k` was never put. A larger number means an older put. -/
def put_age (ops : List CacheOp) (k : Nat × Nat) : Option Nat :=
  ops.reverse.findIdx? (is_put_of k)

/-- The operations of a sequence that are not `get` calls. -/
def without_gets (ops : List CacheOp) : List CacheOp :=
  ops.filter fun op =>
    match op with
    | .get _ _ => false
    | _ => true

/-- Every operation of the sequence works on a key inside the lookup table. -/
def ops_in_table (g : Geometry) (ops : List CacheOp) : Prop :=
  ∀ op ∈ ops, inTable g op.key.1 op.key.2

/-- The index types `CartridgeIndex` and `CartFrameIndex` are 16 bits wide: the geometry has
at most 65536 cartridges and 65536 frames per cartridge. -/
def Geometry.index16 (g : Geometry) : Prop :=
  g.CART_MAX_CARTRIDGES ≤ 65536 ∧ g.CART_CARTRIDGE_SIZE ≤ 65536

instance (g : Geometry) : Decidable g.index16 := by
  unfold Geometry.index16; infer_instance

instance (g : Geometry) (ops : List CacheOp) : Decidable (ops_in_table g ops) := by
  unfold ops_in_table; infer_instance

/-- A geometry with 2-byte frames, 3 frames per cartridge and 2 cartridges, for the cache
scenarios. -/
def cacheGeometry : Geometry :=
  { CART_FRAME_SIZE := 2, CART_CARTRIDGE_SIZE := 3, CART_MAX_CARTRIDGES := 2 }

/-- The cache after `set_cart_cache_size(2)` and `init_cart_cache`. -/
def cache2 : Cache := (init_cart_cache (set_cart_cache_size Cache.zero 2).1).1

/-- The cache after `set_cart_cache_size(2)`, `init_cart_cache`, `put(0,0,"AA")` and
`put(0,1,"BB")` in the small cache geometry. -/
def cacheAB : Cache :=
  (cache_run cacheGeometry cache2 [.put 0 0 [65, 65], .put 0 1 [66, 66]]).getD cache2

/-- The key the specification evicts when a new key is put into a full cache after the
operations `ops`: the key at the least recently updated end of the recency list. -/
def spec_victim (cap : Int) (frameSize : Nat) (ops : List CacheOp) : Option (Nat × Nat) :=
  (spec_run cap frameSize ops).head?.map Prod.fst

/-- Along the recency list of the specification every key has been put, and the keys are in
the order of their most recent put, oldest first. -/
def put_ordered (ops : List CacheOp) (A : SpecCache) : Prop :=
  (∀ p ∈ A, ∃ t, put_age ops p.1 = some t) ∧
  A.Pairwise fun p q => ∀ tp tq, put_age ops p.1 = some tp → put_age ops q.1 = some tq → tq < tp

/-- The cache after `set_cart_cache_size(2)`, `init_cart_cache`, `put(0,0,"AA")`,
`get(0,0)` and `put(0,1,"BB")` in the small cache geometry. -/
def cacheAgB : Cache :=
  (cache_run cacheGeometry cache2 [.put 0 0 [65, 65], .get 0 0, .put 0 1 [66, 66]]).getD cache2

/-- The state after `set_cart_cache_size(1)` and `cart_poweron` in the small geometry, with a
device on which exactly the command number `n` (counted from 0 at program start) fails. -/
def poweredOnFaulty (n : Nat) : World :=
  (cart_poweron smallGeometry File.blank
    { fs := File_System.zero, cache := (set_cart_cache_size Cache.zero 1).1,
      dev := Device.fresh (fun t => t == n) }).1

/-- One file in the small geometry: created, one byte written, then `cart_seek(0, 0)`. -/
def oneFileCalls : List Call := [.copen [97], .cwrite 0 [120] 1, .cseek 0 0]

/-- The state after power-on, `cart_open("/a.txt")` and a write of the two bytes `"ab"`. -/
def twoByteFile : World :=
  after cartGeometry poweredOn [.copen path_a_txt, .cwrite 0 [97, 98] 2]

/-- The state of the small geometry (cache capacity 1) in which the file 0 has the blocks
(0,0) and (1,0), of which only (1,0) is cached, and position 0. -/
def crossFile : World :=
  after smallGeometry poweredOnSmall (oneFileCalls ++ [.cwrite 0 [65, 66, 67, 68] 4, .cseek 0 0])

/-- The outcome of `cart_read(0, buf, 4)` in the state `crossFile`. -/
def crossFileRead : World × Int × List Nat :=
  (cart_read smallGeometry crossFile 0 4).getD (crossFile, 0, [])

/-- The cache state after `set_cart_cache_size(2147483648)`: the value does not fit the
`int` field `max_cache_size` and is stored as a negative number. -/
def cacheNegative : Cache := (set_cart_cache_size Cache.zero 2147483648).1

/-- The test of `delete_age`: the operation is a `delete` of key `k`. -/
def is_delete_of (k : Nat × Nat) (op : CacheOp) : Bool :=
  match op with
  | .delete i j => decide ((i, j) = k)
  | _ => false

/-- The number of operations of `ops` that come after the most recent `delete` of key `k`;
`none` when `k` was never deleted. -/
def delete_age (ops : List CacheOp) (k : Nat × Nat) : Option Nat :=
  ops.reverse.findIdx? (is_delete_of k)

/-- The key `k` was never put by `ops`, or its most recent put was followed by a
`delete` of `k`. -/
def never_put_or_deleted (ops : List CacheOp) (k : Nat × Nat) : Prop :=
  ∀ n, put_age ops k = some n → ∃ m, delete_age ops k = some m ∧ m < n

/-- The cache after `set_cart_cache_size(3)`, `init_cart_cache`, `put(0,0,"AA")`,
`put(0,1,"BB")` and `put(0,2,"CC")` in the small cache geometry. -/
def cacheABC : Cache :=
  (cache_run cacheGeometry (init_cart_cache (set_cart_cache_size Cache.zero 3).1).1
    [.put 0 0 [65, 65], .put 0 1 [66, 66], .put 0 2 [67, 67]]).getD Cache.zero

/-- The frame assignment of a file block lies on the device: its cartridge and frame numbers
are indices of `visited[][]` and of the cache's lookup table. -/
def slot_ok (g : Geometry) (d : data_structure) : Prop :=
  0 ≤ d.cart ∧ d.cart < (g.CART_MAX_CARTRIDGES : Int) ∧
  0 ≤ d.frame ∧ d.frame < (g.CART_CARTRIDGE_SIZE : Int)

instance (g : Geometry) (d : data_structure) : Decidable (slot_ok g d) := by
  unfold slot_ok; infer_instance

/-- The driver's record of the loaded cartridge agrees with the device, which never fails. -/
def synced (w : World) : Prop :=
  (∀ t, w.dev.fault t = false) ∧
  ∃ c : Nat, w.dev.loaded = some c ∧ w.fs.last_cart_loaded = (c : Int)

/-- The file system state is ready for writing `n` more bytes to the file in slot `k`:
the stride is at least 2 and the geometry fits the 16-bit fields; the file's position is
`-1` (unset) or an offset below its size, and the size leaves room for `n` bytes in
`int32_t`; block 0 and every block that starts below the size are assigned to frames of the
device; the allocation cursor is in a cartridge, and the device has a frame from the cursor
on for every multiple of the stride among the positions the `n` bytes lead to (a flush
allocates a frame only when it ends on such a position); and a frame list has at least two
slots and holds the block of the position `n` bytes further on. -/
structure FsReady (g : Geometry) (fs : File_System) (k : Nat) (n : Int) : Prop where
  stride : 3 ≤ g.CART_FRAME_SIZE
  int16 : g.CART_MAX_CARTRIDGES ≤ 32767 ∧ g.CART_CARTRIDGE_SIZE ≤ 32767
  pos_lo : -1 ≤ (fs.files k).current_position
  pos_hi : (fs.files k).current_position + 1 ≤ (fs.files k).size
  int32 : (fs.files k).size + n < 2 ^ 31
  blocks : ∀ j : Nat,
    (j = 0 ∨ (j : Int) * ((g.CART_FRAME_SIZE : Int) - 1) < (fs.files k).size) →
      slot_ok g ((fs.files k).data j)
  cursor : 0 ≤ fs.cart_to_use ∧ 0 ≤ fs.frame_to_use ∧
    fs.frame_to_use < (g.CART_CARTRIDGE_SIZE : Int)
  cursor_room : fs.cart_to_use * (g.CART_CARTRIDGE_SIZE : Int) + fs.frame_to_use
      + (((fs.files k).current_position + n) / ((g.CART_FRAME_SIZE : Int) - 1)
        - (fs.files k).current_position / ((g.CART_FRAME_SIZE : Int) - 1))
    ≤ (g.CART_MAX_CARTRIDGES : Int) * (g.CART_CARTRIDGE_SIZE : Int)
  room : 2 ≤ g.CART_CARTRIDGE_SIZE ∧ (fs.files k).current_position + n
    < (g.CART_CARTRIDGE_SIZE : Int) * ((g.CART_FRAME_SIZE : Int) - 1)

/-- The state is ready for writing `n` more bytes to the file in slot `k`: the file system
is, and the cache is a well-formed recency list. -/
def Writable (g : Geometry) (w : World) (k : Nat) (n : Int) : Prop :=
  FsReady g w.fs k n ∧ ∃ L, Rep g w.cache L

/-- The state after `set_cart_cache_size(1)`, `cart_poweron` and `cart_open("a")` in the small
geometry: the file 0 is new, with position `-1` and size 0. -/
def freshFile : World := after smallGeometry poweredOnSmall [.copen [97]]

/-- The state `freshFile` after `cart_write(0, "ab", 2)`. -/
def writtenOnce : World := ((cart_write smallGeometry freshFile 0 [97, 98] 2).getD (freshFile, 0)).1

/-- The state `writtenOnce` after `cart_seek(0, 0)`: the file 0 has position 0 and
size 2. -/
def writtenFile : World := ((cart_seek writtenOnce 0 0).getD (writtenOnce, 0)).1

/-- The state `writtenOnce` after `cart_seek(0, 1)`: the file 0 has position 1 and
size 2, and its block 0 is the cached frame (0,0). -/
def writtenAtOne : World := ((cart_seek writtenOnce 0 1).getD (writtenOnce, 0)).1

/-- The path `"aq"`. -/
def path_aq : List Nat := [97, 113]

/-- The path `"b0"`, which has the same hash as `"aq"`. -/
def path_b0 : List Nat := [98, 48]

/-- The loop of `close_cart_cache` from the node `current`, for at most `fuel` iterations.
The outer `none` says that the iterations did not suffice; `some none` says that the code
read a dead node or indexed the lookup table outside its bounds. -/
def close_loop (g : Geometry) : Nat → Cache → Ptr → Option (Option Cache)
  | _, c, none => some (some c)
  | 0, _, some _ => none
  | fuel + 1, c, some a =>
    match deref c (some a) with
    | none => some none
    | some current =>
      let prev := current.prev
      match delete_cart_cache g c (toUInt16 current.cart) (toUInt16 current.frame) with
      | none => some none
      | some r => close_loop g fuel r.1 prev

/-- Source function `close_cart_cache`, with a bound on the iterations of its loop. -/
def close_cart_cache (g : Geometry) (fuel : Nat) (c : Cache) : Option (Option (Cache × Int)) :=
  (close_loop g fuel c c.head).map fun r =>
    r.map fun c => ({ c with head := none, tail := none }, 0)

/-- The cache after `set_cart_cache_size(2)`, `init_cart_cache` and `put(0,0,"AA")` in the
small cache geometry: one entry. -/
def cacheA : Cache :=
  (cache_run cacheGeometry cache2 [.put 0 0 [65, 65]]).getD cache2

/-- The cache `cacheA` after `delete(0,0)`. -/
def cacheAd : Cache :=
  (cache_run cacheGeometry cache2 [.put 0 0 [65, 65], .delete 0 0]).getD cache2

/-- The cache after `set_cart_cache_size(1)`, `init_cart_cache` and `put(0,0,"AA")` in the
small cache geometry: a full cache of capacity 1. -/
def cacheOneA : Cache :=
  (cache_run cacheGeometry (init_cart_cache (set_cart_cache_size Cache.zero 1).1).1
    [.put 0 0 [65, 65]]).getD Cache.zero

/-! ## Reachable states and the allocation log -/

/-- The allocation cursor `(cart_to_use, frame_to_use)`. -/
def cursor (fs : File_System) : data_structure :=
  { cart := fs.cart_to_use, frame := fs.frame_to_use }

/-- The pair `(-1, -1)` that `cart_open` stores in the slots of a new file that hold no
frame. -/
def unassigned : data_structure := { cart := -1, frame := -1 }

/-- Frame number `i` of the device in the order of the cursor: frame `i % S` of cartridge
`i / S`, for cartridges of `S` frames. -/
def frame_number (g : Geometry) (i : Nat) : data_structure :=
  { cart := ((i / g.CART_CARTRIDGE_SIZE : Nat) : Int),
    frame := ((i % g.CART_CARTRIDGE_SIZE : Nat) : Int) }

/-- The frames handed out by a step from the state `w` to the state `w2`: the cursor of `w`
when the step moved the cursor, and nothing otherwise. Only the allocation code of
`cart_open` and `cart_write` assigns the cursor, and it hands out one frame each time. -/
def handed_out (w w2 : World) : List data_structure :=
  if cursor w2.fs = cursor w.fs then [] else [cursor w.fs]

/-- The file in slot `k` has been created by `cart_open`: handles are given out in order,
so these are the slots below `current_handle`. -/
def created (fs : File_System) (k : Nat) : Prop := (k : Int) < fs.current_handle

instance (fs : File_System) (k : Nat) : Decidable (created fs k) := by
  unfold created; infer_instance

/-- The states reachable after a successful `cart_poweron` by `cart_open`, `cart_close`,
`cart_seek`, `cart_read` and `cart_write`, each with the log of the frames handed out so
far. A `cart_write` is followed flush by flush, so that the states inside a call are
reachable states too: a flush is run for a usable file (the check at the start of
`cart_write`) at the block and offset of its position, with `hc + 1` bytes in the holding
buffer that end inside the frame (the loop flushes at the stride boundary at the latest).
A call or flush whose behaviour is undefined reaches no state. -/
inductive Reached (g : Geometry) : List data_structure → World → Prop
  | boot (temp : File) (w0 : World) (h : (cart_poweron g temp w0).2 = 0) :
      Reached g [] (cart_poweron g temp w0).1
  | copen (log : List data_structure) (w : World) (path : List Nat) (w2 : World) (r : Int)
      (hw : Reached g log w) (h : cart_open g w path = some (w2, r)) :
      Reached g (log ++ handed_out w w2) w2
  | cclose (log : List data_structure) (w : World) (fd : Int) (w2 : World) (r : Int)
      (hw : Reached g log w) (h : cart_close w fd = some (w2, r)) :
      Reached g (log ++ handed_out w w2) w2
  | cseek (log : List data_structure) (w : World) (fd : Int) (loc : Nat) (w2 : World)
      (r : Int) (hw : Reached g log w) (h : cart_seek w fd loc = some (w2, r)) :
      Reached g (log ++ handed_out w w2) w2
  | cread (log : List data_structure) (w : World) (fd : Int) (count : Nat) (w2 : World)
      (r : Int) (bytes : List Nat) (hw : Reached g log w)
      (h : cart_read g w fd count = some (w2, r, bytes)) :
      Reached g (log ++ handed_out w w2) w2
  | flush (log : List data_structure) (w : World) (k : Nat) (read_in hb : List Nat)
      (hc : Int) (fl : Flush) (hw : Reached g log w)
      (hu : ¬ not_usable (w.fs.files k)) (h0 : 0 ≤ hc)
      (h1 : hc + Int.tmod (w.fs.files k).current_position ((g.CART_FRAME_SIZE : Int) - 1) + 1
        ≤ (g.CART_FRAME_SIZE : Int) - 1)
      (h : write_flush g w k read_in hb hc
        (Int.tdiv (w.fs.files k).current_position ((g.CART_FRAME_SIZE : Int) - 1))
        (Int.tmod (w.fs.files k).current_position ((g.CART_FRAME_SIZE : Int) - 1)) = some fl) :
      Reached g (log ++ handed_out w fl.w) fl.w

/-- The file that `cart_open` stores for a new path, with the frame `first` in slot 0. -/
def new_file (name : List Nat) (handle : Int) (first : data_structure) : File :=
  { name := name, handle := handle, size := 0, current_position := -1, is_open := 1,
    data := fun i => if i = 0 then first else unassigned }

/-- The effect of a step on the part of the file system that the invariants speak about
(the files, the cursor and the handle counter): nothing; a change of an `is_open` flag; a
seek in a usable file; a new file in the slot of the handle counter, with the frame under
the cursor; the position and size update at the end of a flush of a usable file, with or
without the assignment of the frame under the cursor to the block after the flushed one. -/
inductive CoreStep (g : Geometry) : File_System → File_System → Prop
  | same (fs fs2 : File_System) (hf : fs2.files = fs.files)
      (hc : cursor fs2 = cursor fs) (hh : fs2.current_handle = fs.current_handle) :
      CoreStep g fs fs2
  | flag (fs fs2 : File_System) (k : Nat) (v : Int)
      (hf : fs2.files = upd fs.files k { fs.files k with is_open := v })
      (hc : cursor fs2 = cursor fs) (hh : fs2.current_handle = fs.current_handle) :
      CoreStep g fs fs2
  | seek (fs fs2 : File_System) (k : Nat) (loc : Nat)
      (hu : ¬ not_usable (fs.files k)) (hloc : loc < 2 ^ 32)
      (hg : ¬ (loc + 1) % 2 ^ 32 > toUInt32 (fs.files k).size)
      (hf : fs2.files = upd fs.files k { fs.files k with current_position := toInt32 loc })
      (hc : cursor fs2 = cursor fs) (hh : fs2.current_handle = fs.current_handle) :
      CoreStep g fs fs2
  | create (fs fs2 : File_System) (k : Nat) (name : List Nat) (handle : Int)
      (hk : fs.current_handle = (k : Int))
      (hf : fs2.files = upd fs.files k (new_file name handle (cursor fs)))
      (hc : cursor fs2 = cursor (advance_cursor g fs))
      (hh : fs2.current_handle = (k : Int) + 1) :
      CoreStep g fs fs2
  | write (fs fs2 : File_System) (k : Nat) (n : Int) (ix : Nat)
      (hu : ¬ not_usable (fs.files k))
      (hi : index? g.CART_CARTRIDGE_SIZE
        (Int.tdiv (fs.files k).current_position ((g.CART_FRAME_SIZE : Int) - 1)) = some ix)
      (h0 : 1 ≤ n)
      (h1 : n + Int.tmod (fs.files k).current_position ((g.CART_FRAME_SIZE : Int) - 1)
        ≤ (g.CART_FRAME_SIZE : Int) - 1)
      (hf : fs2.files = upd fs.files k ((fs.files k).advanced n))
      (hn : ¬ (Int.tmod ((fs.files k).advanced n).current_position
            ((g.CART_FRAME_SIZE : Int) - 1) = 0
          ∧ ((fs.files k).advanced n).current_position + 1 = ((fs.files k).advanced n).size))
      (hc : cursor fs2 = cursor fs) (hh : fs2.current_handle = fs.current_handle) :
      CoreStep g fs fs2
  | grow (fs fs2 : File_System) (k : Nat) (n : Int) (ix nx : Nat)
      (hu : ¬ not_usable (fs.files k))
      (hi : index? g.CART_CARTRIDGE_SIZE
        (Int.tdiv (fs.files k).current_position ((g.CART_FRAME_SIZE : Int) - 1)) = some ix)
      (h0 : 1 ≤ n)
      (h1 : n + Int.tmod (fs.files k).current_position ((g.CART_FRAME_SIZE : Int) - 1)
        ≤ (g.CART_FRAME_SIZE : Int) - 1)
      (hx : index? g.CART_CARTRIDGE_SIZE
        (Int.tdiv (fs.files k).current_position ((g.CART_FRAME_SIZE : Int) - 1) + 1) = some nx)
      (hf : fs2.files = upd fs.files k { (fs.files k).advanced n with
        data := (upd ((fs.files k).advanced n).data nx (cursor fs)) })
      (hn : Int.tmod ((fs.files k).advanced n).current_position
            ((g.CART_FRAME_SIZE : Int) - 1) = 0
          ∧ ((fs.files k).advanced n).current_position + 1 = ((fs.files k).advanced n).size)
      (hc : cursor fs2 = cursor (advance_cursor g fs))
      (hh : fs2.current_handle = fs.current_handle) :
      CoreStep g fs fs2

/-- Invariant of the file system that holds in every geometry: the slots that hold no
created file have the name mark `'0'` of `cart_poweron`, and the cartridge numbers of the
cursor and of the frame lists of the created files are values of an `int16_t`. -/
structure BaseInv (fs : File_System) : Prop where
  unused : ∀ k : Nat, ¬ created fs k → (fs.files k).name0 = 48
  cart16 : -32768 ≤ fs.cart_to_use ∧ fs.cart_to_use ≤ 32767
  slot16 : ∀ k j : Nat, created fs k →
    -32768 ≤ ((fs.files k).data j).cart ∧ ((fs.files k).data j).cart ≤ 32767

/-- Invariant of a created file: the position is `-1` or an offset below the size, the size
is at most `S` blocks of `F - 1` bytes, and block 0 and every block that starts below the
size hold a frame whose index is a frame index of a cartridge. -/
structure FileOk (g : Geometry) (f : File) : Prop where
  pos_lo : -1 ≤ f.current_position
  pos_hi : f.current_position + 1 ≤ f.size
  size_hi : f.size ≤ (g.CART_CARTRIDGE_SIZE : Int) * ((g.CART_FRAME_SIZE : Int) - 1)
  blocks : ∀ j : Nat, (j = 0 ∨ (j : Int) * ((g.CART_FRAME_SIZE : Int) - 1) < f.size) →
    0 ≤ (f.data j).frame ∧ (f.data j).frame < (g.CART_CARTRIDGE_SIZE : Int)

/-- Invariant of the file system for the blocks of the files: the frame of the cursor is a
frame index of a cartridge, and every created file satisfies `FileOk`. -/
structure FilesInv (g : Geometry) (fs : File_System) : Prop where
  frame : 0 ≤ fs.frame_to_use ∧ fs.frame_to_use < (g.CART_CARTRIDGE_SIZE : Int)
  file : ∀ k : Nat, created fs k → FileOk g (fs.files k)

/-- Invariant of the file system for the allocation of frames, with the log of the frames
handed out so far: the log holds the frames number 0, 1, 2, ... in this order, the cursor is
at the frame whose number is the length of the log, every slot of a created file is
unassigned or holds a frame of the log, and no two slots hold the same frame. -/
structure AllocInv (g : Geometry) (log : List data_structure) (fs : File_System) : Prop where
  log_eq : log = (List.range log.length).map (frame_number g)
  cursor_eq : cursor fs = frame_number g log.length
  slots : ∀ k j : Nat, created fs k →
    (fs.files k).data j = unassigned ∨
      ∃ i : Nat, i < log.length ∧ (fs.files k).data j = frame_number g i
  distinct : ∀ k1 j1 k2 j2 : Nat, created fs k1 → created fs k2 →
    (fs.files k1).data j1 ≠ unassigned →
    (fs.files k1).data j1 = (fs.files k2).data j2 → k1 = k2 ∧ j1 = j2

/-- The calls `cart_open("a")` and `cart_write(0, "abcd", 4)`. -/
def growCalls : List Call := [.copen [97], .cwrite 0 [97, 98, 99, 100] 4]

/-- The state after `set_cart_cache_size(1)`, `cart_poweron` and the calls `growCalls` in the
small geometry: the file 0 has size 4 and position 3, its blocks 0 and 1 hold the frames
(0,0) and (0,1), and the cursor is at (1,0). -/
def grownFile : World := after smallGeometry poweredOnSmall growCalls

/-- The flush of `cart_write(0, "abcd", 4)` on the new file of `freshFile`: four bytes in the
holding buffer (`holding_buffer_count = 3`), at block 0 and offset `-1` of the position `-1`. -/
def grownFlush : Flush :=
  (write_flush smallGeometry freshFile 0 [0, 0, 0, 0] [97, 98, 99, 100] 3 0 (-1)).getD
    { w := freshFile, read_in := [], ok := false }

/-- The lexicographic order of `(cartridge, frame)` pairs. -/
def lex_lt (a b : data_structure) : Prop :=
  a.cart < b.cart ∨ (a.cart = b.cart ∧ a.frame < b.frame)

instance (a b : data_structure) : Decidable (lex_lt a b) := by
  unfold lex_lt; infer_instance

/-- The path `"0a"`, which starts with the character `'0'`. -/
def path_0a : List Nat := [48, 97]

/-- The path `"1 "` (the digit 1 and a blank), which has the same hash as `"0a"`. -/
def path_1sp : List Nat := [49, 32]

/-- The state after `cart_poweron` and `cart_open("/a.txt")` in the geometry of the
assignment: the file 0 is new, with position `-1` and size 0, and the cursor is at (0,1). -/
def freshDevice : World := after cartGeometry poweredOn [.copen path_a_txt]

-- DEFS-END

/-! ## Theorems: storage driver -/


theorem hash_index (str : List Nat) :
    index? FILES_SIZE (hash str) = some (hash str).toNat := by
  unfold index? hash
  have h : ∀ n : Nat, n % CART_MAX_TOTAL_FILES * 5 < FILES_SIZE := by
    intro n
    have := Nat.mod_lt n (show 0 < CART_MAX_TOTAL_FILES by decide)
    unfold FILES_SIZE; omega
  simp only []
  rw [if_pos]
  exact ⟨Int.natCast_nonneg _, by exact_mod_cast h _⟩

theorem index?_natCast {n k : Nat} (h : k < n) : index? n (k : Int) = some k := by
  unfold index?
  rw [if_pos ⟨Int.natCast_nonneg _, by exact_mod_cast h⟩]
  simp

theorem index?_eq_some {n : Nat} {i : Int} {k : Nat} (h : index? n i = some k) :
    i = (k : Int) ∧ k < n := by
  unfold index? at h
  split at h
  · rename_i hi
    simp only [Option.some.injEq] at h
    omega
  · simp at h

theorem toInt16_natCast {k : Nat} (h : k < 32768) : toInt16 (k : Int) = k := by
  unfold toInt16
  have : ((k : Int) % 65536) = k := Int.emod_eq_of_lt (by omega) (by omega)
  rw [this, if_pos (by omega)]

theorem toInt16_of_range {x : Int} (h0 : -32768 ≤ x) (h1 : x < 32768) : toInt16 x = x := by
  unfold toInt16
  split <;> omega

theorem upd_same {α : Type} (f : Nat → α) (i : Nat) (v : α) : upd f i v i = v := by
  simp [upd]

theorem upd_other {α : Type} (f : Nat → α) {i j : Nat} (v : α) (h : j ≠ i) :
    upd f i v j = f j := by
  simp [upd, h]

theorem upd_upd {α : Type} (f : Nat → α) (i : Nat) (v v' : α) :
    upd (upd f i v) i v' = upd f i v' := by
  funext k; simp only [upd]; split <;> rfl

theorem upd_self {α : Type} (f : Nat → α) (i : Nat) : upd f i (f i) = f := by
  funext k; simp only [upd]; split
  · rename_i h; rw [h]
  · rfl

/-- C6: `cart_open` on a path whose directory slot already holds a handle `k`. While that
file is open the call returns `-1` and the state is unchanged; when the file is closed the
call returns `k` and only sets the file's open flag (handle counter, allocation cursor,
sizes, positions and frame lists are untouched); and closing the open file and opening the
path again returns `k` and gives back exactly the state before the close. -/
theorem cart_open_existing (g : Geometry) (w : World) (path : List Nat) (k : Nat)
    (hk : k < FILES_SIZE) (hslot : w.fs.all_handles (hash path).toNat = (k : Int)) :
    ((w.fs.files k).is_open ≠ 0 → cart_open g w path = some (w, -1)) ∧
    ((w.fs.files k).is_open = 0 → cart_open g w path = some (reopened w k, (k : Int))) ∧
    (∀ w2, cart_close w (k : Int) = some (w2, 0) → cart_open g w2 path = some (w, (k : Int))) := by
  have hk16 : toInt16 (k : Int) = k :=
    toInt16_natCast (by unfold FILES_SIZE CART_MAX_TOTAL_FILES at hk; omega)
  have hne : (k : Int) ≠ -1 := by omega
  refine ⟨?_, ?_, ?_⟩
  · intro ho
    simp [cart_open, hash_index, hslot, hne, index?_natCast hk, ho]
  · intro ho
    simp [cart_open, hash_index, hslot, hne, index?_natCast hk, ho, hk16, reopened]
  · intro w2 hc
    simp only [cart_close, index?_natCast hk, Option.bind_eq_bind, Option.some_bind] at hc
    split at hc
    · simp at hc
    · rename_i hu
      simp only [not_usable, not_or, not_not] at hu
      simp only [Option.pure_def, Option.some.injEq, Prod.mk.injEq, and_true] at hc
      subst hc
      simp only [cart_open, hash_index, hslot, hne, index?_natCast hk, hk16,
        Option.bind_eq_bind, Option.some_bind, upd_same, if_true, if_false, Option.pure_def,
        upd_upd]
      have hf : ({ w.fs.files k with is_open := 1 } : File) = w.fs.files k := by
        cases hfile : w.fs.files k
        rw [hfile] at hu
        simp only at hu
        simp [hu.2]
      simp [hf, upd_self]

set_option maxRecDepth 1000000 in
/-- Witness of `cart_open_existing`: the state after power-on and `cart_open("/a.txt")`,
whose directory slot holds handle 0. -/
theorem cart_open_existing_witness :
    (0 < FILES_SIZE ∧
      (after cartGeometry poweredOn [.copen path_a_txt]).fs.all_handles
        (hash path_a_txt).toNat = ((0 : Nat) : Int)) ∧
    ((((after cartGeometry poweredOn [.copen path_a_txt]).fs.files 0).is_open ≠ 0 →
        cart_open cartGeometry (after cartGeometry poweredOn [.copen path_a_txt]) path_a_txt
          = some (after cartGeometry poweredOn [.copen path_a_txt], -1)) ∧
      (((after cartGeometry poweredOn [.copen path_a_txt]).fs.files 0).is_open = 0 →
        cart_open cartGeometry (after cartGeometry poweredOn [.copen path_a_txt]) path_a_txt
          = some (reopened (after cartGeometry poweredOn [.copen path_a_txt]) 0,
              ((0 : Nat) : Int))) ∧
      (∀ w2, cart_close (after cartGeometry poweredOn [.copen path_a_txt]) ((0 : Nat) : Int)
          = some (w2, 0) →
        cart_open cartGeometry w2 path_a_txt
          = some (after cartGeometry poweredOn [.copen path_a_txt], ((0 : Nat) : Int)))) :=
  ⟨⟨by decide, by decide⟩,
    cart_open_existing cartGeometry (after cartGeometry poweredOn [.copen path_a_txt])
      path_a_txt 0 (by decide) (by decide)⟩

theorem toUInt32_natCast {s : Nat} (h : s < 2 ^ 32) : toUInt32 (s : Int) = s := by
  unfold toUInt32
  have : ((s : Int) % 2 ^ 32) = s := Int.emod_eq_of_lt (by omega) (by omega)
  rw [this]; simp

theorem toInt32_small {s : Nat} (h : s < 2 ^ 31) : toInt32 s = (s : Int) := by
  unfold toInt32
  have : s % 2 ^ 32 = s := Nat.mod_eq_of_lt (by omega)
  rw [this, if_pos h]

/-- C10 (as the code has it): for an open file of size `s`, `cart_seek(h, s)` returns `-1`
and leaves the state unchanged, because the bound check is `loc + 1 > size`; the last offset
that is accepted is `s - 1`, where the call returns 0 and sets the position to `s - 1`. -/
theorem cart_seek_size_bound (w : World) (fd : Int) (k s : Nat)
    (hfd : index? FILES_SIZE fd = some k) (hopen : ¬ not_usable (w.fs.files k))
    (hsize : (w.fs.files k).size = (s : Int)) (hs : s < 2 ^ 31) :
    cart_seek w fd s = some (w, -1) ∧
    (1 ≤ s → cart_seek w fd (s - 1) = some (positioned w k ((s : Int) - 1), 0)) := by
  have hs' : s < 2147483648 := by simpa using hs
  constructor
  · have h1 : s % 4294967296 = s := Nat.mod_eq_of_lt (by omega)
    have h2 : (s + 1) % 4294967296 = s + 1 := Nat.mod_eq_of_lt (by omega)
    simp [cart_seek, hfd, hopen, hsize, h1, h2, toUInt32_natCast (show s < 2 ^ 32 by omega)]
  · intro h
    have h1 : (s - 1) % 4294967296 = s - 1 := Nat.mod_eq_of_lt (by omega)
    have h2 : (s - 1 + 1) % 4294967296 = s := by
      rw [Nat.sub_add_cancel h]; exact Nat.mod_eq_of_lt (by omega)
    have h3 : toInt32 (s - 1) = (s : Int) - 1 := by
      rw [toInt32_small (by omega)]; omega
    simp [cart_seek, hfd, hopen, hsize, h1, h2, h3,
      toUInt32_natCast (show s < 2 ^ 32 by omega), positioned]

set_option maxRecDepth 1000000 in
/-- Witness of `cart_seek_size_bound`: the file created by `cart_open("/a.txt")` after
writing 500 bytes has size 500. -/
theorem cart_seek_size_bound_witness :
    (index? FILES_SIZE 0 = some 0 ∧
      ¬ not_usable ((after cartGeometry poweredOn
          [.copen path_a_txt, .cwrite 0 (List.replicate 500 120) 500]).fs.files 0) ∧
      ((after cartGeometry poweredOn
          [.copen path_a_txt, .cwrite 0 (List.replicate 500 120) 500]).fs.files 0).size
        = ((500 : Nat) : Int) ∧ 500 < 2 ^ 31) ∧
    (cart_seek (after cartGeometry poweredOn
        [.copen path_a_txt, .cwrite 0 (List.replicate 500 120) 500]) 0 500
        = some (after cartGeometry poweredOn
            [.copen path_a_txt, .cwrite 0 (List.replicate 500 120) 500], -1) ∧
      (1 ≤ 500 → cart_seek (after cartGeometry poweredOn
          [.copen path_a_txt, .cwrite 0 (List.replicate 500 120) 500]) 0 (500 - 1)
        = some (positioned (after cartGeometry poweredOn
            [.copen path_a_txt, .cwrite 0 (List.replicate 500 120) 500]) 0
              (((500 : Nat) : Int) - 1), 0))) :=
  ⟨⟨by decide, by decide, by decide, by decide⟩,
    cart_seek_size_bound _ 0 0 500 (by decide) (by decide) (by decide) (by decide)⟩

set_option maxRecDepth 1000000 in
/-- C10 fails as stated: on the file just created by `cart_open("/a.txt")` after power-on,
which is open and has size 0, `cart_seek(0, 0)` returns `-1`. -/
theorem cart_seek_to_size_fails :
    ¬ not_usable ((after cartGeometry poweredOn [.copen path_a_txt]).fs.files 0) ∧
    ((after cartGeometry poweredOn [.copen path_a_txt]).fs.files 0).size = 0 ∧
    results cartGeometry poweredOn [.copen path_a_txt, .cseek 0 0]
      = some [(0, []), (-1, [])] := by
  decide

set_option maxRecDepth 1000000 in
/-- C8 at its failing input: after power-on, `cart_open("0.txt")` succeeds with handle 0 and
the following `cart_close(0)` returns `-1`, because the file's `name[0]` is the character
`'0'` that marks an unused file. -/
theorem cart_close_rejects_zero_name :
    results cartGeometry poweredOn [.copen path_0_txt, .cclose 0]
      = some [(0, []), (-1, [])] ∧
    ((after cartGeometry poweredOn [.copen path_0_txt]).fs.files 0).is_open = 1 := by
  decide

set_option maxRecDepth 1000000 in
/-- C9 at its failing input: after power-on, `cart_open("/a.txt")`, a write of two bytes and
`cart_close(0)`, the call `cart_read(0, buf, 1)` on the closed file returns 1, not `-1`,
while `cart_write`, `cart_seek` and `cart_close` on the same closed handle return `-1`. -/
theorem cart_read_accepts_closed_file :
    results cartGeometry poweredOn
      [.copen path_a_txt, .cwrite 0 [97, 98] 2, .cclose 0, .cread 0 1]
      = some [(0, []), (2, []), (0, []), (1, [0])] ∧
    results cartGeometry poweredOn
      [.copen path_a_txt, .cwrite 0 [97, 98] 2, .cclose 0, .cwrite 0 [99] 1, .cseek 0 0,
        .cclose 0]
      = some [(0, []), (2, []), (0, []), (-1, []), (-1, []), (-1, [])] := by
  decide

set_option maxRecDepth 1000000 in
/-- C5 at its failing input: after power-on, `cart_open("/a.txt")` returns 0; writing 500
bytes `'x'` (120), closing, re-opening (handle 0 again) and `cart_seek(0, 499)` all succeed,
and `cart_read(0, buf, 1)` returns 1 with the byte 0, not `'x'`: the first write starts at
the unset position `-1`, so the bytes land one offset lower and offset 499 is never
written. -/
theorem fresh_write_read_last_byte :
    results cartGeometry poweredOn
      [.copen path_a_txt, .cwrite 0 (List.replicate 500 120) 500, .cclose 0,
        .copen path_a_txt, .cseek 0 499, .cread 0 1]
      = some [(0, []), (500, []), (0, []), (0, []), (0, []), (1, [0])] := by
  decide

set_option maxRecDepth 1000000 in
/-- C1 at its failing input, in the small geometry (stride 3, two frames per cartridge) with
cache capacity 1: the second file gets the blocks (0,1) and then (1,1); after
`cart_seek(1, 1)` the write of `"ABCD"` returns 4 and crosses from cartridge 0 into
cartridge 1; `cart_seek(1, 1)` succeeds again and `cart_read(1, buf, 4)` returns 4 with
`"DBCD"`: the first frame was evicted from the cache and `cart_read` reads frame 1 of the
cartridge loaded last (cartridge 1) instead of cartridge 0. -/
theorem write_read_round_trip_fails :
    results smallGeometry poweredOnSmall
      [.copen [97], .copen [98], .cwrite 1 [119, 120, 121, 122] 4, .cseek 1 1,
        .cwrite 1 [65, 66, 67, 68] 4, .cseek 1 1, .cread 1 4]
      = some [(0, []), (1, []), (4, []), (0, []), (4, []), (0, []), (4, [68, 66, 67, 68])] ∧
    (((after smallGeometry poweredOnSmall
        [.copen [97], .copen [98], .cwrite 1 [119, 120, 121, 122] 4, .cseek 1 1,
          .cwrite 1 [65, 66, 67, 68] 4]).fs.files 1).data 0,
     ((after smallGeometry poweredOnSmall
        [.copen [97], .copen [98], .cwrite 1 [119, 120, 121, 122] 4, .cseek 1 1,
          .cwrite 1 [65, 66, 67, 68] 4]).fs.files 1).data 1)
      = (({ cart := 0, frame := 1 } : data_structure), ({ cart := 1, frame := 1 } : data_structure)) := by
  decide

theorem advance_cursor_counter (g : Geometry) (fs : File_System) :
    (advance_cursor g fs).current_handle = fs.current_handle := by
  unfold advance_cursor; simp only []; split <;> rfl

theorem flush_load_counter (g : Geometry) (w : World) (d : data_structure) :
    (flush_load g w d).1.fs.current_handle = w.fs.current_handle := by
  unfold flush_load
  split
  · simp only []; split <;> rfl
  · rfl

theorem flush_fetch_counter (g : Geometry) (w : World) (d : data_structure) (ri : List Nat)
    (fl : Flush) (h : flush_fetch g w d ri = some fl) :
    fl.w.fs.current_handle = w.fs.current_handle := by
  unfold flush_fetch at h
  simp only [Option.bind_eq_bind, Option.pure_def, Option.bind_eq_some] at h
  obtain ⟨rc, -, h⟩ := h
  split at h
  · simp only [Option.bind_eq_some, Option.some.injEq] at h
    obtain ⟨n, -, h⟩ := h
    subst h; rfl
  · simp only [Option.bind_eq_some] at h
    obtain ⟨ci, -, fi, -, h⟩ := h
    split at h
    · split at h <;> (simp only [Option.some.injEq] at h; subst h; rfl)
    · simp only [Option.some.injEq] at h; subst h; rfl

theorem flush_store_counter (g : Geometry) (w : World) (d : data_structure) (ri : List Nat)
    (r : World × Int) (h : flush_store g w d ri = some r) :
    r.1.fs.current_handle = w.fs.current_handle := by
  unfold flush_store at h
  simp only [Option.bind_eq_bind, Option.pure_def, Option.bind_eq_some] at h
  obtain ⟨p, -, ci, -, fi, -, h⟩ := h
  simp only [Option.some.injEq] at h
  subst h; rfl

theorem flush_advance_counter (g : Geometry) (w : World) (k : Nat) (n fi : Int) (w' : World)
    (h : flush_advance g w k n fi = some w') :
    w'.fs.current_handle = w.fs.current_handle := by
  unfold flush_advance at h
  simp only [] at h
  split at h
  · split at h
    · simp at h
    · simp only [Option.some.injEq] at h
      subst h
      simp only [advance_cursor_counter]
  · simp only [Option.some.injEq] at h
    subst h; rfl

theorem write_flush_counter (g : Geometry) (w : World) (k : Nat) (ri hb : List Nat)
    (hbc fi bi : Int) (fl : Flush)
    (h : write_flush g w k ri hb hbc fi bi = some fl) :
    fl.w.fs.current_handle = w.fs.current_handle := by
  unfold write_flush at h
  simp only [Option.bind_eq_bind, Option.pure_def, Option.bind_eq_some] at h
  obtain ⟨ix, -, h⟩ := h
  split at h
  · simp only [Option.some.injEq] at h
    subst h
    exact flush_load_counter g w _
  · simp only [Option.bind_eq_some] at h
    obtain ⟨fetched, hfetched, h⟩ := h
    have h1 := flush_fetch_counter g _ _ _ _ hfetched
    rw [flush_load_counter] at h1
    split at h
    · simp only [Option.some.injEq] at h
      subst h; exact h1
    · simp only [Option.bind_eq_some] at h
      obtain ⟨stored, hstored, h⟩ := h
      have h2 := flush_store_counter g _ _ _ _ hstored
      split at h
      · simp only [Option.some.injEq] at h
        subst h; simp only [h2, h1]
      · simp only [Option.bind_eq_some, Option.some.injEq] at h
        obtain ⟨w', hw', h⟩ := h
        have h3 := flush_advance_counter g _ _ _ _ _ hw'
        subst h; simp only [h3, h2, h1]

theorem write_loop_counter (g : Geometry) (k count : Nat) (bs : List Nat) :
    ∀ (w : World) (ri hb : List Nat) (hbc : Int) (r : World × Int),
      write_loop g k count bs w ri hb hbc = some r →
      r.1.fs.current_handle = w.fs.current_handle := by
  induction bs with
  | nil =>
    intro w ri hb hbc r h
    simp only [write_loop, Option.some.injEq] at h
    subst h; rfl
  | cons b rest ih =>
    intro w ri hb hbc r h
    simp only [write_loop] at h
    split at h
    · simp at h
    · split at h
      · split at h
        · simp at h
        · rename_i fl hfl
          have h1 := write_flush_counter g _ _ _ _ _ _ _ _ hfl
          split at h
          · simp only [Option.some.injEq] at h
            subst h; exact h1
          · rw [ih _ _ _ _ _ h, h1]
      · exact ih _ _ _ _ _ h

theorem cart_write_counter (g : Geometry) (w : World) (fd : Int) (buf : List Nat)
    (count : Nat) (r : World × Int) (h : cart_write g w fd buf count = some r) :
    r.1.fs.current_handle = w.fs.current_handle := by
  unfold cart_write at h
  simp only [Option.bind_eq_bind, Option.pure_def, Option.bind_eq_some] at h
  obtain ⟨k, -, h⟩ := h
  split at h
  · simp only [Option.some.injEq] at h; subst h; rfl
  · split at h
    · simp at h
    · split at h
      · simp at h
      · exact write_loop_counter g _ _ _ _ _ _ _ _ h

theorem cart_open_new_step (g : Geometry) (w : World) (path : List Nat) (k : Nat) (c f : Int)
    (hk : k < FILES_SIZE) (hcnt : w.fs.current_handle = (k : Int))
    (hslot : w.fs.all_handles (hash path).toNat = -1)
    (hlen : path.length < CART_MAX_PATH_LENGTH)
    (hc : w.fs.cart_to_use = c) (hf : w.fs.frame_to_use = f)
    (hcr : -32768 ≤ c ∧ c + 1 < 32768) (hfr : -32768 ≤ f ∧ f + 1 < 32768) :
    ∃ w1, cart_open g w path = some (w1, (k : Int)) ∧
      (w1.fs.files k).size = 0 ∧ (w1.fs.files k).current_position = -1 ∧
      (w1.fs.files k).is_open = 1 ∧
      (w1.fs.files k).data 0 = { cart := c, frame := f } ∧
      (∀ i, i ≠ 0 → (w1.fs.files k).data i = { cart := -1, frame := -1 }) ∧
      w1.fs.current_handle = (k : Int) + 1 ∧
      w1.fs.all_handles (hash path).toNat = (k : Int) ∧
      (w1.fs.cart_to_use, w1.fs.frame_to_use)
        = (if f + 1 = (g.CART_CARTRIDGE_SIZE : Int) then (c + 1, 0) else (c, f + 1)) ∧
      (∀ j, j ≠ k → w1.fs.files j = w.fs.files j) ∧
      (∀ j, j ≠ (hash path).toNat → w1.fs.all_handles j = w.fs.all_handles j) ∧
      w1.fs.visited = w.fs.visited ∧ w1.fs.last_cart_loaded = w.fs.last_cart_loaded ∧
      w1.cache = w.cache ∧ w1.dev = w.dev := by
  have hk16 : toInt16 (k : Int) = k :=
    toInt16_natCast (by unfold FILES_SIZE CART_MAX_TOTAL_FILES at hk; omega)
  have hlen' : ¬ CART_MAX_PATH_LENGTH ≤ path.length := by omega
  have hf16 : toInt16 (f + 1) = f + 1 := toInt16_of_range (by omega) (by omega)
  have hc16 : toInt16 (c + 1) = c + 1 := toInt16_of_range (by omega) (by omega)
  refine ⟨{ w with fs := advance_cursor g { w.fs with
      files := upd w.fs.files k
        { name := path ++ [0], handle := (k : Int), size := 0, current_position := -1,
          is_open := 1,
          data := fun i =>
            if i = 0 then { cart := w.fs.cart_to_use, frame := w.fs.frame_to_use }
            else { cart := -1, frame := -1 } },
      current_handle := (k : Int) + 1,
      all_handles := upd w.fs.all_handles (hash path).toNat (k : Int) } }, ?_, ?_⟩
  · simp only [cart_open, hash_index, hslot, Option.bind_eq_bind, Option.some_bind, if_true,
      hlen', if_false, hcnt, index?_natCast hk, Option.pure_def, hk16]
  · simp only [advance_cursor, hc, hf, hf16, hc16]
    by_cases hS : f + 1 = (g.CART_CARTRIDGE_SIZE : Int)
    · simp only [if_pos hS, upd_same]
      refine ⟨?_, ?_, ?_, ?_, ?_, ?_, ?_, ?_, ?_, ?_, ?_, ?_, ?_, ?_⟩
      all_goals first
        | exact True.intro
        | (with_reducible rfl)
        | (intro i hi; simp [upd, hi])
        | simp [upd_same]
    · simp only [if_neg hS, upd_same]
      refine ⟨?_, ?_, ?_, ?_, ?_, ?_, ?_, ?_, ?_, ?_, ?_, ?_, ?_, ?_⟩
      all_goals first
        | exact True.intro
        | (with_reducible rfl)
        | (intro i hi; simp [upd, hi])
        | simp [upd_same]
theorem read_fetch_fs (g : Geometry) (w : World) (cur : File) (fi : Int) (ri : List Nat)
    (r : World × Option (List Nat)) (h : read_fetch g w cur fi ri = some r) :
    r.1.fs = w.fs ∧ r.1.cache = w.cache := by
  unfold read_fetch at h
  simp only [Option.bind_eq_bind, Option.pure_def, Option.bind_eq_some] at h
  obtain ⟨k, -, rc, -, h⟩ := h
  split at h
  · simp only [Option.bind_eq_some, Option.some.injEq] at h
    obtain ⟨n, -, h⟩ := h
    subst h; exact ⟨rfl, rfl⟩
  · split at h <;> (simp only [Option.some.injEq] at h; subst h; exact ⟨rfl, rfl⟩)

theorem read_loop_fs (g : Geometry) (cur : File) (count : Nat) :
    ∀ (n : Nat) (w : World) (fi bi : Int) (ri st : List Nat) (r : World × Int × List Nat),
      read_loop g cur count n w fi bi ri st = some r →
      r.1.fs = w.fs ∧ r.1.cache = w.cache := by
  intro n
  induction n with
  | zero =>
    intro w fi bi ri st r h
    simp only [read_loop, Option.some.injEq] at h
    subst h; exact ⟨rfl, rfl⟩
  | succ n ih =>
    intro w fi bi ri st r h
    simp only [read_loop] at h
    split at h
    · split at h
      · simp at h
      · rename_i w1 hf
        have h1 := read_fetch_fs g _ _ _ _ _ hf
        simp only [Option.some.injEq] at h
        subst h; exact h1
      · rename_i w1 ri1 hf
        have h1 := read_fetch_fs g _ _ _ _ _ hf
        split at h
        · simp at h
        · have h2 := ih _ _ _ _ _ _ h
          exact ⟨h2.1.trans h1.1, h2.2.trans h1.2⟩
    · split at h
      · simp at h
      · exact ih _ _ _ _ _ _ h

theorem cart_read_fs (g : Geometry) (w : World) (fd : Int) (count : Nat)
    (r : World × Int × List Nat) (h : cart_read g w fd count = some r) :
    r.1.fs = w.fs ∧ r.1.cache = w.cache := by
  unfold cart_read at h
  simp only [Option.bind_eq_bind, Option.pure_def, Option.bind_eq_some] at h
  obtain ⟨k, -, h⟩ := h
  split at h
  · simp at h
  · simp only [Option.bind_eq_some] at h
    obtain ⟨f, hf, h⟩ := h
    have h1 := read_fetch_fs g _ _ _ _ _ hf
    split at h
    · simp only [Option.some.injEq] at h
      subst h; exact h1
    · have h2 := read_loop_fs g _ _ _ _ _ _ _ _ _ h
      exact ⟨h2.1.trans h1.1, h2.2.trans h1.2⟩

theorem poweron_carts_fs (g : Geometry) :
    ∀ (n i : Nat) (fs : File_System) (d : Device),
      (poweron_carts g n i fs d).1.current_handle = fs.current_handle ∧
      (poweron_carts g n i fs d).1.cart_to_use = fs.cart_to_use ∧
      (poweron_carts g n i fs d).1.frame_to_use = fs.frame_to_use := by
  intro n
  induction n with
  | zero => intro i fs d; exact ⟨rfl, rfl, rfl⟩
  | succ n ih =>
    intro i fs d
    simp only [poweron_carts]
    split
    · exact ⟨rfl, rfl, rfl⟩
    · split
      · exact ⟨rfl, rfl, rfl⟩
      · exact ih _ _ _

theorem cart_poweron_ok (g : Geometry) (temp : File) (w0 wp : World)
    (h : cart_poweron g temp w0 = (wp, 0)) :
    wp.fs.current_handle = 0 ∧ wp.fs.cart_to_use = 0 ∧ wp.fs.frame_to_use = 0 ∧
    (∀ i, wp.fs.all_handles i = -1) ∧ (∀ i, (wp.fs.files i).name0 = 48) ∧
    (∀ i j, wp.fs.visited i j = 0) := by
  unfold cart_poweron at h
  simp only [] at h
  split at h
  · simp at h
  · split at h
    · simp at h
    · simp only [Prod.mk.injEq, and_true] at h
      subst h
      have hp := poweron_carts_fs g g.CART_MAX_CARTRIDGES 0
        { w0.fs with is_on := 1, current_handle := 0, cart_to_use := 0, frame_to_use := 0 }
        (run_opcode g w0.dev (generate_encoded_opcode CART_OP_INITMS 0 0 0) none).1
      exact ⟨hp.1, hp.2.1, hp.2.2, fun _ => rfl, fun _ => rfl, fun _ _ => rfl⟩

/-- C7: `cart_open` on a path whose directory slot holds no handle, in a state with handle
counter `k` and allocation cursor `(c, f)`: the call returns `k`; the new file has size 0,
position `-1`, open flag 1, block 0 assigned to `(c, f)` and every other block unassigned
`(-1, -1)`; the counter becomes `k + 1`, the directory slot holds `k`, and the cursor becomes
`(c, f + 1)`, or `(c + 1, 0)` when `f + 1 = CART_CARTRIDGE_SIZE`; nothing else changes.
Moreover the first `cart_open` after a successful `cart_poweron` returns 0, and any call of
the file API either leaves the counter as it is or is a `cart_open` of a new path that
returns the old counter and increments it, so handles are handed out as 0, 1, 2, ... in
creation order and never reused. -/
theorem cart_open_new (g : Geometry) (w : World) (path : List Nat) (k : Nat) (c f : Int)
    (hk : k < FILES_SIZE) (hcnt : w.fs.current_handle = (k : Int))
    (hslot : w.fs.all_handles (hash path).toNat = -1)
    (hlen : path.length < CART_MAX_PATH_LENGTH)
    (hc : w.fs.cart_to_use = c) (hf : w.fs.frame_to_use = f)
    (hcr : -32768 ≤ c ∧ c + 1 < 32768) (hfr : -32768 ≤ f ∧ f + 1 < 32768) :
    (∃ w1, cart_open g w path = some (w1, (k : Int)) ∧
      (w1.fs.files k).size = 0 ∧ (w1.fs.files k).current_position = -1 ∧
      (w1.fs.files k).is_open = 1 ∧
      (w1.fs.files k).data 0 = { cart := c, frame := f } ∧
      (∀ i, i ≠ 0 → (w1.fs.files k).data i = { cart := -1, frame := -1 }) ∧
      w1.fs.current_handle = (k : Int) + 1 ∧
      w1.fs.all_handles (hash path).toNat = (k : Int) ∧
      (w1.fs.cart_to_use, w1.fs.frame_to_use)
        = (if f + 1 = (g.CART_CARTRIDGE_SIZE : Int) then (c + 1, 0) else (c, f + 1)) ∧
      (∀ j, j ≠ k → w1.fs.files j = w.fs.files j) ∧
      (∀ j, j ≠ (hash path).toNat → w1.fs.all_handles j = w.fs.all_handles j) ∧
      w1.fs.visited = w.fs.visited ∧ w1.fs.last_cart_loaded = w.fs.last_cart_loaded ∧
      w1.cache = w.cache ∧ w1.dev = w.dev) ∧
    (∀ temp w0 wp, cart_poweron g temp w0 = (wp, 0) →
      ∃ w1, cart_open g wp path = some (w1, 0)) ∧
    (∀ (x : World) (cl : Call) (r : World × Int × List Nat), call g x cl = some r →
      r.1.fs.current_handle = x.fs.current_handle ∨
      (∃ p, cl = .copen p ∧ x.fs.all_handles (hash p).toNat = -1 ∧
        r.2.1 = x.fs.current_handle ∧ r.1.fs.current_handle = x.fs.current_handle + 1)) := by
  refine ⟨cart_open_new_step g w path k c f hk hcnt hslot hlen hc hf hcr hfr, ?_, ?_⟩
  · intro temp w0 wp hp
    obtain ⟨h1, h2, h3, h4, -, -⟩ := cart_poweron_ok g temp w0 wp hp
    obtain ⟨w1, hw1, -⟩ := cart_open_new_step g wp path 0 0 0 (by decide)
      (by simpa using h1) (h4 _) hlen h2 h3 (by decide) (by decide)
    exact ⟨w1, by simpa using hw1⟩
  · intro x cl r hr
    cases cl with
    | copen p =>
      simp only [call, Option.map_eq_some'] at hr
      obtain ⟨a, ha, rfl⟩ := hr
      simp only [cart_open, hash_index, Option.bind_eq_bind, Option.some_bind,
        Option.pure_def] at ha
      split at ha
      · rename_i hs
        right
        split at ha
        · simp at ha
        · simp only [Option.bind_eq_some, Option.some.injEq] at ha
          obtain ⟨j, hj, ha⟩ := ha
          obtain ⟨hj1, hj2⟩ := index?_eq_some hj
          have : toInt16 x.fs.current_handle = x.fs.current_handle := by
            rw [hj1]
            exact toInt16_natCast (by unfold FILES_SIZE CART_MAX_TOTAL_FILES at hj2; omega)
          subst ha
          exact ⟨p, rfl, hs, this, by simp only [advance_cursor_counter]⟩
      · left
        simp only [Option.bind_eq_some] at ha
        obtain ⟨j, -, ha⟩ := ha
        split at ha <;> (simp only [Option.some.injEq] at ha; subst ha; rfl)
    | cclose fd =>
      left
      simp only [call, Option.map_eq_some'] at hr
      obtain ⟨a, ha, rfl⟩ := hr
      simp only [cart_close, Option.bind_eq_bind, Option.pure_def, Option.bind_eq_some] at ha
      obtain ⟨j, -, ha⟩ := ha
      split at ha <;> (simp only [Option.some.injEq] at ha; subst ha; rfl)
    | cseek fd loc =>
      left
      simp only [call, Option.map_eq_some'] at hr
      obtain ⟨a, ha, rfl⟩ := hr
      simp only [cart_seek, Option.bind_eq_bind, Option.pure_def, Option.bind_eq_some] at ha
      obtain ⟨j, -, ha⟩ := ha
      split at ha
      · simp only [Option.some.injEq] at ha; subst ha; rfl
      · split at ha <;> (simp only [Option.some.injEq] at ha; subst ha; rfl)
    | cread fd count =>
      left
      simp only [call] at hr
      rw [(cart_read_fs g _ _ _ _ hr).1]
    | cwrite fd buf count =>
      left
      simp only [call, Option.map_eq_some'] at hr
      obtain ⟨a, ha, rfl⟩ := hr
      exact cart_write_counter g _ _ _ _ _ ha

set_option maxRecDepth 1000000 in
/-- Witness of `cart_open_new`: the state after power-on, the path `"/a.txt"`, counter 0 and
cursor `(0, 0)`. -/
theorem cart_open_new_witness :
    (0 < FILES_SIZE ∧ poweredOn.fs.current_handle = ((0 : Nat) : Int) ∧
      poweredOn.fs.all_handles (hash path_a_txt).toNat = -1 ∧
      path_a_txt.length < CART_MAX_PATH_LENGTH ∧
      poweredOn.fs.cart_to_use = 0 ∧ poweredOn.fs.frame_to_use = 0) ∧
    (∃ w1, cart_open cartGeometry poweredOn path_a_txt = some (w1, ((0 : Nat) : Int)) ∧
      (w1.fs.files 0).size = 0 ∧ (w1.fs.files 0).current_position = -1 ∧
      (w1.fs.files 0).is_open = 1 ∧ w1.fs.current_handle = ((0 : Nat) : Int) + 1) := by
  refine ⟨⟨by decide, by decide, by decide, by decide, by decide, by decide⟩, ?_⟩
  obtain ⟨⟨w1, h1, h2, h3, h4, -, -, h5, -⟩, -, -⟩ :=
    cart_open_new cartGeometry poweredOn path_a_txt 0 0 0 (by decide) (by decide) (by decide)
      (by decide) (by decide) (by decide) (by decide) (by decide)
  exact ⟨w1, h1, h2, h3, h4, h5⟩

/-! ## Theorems: frame cache -/

theorem headOr_append (l1 l2 : List Nat) (n : Ptr) :
    headOr (l1 ++ l2) n = headOr l1 (headOr l2 n) := by
  cases l1 <;> rfl

theorem lastOr_nil (p : Ptr) : lastOr [] p = p := rfl

theorem lastOr_concat (l : List Nat) (a : Nat) (p : Ptr) : lastOr (l ++ [a]) p = some a := by
  simp [lastOr]

theorem lastOr_cons (a : Nat) (l : List Nat) (p : Ptr) :
    lastOr (a :: l) p = lastOr l (some a) := by
  cases l with
  | nil => simp [lastOr]
  | cons b r =>
    have hz : (b :: r).getLast? = some ((b :: r).getLast (by simp)) :=
      List.getLast?_eq_getLast _ _
    simp only [lastOr, List.getLast?_cons_cons, hz]

theorem seg_append (h : Nat → Option cache_node) (l1 l2 : List Nat) :
    ∀ (p n : Ptr), seg h p (l1 ++ l2) n ↔
      seg h p l1 (headOr l2 n) ∧ seg h (lastOr l1 p) l2 n := by
  induction l1 with
  | nil => intro p n; simp [seg, lastOr_nil]
  | cons a r ih =>
    intro p n
    simp only [List.cons_append, seg, List.append_eq, ih, headOr_append, lastOr_cons,
      and_assoc]

theorem seg_congr {h h' : Nat → Option cache_node} {l : List Nat}
    (hh : ∀ a ∈ l, h' a = h a) : ∀ (p n : Ptr), seg h' p l n ↔ seg h p l n := by
  induction l with
  | nil => intro p n; simp [seg]
  | cons a r ih =>
    intro p n
    simp only [seg, hh a (List.mem_cons_self _ _),
      ih (fun b hb => hh b (List.mem_cons_of_mem _ hb))]

theorem seg_set_next {h : Nat → Option cache_node} {a : Nat} {r : List Nat} {p n : Ptr}
    {x : cache_node} (p' : Ptr) (hs : seg h p (a :: r) n) (hx : h a = some x) (ha : a ∉ r) :
    seg (upd h a (some { x with next := p' })) p' (a :: r) n := by
  simp only [seg] at hs ⊢
  obtain ⟨⟨y, hy, -, hy2⟩, hr⟩ := hs
  rw [hx] at hy
  simp only [Option.some.injEq] at hy
  subst hy
  refine ⟨⟨_, upd_same _ _ _, rfl, hy2⟩, ?_⟩
  exact (seg_congr (fun b hb => upd_other _ _ (fun (e : b = a) => ha (e ▸ hb))) _ _).2 hr

theorem seg_set_prev {h : Nat → Option cache_node} {t : Nat} {x : cache_node} (n' : Ptr) :
    ∀ {l : List Nat} {p n : Ptr}, seg h p (l ++ [t]) n → h t = some x → t ∉ l →
      seg (upd h t (some { x with prev := n' })) p (l ++ [t]) n' := by
  intro l
  induction l with
  | nil =>
    intro p n hs hx _
    simp only [List.nil_append, seg, headOr, and_true] at hs ⊢
    obtain ⟨y, hy, hy1, -⟩ := hs
    rw [hx] at hy
    simp only [Option.some.injEq] at hy
    subst hy
    exact ⟨_, upd_same _ _ _, hy1, rfl⟩
  | cons a r ih =>
    intro p n hs hx ht
    simp only [List.cons_append, seg] at hs ⊢
    obtain ⟨⟨y, hy, hy1, hy2⟩, hr⟩ := hs
    have hat : a ≠ t := fun e => ht (e ▸ List.mem_cons_self _ _)
    refine ⟨⟨y, ?_, hy1, ?_⟩, ih hr hx (fun e => ht (List.mem_cons_of_mem _ e))⟩
    · rw [upd_other _ _ hat]; exact hy
    · rw [hy2]; cases r <;> rfl

theorem seg_mid {h : Nat → Option cache_node} {l1 l2 : List Nat} {a : Nat} {p n : Ptr}
    (hs : seg h p (l1 ++ a :: l2) n) :
    ∃ x, h a = some x ∧ x.next = lastOr l1 p ∧ x.prev = headOr l2 n := by
  rw [seg_append] at hs
  exact hs.2.1

theorem seg_live {h : Nat → Option cache_node} {l : List Nat} {a : Nat} {p n : Ptr}
    (hs : seg h p l n) (ha : a ∈ l) : ∃ x, h a = some x := by
  obtain ⟨l1, l2, rfl⟩ := List.append_of_mem ha
  obtain ⟨x, hx, -⟩ := seg_mid hs
  exact ⟨x, hx⟩

theorem upd2_same {α : Type} (f : Nat → Nat → α) (i j : Nat) (v : α) : upd2 f i j v i j = v := by
  simp [upd2]

theorem upd2_other {α : Type} (f : Nat → Nat → α) {i j k l : Nat} (v : α)
    (h : ¬ (k = i ∧ l = j)) : upd2 f i j v k l = f k l := by
  simp only [upd2, if_neg h]

theorem content_eq_some {h : Nat → Option cache_node} {a : Nat} {k : Int × Int × List Nat}
    (hc : content h a = some k) :
    ∃ x, h a = some x ∧ x.cart = k.1 ∧ x.frame = k.2.1 ∧ x.data = k.2.2 := by
  unfold content at hc
  cases hx : h a with
  | none => rw [hx] at hc; simp at hc
  | some x =>
    rw [hx] at hc
    simp only [Option.map_some', Option.some.injEq] at hc
    subst hc
    exact ⟨x, rfl, rfl, rfl, rfl⟩

theorem content_upd_links (h : Nat → Option cache_node) (b : Nat) (y y' : cache_node)
    (hb : h b = some y) (hc : y'.cart = y.cart) (hf : y'.frame = y.frame)
    (hd : y'.data = y.data) : content (upd h b (some y')) = content h := by
  funext a
  unfold content upd
  by_cases hab : a = b
  · subst hab; simp [hb, hc, hf, hd]
  · simp [hab]

theorem content_upd_other (h : Nat → Option cache_node) {a b : Nat} (v : Option cache_node)
    (hab : a ≠ b) : content (upd h b v) a = content h a := by
  unfold content; rw [upd_other _ _ hab]

theorem Rep.key_inj {g : Geometry} {c : Cache} {L : List Entry} (hr : Rep g c L)
    {e1 e2 : Entry} (h1 : e1 ∈ L) (h2 : e2 ∈ L) (hc : e1.cart = e2.cart)
    (hf : e1.frame = e2.frame) : e1 = e2 := by
  have t1 := (hr.table e1 h1).2
  have t2 := (hr.table e2 h2).2
  rw [hc, hf, t2] at t1
  simp only [Option.some.injEq] at t1
  have n1 := hr.node e1 h1
  have n2 := hr.node e2 h2
  rw [← t1, n2] at n1
  simp only [Option.some.injEq, Prod.mk.injEq] at n1
  cases e1; cases e2
  simp only [Entry.mk.injEq] at *
  exact ⟨t1.symm, hc, hf, n1.2.2.symm⟩

theorem Rep.addr_inj {g : Geometry} {c : Cache} {L : List Entry} (hr : Rep g c L)
    {e1 e2 : Entry} (h1 : e1 ∈ L) (h2 : e2 ∈ L) (ha : e1.addr = e2.addr) : e1 = e2 := by
  have n1 := hr.node e1 h1
  have n2 := hr.node e2 h2
  rw [ha, n2] at n1
  simp only [Option.some.injEq, Prod.mk.injEq, Nat.cast_inj] at n1
  exact hr.key_inj h1 h2 n1.1.symm n1.2.1.symm

/-- Removing the entry `e` from a represented list: what the state after the removal has to
satisfy. -/
theorem Rep.remove {g : Geometry} {c : Cache} (c' : Cache) (L1 L2 : List Entry) {e : Entry}
    (hr : Rep g c (L1 ++ e :: L2))
    (hcontent : ∀ a, a ≠ e.addr → content c'.heap a = content c.heap a)
    (hlinks : seg c'.heap none ((L1 ++ L2).map Entry.addr) none)
    (hfilled : c'.filled_cache_frames = upd2 c.filled_cache_frames e.cart e.frame none)
    (hsize : c'.current_cache_size = c.current_cache_size - 1)
    (hhead : ∀ e' ∈ (L1 ++ L2).head?, c'.head = some e'.addr)
    (htail : ∀ e' ∈ (L1 ++ L2).getLast?, c'.tail = some e'.addr)
    (hbrk : c'.brk = c.brk) : Rep g c' (L1 ++ L2) := by
  have hsub : ∀ e' ∈ L1 ++ L2, e' ∈ L1 ++ e :: L2 := by
    intro e' he'
    simp only [List.mem_append, List.mem_cons] at he' ⊢
    tauto
  have hemem : e ∈ L1 ++ e :: L2 := by simp
  have hnd := hr.nodup
  simp only [List.map_append, List.map_cons] at hnd
  have hne : ∀ e' ∈ L1 ++ L2, e'.addr ≠ e.addr := by
    intro e' he' heq
    rw [List.nodup_append] at hnd
    simp only [List.nodup_cons, List.mem_map, not_exists, not_and] at hnd
    simp only [List.mem_append] at he'
    rcases he' with h1 | h2
    · exact hnd.2.2 (List.mem_map.2 ⟨e', h1, heq⟩) (List.mem_cons_self _ _)
    · exact hnd.2.1.1 e' h2 heq
  refine ⟨?_, hlinks, ?_, ?_, ?_, hhead, htail, ?_, ?_, ?_⟩
  · simp only [List.map_append]
    rw [List.nodup_append] at hnd ⊢
    exact ⟨hnd.1, (List.nodup_cons.1 hnd.2.1).2,
      fun a h1 h2 => hnd.2.2 h1 (List.mem_cons_of_mem _ h2)⟩
  · intro e' he'
    rw [hcontent _ (hne e' he')]
    exact hr.node e' (hsub e' he')
  · intro e' he'
    obtain ⟨h1, h2⟩ := hr.table e' (hsub e' he')
    refine ⟨h1, ?_⟩
    rw [hfilled, upd2_other]
    · exact h2
    · intro hk
      exact hne e' he' (congrArg Entry.addr (hr.key_inj (hsub e' he') hemem hk.1 hk.2))
  · intro i j a ha
    rw [hfilled] at ha
    by_cases hk : i = e.cart ∧ j = e.frame
    · rw [hk.1, hk.2, upd2_same] at ha; simp at ha
    · rw [upd2_other _ _ hk] at ha
      obtain ⟨e', he', h1, h2, h3⟩ := hr.slot i j a ha
      refine ⟨e', ?_, h1, h2, h3⟩
      simp only [List.mem_append, List.mem_cons] at he' ⊢
      rcases he' with h | h | h
      · exact Or.inl h
      · subst h; exact absurd ⟨h2.symm, h3.symm⟩ hk
      · exact Or.inr h
  · rw [hsize, hr.size]
    simp only [List.length_append, List.length_cons]
    push_cast; omega
  · intro e' he'
    rw [hbrk]; exact hr.fresh e' (hsub e' he')
  · intro e' he'
    exact hr.len e' (hsub e' he')

theorem delete_sole (g : Geometry) (c : Cache) (e : Entry) (hr : Rep g c [e]) :
    ∃ c', delete_cart_cache g c e.cart e.frame = some (c', 0) ∧ Rep g c' [] ∧
      c'.max_cache_size = c.max_cache_size ∧ c'.brk = c.brk ∧
      (∀ a, a ≠ e.addr → c'.heap a = c.heap a) := by
  obtain ⟨hin, hslot⟩ := hr.table e (List.mem_singleton_self e)
  obtain ⟨x, hx, -⟩ := content_eq_some (hr.node e (List.mem_singleton_self e))
  have hsize : c.current_cache_size = 1 := by simpa using hr.size
  refine ⟨{ c with heap := upd c.heap e.addr none,
                   filled_cache_frames := upd2 c.filled_cache_frames e.cart e.frame none,
                   current_cache_size := c.current_cache_size - 1 }, ?_, ?_, rfl, rfl, ?_⟩
  · simp [delete_cart_cache, hin, hslot, hsize, free_node, hx]
  · exact Rep.remove _ [] [] hr (fun a ha => content_upd_other _ _ ha)
      trivial rfl rfl (by simp) (by simp) rfl
  · intro a ha
    exact upd_other _ _ ha

theorem delete_head (g : Geometry) (c : Cache) (e s : Entry) (L2 : List Entry)
    (hr : Rep g c (e :: s :: L2)) :
    ∃ c', delete_cart_cache g c e.cart e.frame = some (c', 0) ∧ Rep g c' (s :: L2) ∧
      c'.max_cache_size = c.max_cache_size ∧ c'.brk = c.brk ∧
      (∀ a, a ∉ (e :: s :: L2).map Entry.addr → c'.heap a = c.heap a) := by
  obtain ⟨hin, hslot⟩ := hr.table e (List.mem_cons_self _ _)
  have hseg := hr.links
  simp only [List.map_cons] at hseg
  have hnd := hr.nodup
  simp only [List.map_cons, List.nodup_cons, List.mem_cons, not_or] at hnd
  obtain ⟨⟨hes, heL⟩, hsL, hL⟩ := hnd
  obtain ⟨⟨x, hx, hxn, hxp⟩, hseg2⟩ := hseg
  obtain ⟨⟨y, hy, hyn, hyp⟩, hseg3⟩ := id hseg2
  have hhead : c.head = some e.addr := hr.head e (by simp)
  have hgt : c.current_cache_size > 1 := by
    rw [hr.size]; simp only [List.length_cons]; push_cast; omega
  simp only [headOr] at hxp
  refine ⟨{ c with
      head := some s.addr,
      heap := upd (upd (upd c.heap e.addr (some { x with prev := none })) s.addr
        (some { y with next := none })) e.addr none,
      filled_cache_frames := upd2 c.filled_cache_frames e.cart e.frame none,
      current_cache_size := c.current_cache_size - 1 }, ?_, ?_, rfl, rfl, ?_⟩
  · simp [delete_cart_cache, hin, hslot, hgt, hhead, deref, poke, free_node, hx, hxp, hy, hyn,
      upd_same, upd_other _ _ (Ne.symm hes), upd_other _ _ hes]
  · refine Rep.remove _ [] (s :: L2) hr ?_ ?_ rfl rfl (by simp) ?_ rfl
    · intro a ha
      simp only []
      rw [content_upd_other _ _ ha,
        content_upd_links _ _ y { y with next := none }
          (by rw [upd_other _ _ (Ne.symm hes)]; exact hy) rfl rfl rfl,
        content_upd_other _ _ ha]
    · simp only [List.nil_append, List.map_cons]
      have h1 := seg_set_next none hseg2 hy hsL
      refine (seg_congr ?_ _ _).2 h1
      intro a ha
      have hae : a ≠ e.addr := by
        rintro rfl
        simp only [List.mem_cons] at ha
        rcases ha with h | h
        · exact hes h
        · exact heL h
      simp only [upd, if_neg hae]
    · intro e' he'
      simp only [List.nil_append] at he'
      have := hr.tail e' (by
        simpa [List.getLast?_cons_cons] using he')
      simpa using this
  · intro a ha
    simp only [List.map_cons, List.mem_cons, not_or] at ha
    simp only [upd_other _ _ ha.1, upd_other _ _ ha.2.1]

theorem head?_append_singleton_cons {α : Type} (L1 : List α) (t : α) (L2 : List α) :
    (L1 ++ [t] ++ L2).head? = (L1 ++ [t]).head? := by
  cases L1 <;> simp

theorem delete_tail (g : Geometry) (c : Cache) (L1 : List Entry) (t e : Entry)
    (hr : Rep g c (L1 ++ [t] ++ [e])) :
    ∃ c', delete_cart_cache g c e.cart e.frame = some (c', 0) ∧ Rep g c' (L1 ++ [t]) ∧
      c'.max_cache_size = c.max_cache_size ∧ c'.brk = c.brk ∧
      (∀ a, a ∉ (L1 ++ [t] ++ [e]).map Entry.addr → c'.heap a = c.heap a) := by
  obtain ⟨hin, hslot⟩ := hr.table e (by simp)
  have hseg := hr.links
  have hnd := hr.nodup
  simp only [List.map_append, List.map_cons, List.map_nil] at hseg hnd
  simp only [List.nodup_append, List.nodup_cons, List.mem_append, List.mem_cons,
    List.mem_singleton, List.not_mem_nil, List.nodup_nil, not_false_eq_true, and_true,
    true_and, or_false, List.disjoint_cons_right, List.disjoint_append_left,
    List.disjoint_nil_right, List.disjoint_cons_left, List.disjoint_nil_left, not_or] at hnd
  obtain ⟨⟨hL, htL⟩, heL, het⟩ := hnd
  obtain ⟨x, hx, hxn, hxp⟩ := seg_mid hseg
  rw [lastOr_concat] at hxn
  simp only [headOr] at hxp
  rw [List.append_assoc] at hseg
  obtain ⟨y, hy, -, hyp⟩ := seg_mid hseg
  simp only [headOr] at hyp
  rw [← List.append_assoc, seg_append] at hseg
  simp only [headOr] at hseg
  have htail : c.tail = some e.addr := hr.tail e (by simp)
  obtain ⟨e0, he0, hhead⟩ : ∃ e0 ∈ L1 ++ [t], c.head = some e0.addr := by
    cases hL1 : L1 with
    | nil => exact ⟨t, by simp, hr.head t (by simp [hL1])⟩
    | cons a r => exact ⟨a, by simp, hr.head a (by simp [hL1])⟩
  have he0e : e.addr ≠ e0.addr := by
    intro h
    simp only [List.mem_append, List.mem_singleton] at he0
    rcases he0 with h1 | h1
    · exact heL (h ▸ List.mem_map.2 ⟨e0, h1, rfl⟩)
    · subst h1; exact het h
  have hgt : c.current_cache_size > 1 := by
    rw [hr.size]; simp only [List.length_append, List.length_cons, List.length_nil]
    push_cast; omega
  refine ⟨{ c with
      tail := some t.addr,
      heap := upd (upd (upd c.heap e.addr (some { x with next := none })) t.addr
        (some { y with prev := none })) e.addr none,
      filled_cache_frames := upd2 c.filled_cache_frames e.cart e.frame none,
      current_cache_size := c.current_cache_size - 1 }, ?_, ?_, rfl, rfl, ?_⟩
  · simp [delete_cart_cache, hin, hslot, hgt, hhead, htail, he0e, deref, poke, free_node, hx,
      hxn, hy, hyp, upd_same, upd_other _ _ (Ne.symm het), upd_other _ _ het]
  · have := Rep.remove ({ c with
      tail := some t.addr,
      heap := upd (upd (upd c.heap e.addr (some { x with next := none })) t.addr
        (some { y with prev := none })) e.addr none,
      filled_cache_frames := upd2 c.filled_cache_frames e.cart e.frame none,
      current_cache_size := c.current_cache_size - 1 }) (L1 ++ [t]) [] hr ?_ ?_ rfl rfl ?_ ?_ rfl
    · simpa using this
    · intro a ha
      simp only []
      rw [content_upd_other _ _ ha,
        content_upd_links _ _ y { y with prev := none }
          (by rw [upd_other _ _ (Ne.symm het)]; exact hy) rfl rfl rfl,
        content_upd_other _ _ ha]
    · simp only [List.append_nil, List.map_append, List.map_cons, List.map_nil]
      have h1 := seg_set_prev none hseg.1 hy htL
      refine (seg_congr ?_ _ _).2 h1
      intro a ha
      have hae : a ≠ e.addr := by
        rintro rfl
        simp only [List.mem_append, List.mem_singleton] at ha
        rcases ha with h | h
        · exact heL h
        · exact het h
      simp only [upd, if_neg hae]
    · intro e' he'
      simp only [List.append_nil] at he'
      exact hr.head e' (by rw [head?_append_singleton_cons]; exact he')
    · intro e' he'
      rw [List.append_nil, List.getLast?_concat] at he'
      simp only [Option.mem_def, Option.some.injEq] at he'
      subst he'; rfl
  · intro a ha
    simp only [List.map_append, List.map_cons, List.map_nil, List.mem_append, List.mem_cons,
      List.mem_singleton, List.not_mem_nil, or_false, not_or] at ha
    simp only [upd_other _ _ ha.2, upd_other _ _ ha.1.2]

theorem getLast?_append_cons {α : Type} (L1 : List α) (s : α) (L2 : List α) :
    (L1 ++ s :: L2).getLast? = (s :: L2).getLast? := by
  rw [List.getLast?_append]
  have hz : (s :: L2).getLast? = some ((s :: L2).getLast (by simp)) :=
    List.getLast?_eq_getLast _ _
  rw [hz]; rfl

theorem delete_interior (g : Geometry) (c : Cache) (L1 : List Entry) (t e s : Entry)
    (L2 : List Entry) (hr : Rep g c (L1 ++ [t] ++ e :: s :: L2)) :
    ∃ c', delete_cart_cache g c e.cart e.frame = some (c', 0) ∧
      Rep g c' (L1 ++ [t] ++ s :: L2) ∧
      c'.max_cache_size = c.max_cache_size ∧ c'.brk = c.brk ∧
      (∀ a, a ∉ (L1 ++ [t] ++ e :: s :: L2).map Entry.addr → c'.heap a = c.heap a) := by
  obtain ⟨hin, hslot⟩ := hr.table e (by simp)
  have hseg := hr.links
  have hnd := hr.nodup
  simp only [List.map_append, List.map_cons, List.map_nil] at hseg hnd
  simp only [List.nodup_append, List.nodup_cons, List.mem_append, List.mem_cons,
    List.mem_singleton, List.not_mem_nil, List.nodup_nil, not_false_eq_true, and_true,
    true_and, or_false, List.disjoint_cons_right, List.disjoint_append_left,
    List.disjoint_nil_right, List.disjoint_cons_left, List.disjoint_nil_left, not_or] at hnd
  obtain ⟨⟨hL1, htL1⟩, ⟨⟨hes, heL2⟩, hsL2, hL2⟩, ⟨heL1, het⟩, ⟨hsL1, hst⟩, hdisj, htL2⟩ := hnd
  obtain ⟨x, hx, hxn, hxp⟩ := seg_mid hseg
  rw [lastOr_concat] at hxn
  simp only [headOr] at hxp
  have hseg' := hseg
  rw [seg_append] at hseg'
  simp only [headOr, lastOr_concat, seg] at hseg'
  obtain ⟨hsegA, -, ⟨z, hz, hzn, hzp⟩, hsegB⟩ := hseg'
  have hsegS : seg c.heap (some e.addr) (s.addr :: List.map Entry.addr L2) none :=
    ⟨⟨z, hz, hzn, hzp⟩, hsegB⟩
  obtain ⟨y, hy, -, hyp⟩ : ∃ y, c.heap t.addr = some y ∧
      y.next = lastOr (List.map Entry.addr L1) none ∧ y.prev = some e.addr := by
    have := @seg_mid _ (List.map Entry.addr L1) [] t.addr _ _ hsegA
    simpa [headOr] using this
  have htail : ∃ e1, c.tail = some e1.addr ∧ e.addr ≠ e1.addr ∧
      (s :: L2).getLast? = some e1 := by
    have hz : (s :: L2).getLast? = some ((s :: L2).getLast (by simp)) :=
      List.getLast?_eq_getLast _ _
    refine ⟨_, hr.tail _ (by
      rw [getLast?_append_cons, List.getLast?_cons_cons]; exact hz), ?_, hz⟩
    intro h
    have hm := List.getLast_mem (l := s :: L2) (by simp)
    simp only [List.mem_cons] at hm
    rcases hm with h1 | h1
    · rw [h1] at h; exact hes h
    · exact heL2 (h ▸ List.mem_map.2 ⟨_, h1, rfl⟩)
  obtain ⟨e1, htail, he1, hlast⟩ := htail
  obtain ⟨e0, he0, hhead⟩ : ∃ e0 ∈ L1 ++ [t], c.head = some e0.addr := by
    cases hL1' : L1 with
    | nil => exact ⟨t, by simp, hr.head t (by simp [hL1'])⟩
    | cons a r => exact ⟨a, by simp, hr.head a (by simp [hL1'])⟩
  have he0e : e.addr ≠ e0.addr := by
    intro h
    simp only [List.mem_append, List.mem_singleton] at he0
    rcases he0 with h1 | h1
    · exact heL1 (h ▸ List.mem_map.2 ⟨e0, h1, rfl⟩)
    · subst h1; exact het h
  have hgt : c.current_cache_size > 1 := by
    rw [hr.size]; simp only [List.length_append, List.length_cons, List.length_nil]
    push_cast; omega
  refine ⟨{ c with
      heap := upd (upd (upd (upd (upd c.heap s.addr (some { z with next := some t.addr }))
        t.addr (some { y with prev := some s.addr }))
        e.addr (some { x with prev := none }))
        e.addr (some { x with prev := none, next := none })) e.addr none,
      filled_cache_frames := upd2 c.filled_cache_frames e.cart e.frame none,
      current_cache_size := c.current_cache_size - 1 }, ?_, ?_, rfl, rfl, ?_⟩
  · simp [delete_cart_cache, hin, hslot, hgt, hhead, htail, he0e, he1, deref, poke, free_node,
      hx, hxn, hxp, hy, hz, upd_same, upd_other _ _ (Ne.symm het), upd_other _ _ het,
      upd_other _ _ (Ne.symm hes), upd_other _ _ hes, upd_other _ _ (Ne.symm hst),
      upd_other _ _ hst]
  · refine Rep.remove _ (L1 ++ [t]) (s :: L2) hr ?_ ?_ rfl rfl ?_ ?_ rfl
    · intro a ha
      simp only []
      rw [content_upd_other _ _ ha, content_upd_other _ _ ha, content_upd_other _ _ ha,
        content_upd_links _ _ y { y with prev := some s.addr }
          (by rw [upd_other _ _ (Ne.symm hst)]; exact hy) rfl rfl rfl,
        content_upd_links _ _ z { z with next := some t.addr } hz rfl rfl rfl]
    · simp only [List.map_append, List.map_cons, List.map_nil]
      rw [seg_append]
      simp only [headOr, lastOr_concat]
      constructor
      · have h1 := seg_set_prev (some s.addr) hsegA hy htL1
        refine (seg_congr ?_ _ _).2 h1
        intro a ha
        have hae : a ≠ e.addr := by
          rintro rfl
          simp only [List.mem_append, List.mem_singleton] at ha
          rcases ha with h | h
          · exact heL1 h
          · exact het h
        have has : a ≠ s.addr := by
          rintro rfl
          simp only [List.mem_append, List.mem_singleton] at ha
          rcases ha with h | h
          · exact hsL1 h
          · exact hst h
        simp only [upd, if_neg hae, if_neg has]
      · have h1 := seg_set_next (some t.addr) hsegS hz hsL2
        refine (seg_congr ?_ _ _).2 h1
        intro a ha
        have hae : a ≠ e.addr := by
          rintro rfl
          simp only [List.mem_cons] at ha
          rcases ha with h | h
          · exact hes h
          · exact heL2 h
        have hat : a ≠ t.addr := by
          rintro rfl
          simp only [List.mem_cons] at ha
          rcases ha with h | h
          · exact hst h.symm
          · exact htL2 h
        simp only [upd, if_neg hae, if_neg hat]
    · intro e' he'
      exact hr.head e' (by
        rw [head?_append_singleton_cons] at he' ⊢; exact he')
    · intro e' he'
      rw [getLast?_append_cons, hlast] at he'
      simp only [Option.mem_def, Option.some.injEq] at he'
      subst he'
      exact htail
  · intro a ha
    simp only [List.map_append, List.map_cons, List.map_nil, List.mem_append, List.mem_cons,
      List.mem_singleton, List.not_mem_nil, or_false, not_or] at ha
    simp only [upd_other _ _ ha.2.1, upd_other _ _ ha.1.2, upd_other _ _ ha.2.2.1]

theorem delete_present (g : Geometry) (c : Cache) (L1 : List Entry) (e : Entry)
    (L2 : List Entry) (hr : Rep g c (L1 ++ e :: L2)) :
    ∃ c', delete_cart_cache g c e.cart e.frame = some (c', 0) ∧ Rep g c' (L1 ++ L2) ∧
      c'.max_cache_size = c.max_cache_size ∧ c'.brk = c.brk ∧
      (∀ a, a ∉ (L1 ++ e :: L2).map Entry.addr → c'.heap a = c.heap a) := by
  rcases List.eq_nil_or_concat L1 with rfl | ⟨L1', t, hL1⟩
  · cases L2 with
    | nil =>
      obtain ⟨c', h1, h2, h3, h4, h5⟩ := delete_sole g c e hr
      exact ⟨c', h1, h2, h3, h4, fun a ha => h5 a (by simpa using ha)⟩
    | cons s L2' => exact delete_head g c e s L2' hr
  · rw [List.concat_eq_append] at hL1
    subst hL1
    cases L2 with
    | nil =>
      obtain ⟨c', h1, h2, h3, h4, h5⟩ := delete_tail g c L1' t e hr
      exact ⟨c', h1, by simpa using h2, h3, h4, h5⟩
    | cons s L2' => exact delete_interior g c L1' t e s L2' hr

theorem Rep.without_absent {g : Geometry} {c : Cache} {L : List Entry} (hr : Rep g c L)
    {i j : Nat} (h : c.filled_cache_frames i j = none) : without L i j = L := by
  unfold without
  rw [List.filter_eq_self]
  intro e he
  simp only [decide_not, Bool.not_eq_true', decide_eq_false_iff_not]
  rintro ⟨rfl, rfl⟩
  rw [(hr.table e he).2] at h
  simp at h

theorem Rep.without_present {g : Geometry} {c : Cache} {L1 L2 : List Entry} {e : Entry}
    (hr : Rep g c (L1 ++ e :: L2)) : without (L1 ++ e :: L2) e.cart e.frame = L1 ++ L2 := by
  have hnd := hr.nodup
  simp only [List.map_append, List.map_cons, List.nodup_append, List.nodup_cons,
    List.disjoint_cons_right] at hnd
  have hmem : e ∈ L1 ++ e :: L2 := by simp
  have hk : ∀ e' ∈ L1 ++ e :: L2, e'.cart = e.cart ∧ e'.frame = e.frame → e' = e :=
    fun e' he' h => hr.key_inj he' hmem h.1 h.2
  unfold without
  rw [List.filter_append, List.filter_cons]
  simp only [and_self, not_true_eq_false, decide_False, Bool.false_eq_true, if_false]
  congr 1
  · rw [List.filter_eq_self]
    intro e' he'
    simp only [decide_not, Bool.not_eq_true', decide_eq_false_iff_not]
    intro h
    have := hk e' (by simp [he']) h
    subst this
    exact hnd.2.2.1 (List.mem_map.2 ⟨_, he', rfl⟩)
  · rw [List.filter_eq_self]
    intro e' he'
    simp only [decide_not, Bool.not_eq_true', decide_eq_false_iff_not]
    intro h
    have := hk e' (by simp [he']) h
    subst this
    exact hnd.2.1.1 (List.mem_map.2 ⟨_, he', rfl⟩)

/-- `delete_cart_cache` on a represented cache: it is defined for every key of the table,
returns `-1` and changes nothing when the slot is empty, and otherwise returns 0 and
represents the list without the entry of that key. -/
theorem delete_refines (g : Geometry) (c : Cache) (L : List Entry) (i j : Nat)
    (hr : Rep g c L) (hin : inTable g i j) :
    ∃ c' r, delete_cart_cache g c i j = some (c', r) ∧ Rep g c' (without L i j) ∧
      c'.max_cache_size = c.max_cache_size ∧ c'.brk = c.brk ∧
      (∀ a, a ∉ L.map Entry.addr → c'.heap a = c.heap a) ∧
      (c.filled_cache_frames i j = none → c' = c ∧ r = -1) ∧
      (c.filled_cache_frames i j ≠ none → r = 0) := by
  cases hs : c.filled_cache_frames i j with
  | none =>
    refine ⟨c, -1, ?_, ?_, rfl, rfl, fun _ _ => rfl, fun _ => ⟨rfl, rfl⟩, fun h => absurd rfl h⟩
    · simp [delete_cart_cache, hin, hs]
    · rw [hr.without_absent hs]; exact hr
  | some a =>
    obtain ⟨e, he, rfl, rfl, rfl⟩ := hr.slot i j a hs
    obtain ⟨L1, L2, rfl⟩ := List.append_of_mem he
    obtain ⟨c', h1, h2, h3, h4, h5⟩ := delete_present g c L1 e L2 hr
    refine ⟨c', 0, h1, ?_, h3, h4, h5, fun h => by simp at h, fun _ => rfl⟩
    rw [hr.without_present]; exact h2

/-- Appending a new entry to a represented list: what the state after the insertion has to
satisfy. -/
theorem Rep.insert {g : Geometry} {c c' : Cache} {L : List Entry} (n : Entry)
    (hr : Rep g c L)
    (hnew : n.addr ∉ L.map Entry.addr)
    (hkey : c.filled_cache_frames n.cart n.frame = none)
    (hin : inTable g n.cart n.frame)
    (hold : ∀ a, a ≠ n.addr → content c'.heap a = content c.heap a)
    (hnode : content c'.heap n.addr = some ((n.cart : Int), (n.frame : Int), n.data))
    (hlinks : seg c'.heap none ((L ++ [n]).map Entry.addr) none)
    (hfilled : c'.filled_cache_frames = upd2 c.filled_cache_frames n.cart n.frame (some n.addr))
    (hsize : c'.current_cache_size = c.current_cache_size + 1)
    (hhead : ∀ e' ∈ (L ++ [n]).head?, c'.head = some e'.addr)
    (htail : c'.tail = some n.addr)
    (hbrk : ∀ e ∈ L ++ [n], e.addr < c'.brk)
    (hlen : n.data.length ≤ g.CART_FRAME_SIZE) : Rep g c' (L ++ [n]) := by
  have hne : ∀ e ∈ L, e.addr ≠ n.addr :=
    fun e he h => hnew (h ▸ List.mem_map.2 ⟨e, he, rfl⟩)
  have hkne : ∀ e ∈ L, ¬ (e.cart = n.cart ∧ e.frame = n.frame) := by
    intro e he h
    have := (hr.table e he).2
    rw [h.1, h.2, hkey] at this
    simp at this
  refine ⟨?_, hlinks, ?_, ?_, ?_, hhead, ?_, ?_, hbrk, ?_⟩
  · simp only [List.map_append, List.map_cons, List.map_nil]
    rw [List.nodup_append]
    exact ⟨hr.nodup, List.nodup_singleton _, by
      simp only [List.disjoint_cons_right, List.disjoint_nil_right, and_true]; exact hnew⟩
  · intro e he
    simp only [List.mem_append, List.mem_singleton] at he
    rcases he with he | rfl
    · rw [hold _ (hne e he)]; exact hr.node e he
    · exact hnode
  · intro e he
    simp only [List.mem_append, List.mem_singleton] at he
    rcases he with he | rfl
    · obtain ⟨h1, h2⟩ := hr.table e he
      exact ⟨h1, by rw [hfilled, upd2_other _ _ (hkne e he)]; exact h2⟩
    · exact ⟨hin, by rw [hfilled, upd2_same]⟩
  · intro i j a ha
    rw [hfilled] at ha
    by_cases hk : i = n.cart ∧ j = n.frame
    · rw [hk.1, hk.2, upd2_same] at ha
      simp only [Option.some.injEq] at ha
      exact ⟨n, by simp, ha, hk.1.symm, hk.2.symm⟩
    · rw [upd2_other _ _ hk] at ha
      obtain ⟨e, he, h⟩ := hr.slot i j a ha
      exact ⟨e, by simp [he], h⟩
  · intro e he
    rw [List.getLast?_concat] at he
    simp only [Option.mem_def, Option.some.injEq] at he
    subst he; exact htail
  · rw [hsize, hr.size]; simp
  · intro e he
    simp only [List.mem_append, List.mem_singleton] at he
    rcases he with he | rfl
    · exact hr.len e he
    · exact hlen

/-- Moving the entry `e` of a represented list to the end with new bytes: what the state
after the move has to satisfy. -/
theorem Rep.move {g : Geometry} {c : Cache} (c' : Cache) (L1 L2 : List Entry) {e : Entry}
    (d : List Nat) (hr : Rep g c (L1 ++ e :: L2))
    (hold : ∀ a, a ≠ e.addr → content c'.heap a = content c.heap a)
    (hnode : content c'.heap e.addr = some ((e.cart : Int), (e.frame : Int), d))
    (hlinks : seg c'.heap none ((L1 ++ L2 ++ [e]).map Entry.addr) none)
    (hfilled : c'.filled_cache_frames = c.filled_cache_frames)
    (hsize : c'.current_cache_size = c.current_cache_size)
    (hhead : ∀ e' ∈ (L1 ++ L2 ++ [e]).head?, c'.head = some e'.addr)
    (htail : c'.tail = some e.addr)
    (hbrk : c'.brk = c.brk)
    (hlen : d.length ≤ g.CART_FRAME_SIZE) :
    Rep g c' (L1 ++ L2 ++ [{ e with data := d }]) := by
  have hsub : ∀ e' ∈ L1 ++ L2, e' ∈ L1 ++ e :: L2 := by
    intro e' he'
    simp only [List.mem_append, List.mem_cons] at he' ⊢
    tauto
  have hemem : e ∈ L1 ++ e :: L2 := by simp
  have hnd := hr.nodup
  simp only [List.map_append, List.map_cons] at hnd
  have hne : ∀ e' ∈ L1 ++ L2, e'.addr ≠ e.addr := by
    intro e' he' heq
    rw [List.nodup_append] at hnd
    simp only [List.nodup_cons, List.mem_map, not_exists, not_and] at hnd
    simp only [List.mem_append] at he'
    rcases he' with h1 | h2
    · exact hnd.2.2 (List.mem_map.2 ⟨e', h1, heq⟩) (List.mem_cons_self _ _)
    · exact hnd.2.1.1 e' h2 heq
  have hmap : (L1 ++ L2 ++ [{ e with data := d }]).map Entry.addr
      = (L1 ++ L2 ++ [e]).map Entry.addr := by simp
  refine ⟨?_, by rw [hmap]; exact hlinks, ?_, ?_, ?_, ?_, ?_, ?_, ?_, ?_⟩
  · rw [hmap]
    simp only [List.map_append, List.map_cons, List.map_nil]
    rw [List.nodup_append] at hnd
    rw [List.nodup_append, List.nodup_append]
    refine ⟨⟨hnd.1, (List.nodup_cons.1 hnd.2.1).2,
      fun a h1 h2 => hnd.2.2 h1 (List.mem_cons_of_mem _ h2)⟩, List.nodup_singleton _, ?_⟩
    simp only [List.disjoint_cons_right, List.disjoint_nil_right, and_true, List.mem_append,
      not_or]
    exact ⟨fun h => hnd.2.2 h (List.mem_cons_self _ _), (List.nodup_cons.1 hnd.2.1).1⟩
  · intro e' he'
    simp only [List.mem_append, List.mem_singleton] at he'
    rcases he' with he' | rfl
    · rw [hold _ (hne e' (List.mem_append.2 he'))]
      exact hr.node e' (hsub e' (List.mem_append.2 he'))
    · exact hnode
  · intro e' he'
    rw [hfilled]
    simp only [List.mem_append, List.mem_singleton] at he'
    rcases he' with he' | rfl
    · exact hr.table e' (hsub e' (List.mem_append.2 he'))
    · exact hr.table e hemem
  · intro i j a ha
    rw [hfilled] at ha
    obtain ⟨e', he', h1, h2, h3⟩ := hr.slot i j a ha
    simp only [List.mem_append, List.mem_cons] at he'
    rcases he' with h | h | h
    · exact ⟨e', by simp [h], h1, h2, h3⟩
    · subst h; exact ⟨{ e' with data := d }, by simp, h1, h2, h3⟩
    · exact ⟨e', by simp [h], h1, h2, h3⟩
  · intro e' he'
    have : (L1 ++ L2 ++ [{ e with data := d }]).head?.map Entry.addr
        = (L1 ++ L2 ++ [e]).head?.map Entry.addr := by
      rw [← List.head?_map, ← List.head?_map, hmap]
    cases h0 : (L1 ++ L2 ++ [e]).head? with
    | none => simp at h0
    | some e0 =>
      rw [h0, Option.mem_def.1 he'] at this
      simp only [Option.map_some', Option.some.injEq] at this
      rw [this]; exact hhead e0 h0
  · intro e' he'
    rw [List.getLast?_concat] at he'
    simp only [Option.mem_def, Option.some.injEq] at he'
    subst he'; exact htail
  · rw [hsize, hr.size]
    simp only [List.length_append, List.length_cons, List.length_nil]
    push_cast; omega
  · intro e' he'
    rw [hbrk]
    simp only [List.mem_append, List.mem_singleton] at he'
    rcases he' with he' | rfl
    · exact hr.fresh e' (hsub e' (List.mem_append.2 he'))
    · exact hr.fresh e hemem
  · intro e' he'
    simp only [List.mem_append, List.mem_singleton] at he'
    rcases he' with he' | rfl
    · exact hr.len e' (hsub e' (List.mem_append.2 he'))
    · exact hlen

theorem Rep.malloc {g : Geometry} {c : Cache} {L : List Entry} (hr : Rep g c L)
    (n : cache_node) : Rep g (malloc_node c n).1 L := by
  have hne : ∀ e ∈ L, e.addr ≠ c.brk := fun e he => Nat.ne_of_lt (hr.fresh e he)
  refine ⟨hr.nodup, ?_, ?_, hr.table, hr.slot, hr.head, hr.tail, hr.size, ?_, hr.len⟩
  · refine (seg_congr ?_ _ _).2 hr.links
    intro a ha
    obtain ⟨e, he, rfl⟩ := List.mem_map.1 ha
    exact upd_other _ _ (hne e he)
  · intro e he
    simp only [malloc_node]
    rw [content_upd_other _ _ (hne e he)]
    exact hr.node e he
  · intro e he
    exact Nat.lt_succ_of_lt (hr.fresh e he)

/-- The linking of a fresh node `a` behind the tail, followed by the final assignments of
the insertion branch of `put_cart_cache`. -/
theorem attach_tail (g : Geometry) (c : Cache) (L : List Entry) (a i j : Nat) (x : cache_node)
    (hr : Rep g c L) (ha : c.heap a = some x)
    (hxc : x.cart = (i : Int)) (hxf : x.frame = (j : Int))
    (hxn : x.next = none) (hxp : x.prev = none)
    (hnew : a ∉ L.map Entry.addr) (hab : a < c.brk)
    (hkey : c.filled_cache_frames i j = none) (hin : inTable g i j)
    (hlen : x.data.length ≤ g.CART_FRAME_SIZE) :
    ∃ c', (if c.current_cache_size = 0 then some { c with head := some a }
           else link_before_tail c (some a)) = some c' ∧
      Rep g { c' with
          tail := some a,
          current_cache_size := c'.current_cache_size + 1,
          filled_cache_frames := upd2 c'.filled_cache_frames i j (some a) }
        (L ++ [{ addr := a, cart := i, frame := j, data := x.data }]) ∧
      c'.max_cache_size = c.max_cache_size := by
  rcases List.eq_nil_or_concat L with rfl | ⟨L0, t, hL⟩
  · have hsize : c.current_cache_size = 0 := by simpa using hr.size
    refine ⟨{ c with head := some a }, by simp [hsize], ?_, rfl⟩
    refine Rep.insert { addr := a, cart := i, frame := j, data := x.data } hr hnew hkey hin
      (fun _ _ => rfl) ?_ ?_ rfl rfl ?_ rfl ?_ hlen
    · simp [content, ha, hxc, hxf]
    · simp only [List.nil_append, List.map_cons, List.map_nil, seg, headOr, and_true]
      exact ⟨x, ha, hxn, hxp⟩
    · intro e' he'
      simp only [List.nil_append, List.head?_cons, Option.mem_def, Option.some.injEq] at he'
      subst he'; rfl
    · intro e he
      simp only [List.nil_append, List.mem_singleton] at he
      subst he; exact hab
  · rw [List.concat_eq_append] at hL
    subst hL
    have hsize : c.current_cache_size ≠ 0 := by
      rw [hr.size]; simp only [List.length_append, List.length_cons, List.length_nil]
      push_cast; omega
    have htail : c.tail = some t.addr := hr.tail t (by rw [List.getLast?_concat]; rfl)
    have hseg := hr.links
    simp only [List.map_append, List.map_cons, List.map_nil] at hseg hnew
    simp only [List.mem_append, List.mem_singleton, not_or] at hnew
    obtain ⟨y, hy, -, -⟩ := seg_mid hseg
    have hnd := hr.nodup
    simp only [List.map_append, List.map_cons, List.map_nil, List.nodup_append,
      List.disjoint_cons_right, List.disjoint_nil_right, and_true] at hnd
    refine ⟨{ c with heap := (upd (upd c.heap a (some { x with next := some t.addr })) t.addr
        (some { y with prev := some a })) }, ?_, ?_, rfl⟩
    · simp [hsize, link_before_tail, poke, ha, htail, hy, upd_other _ _ (Ne.symm hnew.2)]
    · refine Rep.insert { addr := a, cart := i, frame := j, data := x.data } hr
        (by simpa using hnew) hkey hin ?_ ?_ ?_ rfl rfl ?_ rfl ?_ hlen
      · intro b hb
        simp only []
        rw [content_upd_links _ _ y { y with prev := some a }
            (by rw [upd_other _ _ (Ne.symm hnew.2)]; exact hy) rfl rfl rfl,
          content_upd_other _ _ hb]
      · simp only [content, upd_other _ _ hnew.2, upd_same, Option.map_some', hxc, hxf]
      · simp only [List.map_append, List.map_cons, List.map_nil]
        rw [seg_append]
        simp only [headOr, lastOr_concat, seg, and_true]
        constructor
        · have h1 := seg_set_prev (some a) hseg hy hnd.2.2
          refine (seg_congr ?_ _ _).2 h1
          intro b hb
          have hba : b ≠ a := by
            rintro rfl
            simp only [List.mem_append, List.mem_singleton] at hb
            rcases hb with h | h
            · exact hnew.1 h
            · exact hnew.2 h
          simp only [upd, if_neg hba]
        · exact ⟨{ x with next := some t.addr }, by rw [upd_other _ _ hnew.2, upd_same],
            rfl, hxp⟩
      · intro e' he'
        exact hr.head e' (by
          rw [head?_append_singleton_cons] at he'; exact he')
      · intro e he
        simp only [List.mem_append, List.mem_singleton] at he
        rcases he with (he | he) | he
        · exact hr.fresh e (by simp [he])
        · exact hr.fresh e (by simp [he])
        · subst he; exact hab

theorem toUInt16_natCast {k : Nat} (h : k < 65536) : toUInt16 (k : Int) = k := by
  unfold toUInt16
  have : ((k : Int) % 65536) = k := Int.emod_eq_of_lt (by omega) (by omega)
  rw [this]; simp

theorem memcpy_nil_length (buf : List Nat) (n : Nat) : (memcpy [] buf n).length ≤ n := by
  simp [memcpy, List.length_take]

theorem memcpy_nil (buf : List Nat) (n : Nat) : memcpy [] buf n = buf.take n := by
  simp [memcpy]

theorem put_absent (g : Geometry) (c : Cache) (L : List Entry) (i j : Nat) (buf : List Nat)
    (hr : Rep g c L)
    (hg : g.CART_MAX_CARTRIDGES ≤ 65536 ∧ g.CART_CARTRIDGE_SIZE ≤ 65536)
    (hmax : 1 ≤ c.max_cache_size) (hin : inTable g i j)
    (hkey : c.filled_cache_frames i j = none) :
    ∃ c', put_cart_cache g c i j buf = some (c', 0) ∧
      Rep g c' ((if (L.length : Int) < c.max_cache_size then L else L.tail) ++
        [{ addr := c.brk, cart := i, frame := j, data := buf.take g.CART_FRAME_SIZE }]) ∧
      c'.max_cache_size = c.max_cache_size := by
  have hmax' : ¬ c.max_cache_size ≤ 0 := by omega
  have hr1 := hr.malloc (new_node g i j buf)
  have hnew : c.brk ∉ L.map Entry.addr := by
    intro h
    obtain ⟨e, he, h2⟩ := List.mem_map.1 h
    have := hr.fresh e he
    omega
  have hdata : (new_node g i j buf).data = buf.take g.CART_FRAME_SIZE := memcpy_nil _ _
  by_cases hfull : (L.length : Int) < c.max_cache_size
  · rw [if_pos hfull]
    obtain ⟨c', h1, h2, h3⟩ := attach_tail g _ L c.brk i j _ hr1 (upd_same _ _ _) rfl rfl rfl rfl
      hnew (Nat.lt_succ_self _) hkey hin (memcpy_nil_length _ _)
    rw [hdata] at h2
    refine ⟨_, ?_, h2, h3⟩
    have hsz : c.current_cache_size < c.max_cache_size := by rw [hr.size]; exact hfull
    simp only [put_cart_cache, hmax', if_false, hin, not_true_eq_false, hkey,
      Option.bind_eq_bind, Option.pure_def]
    have h2nd : (malloc_node c (new_node g i j buf)).2 = c.brk := rfl
    have hsz' : (malloc_node c (new_node g i j buf)).1.current_cache_size
        < (malloc_node c (new_node g i j buf)).1.max_cache_size := hsz
    rw [h2nd]
    by_cases h0 : (malloc_node c (new_node g i j buf)).1.current_cache_size = 0
    · rw [if_pos h0] at h1 ⊢
      simp only [Option.some.injEq] at h1
      subst h1
      rfl
    · rw [if_neg h0] at h1 ⊢
      rw [if_pos hsz', h1]
      rfl
  · rw [if_neg hfull]
    have hsz : ¬ c.current_cache_size < c.max_cache_size := by rw [hr.size]; exact hfull
    cases L with
    | nil => simp only [List.length_nil, Nat.cast_zero] at hfull; omega
    | cons e0 L2 =>
      have h0 : (malloc_node c (new_node g i j buf)).1.current_cache_size ≠ 0 := by
        show c.current_cache_size ≠ 0
        rw [hr.size]; simp only [List.length_cons]; push_cast; omega
      have hsz' : ¬ (malloc_node c (new_node g i j buf)).1.current_cache_size
          < (malloc_node c (new_node g i j buf)).1.max_cache_size := hsz
      obtain ⟨x0, hx0, hx0c, hx0f, -⟩ := content_eq_some (hr1.node e0 (List.mem_cons_self _ _))
      have hhead : (malloc_node c (new_node g i j buf)).1.head = some e0.addr :=
        hr1.head e0 (by simp)
      obtain ⟨hin0, hslot0⟩ := hr1.table e0 (List.mem_cons_self _ _)
      have hc16 : toUInt16 x0.cart = e0.cart := by
        rw [hx0c]; exact toUInt16_natCast (by have := hin0.1; omega)
      have hf16 : toUInt16 x0.frame = e0.frame := by
        rw [hx0f]; exact toUInt16_natCast (by have := hin0.2; omega)
      obtain ⟨c2, hd1, hd2, hd3, hd4, hd5⟩ := delete_present g _ [] e0 L2 hr1
      simp only [List.nil_append] at hd2 hd5
      have hnew1 : c.brk ∉ (e0 :: L2).map Entry.addr := hnew
      have hnew2 : c.brk ∉ L2.map Entry.addr := by
        intro h; exact hnew1 (by simp only [List.map_cons]; exact List.mem_cons_of_mem _ h)
      have hkey2 : c2.filled_cache_frames i j = none := by
        cases hk : c2.filled_cache_frames i j with
        | none => rfl
        | some b =>
          obtain ⟨e', he', -, h2, h3⟩ := hd2.slot i j b hk
          have := (hr.table e' (List.mem_cons_of_mem _ he')).2
          rw [h2, h3, hkey] at this
          simp at this
      obtain ⟨c', h1, h2, h3⟩ := attach_tail g c2 L2 c.brk i j (new_node g i j buf) hd2
        (by rw [hd5 _ hnew1]; exact upd_same _ _ _) rfl rfl rfl rfl
        hnew2 (by rw [hd4]; exact Nat.lt_succ_self _) hkey2 hin (memcpy_nil_length _ _)
      rw [hdata] at h2
      refine ⟨_, ?_, by simpa using h2, by rw [h3, hd3]; rfl⟩
      simp only [put_cart_cache, hmax', if_false, hin, not_true_eq_false, hkey,
        Option.bind_eq_bind, Option.pure_def]
      have h2nd : (malloc_node c (new_node g i j buf)).2 = c.brk := rfl
      rw [h2nd, if_neg h0, if_neg hsz']
      simp only [deref, hhead, hx0, Option.some_bind, hc16, hf16, hd1]
      by_cases h00 : c2.current_cache_size = 0
      · rw [if_pos h00] at h1 ⊢
        simp only [Option.some.injEq] at h1
        subst h1
        rfl
      · rw [if_neg h00] at h1 ⊢
        rw [h1]
        rfl

theorem seg_upd_data {h : Nat → Option cache_node} {a : Nat} {x : cache_node} (d : List Nat)
    (hx : h a = some x) : ∀ (l : List Nat) (p n : Ptr),
      seg (upd h a (some { x with data := d })) p l n ↔ seg h p l n := by
  intro l
  induction l with
  | nil => intro p n; simp [seg]
  | cons b r ih =>
    intro p n
    simp only [seg, ih]
    by_cases hb : b = a
    · subst hb
      rw [upd_same, hx]
      simp only [Option.some.injEq, exists_eq_left']
    · rw [upd_other _ _ hb]

theorem memcpy_over {old buf : List Nat} {n : Nat} (h : old.length ≤ n) :
    memcpy old buf n = buf.take n := by
  simp [memcpy, List.drop_eq_nil_of_le h]

theorem put_present_tail (g : Geometry) (c : Cache) (L1 : List Entry) (e : Entry)
    (buf : List Nat) (hr : Rep g c (L1 ++ [e])) (hmax : 1 ≤ c.max_cache_size) :
    ∃ c', put_cart_cache g c e.cart e.frame buf = some (c', 0) ∧
      Rep g c' (L1 ++ [{ e with data := buf.take g.CART_FRAME_SIZE }]) ∧
      c'.max_cache_size = c.max_cache_size := by
  have hmax' : ¬ c.max_cache_size ≤ 0 := by omega
  obtain ⟨hin, hslot⟩ := hr.table e (by simp)
  obtain ⟨x, hx, hxc, hxf, hxd⟩ := content_eq_some (hr.node e (by simp))
  simp only at hxc hxf hxd
  have htail : c.tail = some e.addr := hr.tail e (by rw [List.getLast?_concat]; rfl)
  have hd : memcpy x.data buf g.CART_FRAME_SIZE = buf.take g.CART_FRAME_SIZE := by
    rw [hxd]; exact memcpy_over (hr.len e (by simp))
  refine ⟨{ c with heap := (upd c.heap e.addr
      (some { x with data := buf.take g.CART_FRAME_SIZE })) }, ?_, ?_, rfl⟩
  · simp [put_cart_cache, hmax', hin, hslot, htail, poke, hx, hd]
  · have := Rep.move ({ c with heap := (upd c.heap e.addr
      (some { x with data := buf.take g.CART_FRAME_SIZE })) }) L1 []
      (buf.take g.CART_FRAME_SIZE) hr ?_ ?_ ?_ rfl rfl ?_ htail rfl ?_
    · simpa using this
    · intro a ha
      exact content_upd_other _ _ ha
    · simp [content, upd_same, hxc, hxf]
    · rw [seg_upd_data _ hx]
      simpa using hr.links
    · intro e' he'
      exact hr.head e' (by simpa using he')
    · simp [List.length_take]

theorem Rep.node_at {g : Geometry} {c : Cache} {L : List Entry} (hr : Rep g c L)
    {e : Entry} (he : e ∈ L) {x : cache_node} (hx : c.heap e.addr = some x) :
    x.cart = (e.cart : Int) ∧ x.frame = (e.frame : Int) ∧ x.data = e.data := by
  obtain ⟨x', hx', h1, h2, h3⟩ := content_eq_some (hr.node e he)
  rw [hx] at hx'
  simp only [Option.some.injEq] at hx'
  subst hx'
  exact ⟨h1, h2, h3⟩

theorem put_present_head2 (g : Geometry) (c : Cache) (e t : Entry)
    (buf : List Nat) (hr : Rep g c [e, t]) (hmax : 1 ≤ c.max_cache_size) :
    ∃ c', put_cart_cache g c e.cart e.frame buf = some (c', 0) ∧
      Rep g c' [t, { e with data := buf.take g.CART_FRAME_SIZE }] ∧
      c'.max_cache_size = c.max_cache_size := by
  have hmax' : ¬ c.max_cache_size ≤ 0 := by omega
  obtain ⟨hin, hslot⟩ := hr.table e (by simp)
  have hseg := hr.links
  have hnd := hr.nodup
  simp only [List.map_cons, List.map_nil, List.nodup_cons, List.mem_singleton,
    List.not_mem_nil, not_false_eq_true, List.nodup_nil, and_true] at hseg hnd
  obtain ⟨⟨x, hx, hxn, hxp⟩, hseg2⟩ := hseg
  obtain ⟨⟨y, hy, hyn, hyp⟩, -⟩ := id hseg2
  simp only [headOr] at hxp hyp
  obtain ⟨hxc, hxf, hxd⟩ := hr.node_at (List.mem_cons_self _ _) hx
  have hhead : c.head = some e.addr := hr.head e (by simp)
  have htail : c.tail = some t.addr := hr.tail t (by simp)
  have hgt : c.current_cache_size > 1 := by
    rw [hr.size]; simp
  have hd : memcpy x.data buf g.CART_FRAME_SIZE = buf.take g.CART_FRAME_SIZE := by
    rw [hxd]; exact memcpy_over (hr.len e (by simp))
  refine ⟨{ c with
      head := some t.addr,
      tail := some e.addr,
      heap := (upd (upd (upd (upd (upd c.heap
        e.addr (some { x with next := some t.addr }))
        t.addr (some { y with prev := some e.addr }))
        e.addr (some { x with next := some t.addr, prev := none }))
        t.addr (some { y with prev := some e.addr, next := none }))
        e.addr (some { x with next := some t.addr, prev := none,
                              data := buf.take g.CART_FRAME_SIZE })) }, ?_, ?_, rfl⟩
  · simp [put_cart_cache, hmax', hin, hslot, hgt, hhead, htail, hnd, deref, poke, hx, hxp, hy,
      hyn, hd, upd_same, upd_other _ _ (Ne.symm hnd), upd_other _ _ hnd]
  · refine Rep.move _ [] [t] (buf.take g.CART_FRAME_SIZE) hr ?_ ?_ ?_ rfl rfl ?_ rfl rfl ?_
    · intro a ha
      simp only []
      rw [content_upd_other _ _ ha,
        content_upd_links _ _ { y with prev := some e.addr }
          { y with prev := some e.addr, next := none }
          (by rw [upd_other _ _ (Ne.symm hnd), upd_same]) rfl rfl rfl,
        content_upd_other _ _ ha,
        content_upd_links _ _ y { y with prev := some e.addr }
          (by rw [upd_other _ _ (Ne.symm hnd)]; exact hy) rfl rfl rfl,
        content_upd_other _ _ ha]
    · simp [content, upd_same, hxc, hxf]
    · show seg _ none [t.addr, e.addr] none
      simp only [seg, headOr, and_true]
      exact ⟨⟨{ y with prev := some e.addr, next := none },
        by rw [upd_other _ _ (Ne.symm hnd), upd_same], rfl, rfl⟩,
        ⟨{ x with next := some t.addr, prev := none, data := buf.take g.CART_FRAME_SIZE },
          upd_same _ _ _, rfl, rfl⟩⟩
    · intro e' he'
      simp only [List.nil_append, List.singleton_append, List.head?_cons, Option.mem_def,
        Option.some.injEq] at he'
      subst he'; rfl
    · simp [List.length_take]

theorem put_present_head3 (g : Geometry) (c : Cache) (e s : Entry) (M : List Entry) (t : Entry)
    (buf : List Nat) (hr : Rep g c (e :: s :: (M ++ [t]))) (hmax : 1 ≤ c.max_cache_size) :
    ∃ c', put_cart_cache g c e.cart e.frame buf = some (c', 0) ∧
      Rep g c' (s :: (M ++ [t]) ++ [{ e with data := buf.take g.CART_FRAME_SIZE }]) ∧
      c'.max_cache_size = c.max_cache_size := by
  have hmax' : ¬ c.max_cache_size ≤ 0 := by omega
  obtain ⟨hin, hslot⟩ := hr.table e (by simp)
  have hseg := hr.links
  have hnd := hr.nodup
  simp only [List.map_append, List.map_cons, List.map_nil] at hseg hnd
  simp only [List.nodup_append, List.nodup_cons, List.mem_append, List.mem_cons,
    List.mem_singleton, List.not_mem_nil, List.nodup_nil, not_false_eq_true, and_true,
    true_and, or_false, List.disjoint_cons_right, List.disjoint_append_left,
    List.disjoint_nil_right, List.disjoint_cons_left, List.disjoint_nil_left, not_or] at hnd
  obtain ⟨⟨hes, heM, het⟩, ⟨hsM, hst⟩, hM, htM⟩ := hnd
  obtain ⟨⟨x, hx, hxn, hxp⟩, hseg2⟩ := hseg
  obtain ⟨⟨z, hz, hzn, hzp⟩, -⟩ := id hseg2
  simp only [headOr] at hxp
  obtain ⟨y, hy, -, -⟩ := @seg_mid _ (s.addr :: List.map Entry.addr M) [] t.addr _ _ hseg2
  obtain ⟨hxc, hxf, hxd⟩ := hr.node_at (List.mem_cons_self _ _) hx
  have hhead : c.head = some e.addr := hr.head e (by simp)
  have htail : c.tail = some t.addr := hr.tail t (by
    rw [show e :: s :: (M ++ [t]) = (e :: s :: M) ++ [t] by simp, List.getLast?_concat]; rfl)
  have hgt : c.current_cache_size > 1 := by
    rw [hr.size]; simp only [List.length_append, List.length_cons, List.length_nil]
    push_cast; omega
  have hd : memcpy x.data buf g.CART_FRAME_SIZE = buf.take g.CART_FRAME_SIZE := by
    rw [hxd]; exact memcpy_over (hr.len e (by simp))
  refine ⟨{ c with
      head := some s.addr,
      tail := some e.addr,
      heap := (upd (upd (upd (upd (upd c.heap
        e.addr (some { x with next := some t.addr }))
        t.addr (some { y with prev := some e.addr }))
        e.addr (some { x with next := some t.addr, prev := none }))
        s.addr (some { z with next := none }))
        e.addr (some { x with next := some t.addr, prev := none,
                              data := buf.take g.CART_FRAME_SIZE })) }, ?_, ?_, rfl⟩
  · simp [put_cart_cache, hmax', hin, hslot, hgt, hhead, htail, het, deref, poke, hx, hxp, hy,
      hz, hzn, hd, upd_same, upd_other _ _ (Ne.symm het), upd_other _ _ het,
      upd_other _ _ (Ne.symm hes), upd_other _ _ hes, upd_other _ _ (Ne.symm hst),
      upd_other _ _ hst]
  · refine Rep.move _ [] (s :: (M ++ [t])) (buf.take g.CART_FRAME_SIZE) hr ?_ ?_ ?_ rfl rfl
      ?_ rfl rfl ?_
    · intro a ha
      simp only []
      rw [content_upd_other _ _ ha,
        content_upd_links _ _ z { z with next := none }
          (by rw [upd_other _ _ (Ne.symm hes), upd_other _ _ hst,
                upd_other _ _ (Ne.symm hes)]; exact hz) rfl rfl rfl,
        content_upd_other _ _ ha,
        content_upd_links _ _ y { y with prev := some e.addr }
          (by rw [upd_other _ _ (Ne.symm het)]; exact hy) rfl rfl rfl,
        content_upd_other _ _ ha]
    · simp [content, upd_same, hxc, hxf]
    · show seg _ none ((s :: (M ++ [t]) ++ [e]).map Entry.addr) none
      simp only [List.map_append, List.map_cons, List.map_nil]
      rw [seg_append]
      have hl : lastOr (s.addr :: (List.map Entry.addr M ++ [t.addr])) none = some t.addr := by
        rw [show s.addr :: (List.map Entry.addr M ++ [t.addr])
          = (s.addr :: List.map Entry.addr M) ++ [t.addr] by simp, lastOr_concat]
      simp only [headOr, hl, seg, and_true]
      constructor
      · have hseg2' : seg c.heap (some e.addr)
            ((s.addr :: List.map Entry.addr M) ++ [t.addr]) none := by
          rw [List.cons_append]; exact hseg2
        have h1 := seg_set_prev (some e.addr) hseg2' hy (by
          simp only [List.mem_cons, not_or]; exact ⟨fun h => hst h.symm, htM⟩)
        rw [List.cons_append] at h1
        have h2 := seg_set_next none h1 (by rw [upd_other _ _ hst]; exact hz) (by
          simp only [List.mem_append, List.mem_singleton, not_or]; exact ⟨hsM, hst⟩)
        refine (seg_congr ?_ _ _).2 h2
        intro a ha
        have hae : a ≠ e.addr := by
          rintro rfl
          simp only [List.mem_cons, List.mem_append, List.mem_singleton, List.not_mem_nil,
            or_false] at ha
          rcases ha with h | h | h
          · exact hes h
          · exact heM h
          · exact het h
        simp only [upd, if_neg hae]
      · exact ⟨{ x with next := some t.addr, prev := none,
                        data := buf.take g.CART_FRAME_SIZE }, upd_same _ _ _, rfl, rfl⟩
    · intro e' he'
      simp only [List.nil_append, List.cons_append, List.head?_cons, Option.mem_def,
        Option.some.injEq] at he'
      subst he'; rfl
    · simp [List.length_take]

theorem put_present_mid2 (g : Geometry) (c : Cache) (L1 : List Entry) (p e t : Entry)
    (buf : List Nat) (hr : Rep g c (L1 ++ [p] ++ [e, t])) (hmax : 1 ≤ c.max_cache_size) :
    ∃ c', put_cart_cache g c e.cart e.frame buf = some (c', 0) ∧
      Rep g c' (L1 ++ [p] ++ [t] ++ [{ e with data := buf.take g.CART_FRAME_SIZE }]) ∧
      c'.max_cache_size = c.max_cache_size := by
  have hmax' : ¬ c.max_cache_size ≤ 0 := by omega
  obtain ⟨hin, hslot⟩ := hr.table e (by simp)
  have hseg := hr.links
  have hnd := hr.nodup
  simp only [List.map_append, List.map_cons, List.map_nil] at hseg hnd
  simp only [List.nodup_append, List.nodup_cons, List.mem_append, List.mem_cons,
    List.mem_singleton, List.not_mem_nil, List.nodup_nil, not_false_eq_true, and_true,
    true_and, or_false, List.disjoint_cons_right, List.disjoint_append_left,
    List.disjoint_nil_right, List.disjoint_cons_left, List.disjoint_nil_left, not_or] at hnd
  obtain ⟨⟨hL1, hpL1⟩, het, ⟨heL1, hep⟩, htL1, htp⟩ := hnd
  obtain ⟨x, hx, hxn, hxp⟩ := seg_mid hseg
  rw [lastOr_concat] at hxn
  simp only [headOr] at hxp
  have hseg' := hseg
  rw [seg_append] at hseg'
  simp only [headOr, lastOr_concat, seg, and_true] at hseg'
  obtain ⟨hsegA, -, z, hz, hzn, hzp⟩ := hseg'
  obtain ⟨y, hy, -, hyp⟩ : ∃ y, c.heap p.addr = some y ∧
      y.next = lastOr (List.map Entry.addr L1) none ∧ y.prev = some e.addr := by
    have := @seg_mid _ (List.map Entry.addr L1) [] p.addr _ _ hsegA
    simpa [headOr] using this
  obtain ⟨hxc, hxf, hxd⟩ := hr.node_at (by simp) hx
  have htail : c.tail = some t.addr := hr.tail t (by
    rw [show L1 ++ [p] ++ [e, t] = (L1 ++ [p] ++ [e]) ++ [t] by simp, List.getLast?_concat]
    rfl)
  obtain ⟨e0, he0, hhead⟩ : ∃ e0 ∈ L1 ++ [p], c.head = some e0.addr := by
    cases hL1' : L1 with
    | nil => exact ⟨p, by simp, hr.head p (by simp [hL1'])⟩
    | cons a r => exact ⟨a, by simp, hr.head a (by simp [hL1'])⟩
  have he0e : e.addr ≠ e0.addr := by
    intro h
    simp only [List.mem_append, List.mem_singleton] at he0
    rcases he0 with h1 | h1
    · exact heL1 (h ▸ List.mem_map.2 ⟨e0, h1, rfl⟩)
    · subst h1; exact hep h
  have hgt : c.current_cache_size > 1 := by
    rw [hr.size]; simp only [List.length_append, List.length_cons, List.length_nil]
    push_cast; omega
  have hd : memcpy x.data buf g.CART_FRAME_SIZE = buf.take g.CART_FRAME_SIZE := by
    rw [hxd]; exact memcpy_over (hr.len e (by simp))
  refine ⟨{ c with
      tail := some e.addr,
      heap := (upd (upd (upd (upd (upd (upd c.heap
        t.addr (some { z with next := some p.addr }))
        p.addr (some { y with prev := some t.addr }))
        e.addr (some { x with next := some t.addr }))
        t.addr (some { z with next := some p.addr, prev := some e.addr }))
        e.addr (some { x with next := some t.addr, prev := none }))
        e.addr (some { x with next := some t.addr, prev := none,
                              data := buf.take g.CART_FRAME_SIZE })) }, ?_, ?_, rfl⟩
  · simp [put_cart_cache, hmax', hin, hslot, hgt, hhead, htail, het, he0e, deref, poke, hx, hxn,
      hxp, hy, hz, hd, upd_same, upd_other _ _ (Ne.symm het), upd_other _ _ het,
      upd_other _ _ (Ne.symm hep), upd_other _ _ hep, upd_other _ _ (Ne.symm htp),
      upd_other _ _ htp]
  · have := Rep.move ({ c with
      tail := some e.addr,
      heap := (upd (upd (upd (upd (upd (upd c.heap
        t.addr (some { z with next := some p.addr }))
        p.addr (some { y with prev := some t.addr }))
        e.addr (some { x with next := some t.addr }))
        t.addr (some { z with next := some p.addr, prev := some e.addr }))
        e.addr (some { x with next := some t.addr, prev := none }))
        e.addr (some { x with next := some t.addr, prev := none,
                              data := buf.take g.CART_FRAME_SIZE })) }) (L1 ++ [p]) [t]
      (buf.take g.CART_FRAME_SIZE) hr ?_ ?_ ?_ rfl rfl ?_ rfl rfl ?_
    · exact this
    · intro a ha
      simp only []
      rw [content_upd_other _ _ ha, content_upd_other _ _ ha,
        content_upd_links _ _ { z with next := some p.addr }
          { z with next := some p.addr, prev := some e.addr }
          (by rw [upd_other _ _ (Ne.symm het), upd_other _ _ htp, upd_same]) rfl rfl rfl,
        content_upd_other _ _ ha,
        content_upd_links _ _ y { y with prev := some t.addr }
          (by rw [upd_other _ _ (Ne.symm htp)]; exact hy) rfl rfl rfl,
        content_upd_links _ _ z { z with next := some p.addr } hz rfl rfl rfl]
    · simp [content, upd_same, hxc, hxf]
    · simp only [List.map_append, List.map_cons, List.map_nil]
      rw [seg_append, seg_append]
      simp only [headOr, lastOr_concat, seg, and_true]
      refine ⟨⟨?_, ?_⟩, ?_⟩
      · have h1 := seg_set_prev (some t.addr) hsegA hy hpL1
        refine (seg_congr ?_ _ _).2 h1
        intro a ha
        have hae : a ≠ e.addr := by
          rintro rfl
          simp only [List.mem_append, List.mem_singleton] at ha
          rcases ha with h | h
          · exact heL1 h
          · exact hep h
        have hat : a ≠ t.addr := by
          rintro rfl
          simp only [List.mem_append, List.mem_singleton] at ha
          rcases ha with h | h
          · exact htL1 h
          · exact htp h
        simp only [upd, if_neg hae, if_neg hat]
      · exact ⟨{ z with next := some p.addr, prev := some e.addr },
          by rw [upd_other _ _ (Ne.symm het), upd_other _ _ (Ne.symm het), upd_same], rfl, rfl⟩
      · exact ⟨{ x with next := some t.addr, prev := none,
                        data := buf.take g.CART_FRAME_SIZE }, upd_same _ _ _, rfl, rfl⟩
    · intro e' he'
      exact hr.head e' (by
        rw [head?_append_singleton_cons] at he' ⊢
        rw [head?_append_singleton_cons] at he'
        exact he')
    · simp [List.length_take]

theorem put_present_mid3 (g : Geometry) (c : Cache) (L1 : List Entry) (p e s : Entry)
    (M : List Entry) (t : Entry)
    (buf : List Nat) (hr : Rep g c (L1 ++ [p] ++ e :: s :: (M ++ [t])))
    (hmax : 1 ≤ c.max_cache_size) :
    ∃ c', put_cart_cache g c e.cart e.frame buf = some (c', 0) ∧
      Rep g c' (L1 ++ [p] ++ s :: (M ++ [t]) ++
        [{ e with data := buf.take g.CART_FRAME_SIZE }]) ∧
      c'.max_cache_size = c.max_cache_size := by
  have hmax' : ¬ c.max_cache_size ≤ 0 := by omega
  obtain ⟨hin, hslot⟩ := hr.table e (by simp)
  have hseg := hr.links
  have hnd := hr.nodup
  simp only [List.map_append, List.map_cons, List.map_nil] at hseg hnd
  simp only [List.nodup_append, List.nodup_cons, List.mem_append, List.mem_cons,
    List.mem_singleton, List.not_mem_nil, List.nodup_nil, not_false_eq_true, and_true,
    true_and, or_false, List.disjoint_cons_right, List.disjoint_append_left,
    List.disjoint_nil_right, List.disjoint_cons_left, List.disjoint_nil_left, not_or,
    List.disjoint_append_right] at hnd
  obtain ⟨⟨hL1, hpL1⟩, ⟨⟨hes, heM, het⟩, ⟨hsM, hst⟩, hM, htM⟩, ⟨heL1, hep⟩, ⟨hsL1, hsp⟩,
    ⟨hdisj, hpM⟩, htL1, htp⟩ := hnd
  obtain ⟨x, hx, hxn, hxp⟩ := seg_mid hseg
  rw [lastOr_concat] at hxn
  simp only [headOr] at hxp
  have hseg' := hseg
  rw [seg_append] at hseg'
  simp only [headOr, lastOr_concat, seg] at hseg'
  obtain ⟨hsegA, -, ⟨z, hz, hzn, hzp⟩, hsegB⟩ := hseg'
  have hsegS : seg c.heap (some e.addr) (s.addr :: (List.map Entry.addr M ++ [t.addr])) none :=
    ⟨⟨z, hz, hzn, hzp⟩, hsegB⟩
  obtain ⟨y, hy, -, hyp⟩ : ∃ y, c.heap p.addr = some y ∧
      y.next = lastOr (List.map Entry.addr L1) none ∧ y.prev = some e.addr := by
    have := @seg_mid _ (List.map Entry.addr L1) [] p.addr _ _ hsegA
    simpa [headOr] using this
  obtain ⟨w, hw, -, -⟩ := @seg_mid _ (s.addr :: List.map Entry.addr M) [] t.addr _ _ hsegS
  obtain ⟨hxc, hxf, hxd⟩ := hr.node_at (by simp) hx
  have htail : c.tail = some t.addr := hr.tail t (by
    rw [show L1 ++ [p] ++ e :: s :: (M ++ [t]) = (L1 ++ [p] ++ e :: s :: M) ++ [t] by simp,
      List.getLast?_concat]
    rfl)
  obtain ⟨e0, he0, hhead⟩ : ∃ e0 ∈ L1 ++ [p], c.head = some e0.addr := by
    cases hL1' : L1 with
    | nil => exact ⟨p, by simp, hr.head p (by simp [hL1'])⟩
    | cons a r => exact ⟨a, by simp, hr.head a (by simp [hL1'])⟩
  have he0e : e.addr ≠ e0.addr := by
    intro h
    simp only [List.mem_append, List.mem_singleton] at he0
    rcases he0 with h1 | h1
    · exact heL1 (h ▸ List.mem_map.2 ⟨e0, h1, rfl⟩)
    · subst h1; exact hep h
  have hgt : c.current_cache_size > 1 := by
    rw [hr.size]; simp only [List.length_append, List.length_cons, List.length_nil]
    push_cast; omega
  have hd : memcpy x.data buf g.CART_FRAME_SIZE = buf.take g.CART_FRAME_SIZE := by
    rw [hxd]; exact memcpy_over (hr.len e (by simp))
  refine ⟨{ c with
      tail := some e.addr,
      heap := (upd (upd (upd (upd (upd (upd c.heap
        s.addr (some { z with next := some p.addr }))
        p.addr (some { y with prev := some s.addr }))
        e.addr (some { x with next := some t.addr }))
        t.addr (some { w with prev := some e.addr }))
        e.addr (some { x with next := some t.addr, prev := none }))
        e.addr (some { x with next := some t.addr, prev := none,
                              data := buf.take g.CART_FRAME_SIZE })) }, ?_, ?_, rfl⟩
  · simp [put_cart_cache, hmax', hin, hslot, hgt, hhead, htail, het, he0e, deref, poke, hx, hxn,
      hxp, hy, hz, hw, hd, upd_same, upd_other _ _ (Ne.symm het), upd_other _ _ het,
      upd_other _ _ (Ne.symm hep), upd_other _ _ hep, upd_other _ _ (Ne.symm htp),
      upd_other _ _ htp, upd_other _ _ (Ne.symm hes), upd_other _ _ hes,
      upd_other _ _ (Ne.symm hsp), upd_other _ _ hsp, upd_other _ _ (Ne.symm hst),
      upd_other _ _ hst]
  · refine Rep.move _ (L1 ++ [p]) (s :: (M ++ [t])) (buf.take g.CART_FRAME_SIZE) hr
      ?_ ?_ ?_ rfl rfl ?_ rfl rfl ?_
    · intro a ha
      simp only []
      rw [content_upd_other _ _ ha, content_upd_other _ _ ha,
        content_upd_links _ _ w { w with prev := some e.addr }
          (by rw [upd_other _ _ (Ne.symm het), upd_other _ _ htp,
                upd_other _ _ (Ne.symm hst)]; exact hw) rfl rfl rfl,
        content_upd_other _ _ ha,
        content_upd_links _ _ y { y with prev := some s.addr }
          (by rw [upd_other _ _ (Ne.symm hsp)]; exact hy) rfl rfl rfl,
        content_upd_links _ _ z { z with next := some p.addr } hz rfl rfl rfl]
    · simp [content, upd_same, hxc, hxf]
    · simp only [List.map_append, List.map_cons, List.map_nil]
      rw [seg_append, seg_append]
      have hl : lastOr (List.map Entry.addr L1 ++ [p.addr] ++
          s.addr :: (List.map Entry.addr M ++ [t.addr])) none = some t.addr := by
        rw [show List.map Entry.addr L1 ++ [p.addr] ++
            s.addr :: (List.map Entry.addr M ++ [t.addr])
          = (List.map Entry.addr L1 ++ [p.addr] ++ s.addr :: List.map Entry.addr M)
            ++ [t.addr] by simp, lastOr_concat]
      simp only [headOr, lastOr_concat, hl]
      refine ⟨⟨?_, ?_⟩, ?_⟩
      · have h1 := seg_set_prev (some s.addr) hsegA hy hpL1
        refine (seg_congr ?_ _ _).2 h1
        intro a ha
        have hae : a ≠ e.addr := by
          rintro rfl
          simp only [List.mem_append, List.mem_singleton] at ha
          rcases ha with h | h
          · exact heL1 h
          · exact hep h
        have hat : a ≠ t.addr := by
          rintro rfl
          simp only [List.mem_append, List.mem_singleton] at ha
          rcases ha with h | h
          · exact htL1 h
          · exact htp h
        have has : a ≠ s.addr := by
          rintro rfl
          simp only [List.mem_append, List.mem_singleton] at ha
          rcases ha with h | h
          · exact hsL1 h
          · exact hsp h
        simp only [upd, if_neg hae, if_neg hat, if_neg has]
      · have h1 := seg_set_next (some p.addr) hsegS hz (by
          simp only [List.mem_append, List.mem_singleton, not_or]; exact ⟨hsM, hst⟩)
        have h1' : seg (upd c.heap s.addr (some { z with next := some p.addr })) (some p.addr)
            ((s.addr :: List.map Entry.addr M) ++ [t.addr]) none := by
          rw [List.cons_append]; exact h1
        have h2 := seg_set_prev (some e.addr) h1'
          (by rw [upd_other _ _ (Ne.symm hst)]; exact hw) (by
            simp only [List.mem_cons, not_or]; exact ⟨fun h => hst h.symm, htM⟩)
        rw [List.cons_append] at h2
        refine (seg_congr ?_ _ _).2 h2
        · intro a ha
          have hae : a ≠ e.addr := by
            rintro rfl
            simp only [List.mem_cons, List.mem_append, List.mem_singleton, List.not_mem_nil,
              or_false] at ha
            rcases ha with h | h | h
            · exact hes h
            · exact heM h
            · exact het h
          have hap : a ≠ p.addr := by
            rintro rfl
            simp only [List.mem_cons, List.mem_append, List.mem_singleton, List.not_mem_nil,
              or_false] at ha
            rcases ha with h | h | h
            · exact hsp h.symm
            · exact hpM h
            · exact htp h.symm
          simp only [upd, if_neg hae, if_neg hap]
      · simp only [seg, headOr, and_true]
        exact ⟨{ x with next := some t.addr, prev := none,
                        data := buf.take g.CART_FRAME_SIZE }, upd_same _ _ _, rfl, rfl⟩
    · intro e' he'
      exact hr.head e' (by
        rw [List.append_assoc (L1 ++ [p]), head?_append_singleton_cons] at he'
        rw [head?_append_singleton_cons]
        exact he')
    · simp [List.length_take]

theorem put_present (g : Geometry) (c : Cache) (L1 : List Entry) (e : Entry)
    (L2 : List Entry) (buf : List Nat) (hr : Rep g c (L1 ++ e :: L2))
    (hmax : 1 ≤ c.max_cache_size) :
    ∃ c', put_cart_cache g c e.cart e.frame buf = some (c', 0) ∧
      Rep g c' (L1 ++ L2 ++ [{ e with data := buf.take g.CART_FRAME_SIZE }]) ∧
      c'.max_cache_size = c.max_cache_size := by
  cases L2 with
  | nil =>
    obtain ⟨c', h1, h2, h3⟩ := put_present_tail g c L1 e buf hr hmax
    exact ⟨c', h1, by simpa using h2, h3⟩
  | cons s L2' =>
    rcases List.eq_nil_or_concat L1 with rfl | ⟨L1', p, hL1⟩
    · rcases List.eq_nil_or_concat L2' with rfl | ⟨M, t, hL2⟩
      · obtain ⟨c', h1, h2, h3⟩ := put_present_head2 g c e s buf hr hmax
        exact ⟨c', h1, by simpa using h2, h3⟩
      · rw [List.concat_eq_append] at hL2
        subst hL2
        obtain ⟨c', h1, h2, h3⟩ := put_present_head3 g c e s M t buf hr hmax
        exact ⟨c', h1, by simpa using h2, h3⟩
    · rw [List.concat_eq_append] at hL1
      subst hL1
      rcases List.eq_nil_or_concat L2' with rfl | ⟨M, t, hL2⟩
      · obtain ⟨c', h1, h2, h3⟩ := put_present_mid2 g c L1' p e s buf hr hmax
        exact ⟨c', h1, by simpa using h2, h3⟩
      · rw [List.concat_eq_append] at hL2
        subst hL2
        obtain ⟨c', h1, h2, h3⟩ := put_present_mid3 g c L1' p e s M t buf hr hmax
        exact ⟨c', h1, by simpa using h2, h3⟩

theorem spec_delete_absOf (L : List Entry) (i j : Nat) :
    spec_delete (absOf L) (i, j) = absOf (without L i j) := by
  unfold spec_delete absOf without
  induction L with
  | nil => rfl
  | cons e r ih =>
    simp only [List.map_cons, List.filter_cons, ih]
    by_cases h : e.cart = i ∧ e.frame = j
    · simp [h]
    · have h' : ¬ ((e.cart, e.frame) = (i, j)) := by
        simpa only [Prod.mk.injEq] using h
      simp [h, h']

theorem spec_get_absOf (L : List Entry) (i j : Nat) :
    spec_get (absOf L) (i, j) = (lookup L i j).map Entry.data := by
  unfold spec_get absOf lookup
  induction L with
  | nil => rfl
  | cons e r ih =>
    simp only [List.map_cons, List.find?_cons]
    by_cases h : e.cart = i ∧ e.frame = j
    · simp [h]
    · have h' : ¬ ((e.cart, e.frame) = (i, j)) := by
        simpa only [Prod.mk.injEq] using h
      simp only [h, h', decide_False]
      exact ih

theorem Rep.lookup_none {g : Geometry} {c : Cache} {L : List Entry} (hr : Rep g c L)
    {i j : Nat} (h : c.filled_cache_frames i j = none) : lookup L i j = none := by
  unfold lookup
  rw [List.find?_eq_none]
  intro e he
  simp only [decide_eq_true_eq]
  rintro ⟨rfl, rfl⟩
  rw [(hr.table e he).2] at h
  simp at h

theorem Rep.lookup_some {g : Geometry} {c : Cache} {L : List Entry} (hr : Rep g c L)
    {e : Entry} (he : e ∈ L) : lookup L e.cart e.frame = some e := by
  unfold lookup
  cases hf : L.find? (fun e' => decide (e'.cart = e.cart ∧ e'.frame = e.frame)) with
  | none =>
    rw [List.find?_eq_none] at hf
    have := hf e he
    simp at this
  | some e' =>
    have h1 := List.find?_some hf
    have h2 := List.mem_of_find?_eq_some hf
    simp only [decide_eq_true_eq] at h1
    rw [hr.key_inj h2 he h1.1 h1.2]

/-- What a lookup in a represented cache finds: the bytes of the key's entry in the recency
list. -/
theorem Rep.cached_bytes_eq {g : Geometry} {c : Cache} {L : List Entry} (hr : Rep g c L)
    {i j : Nat} (hin : inTable g i j) :
    cached_bytes g c i j = spec_get (absOf L) (i, j) := by
  rw [spec_get_absOf]
  unfold cached_bytes get_cart_cache
  rw [if_pos hin]
  cases hs : c.filled_cache_frames i j with
  | none => simp [hr.lookup_none hs]
  | some a =>
    obtain ⟨e, he, rfl, rfl, rfl⟩ := hr.slot i j a hs
    obtain ⟨x, hx, -, -, hd⟩ := content_eq_some (hr.node e he)
    simp [hr.lookup_some he, hx, hd]

theorem absOf_append (L1 L2 : List Entry) : absOf (L1 ++ L2) = absOf L1 ++ absOf L2 := by
  simp [absOf]

theorem absOf_tail (L : List Entry) : absOf L.tail = (absOf L).tail := by
  cases L <;> simp [absOf]

theorem absOf_length (L : List Entry) : (absOf L).length = L.length := by
  simp [absOf]

/-- `put_cart_cache` on a represented cache, for a key of the table: the call is defined,
returns 0, and the new state represents the list that the specification's `put` yields. -/
theorem put_refines (g : Geometry) (c : Cache) (L : List Entry) (i j : Nat) (buf : List Nat)
    (hr : Rep g c L)
    (hg : g.CART_MAX_CARTRIDGES ≤ 65536 ∧ g.CART_CARTRIDGE_SIZE ≤ 65536)
    (hin : inTable g i j) :
    ∃ c' L', put_cart_cache g c i j buf = some (c', 0) ∧ Rep g c' L' ∧
      absOf L' = spec_put c.max_cache_size g.CART_FRAME_SIZE (absOf L) (i, j) buf ∧
      c'.max_cache_size = c.max_cache_size := by
  by_cases hmax : c.max_cache_size ≤ 0
  · exact ⟨c, L, by simp [put_cart_cache, hmax], hr, by simp [spec_put, hmax], rfl⟩
  · have hmax1 : 1 ≤ c.max_cache_size := by omega
    cases hs : c.filled_cache_frames i j with
    | none =>
      obtain ⟨c', h1, h2, h3⟩ := put_absent g c L i j buf hr hg hmax1 hin hs
      refine ⟨c', _, h1, h2, ?_, h3⟩
      have hget : spec_get (absOf L) (i, j) = none := by
        rw [spec_get_absOf, hr.lookup_none hs]; rfl
      have hdel : ∀ L0 : List Entry, (∀ e ∈ L0, e ∈ L) →
          spec_delete (absOf L0) (i, j) = absOf L0 := by
        intro L0 hL0
        rw [spec_delete_absOf]
        congr 1
        unfold without
        rw [List.filter_eq_self]
        intro e he
        simp only [decide_not, Bool.not_eq_true', decide_eq_false_iff_not]
        rintro ⟨rfl, rfl⟩
        have := (hr.table e (hL0 e he)).2
        rw [hs] at this
        simp at this
      simp only [spec_put, hmax, if_false, hget, true_and, absOf_length]
      by_cases hfull : (L.length : Int) < c.max_cache_size
      · have : ¬ c.max_cache_size ≤ (L.length : Int) := by omega
        rw [if_pos hfull, if_neg this, hdel L (fun _ h => h), absOf_append]
        rfl
      · have : c.max_cache_size ≤ (L.length : Int) := by omega
        rw [if_neg hfull, if_pos this, ← absOf_tail,
          hdel L.tail (fun _ h => List.mem_of_mem_tail h), absOf_append]
        rfl
    | some a =>
      obtain ⟨e, he, rfl, rfl, rfl⟩ := hr.slot i j a hs
      obtain ⟨L1, L2, rfl⟩ := List.append_of_mem he
      obtain ⟨c', h1, h2, h3⟩ := put_present g c L1 e L2 buf hr hmax1
      refine ⟨c', _, h1, h2, ?_, h3⟩
      have hget : spec_get (absOf (L1 ++ e :: L2)) (e.cart, e.frame) ≠ none := by
        rw [spec_get_absOf, hr.lookup_some he]; simp
      have hA1 : (if spec_get (absOf (L1 ++ e :: L2)) (e.cart, e.frame) = none ∧
          c.max_cache_size ≤ ((absOf (L1 ++ e :: L2)).length : Int)
          then (absOf (L1 ++ e :: L2)).tail else absOf (L1 ++ e :: L2))
          = absOf (L1 ++ e :: L2) := if_neg (fun h => hget h.1)
      unfold spec_put
      simp only [hmax, if_false]
      rw [hA1, spec_delete_absOf, hr.without_present, absOf_append]
      rfl

theorem Rep.init (g : Geometry) (c0 : Cache) : Rep g (init_cart_cache c0).1 [] := by
  refine ⟨List.nodup_nil, trivial, ?_, ?_, ?_, ?_, ?_, rfl, ?_, ?_⟩
  · intro e he; simp at he
  · intro e he; simp at he
  · intro i j a h; simp [init_cart_cache] at h
  · intro e he; simp at he
  · intro e he; simp at he
  · intro e he; simp at he
  · intro e he; simp at he

theorem step_refines (g : Geometry) (c : Cache) (L : List Entry) (op : CacheOp)
    (hr : Rep g c L) (hg : g.index16) (hin : inTable g op.key.1 op.key.2) :
    ∃ c' L', cache_step g c op = some c' ∧ Rep g c' L' ∧
      absOf L' = spec_step c.max_cache_size g.CART_FRAME_SIZE (absOf L) op ∧
      c'.max_cache_size = c.max_cache_size := by
  cases op with
  | put i j buf =>
    obtain ⟨c', L', h1, h2, h3, h4⟩ := put_refines g c L i j buf hr hg hin
    exact ⟨c', L', by simp [cache_step, h1], h2, h3, h4⟩
  | get i j =>
    refine ⟨c, L, ?_, hr, rfl, rfl⟩
    simp only [CacheOp.key] at hin
    simp [cache_step, get_cart_cache, hin]
  | delete i j =>
    obtain ⟨c', r, h1, h2, h3, -, -, -, -⟩ := delete_refines g c L i j hr hin
    refine ⟨c', _, by simp [cache_step, h1], h2, ?_, h3⟩
    simp only [spec_step, spec_delete_absOf]

/-- Refinement of runs: from a represented state, every sequence of operations on keys of the
table is defined, and the final state represents the recency list that the specification
computes. -/
theorem run_refines (g : Geometry) (hg : g.index16) (ops : List CacheOp) :
    ∀ (c : Cache) (L : List Entry), Rep g c L → ops_in_table g ops →
      ∃ c' L', cache_run g c ops = some c' ∧ Rep g c' L' ∧
        absOf L' = ops.foldl (spec_step c.max_cache_size g.CART_FRAME_SIZE) (absOf L) ∧
        c'.max_cache_size = c.max_cache_size := by
  induction ops with
  | nil => intro c L hr _; exact ⟨c, L, rfl, hr, rfl, rfl⟩
  | cons op ops ih =>
    intro c L hr hops
    obtain ⟨c1, L1, h1, h2, h3, h4⟩ :=
      step_refines g c L op hr hg (hops op (List.mem_cons_self _ _))
    obtain ⟨c2, L2, k1, k2, k3, k4⟩ :=
      ih c1 L1 h2 (fun o ho => hops o (List.mem_cons_of_mem _ ho))
    refine ⟨c2, L2, ?_, k2, ?_, by rw [k4, h4]⟩
    · simp only [cache_run, h1]; exact k1
    · rw [k3, h3, h4]; rfl

theorem cache_run_append (g : Geometry) (ops1 ops2 : List CacheOp) :
    ∀ c : Cache, cache_run g c (ops1 ++ ops2)
      = (cache_run g c ops1).bind fun c' => cache_run g c' ops2 := by
  induction ops1 with
  | nil => intro c; rfl
  | cons op ops ih =>
    intro c
    simp only [List.cons_append, cache_run]
    cases cache_step g c op with
    | none => rfl
    | some c' => exact ih c'

theorem spec_delete_length (A : SpecCache) (k : Nat × Nat) :
    (spec_delete A k).length ≤ A.length := List.length_filter_le _ _

theorem spec_put_length (cap : Int) (n : Nat) (A : SpecCache) (k : Nat × Nat) (b : List Nat)
    (h : (A.length : Int) ≤ max cap 0) : ((spec_put cap n A k b).length : Int) ≤ max cap 0 := by
  unfold spec_put
  by_cases hc : cap ≤ 0
  · rw [if_pos hc]; exact h
  · rw [if_neg hc]
    have hmax : max cap 0 = cap := max_eq_left (by omega)
    rw [hmax] at h ⊢
    simp only [List.length_append, List.length_cons, List.length_nil]
    by_cases hA : spec_get A k = none ∧ cap ≤ (A.length : Int)
    · rw [if_pos hA]
      have h1 := spec_delete_length A.tail k
      have h2 : A.tail.length = A.length - 1 := List.length_tail A
      push_cast
      omega
    · rw [if_neg hA]
      by_cases hg : spec_get A k = none
      · have h1 := spec_delete_length A k
        have : ¬ cap ≤ (A.length : Int) := fun h' => hA ⟨hg, h'⟩
        push_cast
        omega
      · have h1 : (spec_delete A k).length < A.length := by
          unfold spec_delete
          apply List.length_filter_lt_length_iff_exists.2
          unfold spec_get at hg
          cases hf : A.find? (fun p => decide (p.1 = k)) with
          | none => rw [hf] at hg; simp at hg
          | some p =>
            refine ⟨p, List.mem_of_find?_eq_some hf, ?_⟩
            have := List.find?_some hf
            simpa using this
        push_cast
        omega

theorem spec_step_length (cap : Int) (n : Nat) (A : SpecCache) (op : CacheOp)
    (h : (A.length : Int) ≤ max cap 0) :
    ((spec_step cap n A op).length : Int) ≤ max cap 0 := by
  cases op with
  | put i j buf => exact spec_put_length cap n A (i, j) buf h
  | get i j => exact h
  | delete i j =>
    have := spec_delete_length A (i, j)
    simp only [spec_step]
    omega

theorem spec_fold_length (cap : Int) (n : Nat) (ops : List CacheOp) :
    ∀ A : SpecCache, (A.length : Int) ≤ max cap 0 →
      (((ops.foldl (spec_step cap n) A).length : Nat) : Int) ≤ max cap 0 := by
  induction ops with
  | nil => intro A h; exact h
  | cons op ops ih =>
    intro A h
    exact ih _ (spec_step_length cap n A op h)

theorem spec_get_put_same (cap : Int) (n : Nat) (A : SpecCache) (k : Nat × Nat) (b : List Nat)
    (h : 0 < cap) : spec_get (spec_put cap n A k b) k = some (b.take n) := by
  unfold spec_put spec_get
  rw [if_neg (by omega)]
  simp only []
  rw [List.find?_append]
  have : ∀ B : SpecCache, (spec_delete B k).find? (fun p => decide (p.1 = k)) = none := by
    intro B
    rw [List.find?_eq_none]
    intro p hp
    unfold spec_delete at hp
    have := (List.mem_filter.1 hp).2
    simpa using this
  rw [this]
  simp

theorem Rep.filled_count_eq {g : Geometry} {c : Cache} {L : List Entry} (hr : Rep g c L) :
    filled_count g c = L.length := by
  have hnd : (L.map Entry.key).Nodup := by
    refine List.Nodup.map_on ?_ (List.Nodup.of_map _ hr.nodup)
    intro x hx y hy hxy
    simp only [Entry.key, Prod.mk.injEq] at hxy
    exact hr.key_inj hx hy hxy.1 hxy.2
  have hset : (Finset.range g.CART_MAX_CARTRIDGES ×ˢ Finset.range g.CART_CARTRIDGE_SIZE).filter
      (fun ij => c.filled_cache_frames ij.1 ij.2 ≠ none) = (L.map Entry.key).toFinset := by
    ext ⟨i, j⟩
    simp only [Finset.mem_filter, Finset.mem_product, Finset.mem_range, List.mem_toFinset,
      List.mem_map]
    constructor
    · rintro ⟨-, h⟩
      cases hs : c.filled_cache_frames i j with
      | none => exact absurd hs h
      | some a =>
        obtain ⟨e, he, -, h2, h3⟩ := hr.slot i j a hs
        exact ⟨e, he, by simp [Entry.key, h2, h3]⟩
    · rintro ⟨e, he, hk⟩
      simp only [Entry.key, Prod.mk.injEq] at hk
      obtain ⟨h1, h2⟩ := hr.table e he
      rw [hk.1, hk.2] at h1 h2
      exact ⟨h1, by rw [h2]; simp⟩
  unfold filled_count
  rw [hset, List.toFinset_card_of_nodup hnd, List.length_map]

/-- C2: get after put. In every cache state reached after `init_cart_cache` with capacity
at least 1 by put, get and delete operations on keys of the table, `put_cart_cache` of a
key of the table with a frame buffer `b` returns 0, and `get_cart_cache` of that key right
afterwards finds a node whose bytes equal `b`, whether the key was new, was present, or its
insertion evicted an entry. -/
theorem get_after_put (g : Geometry) (hg : g.index16) (c0 c : Cache) (ops : List CacheOp)
    (hcap : 1 ≤ (init_cart_cache c0).1.max_cache_size)
    (hops : ops_in_table g ops)
    (hrun : cache_run g (init_cart_cache c0).1 ops = some c)
    (i j : Nat) (hin : inTable g i j) (b : List Nat) (hb : b.length = g.CART_FRAME_SIZE) :
    ∃ c', put_cart_cache g c i j b = some (c', 0) ∧
      (∃ a, get_cart_cache g c' i j = some (some a)) ∧
      cached_bytes g c' i j = some b := by
  obtain ⟨c1, L, h1, h2, -, h4⟩ := run_refines g hg ops _ [] (Rep.init g c0) hops
  rw [hrun] at h1
  simp only [Option.some.injEq] at h1
  subst h1
  obtain ⟨c', L', k1, k2, k3, -⟩ := put_refines g c L i j b h2 hg hin
  have hbytes : cached_bytes g c' i j = some b := by
    rw [k2.cached_bytes_eq hin, k3, spec_get_put_same _ _ _ _ _ (by omega),
      List.take_of_length_le (by omega)]
  refine ⟨c', k1, ?_, hbytes⟩
  unfold cached_bytes at hbytes
  cases hget : get_cart_cache g c' i j with
  | none => rw [hget] at hbytes; simp at hbytes
  | some p =>
    cases p with
    | none => rw [hget] at hbytes; simp at hbytes
    | some a => exact ⟨a, rfl⟩

/-- Witness of `get_after_put`: capacity 2, after `put(0,0,"AA")` and `put(0,1,"BB")` the
key `(0,2)` is put with `"CC"`, which evicts an entry. -/
theorem get_after_put_witness :
    (cacheGeometry.index16 ∧
      1 ≤ (init_cart_cache (set_cart_cache_size Cache.zero 2).1).1.max_cache_size ∧
      ops_in_table cacheGeometry [.put 0 0 [65, 65], .put 0 1 [66, 66]] ∧
      cache_run cacheGeometry (init_cart_cache (set_cart_cache_size Cache.zero 2).1).1
        [.put 0 0 [65, 65], .put 0 1 [66, 66]] = some cacheAB ∧
      inTable cacheGeometry 0 2 ∧ [67, 67].length = cacheGeometry.CART_FRAME_SIZE) ∧
    ∃ c', put_cart_cache cacheGeometry cacheAB 0 2 [67, 67] = some (c', 0) ∧
      (∃ a, get_cart_cache cacheGeometry c' 0 2 = some (some a)) ∧
      cached_bytes cacheGeometry c' 0 2 = some [67, 67] :=
  have hops : ops_in_table cacheGeometry [.put 0 0 [65, 65], .put 0 1 [66, 66]] := by
    intro op hop
    simp only [List.mem_cons, List.mem_singleton, List.not_mem_nil, or_false] at hop
    rcases hop with rfl | rfl <;> decide
  ⟨⟨by decide, by decide, hops, rfl, by decide, by decide⟩,
    get_after_put cacheGeometry (by decide) (set_cart_cache_size Cache.zero 2).1 cacheAB
      [.put 0 0 [65, 65], .put 0 1 [66, 66]] (by decide) hops rfl 0 2 (by decide) [67, 67]
      (by decide)⟩

theorem toInt32_bounds {n : Nat} (h1 : 1 ≤ n) (h2 : n < 2 ^ 32) :
    toInt32 n ≠ 0 ∧ toInt32 n ≤ (n : Int) := by
  unfold toInt32
  have hm : n % 2 ^ 32 = n := Nat.mod_eq_of_lt h2
  rw [hm]
  split
  · constructor <;> omega
  · constructor <;> omega

/-- C4: capacity bound. After `set_cart_cache_size(n)` with `n >= 1` and `init_cart_cache`,
every sequence of put, get and delete operations on keys of the table is defined, and in
the state it reaches the number of cached entries `current_cache_size` is at most `n` and
equals the number of non-empty slots of the lookup table. -/
theorem capacity_bound (g : Geometry) (hg : g.index16) (c0 : Cache) (n : Nat)
    (hn : 1 ≤ n) (hn32 : n < 2 ^ 32) (ops : List CacheOp) (hops : ops_in_table g ops) :
    ∃ c, cache_run g (init_cart_cache (set_cart_cache_size c0 n).1).1 ops = some c ∧
      c.current_cache_size ≤ (n : Int) ∧
      c.current_cache_size = (filled_count g c : Int) := by
  obtain ⟨c, L, h1, h2, h3, -⟩ := run_refines g hg ops _ [] (Rep.init g _) hops
  refine ⟨c, h1, ?_, by rw [h2.filled_count_eq, h2.size]⟩
  have hlen := spec_fold_length (init_cart_cache (set_cart_cache_size c0 n).1).1.max_cache_size
    g.CART_FRAME_SIZE ops (absOf []) (by simp [absOf])
  rw [← h3, absOf_length] at hlen
  rw [h2.size]
  obtain ⟨hne, hle⟩ := toInt32_bounds hn hn32
  have hcap : (init_cart_cache (set_cart_cache_size c0 n).1).1.max_cache_size = toInt32 n := by
    simp [init_cart_cache, set_cart_cache_size, hne]
  rw [hcap] at hlen
  have : max (toInt32 n) 0 ≤ (n : Int) := max_le hle (by omega)
  omega

/-- Witness of `capacity_bound`: capacity 2 and the three puts of the eviction scenario. -/
theorem capacity_bound_witness :
    (cacheGeometry.index16 ∧ 1 ≤ 2 ∧ 2 < 2 ^ 32 ∧
      ops_in_table cacheGeometry [.put 0 0 [65, 65], .put 0 1 [66, 66], .put 0 2 [67, 67]]) ∧
    ∃ c, cache_run cacheGeometry (init_cart_cache (set_cart_cache_size Cache.zero 2).1).1
        [.put 0 0 [65, 65], .put 0 1 [66, 66], .put 0 2 [67, 67]] = some c ∧
      c.current_cache_size ≤ ((2 : Nat) : Int) ∧
      c.current_cache_size = (filled_count cacheGeometry c : Int) :=
  ⟨⟨by decide, by decide, by decide, by decide⟩,
    capacity_bound cacheGeometry (by decide) Cache.zero 2 (by decide) (by decide)
      [.put 0 0 [65, 65], .put 0 1 [66, 66], .put 0 2 [67, 67]] (by decide)⟩

theorem spec_run_snoc (cap : Int) (n : Nat) (ops : List CacheOp) (op : CacheOp) :
    spec_run cap n (ops ++ [op]) = spec_step cap n (spec_run cap n ops) op := by
  simp [spec_run, List.foldl_append]

theorem put_age_snoc (ops : List CacheOp) (op : CacheOp) (k : Nat × Nat) :
    put_age (ops ++ [op]) k
      = if is_put_of k op then some 0 else (put_age ops k).map (· + 1) := by
  unfold put_age
  rw [List.reverse_append, List.reverse_singleton, List.singleton_append, List.findIdx?_cons]
  split
  · rfl
  · simp only [List.findIdx?_succ, zero_add]

theorem put_ordered_shift {ops : List CacheOp} {A B : SpecCache} {op : CacheOp}
    (h : put_ordered ops A) (hsub : B.Sublist A) (hno : ∀ p ∈ B, is_put_of p.1 op = false) :
    put_ordered (ops ++ [op]) B := by
  constructor
  · intro p hp
    obtain ⟨t, ht⟩ := h.1 p (hsub.subset hp)
    exact ⟨t + 1, by rw [put_age_snoc, hno p hp, ht]; rfl⟩
  · refine List.Pairwise.imp_of_mem ?_ (h.2.sublist hsub)
    intro p q hp hq hpq tp tq h1 h2
    rw [put_age_snoc, hno p hp] at h1
    rw [put_age_snoc, hno q hq] at h2
    obtain ⟨t1, ht1⟩ := h.1 p (hsub.subset hp)
    obtain ⟨t2, ht2⟩ := h.1 q (hsub.subset hq)
    rw [ht1] at h1
    rw [ht2] at h2
    simp only [Bool.false_eq_true, if_false, Option.map_some', Option.some.injEq] at h1 h2
    have := hpq t1 t2 ht1 ht2
    omega

theorem spec_run_put_ordered (cap : Int) (n : Nat) (hcap : 1 ≤ cap) (ops : List CacheOp) :
    put_ordered ops (spec_run cap n ops) := by
  induction ops using List.reverseRecOn with
  | nil => exact ⟨fun p hp => by simp [spec_run] at hp, by simp [spec_run]⟩
  | append_singleton ops op ih =>
    rw [spec_run_snoc]
    cases op with
    | get i j => exact put_ordered_shift ih (List.Sublist.refl _) (fun _ _ => rfl)
    | delete i j =>
      exact put_ordered_shift ih (List.filter_sublist _) (fun _ _ => rfl)
    | put i j b =>
      simp only [spec_step, spec_put, if_neg (show ¬ cap ≤ 0 by omega)]
      have hsub : (spec_delete (if spec_get (spec_run cap n ops) (i, j) = none ∧
          cap ≤ ((spec_run cap n ops).length : Int) then (spec_run cap n ops).tail
          else spec_run cap n ops) (i, j)).Sublist (spec_run cap n ops) := by
        refine (List.filter_sublist _).trans ?_
        split
        · exact List.tail_sublist _
        · exact List.Sublist.refl _
      have hno : ∀ p ∈ spec_delete (if spec_get (spec_run cap n ops) (i, j) = none ∧
          cap ≤ ((spec_run cap n ops).length : Int) then (spec_run cap n ops).tail
          else spec_run cap n ops) (i, j), is_put_of p.1 (.put i j b) = false := by
        intro p hp
        have := (List.mem_filter.1 hp).2
        simp only [ne_eq, decide_not, Bool.not_eq_true', decide_eq_false_iff_not] at this
        simp only [is_put_of, decide_eq_false_iff_not]
        exact fun h => this h.symm
      have hold := put_ordered_shift ih hsub hno
      have hnew : put_age (ops ++ [.put i j b]) (i, j) = some 0 := by
        rw [put_age_snoc]; simp [is_put_of]
      constructor
      · intro p hp
        simp only [List.mem_append, List.mem_singleton] at hp
        rcases hp with hp | rfl
        · exact hold.1 p hp
        · exact ⟨0, hnew⟩
      · rw [List.pairwise_append]
        refine ⟨hold.2, List.pairwise_singleton _ _, ?_⟩
        intro p hp q hq tp tq h1 h2
        simp only [List.mem_singleton] at hq
        subst hq
        rw [hnew] at h2
        simp only [Option.some.injEq] at h2
        rw [put_age_snoc, hno p hp] at h1
        obtain ⟨t1, ht1⟩ := ih.1 p (hsub.subset hp)
        rw [ht1] at h1
        simp only [Bool.false_eq_true, if_false, Option.map_some', Option.some.injEq] at h1
        omega

theorem spec_run_without_gets (cap : Int) (n : Nat) (ops : List CacheOp) :
    spec_run cap n (without_gets ops) = spec_run cap n ops := by
  unfold spec_run
  generalize ([] : SpecCache) = A
  induction ops generalizing A with
  | nil => rfl
  | cons op ops ih =>
    cases op with
    | get i j => simpa [without_gets, spec_step] using ih A
    | put i j b => simpa [without_gets] using ih _
    | delete i j => simpa [without_gets] using ih _

theorem Rep.cached_lookup {g : Geometry} {c : Cache} {L : List Entry} (hr : Rep g c L)
    {i j : Nat} (hin : inTable g i j) :
    cached_bytes g c i j = (lookup L i j).map Entry.data := by
  rw [hr.cached_bytes_eq hin, spec_get_absOf]

theorem lookup_mem {L : List Entry} {i j : Nat} {e : Entry} (h : lookup L i j = some e) :
    e ∈ L ∧ e.cart = i ∧ e.frame = j := by
  unfold lookup at h
  have h1 := List.find?_some h
  simp only [decide_eq_true_eq] at h1
  exact ⟨List.mem_of_find?_eq_some h, h1.1, h1.2⟩

theorem lookup_cons_ne {e : Entry} {k l : Nat} (h : ¬ (e.cart = k ∧ e.frame = l))
    (L : List Entry) : lookup (e :: L) k l = lookup L k l := by
  unfold lookup
  rw [List.find?_cons_of_neg]
  simpa using h

theorem lookup_snoc_ne {e : Entry} {k l : Nat} (h : ¬ (e.cart = k ∧ e.frame = l))
    (L : List Entry) : lookup (L ++ [e]) k l = lookup L k l := by
  unfold lookup
  rw [List.find?_append, List.find?_cons_of_neg, List.find?_nil, Option.or_none]
  simpa using h

/-- C3: eviction of the least recently put entry. In a cache state reached after
`init_cart_cache` with capacity `n >= 1` by put, get and delete operations, when the cache
holds `n` entries and `put_cart_cache` is called with a key `(i, j)` that is not cached, the
call returns 0 and removes exactly one entry, the victim `(vi, vj)`: it was cached before and
is not afterwards, the new key is cached with the given bytes, every other key has the same
lookup result as before, and the entry count is unchanged. The victim is the cached key whose
most recent put is the oldest: every other cached key was put more recently (`put_age`
counts the operations since the last put of a key). It is the key at the old end of the
specification's recency list, which is the same for the sequence with all get calls
removed. -/
theorem lru_eviction (g : Geometry) (hg : g.index16) (c0 c : Cache) (ops : List CacheOp)
    (hcap : 1 ≤ (init_cart_cache c0).1.max_cache_size)
    (hops : ops_in_table g ops)
    (hrun : cache_run g (init_cart_cache c0).1 ops = some c)
    (i j : Nat) (hin : inTable g i j) (b : List Nat)
    (hnew : cached_bytes g c i j = none)
    (hfull : c.current_cache_size = (init_cart_cache c0).1.max_cache_size) :
    ∃ c' vi vj, put_cart_cache g c i j b = some (c', 0) ∧
      inTable g vi vj ∧ cached_bytes g c vi vj ≠ none ∧
      cached_bytes g c' vi vj = none ∧
      cached_bytes g c' i j = some (b.take g.CART_FRAME_SIZE) ∧
      (∀ k l, inTable g k l → (k, l) ≠ (vi, vj) → (k, l) ≠ (i, j) →
        cached_bytes g c' k l = cached_bytes g c k l) ∧
      c'.current_cache_size = c.current_cache_size ∧
      (∀ k l, inTable g k l → (k, l) ≠ (vi, vj) → cached_bytes g c k l ≠ none →
        ∃ tv t, put_age ops (vi, vj) = some tv ∧ put_age ops (k, l) = some t ∧ t < tv) ∧
      spec_victim (init_cart_cache c0).1.max_cache_size g.CART_FRAME_SIZE ops
        = some (vi, vj) ∧
      spec_victim (init_cart_cache c0).1.max_cache_size g.CART_FRAME_SIZE (without_gets ops)
        = some (vi, vj) := by
  obtain ⟨c1, L, h1, hrep, habs, hmaxeq⟩ := run_refines g hg ops _ [] (Rep.init g c0) hops
  rw [hrun] at h1
  simp only [Option.some.injEq] at h1
  subst h1
  have hspec : absOf L
      = spec_run (init_cart_cache c0).1.max_cache_size g.CART_FRAME_SIZE ops := habs
  have hkey : c.filled_cache_frames i j = none := by
    cases hs : c.filled_cache_frames i j with
    | none => rfl
    | some a =>
      obtain ⟨e, he, -, rfl, rfl⟩ := hrep.slot i j a hs
      rw [hrep.cached_lookup hin, hrep.lookup_some he] at hnew
      simp at hnew
  have hlen : (L.length : Int) = c.max_cache_size := by
    rw [← hrep.size, hfull, hmaxeq]
  have hcap' : 1 ≤ c.max_cache_size := by rw [hmaxeq]; exact hcap
  cases L with
  | nil => simp only [List.length_nil, Nat.cast_zero] at hlen; omega
  | cons e0 L2 =>
    obtain ⟨c', k1, k2, -⟩ := put_absent g c (e0 :: L2) i j b hrep hg hcap' hin hkey
    rw [if_neg (by omega)] at k2
    simp only [List.tail_cons] at k2
    have hnd := hrep.nodup
    simp only [List.map_cons, List.nodup_cons] at hnd
    obtain ⟨hin0, hslot0⟩ := hrep.table e0 (List.mem_cons_self _ _)
    have hk0 : ¬ (e0.cart = i ∧ e0.frame = j) := by
      rintro ⟨rfl, rfl⟩
      rw [hslot0] at hkey
      simp at hkey
    have hL2 : ∀ e' ∈ L2, ¬ (e'.cart = e0.cart ∧ e'.frame = e0.frame) := by
      intro e' he' h
      have := hrep.key_inj (List.mem_cons_of_mem _ he') (List.mem_cons_self _ _) h.1 h.2
      subst this
      exact hnd.1 (List.mem_map.2 ⟨_, he', rfl⟩)
    have hord := spec_run_put_ordered _ g.CART_FRAME_SIZE hcap ops
    rw [← hspec] at hord
    have hv : spec_victim (init_cart_cache c0).1.max_cache_size g.CART_FRAME_SIZE ops
        = some (e0.cart, e0.frame) := by
      unfold spec_victim
      rw [← hspec]
      rfl
    refine ⟨c', e0.cart, e0.frame, k1, hin0, ?_, ?_, ?_, ?_, ?_, ?_, hv, ?_⟩
    · rw [hrep.cached_lookup hin0, hrep.lookup_some (List.mem_cons_self _ _)]
      simp
    · rw [k2.cached_lookup hin0, lookup_snoc_ne (fun h => hk0 ⟨h.1.symm, h.2.symm⟩)]
      cases hl : lookup L2 e0.cart e0.frame with
      | none => rfl
      | some e' =>
        obtain ⟨hm, h1, h2⟩ := lookup_mem hl
        exact absurd ⟨h1, h2⟩ (hL2 e' hm)
    · rw [k2.cached_lookup hin]
      have := k2.lookup_some (List.mem_append_right L2 (List.mem_singleton_self
        ({ addr := c.brk, cart := i, frame := j, data := b.take g.CART_FRAME_SIZE } : Entry)))
      rw [this]
      rfl
    · intro k l hkl hne0 hnei
      rw [k2.cached_lookup hkl, hrep.cached_lookup hkl]
      have h0 : ¬ (e0.cart = k ∧ e0.frame = l) := by
        rintro ⟨rfl, rfl⟩; exact hne0 rfl
      have hn : ¬ (i = k ∧ j = l) := by
        rintro ⟨rfl, rfl⟩; exact hnei rfl
      rw [lookup_cons_ne h0, lookup_snoc_ne hn]
    · rw [k2.size, hrep.size]
      simp
    · intro k l hkl hne0 hc
      rw [hrep.cached_lookup hkl] at hc
      cases hl : lookup (e0 :: L2) k l with
      | none => rw [hl] at hc; simp at hc
      | some e' =>
        obtain ⟨hmem, rfl, rfl⟩ := lookup_mem hl
        have hmem2 : e' ∈ L2 := by
          simp only [List.mem_cons] at hmem
          rcases hmem with rfl | h
          · exact absurd rfl hne0
          · exact h
        obtain ⟨tv, htv⟩ := hord.1 ((e0.cart, e0.frame), e0.data) (by simp [absOf])
        obtain ⟨t, ht⟩ := hord.1 ((e'.cart, e'.frame), e'.data)
          (List.mem_map.2 ⟨e', hmem, rfl⟩)
        have hp := hord.2
        simp only [absOf, List.map_cons, List.pairwise_cons] at hp
        have := hp.1 ((e'.cart, e'.frame), e'.data) (List.mem_map.2 ⟨e', hmem2, rfl⟩) tv t
          htv ht
        exact ⟨tv, t, htv, ht, this⟩
    · rw [← hv]
      unfold spec_victim
      rw [spec_run_without_gets]

set_option maxRecDepth 1000000 in
/-- Witness of `lru_eviction`: capacity 2, after `put(0,0,"AA")`, `get(0,0)` and
`put(0,1,"BB")` the cache is full and `put(0,2,"CC")` removes an entry; evaluating the code
shows that it is `(0,0)`, in spite of the get, and that `(0,1)` keeps `"BB"`. -/
theorem lru_eviction_witness :
    (cacheGeometry.index16 ∧
      1 ≤ (init_cart_cache (set_cart_cache_size Cache.zero 2).1).1.max_cache_size ∧
      ops_in_table cacheGeometry [.put 0 0 [65, 65], .get 0 0, .put 0 1 [66, 66]] ∧
      cache_run cacheGeometry (init_cart_cache (set_cart_cache_size Cache.zero 2).1).1
        [.put 0 0 [65, 65], .get 0 0, .put 0 1 [66, 66]] = some cacheAgB ∧
      inTable cacheGeometry 0 2 ∧ cached_bytes cacheGeometry cacheAgB 0 2 = none ∧
      cacheAgB.current_cache_size
        = (init_cart_cache (set_cart_cache_size Cache.zero 2).1).1.max_cache_size) ∧
    (∃ c' vi vj, put_cart_cache cacheGeometry cacheAgB 0 2 [67, 67] = some (c', 0) ∧
      inTable cacheGeometry vi vj ∧ cached_bytes cacheGeometry cacheAgB vi vj ≠ none ∧
      cached_bytes cacheGeometry c' vi vj = none ∧
      cached_bytes cacheGeometry c' 0 2 = some ([67, 67].take cacheGeometry.CART_FRAME_SIZE) ∧
      (∀ k l, inTable cacheGeometry k l → (k, l) ≠ (vi, vj) → (k, l) ≠ (0, 2) →
        cached_bytes cacheGeometry c' k l = cached_bytes cacheGeometry cacheAgB k l) ∧
      c'.current_cache_size = cacheAgB.current_cache_size ∧
      (∀ k l, inTable cacheGeometry k l → (k, l) ≠ (vi, vj) →
        cached_bytes cacheGeometry cacheAgB k l ≠ none →
        ∃ tv t, put_age [.put 0 0 [65, 65], .get 0 0, .put 0 1 [66, 66]] (vi, vj) = some tv ∧
          put_age [.put 0 0 [65, 65], .get 0 0, .put 0 1 [66, 66]] (k, l) = some t ∧ t < tv) ∧
      spec_victim (init_cart_cache (set_cart_cache_size Cache.zero 2).1).1.max_cache_size
        cacheGeometry.CART_FRAME_SIZE [.put 0 0 [65, 65], .get 0 0, .put 0 1 [66, 66]]
        = some (vi, vj) ∧
      spec_victim (init_cart_cache (set_cart_cache_size Cache.zero 2).1).1.max_cache_size
        cacheGeometry.CART_FRAME_SIZE
        (without_gets [.put 0 0 [65, 65], .get 0 0, .put 0 1 [66, 66]]) = some (vi, vj)) ∧
    (put_cart_cache cacheGeometry cacheAgB 0 2 [67, 67]).map (fun r =>
        (r.2, cached_bytes cacheGeometry r.1 0 0, cached_bytes cacheGeometry r.1 0 1,
          cached_bytes cacheGeometry r.1 0 2))
      = some (0, none, some [66, 66], some [67, 67]) :=
  have hops : ops_in_table cacheGeometry [.put 0 0 [65, 65], .get 0 0, .put 0 1 [66, 66]] := by
    intro op hop
    simp only [List.mem_cons, List.mem_singleton, List.not_mem_nil, or_false] at hop
    rcases hop with rfl | rfl | rfl <;> decide
  ⟨⟨by decide, by decide, hops, rfl, by decide, by decide, by decide⟩,
    lru_eviction cacheGeometry (by decide) (set_cart_cache_size Cache.zero 2).1 cacheAgB
      [.put 0 0 [65, 65], .get 0 0, .put 0 1 [66, 66]] (by decide) hops rfl 0 2 (by decide)
      [67, 67] (by decide) (by decide),
    by decide⟩

/-! ## Theorems: seek, read and write on concrete states -/

set_option maxRecDepth 1000000 in
/-- C11 fails as stated: on the open two-byte file, `cart_seek(0, 2)`, an offset that does
not exceed the size, returns `-1` like `cart_seek(0, 3)`, because the bound check is
`loc + 1 > size`; and `cart_seek(0, 4294967295)` returns 0 and sets the position to `-1`,
because the sum `loc + 1` wraps to 0 in `uint32_t`. The latter also happens on the empty file
just created. -/
theorem cart_seek_max_offset_accepted :
    results cartGeometry poweredOn
      [.copen path_a_txt, .cwrite 0 [97, 98] 2, .cseek 0 2, .cseek 0 3, .cseek 0 4294967295]
      = some [(0, []), (2, []), (-1, []), (-1, []), (0, [])] ∧
    ((after cartGeometry poweredOn
      [.copen path_a_txt, .cwrite 0 [97, 98] 2, .cseek 0 4294967295]).fs.files 0).size = 2 ∧
    ((after cartGeometry poweredOn
      [.copen path_a_txt, .cwrite 0 [97, 98] 2, .cseek 0 4294967295]).fs.files 0).current_position
      = -1 ∧
    results cartGeometry poweredOn [.copen path_a_txt, .cseek 0 4294967295]
      = some [(0, []), (0, [])] := by
  decide

set_option maxRecDepth 1000000 in
/-- C12 at its failing input, in the small geometry (stride 3) with cache capacity 1: the
file has the blocks (0,0) and (1,0) and position 0; block (0,0) is not cached and the device
stores `"ABC"` in frame 0 of cartridge 0, but `cart_read(0, buf, 4)` returns 4 with `"DBCD"`:
its first three bytes come from frame 0 of cartridge 1, the cartridge loaded last. -/
theorem cart_read_miss_wrong_cartridge :
    ((after smallGeometry poweredOnSmall
        (oneFileCalls ++ [.cwrite 0 [65, 66, 67, 68] 4, .cseek 0 0])).fs.files 0).current_position
      = 0 ∧
    ((after smallGeometry poweredOnSmall
        (oneFileCalls ++ [.cwrite 0 [65, 66, 67, 68] 4, .cseek 0 0])).fs.files 0).size = 5 ∧
    ((after smallGeometry poweredOnSmall
        (oneFileCalls ++ [.cwrite 0 [65, 66, 67, 68] 4, .cseek 0 0])).fs.files 0).data 0
      = { cart := 0, frame := 0 } ∧
    ((after smallGeometry poweredOnSmall
        (oneFileCalls ++ [.cwrite 0 [65, 66, 67, 68] 4, .cseek 0 0])).fs.files 0).data 1
      = { cart := 1, frame := 0 } ∧
    cached_bytes smallGeometry (after smallGeometry poweredOnSmall
        (oneFileCalls ++ [.cwrite 0 [65, 66, 67, 68] 4, .cseek 0 0])).cache 0 0 = none ∧
    (after smallGeometry poweredOnSmall
        (oneFileCalls ++ [.cwrite 0 [65, 66, 67, 68] 4, .cseek 0 0])).dev.frames 0 0
      = [65, 66, 67, 0] ∧
    (after smallGeometry poweredOnSmall
        (oneFileCalls ++ [.cwrite 0 [65, 66, 67, 68] 4, .cseek 0 0])).dev.loaded = some 1 ∧
    (call smallGeometry (after smallGeometry poweredOnSmall
        (oneFileCalls ++ [.cwrite 0 [65, 66, 67, 68] 4, .cseek 0 0])) (.cread 0 4)).map
        (fun r => r.2)
      = some (4, [68, 66, 67, 68]) := by
  decide

set_option maxRecDepth 1000000 in
/-- C15 at its failing input, in the small geometry (stride 3): the write of `"ABCD"` at
position 0 flushes `"ABC"` to block 0 and then `"D"` to the newly allocated block (1,0), a
frame that was neither cached nor visited before the call; the frame written to the device
for it is `"DBC\0"`, not `"D\0\0\0"`: the bytes `"BC"` are left over in `read_in` from the
first flush. -/
theorem cart_write_second_frame_not_blank :
    cached_bytes smallGeometry (after smallGeometry poweredOnSmall oneFileCalls).cache 1 0
      = none ∧
    (after smallGeometry poweredOnSmall oneFileCalls).fs.visited 1 0 = 0 ∧
    (after smallGeometry poweredOnSmall oneFileCalls).dev.frames 1 0 = [0, 0, 0, 0] ∧
    results smallGeometry (after smallGeometry poweredOnSmall oneFileCalls)
      [.cwrite 0 [65, 66, 67, 68] 4] = some [(4, [])] ∧
    ((after smallGeometry poweredOnSmall
        (oneFileCalls ++ [.cwrite 0 [65, 66, 67, 68] 4])).fs.files 0).data 1
      = { cart := 1, frame := 0 } ∧
    (after smallGeometry poweredOnSmall
        (oneFileCalls ++ [.cwrite 0 [65, 66, 67, 68] 4])).dev.frames 1 0 = [68, 66, 67, 0] ∧
    cached_bytes smallGeometry (after smallGeometry poweredOnSmall
        (oneFileCalls ++ [.cwrite 0 [65, 66, 67, 68] 4])).cache 1 0 = some [68, 66, 67, 0] := by
  decide

set_option maxRecDepth 1000000 in
/-- C16 at its failing input, in the small geometry with cache capacity 1 and a device whose
command number 9 fails, which is the write-frame command of the second flush of the write of
`"ABCD"` at position 0: `cart_write` returns `-1`, the position and size are those after the
first flush (3 and 4) and the device keeps the old frame, but the frame (1,0) has been put
into the cache and marked visited. -/
theorem cart_write_failure_updates_cache :
    cached_bytes smallGeometry (after smallGeometry (poweredOnFaulty 9) oneFileCalls).cache 1 0
      = none ∧
    (after smallGeometry (poweredOnFaulty 9) oneFileCalls).fs.visited 1 0 = 0 ∧
    results smallGeometry (poweredOnFaulty 9) (oneFileCalls ++ [.cwrite 0 [65, 66, 67, 68] 4])
      = some [(0, []), (1, []), (0, []), (-1, [])] ∧
    (after smallGeometry (poweredOnFaulty 9)
        (oneFileCalls ++ [.cwrite 0 [65, 66, 67, 68] 4])).dev.clock = 10 ∧
    ((after smallGeometry (poweredOnFaulty 9)
        (oneFileCalls ++ [.cwrite 0 [65, 66, 67, 68] 4])).fs.files 0).current_position = 3 ∧
    ((after smallGeometry (poweredOnFaulty 9)
        (oneFileCalls ++ [.cwrite 0 [65, 66, 67, 68] 4])).fs.files 0).size = 4 ∧
    ((after smallGeometry (poweredOnFaulty 9)
        (oneFileCalls ++ [.cwrite 0 [65, 66, 67, 68] 4])).fs.files 0).data 1
      = { cart := 1, frame := 0 } ∧
    (after smallGeometry (poweredOnFaulty 9)
        (oneFileCalls ++ [.cwrite 0 [65, 66, 67, 68] 4])).dev.frames 1 0 = [0, 0, 0, 0] ∧
    cached_bytes smallGeometry (after smallGeometry (poweredOnFaulty 9)
        (oneFileCalls ++ [.cwrite 0 [65, 66, 67, 68] 4])).cache 1 0 = some [68, 66, 67, 0] ∧
    (after smallGeometry (poweredOnFaulty 9)
        (oneFileCalls ++ [.cwrite 0 [65, 66, 67, 68] 4])).fs.visited 1 0 = 1 := by
  decide

set_option maxRecDepth 1000000 in
/-- C20 fails as stated: after `set_cart_cache_size(0)` and `init_cart_cache` the capacity
is the default 1024, not 0, and `put_cart_cache(0, 0, "AA")` stores the frame: the following
lookup of `(0,0)` finds `"AA"` and the entry count is 1. -/
theorem zero_capacity_becomes_default :
    (set_cart_cache_size Cache.zero 0).1.max_cache_size = 0 ∧
    (init_cart_cache (set_cart_cache_size Cache.zero 0).1).1.max_cache_size = 1024 ∧
    (put_cart_cache cacheGeometry (init_cart_cache (set_cart_cache_size Cache.zero 0).1).1
        0 0 [65, 65]).map
        (fun r => (r.2, cached_bytes cacheGeometry r.1 0 0, r.1.current_cache_size))
      = some (0, some [65, 65], 1) := by
  decide

/-- C11 (as the code has it): for an open file of size `s` and an offset `loc` below
`2^32 - 1`, `cart_seek(h, loc)` returns `-1` and leaves the state unchanged when `loc >= s`,
and returns 0 and sets the position to exactly `loc` (changing nothing else) when
`loc < s`. -/
theorem cart_seek_range (w : World) (fd : Int) (k s loc : Nat)
    (hfd : index? FILES_SIZE fd = some k) (hopen : ¬ not_usable (w.fs.files k))
    (hsize : (w.fs.files k).size = (s : Int)) (hs : s < 2 ^ 31) (hloc : loc < 2 ^ 32 - 1) :
    (s ≤ loc → cart_seek w fd loc = some (w, -1)) ∧
    (loc < s → cart_seek w fd loc = some (positioned w k (loc : Int), 0)) := by
  have hs' : s < 2147483648 := by simpa using hs
  have hloc' : loc < 4294967295 := by simpa using hloc
  have h1 : loc % 4294967296 = loc := Nat.mod_eq_of_lt (by omega)
  have h2 : (loc + 1) % 4294967296 = loc + 1 := Nat.mod_eq_of_lt (by omega)
  constructor
  · intro h
    have h3 : s < loc + 1 := by omega
    simp [cart_seek, hfd, hopen, hsize, h1, h2, h3,
      toUInt32_natCast (show s < 2 ^ 32 by omega)]
  · intro h
    have h3 : ¬ s < loc + 1 := by omega
    have h4 : toInt32 loc = (loc : Int) := toInt32_small (by omega)
    simp [cart_seek, hfd, hopen, hsize, h1, h2, h3, h4,
      toUInt32_natCast (show s < 2 ^ 32 by omega), positioned]

set_option maxRecDepth 1000000 in
/-- Witness of `cart_seek_range`: on the open two-byte file, `cart_seek(0, 3)` is rejected
and `cart_seek(0, 1)` sets the position to 1. -/
theorem cart_seek_range_witness :
    (index? FILES_SIZE 0 = some 0 ∧ ¬ not_usable (twoByteFile.fs.files 0) ∧
      (twoByteFile.fs.files 0).size = ((2 : Nat) : Int) ∧ 2 < 2 ^ 31 ∧ 3 < 2 ^ 32 - 1 ∧
      1 < 2 ^ 32 - 1) ∧
    cart_seek twoByteFile 0 3 = some (twoByteFile, -1) ∧
    cart_seek twoByteFile 0 1 = some (positioned twoByteFile 0 ((1 : Nat) : Int), 0) :=
  ⟨⟨by decide, by decide, by decide, by decide, by decide, by decide⟩,
    (cart_seek_range twoByteFile 0 0 2 3 (by decide) (by decide) (by decide) (by decide)
      (by decide)).1 (by decide),
    (cart_seek_range twoByteFile 0 0 2 1 (by decide) (by decide) (by decide) (by decide)
      (by decide)).2 (by decide)⟩

theorem rdfrme_opcode_bits (fm : Nat) :
    (generate_encoded_opcode CART_OP_RDFRME 0 0 fm >>> 56).testBit 0 = true ∧
    (generate_encoded_opcode CART_OP_RDFRME 0 0 fm >>> 56).testBit 1 = true := by
  have h0 : Nat.testBit 216172782113783808 56 = true := by decide
  have h1 : Nat.testBit 216172782113783808 57 = true := by decide
  constructor
  · simp only [generate_encoded_opcode, CART_OP_RDFRME, Nat.testBit_shiftRight, Nat.testBit_or,
      Nat.add_zero, Nat.zero_add]
    simp [h0]
  · simp only [generate_encoded_opcode, CART_OP_RDFRME, Nat.testBit_shiftRight, Nat.testBit_or]
    simp [h1]

theorem testBit_ne_of {a b : Nat} (i : Nat) (h : a.testBit i ≠ b.testBit i) : a ≠ b := by
  rintro rfl; exact h rfl

/-- A command other than power-on, zero-cartridge, load-cartridge and write-frame changes
neither the stored frames nor the loaded cartridge. -/
theorem cart_io_bus_dev (g : Geometry) (d : Device) (reg : Nat) (buf : Option (List Nat))
    (e0 : reg >>> 56 ≠ CART_OP_INITMS) (e1 : reg >>> 56 ≠ CART_OP_BZERO)
    (e2 : reg >>> 56 ≠ CART_OP_LDCART) (e4 : reg >>> 56 ≠ CART_OP_WRFRME) :
    (cart_io_bus g d reg buf).1.frames = d.frames ∧
    (cart_io_bus g d reg buf).1.loaded = d.loaded := by
  unfold cart_io_bus
  simp only [if_neg e0, if_neg e1, if_neg e2, if_neg e4]
  split_ifs <;> first | exact ⟨rfl, rfl⟩ | (split <;> exact ⟨rfl, rfl⟩)

/-- A read-frame command changes neither the stored frames nor the loaded cartridge. -/
theorem run_opcode_rdfrme_dev (g : Geometry) (d : Device) (fm : Nat) (buf : Option (List Nat)) :
    (run_opcode g d (generate_encoded_opcode CART_OP_RDFRME 0 0 fm) buf).1.frames = d.frames ∧
    (run_opcode g d (generate_encoded_opcode CART_OP_RDFRME 0 0 fm) buf).1.loaded = d.loaded := by
  obtain ⟨b0, b1⟩ := rdfrme_opcode_bits fm
  exact cart_io_bus_dev g d _ buf
    (testBit_ne_of 0 (by rw [b0]; decide)) (testBit_ne_of 1 (by rw [b1]; decide))
    (testBit_ne_of 0 (by rw [b0]; decide)) (testBit_ne_of 0 (by rw [b0]; decide))

theorem read_fetch_dev (g : Geometry) (w : World) (cur : File) (fi : Int) (ri : List Nat)
    (r : World × Option (List Nat)) (h : read_fetch g w cur fi ri = some r) :
    r.1.dev.frames = w.dev.frames ∧ r.1.dev.loaded = w.dev.loaded := by
  unfold read_fetch at h
  simp only [Option.bind_eq_bind, Option.pure_def, Option.bind_eq_some] at h
  obtain ⟨k, -, rc, -, h⟩ := h
  split at h
  · simp only [Option.bind_eq_some, Option.some.injEq] at h
    obtain ⟨n, -, h⟩ := h
    subst h; exact ⟨rfl, rfl⟩
  · split at h <;>
      (simp only [Option.some.injEq] at h; subst h; exact run_opcode_rdfrme_dev g _ _ _)

theorem read_loop_dev (g : Geometry) (cur : File) (count : Nat) :
    ∀ (n : Nat) (w : World) (fi bi : Int) (ri st : List Nat) (r : World × Int × List Nat),
      read_loop g cur count n w fi bi ri st = some r →
      r.1.dev.frames = w.dev.frames ∧ r.1.dev.loaded = w.dev.loaded ∧
      (r.2.1 = (count : Int) ∨ r.2.1 = -1) := by
  intro n
  induction n with
  | zero =>
    intro w fi bi ri st r h
    simp only [read_loop, Option.some.injEq] at h
    subst h; exact ⟨rfl, rfl, Or.inl rfl⟩
  | succ n ih =>
    intro w fi bi ri st r h
    simp only [read_loop] at h
    split at h
    · split at h
      · simp at h
      · rename_i w1 hf
        have h1 := read_fetch_dev g _ _ _ _ _ hf
        simp only [Option.some.injEq] at h
        subst h; exact ⟨h1.1, h1.2, Or.inr rfl⟩
      · rename_i w1 ri1 hf
        have h1 := read_fetch_dev g _ _ _ _ _ hf
        split at h
        · simp at h
        · have h2 := ih _ _ _ _ _ _ h
          exact ⟨h2.1.trans h1.1, h2.2.1.trans h1.2, h2.2.2⟩
    · split at h
      · simp at h
      · exact ih _ _ _ _ _ _ h

/-- C19: `cart_read` has no side effect on the driver or the cache. Whatever the call
returns (the count or `-1`), the file system state afterwards (every file's position, size,
open flag and frame list, the allocation cursor, the handle table and the visited map) and
the cache state (lookup table, recency list, entry count and node contents) are those before
the call, on cache hits and on misses; the frames stored by the device and its loaded
cartridge are unchanged too. -/
theorem cart_read_no_side_effect (g : Geometry) (w : World) (fd : Int) (count : Nat)
    (r : World × Int × List Nat) (h : cart_read g w fd count = some r) :
    r.1.fs = w.fs ∧ r.1.cache = w.cache ∧ r.1.dev.frames = w.dev.frames ∧
    r.1.dev.loaded = w.dev.loaded ∧ (r.2.1 = (count : Int) ∨ r.2.1 = -1) := by
  have hfs := cart_read_fs g w fd count r h
  refine ⟨hfs.1, hfs.2, ?_⟩
  unfold cart_read at h
  simp only [Option.bind_eq_bind, Option.pure_def, Option.bind_eq_some] at h
  obtain ⟨k, -, h⟩ := h
  split at h
  · simp at h
  · simp only [Option.bind_eq_some] at h
    obtain ⟨f, hf, h⟩ := h
    have h1 := read_fetch_dev g _ _ _ _ _ hf
    split at h
    · simp only [Option.some.injEq] at h
      subst h; exact ⟨h1.1, h1.2, Or.inr rfl⟩
    · have h2 := read_loop_dev g _ _ _ _ _ _ _ _ _ h
      exact ⟨h2.1.trans h1.1, h2.2.1.trans h1.2, h2.2.2⟩

set_option maxRecDepth 1000000 in
/-- Witness of `cart_read_no_side_effect`: a read of four bytes whose first frame misses the
cache and whose second frame hits it. -/
theorem cart_read_no_side_effect_witness :
    cart_read smallGeometry crossFile 0 4 = some crossFileRead ∧
    cached_bytes smallGeometry crossFile.cache 0 0 = none ∧
    cached_bytes smallGeometry crossFile.cache 1 0 ≠ none ∧
    crossFileRead.1.fs = crossFile.fs ∧ crossFileRead.1.cache = crossFile.cache ∧
    crossFileRead.1.dev.frames = crossFile.dev.frames ∧
    crossFileRead.1.dev.loaded = crossFile.dev.loaded ∧
    (crossFileRead.2.1 = ((4 : Nat) : Int) ∨ crossFileRead.2.1 = -1) :=
  ⟨rfl, by decide, by decide, cart_read_no_side_effect smallGeometry crossFile 0 4 crossFileRead rfl⟩

theorem spec_fold_disabled (cap : Int) (n : Nat) (h : cap ≤ 0) (ops : List CacheOp) :
    ops.foldl (spec_step cap n) [] = [] := by
  induction ops with
  | nil => rfl
  | cons op ops ih =>
    rw [List.foldl_cons]
    have : spec_step cap n [] op = [] := by
      cases op <;> simp [spec_step, spec_put, spec_delete, h]
    rw [this]; exact ih

theorem Rep.get_none_of_nil {g : Geometry} {c : Cache} (hr : Rep g c []) (i j : Nat) :
    c.filled_cache_frames i j = none := by
  cases hs : c.filled_cache_frames i j with
  | none => rfl
  | some a =>
    obtain ⟨e, he, -⟩ := hr.slot i j a hs
    simp at he

/-- C20 (as the code has it): whenever the capacity is not positive, `put_cart_cache`
returns 0 and leaves the cache state as it is; in every state reached from an
`init_cart_cache` that left a non-positive capacity, by any put, get and delete operations,
the cache holds no entry and every lookup reports not found. `set_cart_cache_size(0)`
followed by `init_cart_cache` does not give such a cache: `init_cart_cache` replaces the
capacity 0 by the default 1024, as it does when the capacity was never configured.
`init_cart_cache` leaves a non-positive capacity exactly when the capacity was negative
before, and so `set_cart_cache_size(n)` followed by `init_cart_cache` gives a non-positive
capacity exactly when the `int` conversion of the `uint32_t` value `n` is negative, that is
when `n >= 2^31`. -/
theorem disabled_cache (g : Geometry) (hg : g.index16) (c0 : Cache)
    (hcap : (init_cart_cache c0).1.max_cache_size ≤ 0)
    (ops : List CacheOp) (hops : ops_in_table g ops) :
    (∀ (c : Cache) (i j : Nat) (b : List Nat), c.max_cache_size ≤ 0 →
      put_cart_cache g c i j b = some (c, 0)) ∧
    (∃ c, cache_run g (init_cart_cache c0).1 ops = some c ∧ c.max_cache_size ≤ 0 ∧
      c.current_cache_size = 0 ∧ filled_count g c = 0 ∧
      ∀ i j, inTable g i j → get_cart_cache g c i j = some none) ∧
    (∀ c1 : Cache, (init_cart_cache (set_cart_cache_size c1 0).1).1.max_cache_size
      = DEFAULT_CART_FRAME_CACHE_SIZE) ∧
    (init_cart_cache Cache.zero).1.max_cache_size = DEFAULT_CART_FRAME_CACHE_SIZE ∧
    (∀ c1 : Cache, (init_cart_cache c1).1.max_cache_size ≤ 0 ↔ c1.max_cache_size < 0) ∧
    (∀ (c1 : Cache) (n : Nat),
      (init_cart_cache (set_cart_cache_size c1 n).1).1.max_cache_size ≤ 0
        ↔ 2 ^ 31 ≤ n % 2 ^ 32) := by
  have hinit : ∀ c1 : Cache, (init_cart_cache c1).1.max_cache_size ≤ 0
      ↔ c1.max_cache_size < 0 := by
    intro c1
    unfold init_cart_cache DEFAULT_CART_FRAME_CACHE_SIZE
    simp only []
    split <;> omega
  refine ⟨?_, ?_, ?_, rfl, hinit, ?_⟩
  · intro c i j b h
    simp [put_cart_cache, h]
  · obtain ⟨c, L, h1, hrep, habs, hmax⟩ := run_refines g hg ops _ [] (Rep.init g c0) hops
    have habs' : absOf L = [] := by
      rw [habs]; exact spec_fold_disabled _ _ hcap ops
    have hL : L = [] := by
      cases L with
      | nil => rfl
      | cons e r => simp [absOf] at habs'
    subst hL
    refine ⟨c, h1, by rw [hmax]; exact hcap, by simpa using hrep.size, ?_, ?_⟩
    · have := hrep.filled_count_eq
      simpa using this
    · intro i j hin
      simp [get_cart_cache, hin, hrep.get_none_of_nil i j]
  · intro c1
    simp [init_cart_cache, set_cart_cache_size, toInt32]
  · intro c1 n
    rw [hinit]
    unfold set_cart_cache_size toInt32
    simp only []
    split <;> omega

set_option maxRecDepth 1000000 in
/-- Witness of `disabled_cache`: after `set_cart_cache_size(2147483648)` the capacity is
negative; `put(0,0,"AA")` and `get(0,0)` follow. -/
theorem disabled_cache_witness :
    (cacheGeometry.index16 ∧ (init_cart_cache cacheNegative).1.max_cache_size ≤ 0 ∧
      ops_in_table cacheGeometry [.put 0 0 [65, 65], .get 0 0]) ∧
    ((∀ (c : Cache) (i j : Nat) (b : List Nat), c.max_cache_size ≤ 0 →
      put_cart_cache cacheGeometry c i j b = some (c, 0)) ∧
    (∃ c, cache_run cacheGeometry (init_cart_cache cacheNegative).1
        [.put 0 0 [65, 65], .get 0 0] = some c ∧ c.max_cache_size ≤ 0 ∧
      c.current_cache_size = 0 ∧ filled_count cacheGeometry c = 0 ∧
      ∀ i j, inTable cacheGeometry i j → get_cart_cache cacheGeometry c i j = some none) ∧
    (∀ c1 : Cache, (init_cart_cache (set_cart_cache_size c1 0).1).1.max_cache_size
      = DEFAULT_CART_FRAME_CACHE_SIZE) ∧
    (init_cart_cache Cache.zero).1.max_cache_size = DEFAULT_CART_FRAME_CACHE_SIZE ∧
    (∀ c1 : Cache, (init_cart_cache c1).1.max_cache_size ≤ 0 ↔ c1.max_cache_size < 0) ∧
    (∀ (c1 : Cache) (n : Nat),
      (init_cart_cache (set_cart_cache_size c1 n).1).1.max_cache_size ≤ 0
        ↔ 2 ^ 31 ≤ n % 2 ^ 32)) :=
  have hops : ops_in_table cacheGeometry [.put 0 0 [65, 65], .get 0 0] := by
    intro op hop
    simp only [List.mem_cons, List.mem_singleton, List.not_mem_nil, or_false] at hop
    rcases hop with rfl | rfl <;> decide
  ⟨⟨by decide, by decide, hops⟩,
    disabled_cache cacheGeometry (by decide) cacheNegative (by decide) _ hops⟩

theorem delete_age_snoc (ops : List CacheOp) (op : CacheOp) (k : Nat × Nat) :
    delete_age (ops ++ [op]) k
      = if is_delete_of k op then some 0 else (delete_age ops k).map (· + 1) := by
  unfold delete_age
  rw [List.reverse_append, List.reverse_singleton, List.singleton_append, List.findIdx?_cons]
  split
  · rfl
  · simp only [List.findIdx?_succ, zero_add]

theorem never_put_or_deleted_snoc {ops : List CacheOp} {op : CacheOp} {k : Nat × Nat}
    (h : never_put_or_deleted (ops ++ [op]) k) (hp : is_put_of k op = false)
    (hd : is_delete_of k op = false) : never_put_or_deleted ops k := by
  intro n hn
  have h1 := h (n + 1) (by rw [put_age_snoc, hp]; simp [hn])
  obtain ⟨m, hm, hlt⟩ := h1
  rw [delete_age_snoc, hd] at hm
  simp only [Bool.false_eq_true, if_false, Option.map_eq_some'] at hm
  obtain ⟨m', hm', rfl⟩ := hm
  exact ⟨m', hm', by omega⟩

theorem spec_put_keys (cap : Int) (n : Nat) (A : SpecCache) (k : Nat × Nat) (b : List Nat)
    (p : (Nat × Nat) × List Nat) (hp : p ∈ spec_put cap n A k b) : p ∈ A ∨ p.1 = k := by
  unfold spec_put at hp
  split at hp
  · exact Or.inl hp
  · simp only [List.mem_append, List.mem_singleton] at hp
    rcases hp with hp | rfl
    · left
      have h1 := (List.mem_filter.1 hp).1
      split at h1
      · exact List.mem_of_mem_tail h1
      · exact h1
    · right; rfl

/-- A key that was never put, or was deleted after its last put, is not in the recency list
of the specification. -/
theorem spec_run_absent (cap : Int) (n : Nat) (k : Nat × Nat) (ops : List CacheOp) :
    never_put_or_deleted ops k → ∀ p ∈ spec_run cap n ops, p.1 ≠ k := by
  induction ops using List.reverseRecOn with
  | nil => intro _ p hp; simp [spec_run] at hp
  | append_singleton ops op ih =>
    intro h p hp
    rw [spec_run_snoc] at hp
    cases op with
    | put i j b =>
      by_cases hk : (i, j) = k
      · exfalso
        have h1 := h 0 (by rw [put_age_snoc]; simp [is_put_of, hk])
        obtain ⟨m, -, hm⟩ := h1
        omega
      · have hold := never_put_or_deleted_snoc h (by simp [is_put_of, hk]) rfl
        rcases spec_put_keys _ _ _ _ _ _ hp with h1 | h1
        · exact ih hold p h1
        · rw [h1]; exact hk
    | get i j => exact ih (never_put_or_deleted_snoc h rfl rfl) p hp
    | delete i j =>
      simp only [spec_step, spec_delete, List.mem_filter, decide_eq_true_eq] at hp
      by_cases hk : (i, j) = k
      · rw [← hk]; exact hp.2
      · exact ih (never_put_or_deleted_snoc h rfl (by simp [is_delete_of, hk])) p hp.1

/-- C17: absent keys report not found. After `init_cart_cache`, for every sequence of put,
get and delete operations (any capacity), if the key `(i, j)` was never put, or a
`delete` of it came after its most recent put, then `get_cart_cache(i, j)` returns the null
pointer and `delete_cart_cache(i, j)` returns `-1` and leaves the cache state unchanged. In
particular this holds right after a `delete` of the key. -/
theorem absent_key_not_found (g : Geometry) (hg : g.index16) (c0 : Cache)
    (ops : List CacheOp) (hops : ops_in_table g ops) (i j : Nat) (hin : inTable g i j)
    (habs : never_put_or_deleted ops (i, j)) :
    ∃ c, cache_run g (init_cart_cache c0).1 ops = some c ∧
      get_cart_cache g c i j = some none ∧ cached_bytes g c i j = none ∧
      delete_cart_cache g c i j = some (c, -1) := by
  obtain ⟨c, L, h1, hrep, hspec, -⟩ := run_refines g hg ops _ [] (Rep.init g c0) hops
  have hspec' : absOf L
      = spec_run (init_cart_cache c0).1.max_cache_size g.CART_FRAME_SIZE ops := hspec
  have hkey : c.filled_cache_frames i j = none := by
    cases hs : c.filled_cache_frames i j with
    | none => rfl
    | some a =>
      obtain ⟨e, he, -, rfl, rfl⟩ := hrep.slot i j a hs
      have hm : ((e.cart, e.frame), e.data) ∈ absOf L := List.mem_map.2 ⟨e, he, rfl⟩
      rw [hspec'] at hm
      exact absurd rfl (spec_run_absent _ _ _ ops habs _ hm)
  refine ⟨c, h1, ?_, ?_, ?_⟩
  · simp [get_cart_cache, hin, hkey]
  · simp [cached_bytes, get_cart_cache, hin, hkey]
  · simp [delete_cart_cache, hin, hkey]

set_option maxRecDepth 1000000 in
/-- Witness of `absent_key_not_found`: capacity 2, `put(0,0,"AA")`, `put(0,1,"BB")`,
`delete(0,0)`; afterwards the key `(0,0)` is not found by get and by a second delete. -/
theorem absent_key_not_found_witness :
    (cacheGeometry.index16 ∧
      ops_in_table cacheGeometry [.put 0 0 [65, 65], .put 0 1 [66, 66], .delete 0 0] ∧
      inTable cacheGeometry 0 0 ∧
      never_put_or_deleted [.put 0 0 [65, 65], .put 0 1 [66, 66], .delete 0 0] (0, 0)) ∧
    ∃ c, cache_run cacheGeometry (init_cart_cache (set_cart_cache_size Cache.zero 2).1).1
        [.put 0 0 [65, 65], .put 0 1 [66, 66], .delete 0 0] = some c ∧
      get_cart_cache cacheGeometry c 0 0 = some none ∧
      cached_bytes cacheGeometry c 0 0 = none ∧
      delete_cart_cache cacheGeometry c 0 0 = some (c, -1) :=
  have hops : ops_in_table cacheGeometry
      [.put 0 0 [65, 65], .put 0 1 [66, 66], .delete 0 0] := by
    intro op hop
    simp only [List.mem_cons, List.mem_singleton, List.not_mem_nil, or_false] at hop
    rcases hop with rfl | rfl | rfl <;> decide
  have habs : never_put_or_deleted
      [.put 0 0 [65, 65], .put 0 1 [66, 66], .delete 0 0] (0, 0) := by
    intro n hn
    have h2 : n = 2 := by
      have : put_age [.put 0 0 [65, 65], .put 0 1 [66, 66], .delete 0 0] (0, 0) = some 2 := by
        decide
      rw [this] at hn
      exact (Option.some.inj hn).symm
    exact ⟨0, by decide, by omega⟩
  ⟨⟨by decide, hops, by decide, habs⟩,
    absent_key_not_found cacheGeometry (by decide) (set_cart_cache_size Cache.zero 2).1 _ hops
      0 0 (by decide) habs⟩

theorem lookup_append_cons_ne {e : Entry} {k l : Nat} (h : ¬ (e.cart = k ∧ e.frame = l))
    (L1 L2 : List Entry) : lookup (L1 ++ e :: L2) k l = lookup (L1 ++ L2) k l := by
  unfold lookup
  rw [List.find?_append, List.find?_append, List.find?_cons_of_neg]
  simpa using h

/-- C18: `delete_cart_cache` re-links correctly. In every cache state reached from
`init_cart_cache` by put, get and delete operations, deleting a cached key `(i, j)` returns
0; the state before represents a recency list `L1 ++ e :: L2` in which `e` is the entry of
the key (the head when `L1` is empty, the tail when `L2` is empty, an interior node
otherwise) and the state after represents `L1 ++ L2`: the same entries with the same bytes in
the same order, linked from head to tail, with the lookup table holding exactly their keys.
The entry count and the number of filled slots decrease by one, the key is no longer found,
and every other key has the lookup result it had before. -/
theorem delete_relinks (g : Geometry) (hg : g.index16) (c0 c : Cache) (ops : List CacheOp)
    (hops : ops_in_table g ops) (hrun : cache_run g (init_cart_cache c0).1 ops = some c)
    (i j : Nat) (hin : inTable g i j) (hpres : cached_bytes g c i j ≠ none) :
    ∃ c' L1 e L2, delete_cart_cache g c i j = some (c', 0) ∧
      e.cart = i ∧ e.frame = j ∧ cached_bytes g c i j = some e.data ∧
      Rep g c (L1 ++ e :: L2) ∧ Rep g c' (L1 ++ L2) ∧
      c'.current_cache_size = c.current_cache_size - 1 ∧
      filled_count g c' + 1 = filled_count g c ∧
      get_cart_cache g c' i j = some none ∧
      (∀ k l, inTable g k l → (k, l) ≠ (i, j) →
        cached_bytes g c' k l = cached_bytes g c k l) ∧
      c'.max_cache_size = c.max_cache_size := by
  obtain ⟨c1, L, h1, hrep, -, -⟩ := run_refines g hg ops _ [] (Rep.init g c0) hops
  rw [hrun] at h1
  simp only [Option.some.injEq] at h1
  subst h1
  cases hs : c.filled_cache_frames i j with
  | none =>
    exfalso
    apply hpres
    simp [cached_bytes, get_cart_cache, hin, hs]
  | some a =>
    obtain ⟨e, he, rfl, rfl, rfl⟩ := hrep.slot _ _ a hs
    obtain ⟨L1, L2, rfl⟩ := List.append_of_mem he
    obtain ⟨c', k1, k2, k3, -, -⟩ := delete_present g c L1 e L2 hrep
    have hnd := hrep.nodup
    have hno : ∀ e' ∈ L1 ++ L2, ¬ (e'.cart = e.cart ∧ e'.frame = e.frame) := by
      intro e' he' h
      have hmem : e' ∈ L1 ++ e :: L2 := by
        simp only [List.mem_append, List.mem_cons] at he' ⊢
        tauto
      have := hrep.key_inj hmem he h.1 h.2
      subst this
      simp only [List.map_append, List.map_cons, List.nodup_append, List.nodup_cons,
        List.disjoint_cons_right] at hnd
      simp only [List.mem_append] at he'
      rcases he' with h' | h'
      · exact hnd.2.2.1 (List.mem_map.2 ⟨_, h', rfl⟩)
      · exact hnd.2.1.1 (List.mem_map.2 ⟨_, h', rfl⟩)
    refine ⟨c', L1, e, L2, k1, rfl, rfl, ?_, hrep, k2, ?_, ?_, ?_, ?_, k3⟩
    · rw [hrep.cached_lookup hin, hrep.lookup_some he]; rfl
    · rw [k2.size, hrep.size]
      simp only [List.length_append, List.length_cons]
      push_cast; omega
    · rw [k2.filled_count_eq, hrep.filled_count_eq]
      simp only [List.length_append, List.length_cons]
      omega
    · cases hs' : c'.filled_cache_frames e.cart e.frame with
      | none => simp [get_cart_cache, hin, hs']
      | some a' =>
        obtain ⟨e', he', -, h2, h3⟩ := k2.slot _ _ a' hs'
        exact absurd ⟨h2, h3⟩ (hno e' he')
    · intro k l hkl hne
      rw [k2.cached_lookup hkl, hrep.cached_lookup hkl, lookup_append_cons_ne]
      rintro ⟨rfl, rfl⟩
      exact hne rfl

set_option maxRecDepth 1000000 in
/-- Witness of `delete_relinks`: capacity 3, after `put(0,0,"AA")`, `put(0,1,"BB")` and
`put(0,2,"CC")` the interior entry `(0,1)` is deleted. -/
theorem delete_relinks_witness :
    (cacheGeometry.index16 ∧
      ops_in_table cacheGeometry [.put 0 0 [65, 65], .put 0 1 [66, 66], .put 0 2 [67, 67]] ∧
      cache_run cacheGeometry (init_cart_cache (set_cart_cache_size Cache.zero 3).1).1
        [.put 0 0 [65, 65], .put 0 1 [66, 66], .put 0 2 [67, 67]] = some cacheABC ∧
      inTable cacheGeometry 0 1 ∧ cached_bytes cacheGeometry cacheABC 0 1 ≠ none) ∧
    ∃ c' L1 e L2, delete_cart_cache cacheGeometry cacheABC 0 1 = some (c', 0) ∧
      e.cart = 0 ∧ e.frame = 1 ∧ cached_bytes cacheGeometry cacheABC 0 1 = some e.data ∧
      Rep cacheGeometry cacheABC (L1 ++ e :: L2) ∧ Rep cacheGeometry c' (L1 ++ L2) ∧
      c'.current_cache_size = cacheABC.current_cache_size - 1 ∧
      filled_count cacheGeometry c' + 1 = filled_count cacheGeometry cacheABC ∧
      get_cart_cache cacheGeometry c' 0 1 = some none ∧
      (∀ k l, inTable cacheGeometry k l → (k, l) ≠ (0, 1) →
        cached_bytes cacheGeometry c' k l = cached_bytes cacheGeometry cacheABC k l) ∧
      c'.max_cache_size = cacheABC.max_cache_size :=
  have hops : ops_in_table cacheGeometry
      [.put 0 0 [65, 65], .put 0 1 [66, 66], .put 0 2 [67, 67]] := by
    intro op hop
    simp only [List.mem_cons, List.mem_singleton, List.not_mem_nil, or_false] at hop
    rcases hop with rfl | rfl | rfl <;> decide
  ⟨⟨by decide, hops, rfl, by decide, by decide⟩,
    delete_relinks cacheGeometry (by decide) (set_cart_cache_size Cache.zero 3).1 cacheABC _
      hops rfl 0 1 (by decide) (by decide)⟩

/-- The register built by `generate_encoded_opcode` from an opcode below 256 and 16-bit
cartridge and frame numbers, as a sum of the shifted fields. -/
theorem generate_encoded_opcode_eq {ky ct fm : Nat} (hk : ky < 256) (hc : ct < 65536)
    (hf : fm < 65536) :
    generate_encoded_opcode ky 0 ct fm
      = 2 ^ 56 * ky + (2 ^ 31 * ct + 2 ^ 15 * fm) := by
  have e1 : (ky <<< 56) % 2 ^ 64 = 2 ^ 56 * ky := by
    rw [Nat.shiftLeft_eq, Nat.mod_eq_of_lt (by omega)]; omega
  have e2 : (ct <<< 31) % 2 ^ 64 = 2 ^ 31 * ct := by
    rw [Nat.shiftLeft_eq, Nat.mod_eq_of_lt (by omega)]; omega
  have e3 : (fm <<< 15) % 2 ^ 64 = 2 ^ 15 * fm := by
    rw [Nat.shiftLeft_eq, Nat.mod_eq_of_lt (by omega)]; omega
  have e4 : (0 <<< 48) % 2 ^ 64 = 0 := by decide
  simp only [generate_encoded_opcode, e1, e2, e3, e4, Nat.zero_or, Nat.or_zero]
  rw [Nat.or_assoc, ← Nat.mul_add_lt_is_or (show 2 ^ 15 * fm < 2 ^ 31 by omega),
    ← Nat.mul_add_lt_is_or (show 2 ^ 31 * ct + 2 ^ 15 * fm < 2 ^ 56 by omega)]

/-- The fields that the device reads back from such a register. -/
theorem generate_encoded_opcode_fields {ky ct fm : Nat} (hk : ky < 256) (hc : ct < 65536)
    (hf : fm < 65536) :
    generate_encoded_opcode ky 0 ct fm >>> 56 = ky ∧
    (generate_encoded_opcode ky 0 ct fm >>> 31) % 2 ^ 16 = ct ∧
    (generate_encoded_opcode ky 0 ct fm >>> 15) % 2 ^ 16 = fm ∧
    (generate_encoded_opcode ky 0 ct fm).testBit 47 = false := by
  rw [generate_encoded_opcode_eq hk hc hf]
  simp only [Nat.shiftRight_eq_div_pow, Nat.testBit_to_div_mod]
  refine ⟨by omega, by omega, by omega, ?_⟩
  simp only [decide_eq_false_iff_not]
  omega

theorem extract_opcode_response_ok {ky ct fm : Nat} (hk : ky < 256) (hc : ct < 65536)
    (hf : fm < 65536) :
    extract_opcode_response (generate_encoded_opcode ky 0 ct fm) = 0 := by
  rw [generate_encoded_opcode_eq hk hc hf]
  unfold extract_opcode_response
  simp only [Nat.shiftLeft_eq, Nat.shiftRight_eq_div_pow]
  rw [if_pos (by omega)]

theorem cart_io_bus_ldcart (g : Geometry) (d : Device) (reg ct : Nat)
    (h1 : reg >>> 56 = CART_OP_LDCART) (h2 : (reg >>> 31) % 2 ^ 16 = ct)
    (h4 : reg.testBit 47 = false)
    (hct : ct < g.CART_MAX_CARTRIDGES) (hf : d.fault d.clock = false) :
    cart_io_bus g d reg none
      = ({ d with clock := d.clock + 1, loaded := some ct }, reg, none) := by
  unfold cart_io_bus
  simp only [h1, h2, h4, hf, hct, Bool.false_eq_true, if_false, if_true, Nat.sub_zero]
  rfl

theorem cart_io_bus_rdfrme (g : Geometry) (d : Device) (reg c fm : Nat)
    (buf : Option (List Nat))
    (h1 : reg >>> 56 = CART_OP_RDFRME) (h3 : (reg >>> 15) % 2 ^ 16 = fm)
    (h4 : reg.testBit 47 = false)
    (hfm : fm < g.CART_CARTRIDGE_SIZE) (hf : d.fault d.clock = false)
    (hl : d.loaded = some c) :
    cart_io_bus g d reg buf
      = ({ d with clock := d.clock + 1 }, reg, some (d.frames c fm)) := by
  unfold cart_io_bus
  simp only [h1, h3, h4, hf, hfm, hl, Bool.false_eq_true, if_false, if_true, Nat.sub_zero]
  rfl

theorem cart_io_bus_wrfrme (g : Geometry) (d : Device) (reg c fm : Nat) (b : List Nat)
    (h1 : reg >>> 56 = CART_OP_WRFRME) (h3 : (reg >>> 15) % 2 ^ 16 = fm)
    (h4 : reg.testBit 47 = false)
    (hfm : fm < g.CART_CARTRIDGE_SIZE) (hf : d.fault d.clock = false)
    (hl : d.loaded = some c) :
    cart_io_bus g d reg (some b)
      = ({ d with clock := d.clock + 1,
                  frames := upd2 d.frames c fm (b.take g.CART_FRAME_SIZE) }, reg, some b) := by
  unfold cart_io_bus
  simp only [h1, h3, h4, hf, hfm, hl, Bool.false_eq_true, if_false, if_true, Nat.sub_zero]
  rfl

/-- A load-cartridge command for a cartridge of the device succeeds when the device does not
fail, and makes it the loaded cartridge. -/
theorem run_opcode_ldcart (g : Geometry) (d : Device) (ct : Nat)
    (hct : ct < g.CART_MAX_CARTRIDGES) (h16 : ct < 65536) (hf : d.fault d.clock = false) :
    run_opcode g d (generate_encoded_opcode CART_OP_LDCART 0 ct 0) none
      = ({ d with clock := d.clock + 1, loaded := some ct }, 0, none) := by
  obtain ⟨f1, f2, -, f4⟩ :=
    generate_encoded_opcode_fields (show CART_OP_LDCART < 256 by decide) h16
      (show 0 < 65536 by decide)
  have hr := extract_opcode_response_ok (show CART_OP_LDCART < 256 by decide) h16
      (show 0 < 65536 by decide)
  unfold run_opcode
  rw [cart_io_bus_ldcart g d _ ct f1 f2 f4 hct hf]
  simp only [hr]

/-- A read-frame command for a frame of the loaded cartridge succeeds when the device does
not fail, and delivers the stored frame. -/
theorem run_opcode_rdfrme (g : Geometry) (d : Device) (c fm : Nat) (buf : Option (List Nat))
    (hfm : fm < g.CART_CARTRIDGE_SIZE) (h16 : fm < 65536) (hf : d.fault d.clock = false)
    (hl : d.loaded = some c) :
    run_opcode g d (generate_encoded_opcode CART_OP_RDFRME 0 0 fm) buf
      = ({ d with clock := d.clock + 1 }, 0, some (d.frames c fm)) := by
  obtain ⟨f1, -, f3, f4⟩ :=
    generate_encoded_opcode_fields (show CART_OP_RDFRME < 256 by decide)
      (show 0 < 65536 by decide) h16
  have hr := extract_opcode_response_ok (show CART_OP_RDFRME < 256 by decide)
      (show 0 < 65536 by decide) h16
  unfold run_opcode
  rw [cart_io_bus_rdfrme g d _ c fm buf f1 f3 f4 hfm hf hl]
  simp only [hr]

/-- A write-frame command for a frame of the loaded cartridge succeeds when the device does
not fail, and stores one frame of bytes from the buffer. -/
theorem run_opcode_wrfrme (g : Geometry) (d : Device) (c fm : Nat) (b : List Nat)
    (hfm : fm < g.CART_CARTRIDGE_SIZE) (h16 : fm < 65536) (hf : d.fault d.clock = false)
    (hl : d.loaded = some c) :
    run_opcode g d (generate_encoded_opcode CART_OP_WRFRME 0 0 fm) (some b)
      = ({ d with clock := d.clock + 1,
                  frames := upd2 d.frames c fm (b.take g.CART_FRAME_SIZE) }, 0, some b) := by
  obtain ⟨f1, -, f3, f4⟩ :=
    generate_encoded_opcode_fields (show CART_OP_WRFRME < 256 by decide)
      (show 0 < 65536 by decide) h16
  have hr := extract_opcode_response_ok (show CART_OP_WRFRME < 256 by decide)
      (show 0 < 65536 by decide) h16
  unfold run_opcode
  rw [cart_io_bus_wrfrme g d _ c fm b f1 f3 f4 hfm hf hl]
  simp only [hr]

theorem cart_io_bus_fault (g : Geometry) (d : Device) (reg : Nat) (buf : Option (List Nat)) :
    (cart_io_bus g d reg buf).1.fault = d.fault := by
  unfold cart_io_bus
  simp only []
  by_cases h0 : d.fault d.clock = true
  · rw [if_pos h0]
  rw [if_neg h0]
  by_cases h1 : reg >>> 56 = CART_OP_INITMS
  · rw [if_pos h1]
  rw [if_neg h1]
  by_cases h2 : reg >>> 56 = CART_OP_POWOFF
  · rw [if_pos h2]
  rw [if_neg h2]
  by_cases h3 : reg >>> 56 = CART_OP_LDCART
  · rw [if_pos h3]; split <;> rfl
  rw [if_neg h3]
  by_cases h4 : reg >>> 56 = CART_OP_BZERO
  · rw [if_pos h4]; split <;> rfl
  rw [if_neg h4]
  by_cases h5 : reg >>> 56 = CART_OP_RDFRME
  · rw [if_pos h5]; split
    · split <;> rfl
    · rfl
  rw [if_neg h5]
  by_cases h6 : reg >>> 56 = CART_OP_WRFRME
  · rw [if_pos h6]; split
    · split <;> rfl
    · rfl
  rw [if_neg h6]

theorem run_opcode_fault (g : Geometry) (d : Device) (op : Nat) (buf : Option (List Nat)) :
    (run_opcode g d op buf).1.fault = d.fault :=
  cart_io_bus_fault g d op buf

theorem toUInt64_natCast {k : Nat} (h : k < 65536) : toUInt64 (k : Int) = k := by
  unfold toUInt64
  have : ((k : Int) % 2 ^ 64) = k := Int.emod_eq_of_lt (by omega) (by omega)
  rw [this]; simp

/-- The cartridge load of a flush changes nothing but the device and the record of the
loaded cartridge. -/
theorem flush_load_frame (g : Geometry) (w : World) (d : data_structure) :
    (flush_load g w d).1.cache = w.cache ∧
    (flush_load g w d).1.fs.files = w.fs.files ∧
    (flush_load g w d).1.fs.visited = w.fs.visited ∧
    (flush_load g w d).1.fs.cart_to_use = w.fs.cart_to_use ∧
    (flush_load g w d).1.fs.frame_to_use = w.fs.frame_to_use ∧
    (flush_load g w d).1.dev.fault = w.dev.fault := by
  unfold flush_load
  split
  · simp only []
    split <;> exact ⟨rfl, rfl, rfl, rfl, rfl, run_opcode_fault _ _ _ _⟩
  · exact ⟨rfl, rfl, rfl, rfl, rfl, rfl⟩

/-- On a device that does not fail, the cartridge load of a flush succeeds and leaves the
frame's cartridge loaded; the stored frames do not change. -/
theorem flush_load_ok (g : Geometry) (w : World) (d : data_structure) (ci : Nat)
    (hd : d.cart = (ci : Int)) (hci : ci < g.CART_MAX_CARTRIDGES) (h16 : ci < 65536)
    (hs : synced w) :
    (flush_load g w d).2 = true ∧ synced (flush_load g w d).1 ∧
    (flush_load g w d).1.dev.loaded = some ci ∧
    (flush_load g w d).1.dev.frames = w.dev.frames := by
  obtain ⟨hf, c, hl, hc⟩ := hs
  unfold flush_load
  split
  · have hrun := run_opcode_ldcart g w.dev ci hci h16 (hf _)
    rw [hd, toUInt64_natCast h16]
    simp only [hrun]
    rw [if_neg (by decide)]
    exact ⟨rfl, ⟨hf, ci, rfl, rfl⟩, rfl, rfl⟩
  · rename_i h
    have h' : w.fs.last_cart_loaded = d.cart := by
      by_contra h2; exact h h2
    have : c = ci := by
      have := hc.symm.trans (h'.trans hd); exact_mod_cast this
    subst this
    exact ⟨rfl, ⟨hf, c, hl, hc⟩, hl, rfl⟩

/-- The frame fetch of a flush is defined for a frame of the device in a well-formed cache,
and changes the device only. On a device that does not fail and has the frame's cartridge
loaded, it succeeds and leaves in `read_in` the cached copy of the frame, else the device's
copy when the frame is marked visited, else the old content of `read_in`. -/
theorem flush_fetch_spec (g : Geometry) (w : World) (d : data_structure) (ci fi : Nat)
    (read_in : List Nat) (L : List Entry) (hr : Rep g w.cache L)
    (hd : d.cart = (ci : Int)) (hdf : d.frame = (fi : Int)) (hin : inTable g ci fi)
    (hg : g.index16) :
    ∃ fl, flush_fetch g w d read_in = some fl ∧ fl.w.fs = w.fs ∧ fl.w.cache = w.cache ∧
      fl.w.dev.fault = w.dev.fault ∧
      ((∀ t, w.dev.fault t = false) → w.dev.loaded = some ci →
        fl.ok = true ∧ fl.w.dev.loaded = w.dev.loaded ∧ fl.w.dev.frames = w.dev.frames ∧
        fl.read_in = match cached_bytes g w.cache ci fi with
          | some b => memcpy read_in b g.CART_FRAME_SIZE
          | none => if w.fs.visited ci fi ≠ 0 then w.dev.frames ci fi else read_in) := by
  have hc16 : ci < 65536 := lt_of_lt_of_le hin.1 hg.1
  have hf16 : fi < 65536 := lt_of_lt_of_le hin.2 hg.2
  unfold flush_fetch
  rw [hd, hdf, toUInt16_natCast hc16, toUInt16_natCast hf16, toUInt64_natCast hf16,
    index?_natCast hin.1, index?_natCast hin.2]
  simp only [get_cart_cache, if_pos hin, Option.bind_eq_bind, Option.some_bind, Option.pure_def]
  cases hs : w.cache.filled_cache_frames ci fi with
  | some a =>
    obtain ⟨e, he, rfl, rfl, rfl⟩ := hr.slot _ _ a hs
    obtain ⟨x, hx, -, -, hxd⟩ := content_eq_some (hr.node e he)
    simp only [hx, Option.some_bind]
    refine ⟨_, rfl, rfl, rfl, rfl, fun _ _ => ⟨rfl, rfl, rfl, ?_⟩⟩
    simp [cached_bytes, get_cart_cache, hin, hs, hx]
  | none =>
    simp only []
    by_cases hv : w.fs.visited ci fi ≠ 0
    · rw [if_pos hv]
      split
      · refine ⟨_, rfl, rfl, rfl, run_opcode_fault _ _ _ _, fun hf hl => ?_⟩
        rename_i hfail
        rw [run_opcode_rdfrme g w.dev ci fi _ hin.2 hf16 (hf _) hl] at hfail
        simp at hfail
      · refine ⟨_, rfl, rfl, rfl, run_opcode_fault _ _ _ _, fun hf hl => ?_⟩
        rw [run_opcode_rdfrme g w.dev ci fi _ hin.2 hf16 (hf _) hl]
        refine ⟨rfl, rfl, rfl, ?_⟩
        simp [cached_bytes, get_cart_cache, hin, hs, hv]
    · rw [if_neg hv]
      refine ⟨_, rfl, rfl, rfl, rfl, fun _ _ => ⟨rfl, rfl, rfl, ?_⟩⟩
      simp [cached_bytes, get_cart_cache, hin, hs, hv]

/-- The frame store of a flush is defined for a frame of the device in a well-formed cache:
it marks the frame visited, puts the frame into the cache, which stays well-formed, and
changes nothing else of the driver state. On a device that does not fail and has the frame's
cartridge loaded, the write-frame command succeeds and stores the frame. -/
theorem flush_store_spec (g : Geometry) (w : World) (d : data_structure) (ci fi : Nat)
    (read_in : List Nat) (L : List Entry) (hr : Rep g w.cache L)
    (hd : d.cart = (ci : Int)) (hdf : d.frame = (fi : Int)) (hin : inTable g ci fi)
    (hg : g.index16) :
    ∃ w' r L', flush_store g w d read_in = some (w', r) ∧
      w'.fs = { w.fs with visited := upd2 w.fs.visited ci fi 1 } ∧
      put_cart_cache g w.cache ci fi read_in = some (w'.cache, 0) ∧ Rep g w'.cache L' ∧
      absOf L' = spec_put w.cache.max_cache_size g.CART_FRAME_SIZE (absOf L) (ci, fi) read_in ∧
      w'.dev.fault = w.dev.fault ∧
      ((∀ t, w.dev.fault t = false) → w.dev.loaded = some ci →
        r = 0 ∧ w'.dev.loaded = w.dev.loaded ∧
        w'.dev.frames = upd2 w.dev.frames ci fi (read_in.take g.CART_FRAME_SIZE)) := by
  have hc16 : ci < 65536 := lt_of_lt_of_le hin.1 hg.1
  have hf16 : fi < 65536 := lt_of_lt_of_le hin.2 hg.2
  obtain ⟨c', L', h1, h2, h3, -⟩ := put_refines g w.cache L ci fi read_in hr hg hin
  unfold flush_store
  rw [hd, hdf, toUInt16_natCast hc16, toUInt16_natCast hf16, toUInt64_natCast hf16,
    index?_natCast hin.1, index?_natCast hin.2]
  simp only [h1, Option.bind_eq_bind, Option.some_bind, Option.pure_def]
  refine ⟨_, _, L', rfl, rfl, rfl, h2, h3, run_opcode_fault _ _ _ _, fun hf hl => ?_⟩
  rw [run_opcode_wrfrme g w.dev ci fi _ hin.2 hf16 (hf _) hl]
  exact ⟨rfl, rfl, rfl⟩

theorem stride_div (D pos : Int) (hD : 2 ≤ D) (hpos : -1 ≤ pos) :
    0 ≤ Int.tdiv pos D ∧ -1 ≤ Int.tmod pos D ∧ Int.tmod pos D < D ∧
    pos = Int.tdiv pos D * D + Int.tmod pos D ∧
    (0 ≤ pos → 0 ≤ Int.tmod pos D) ∧ (pos = -1 → Int.tdiv pos D = 0 ∧ Int.tmod pos D = -1) := by
  have hid : pos = Int.tdiv pos D * D + Int.tmod pos D := by
    have := Int.tmod_add_tdiv pos D
    rw [Int.mul_comm] at this
    omega
  by_cases h : pos = -1
  · subst h
    have h1 : Int.tdiv (-1) D = 0 := by
      rw [Int.neg_tdiv, Int.tdiv_eq_zero_of_lt (by omega) (by omega)]; rfl
    rw [h1] at hid ⊢
    refine ⟨le_refl _, by omega, by omega, by omega, by omega, fun _ => ⟨rfl, by omega⟩⟩
  · have h0 : 0 ≤ pos := by omega
    have h1 : Int.tdiv pos D = pos / D := Int.tdiv_eq_ediv h0 (by omega)
    have h2 : Int.tmod pos D = pos % D := Int.tmod_eq_emod h0 (by omega)
    have h3 : 0 ≤ pos % D := Int.emod_nonneg _ (by omega)
    have h4 : pos % D < D := Int.emod_lt_of_pos _ (by omega)
    have h5 : 0 ≤ pos / D := Int.ediv_nonneg h0 (by omega)
    rw [h1, h2] at hid ⊢
    exact ⟨h5, by omega, h4, hid, fun _ => h3, fun h' => absurd h' h⟩

theorem wrap32_of_range {x : Int} (h0 : -2 ^ 31 ≤ x) (h1 : x < 2 ^ 31) : wrap32 x = x := by
  unfold wrap32
  split <;> omega

/-- In a file system ready for `n` bytes, the block of the current position is a slot of the
file's frame list and is assigned to a frame of the device. -/
theorem FsReady.block {g : Geometry} {fs : File_System} {k : Nat} {n : Int}
    (h : FsReady g fs k n) (hn : 1 ≤ n) :
    ∃ q : Nat, Int.tdiv (fs.files k).current_position ((g.CART_FRAME_SIZE : Int) - 1) = (q : Int) ∧
      q < g.CART_CARTRIDGE_SIZE ∧ slot_ok g ((fs.files k).data q) := by
  have hD : (2 : Int) ≤ (g.CART_FRAME_SIZE : Int) - 1 := by have := h.stride; omega
  obtain ⟨q0, r0, r1, hid, hr, hm⟩ := stride_div _ _ hD h.pos_lo
  obtain ⟨q, hq⟩ := Int.eq_ofNat_of_zero_le q0
  refine ⟨q, hq, ?_, ?_⟩
  · have hroom := h.room
    rw [hq] at hid
    by_contra hcon
    have h1 : (g.CART_CARTRIDGE_SIZE : Int) ≤ (q : Int) := by omega
    have h2 := Int.mul_le_mul_of_nonneg_right h1 (show (0 : Int) ≤ (g.CART_FRAME_SIZE : Int) - 1 by omega)
    by_cases hp : (fs.files k).current_position = -1
    · have := (hm hp).1
      rw [hq] at this
      have hq0 : q = 0 := by exact_mod_cast this
      omega
    · have := hr (by omega)
      omega
  · apply h.blocks
    by_cases hp : (fs.files k).current_position = -1
    · left
      have := (hm hp).1
      rw [hq] at this
      exact_mod_cast this
    · right
      have := hr (by have := h.pos_lo; omega)
      have := h.pos_hi
      rw [hq] at hid
      omega

theorem le_succ_of_mul_le {j q D : Int} (hD : 0 < D) (h : j * D ≤ q * D + D) : j ≤ q + 1 := by
  by_contra hc
  have h1 : (q + 2) * D ≤ j * D := Int.mul_le_mul_of_nonneg_right (by omega) (by omega)
  have h2 : (q + 2) * D = q * D + 2 * D := by ring
  omega

theorem File.advanced_eq (f : File) (m : Int) (h0 : -1 ≤ f.current_position) (hm : 0 ≤ m)
    (h1 : f.current_position + m + 1 < 2 ^ 31) :
    f.advanced m = { f with current_position := f.current_position + m,
                            size := max f.size (f.current_position + m + 1) } := by
  unfold File.advanced
  simp only []
  rw [wrap32_of_range (by omega) (by omega)]
  split
  · rw [wrap32_of_range (by omega) (by omega)]
    congr 1
    omega
  · congr 1
    omega

/-- The allocation step keeps the cursor on the device as long as a frame is left, and moves
it by one frame. -/
theorem advance_cursor_spec (g : Geometry) (fs : File_System)
    (h16 : g.CART_MAX_CARTRIDGES ≤ 32767 ∧ g.CART_CARTRIDGE_SIZE ≤ 32767)
    (hc : 0 ≤ fs.cart_to_use ∧ 0 ≤ fs.frame_to_use ∧
      fs.frame_to_use < (g.CART_CARTRIDGE_SIZE : Int))
    (hlt : fs.cart_to_use < (g.CART_MAX_CARTRIDGES : Int)) :
    (advance_cursor g fs).files = fs.files ∧
    (advance_cursor g fs).visited = fs.visited ∧
    (advance_cursor g fs).last_cart_loaded = fs.last_cart_loaded ∧
    0 ≤ (advance_cursor g fs).cart_to_use ∧ 0 ≤ (advance_cursor g fs).frame_to_use ∧
    (advance_cursor g fs).frame_to_use < (g.CART_CARTRIDGE_SIZE : Int) ∧
    (advance_cursor g fs).cart_to_use * (g.CART_CARTRIDGE_SIZE : Int)
        + (advance_cursor g fs).frame_to_use
      = fs.cart_to_use * (g.CART_CARTRIDGE_SIZE : Int) + fs.frame_to_use + 1 := by
  unfold advance_cursor
  simp only []
  rw [toInt16_of_range (by omega) (by omega)]
  split
  · rename_i heq
    rw [toInt16_of_range (by omega) (by omega)]
    refine ⟨rfl, rfl, rfl, by simp only []; omega, by simp, by simp only []; omega, ?_⟩
    simp only []
    have : (fs.cart_to_use + 1) * (g.CART_CARTRIDGE_SIZE : Int)
        = fs.cart_to_use * (g.CART_CARTRIDGE_SIZE : Int) + (g.CART_CARTRIDGE_SIZE : Int) := by
      ring
    omega
  · rename_i hne
    refine ⟨rfl, rfl, rfl, hc.1, by simp only []; omega, by simp only []; omega, ?_⟩
    simp only []
    omega

/-- The position and size update that ends a flush of `hc + 1` bytes is defined in a file
system ready for `n >= hc + 1` bytes, when the bytes fit the block of the position: the
position moves on by `hc + 1`, the size becomes the position plus one when that is larger,
and the file system is ready for the remaining `n - (hc + 1)` bytes. -/
theorem flush_advance_spec (g : Geometry) (w : World) (k : Nat) (n hc : Int)
    (hR : FsReady g w.fs k n) (hc0 : 0 ≤ hc) (hn : hc + 1 ≤ n)
    (hfit : hc + Int.tmod (w.fs.files k).current_position ((g.CART_FRAME_SIZE : Int) - 1) + 1
      ≤ (g.CART_FRAME_SIZE : Int) - 1) :
    ∃ w', flush_advance g w k (hc + 1)
        (Int.tdiv (w.fs.files k).current_position ((g.CART_FRAME_SIZE : Int) - 1)) = some w' ∧
      FsReady g w'.fs k (n - (hc + 1)) ∧
      (w'.fs.files k).current_position = (w.fs.files k).current_position + hc + 1 ∧
      (w'.fs.files k).size
        = max (w.fs.files k).size ((w.fs.files k).current_position + hc + 2) ∧
      w'.cache = w.cache ∧ w'.dev = w.dev ∧
      w'.fs.last_cart_loaded = w.fs.last_cart_loaded := by
  have hD : (2 : Int) ≤ (g.CART_FRAME_SIZE : Int) - 1 := by have := hR.stride; omega
  have hD0 : (0 : Int) < (g.CART_FRAME_SIZE : Int) - 1 := by omega
  obtain ⟨q, hq, hqS, hslot⟩ := hR.block (by omega)
  obtain ⟨-, r0, r1, hid, hr, hm⟩ := stride_div _ _ hD hR.pos_lo
  rw [hq] at hid hm
  have hlo := hR.pos_lo
  have hhi := hR.pos_hi
  have h32 := hR.int32
  have hcur := hR.cursor
  have hcr := hR.cursor_room
  have hroom := hR.room
  have hadv := File.advanced_eq (w.fs.files k) (hc + 1) hlo (by omega) (by omega)
  have hE : (w.fs.files k).current_position + (hc + 1) + (n - (hc + 1))
      = (w.fs.files k).current_position + n := by omega
  -- the floor quotients of the old position, the new position and the last position
  have hmono1 : (w.fs.files k).current_position / ((g.CART_FRAME_SIZE : Int) - 1)
      ≤ ((w.fs.files k).current_position + (hc + 1)) / ((g.CART_FRAME_SIZE : Int) - 1) :=
    Int.ediv_le_ediv hD0 (by omega)
  have hmono2 : ((w.fs.files k).current_position + (hc + 1)) / ((g.CART_FRAME_SIZE : Int) - 1)
      ≤ ((w.fs.files k).current_position + n) / ((g.CART_FRAME_SIZE : Int) - 1) :=
    Int.ediv_le_ediv hD0 (by omega)
  -- a flush that ends on a multiple of the stride: the next block has a slot, the cursor is
  -- on the device, and the new position is in a later stride than the old one
  have hstep : Int.tmod ((w.fs.files k).current_position + (hc + 1))
        ((g.CART_FRAME_SIZE : Int) - 1) = 0 →
      q + 1 < g.CART_CARTRIDGE_SIZE ∧
      (w.fs.files k).current_position / ((g.CART_FRAME_SIZE : Int) - 1) + 1
        ≤ ((w.fs.files k).current_position + (hc + 1)) / ((g.CART_FRAME_SIZE : Int) - 1) := by
    intro hz
    have ht := Int.tdiv_mul_cancel_of_tmod_eq_zero hz
    generalize Int.tdiv ((w.fs.files k).current_position + (hc + 1))
      ((g.CART_FRAME_SIZE : Int) - 1) = t at ht
    have ht1 : (q : Int) ≤ t := by
      by_contra hcon
      have := Int.mul_le_mul_of_nonneg_right (show t + 1 ≤ (q : Int) by omega)
        (show (0 : Int) ≤ (g.CART_FRAME_SIZE : Int) - 1 by omega)
      have he : (t + 1) * ((g.CART_FRAME_SIZE : Int) - 1)
          = t * ((g.CART_FRAME_SIZE : Int) - 1) + ((g.CART_FRAME_SIZE : Int) - 1) := by ring
      omega
    have ht2 : t ≤ (q : Int) + 1 := le_succ_of_mul_le hD0 (by omega)
    have hquot : ((w.fs.files k).current_position + (hc + 1)) / ((g.CART_FRAME_SIZE : Int) - 1)
        = t := by
      rw [← ht]; exact Int.mul_ediv_cancel t (by omega)
    have hlt : (w.fs.files k).current_position / ((g.CART_FRAME_SIZE : Int) - 1) < t :=
      Int.ediv_lt_of_lt_mul hD0 (by omega)
    refine ⟨?_, by omega⟩
    by_cases htq : t = (q : Int)
    · have hp : (w.fs.files k).current_position = -1 := by
        by_contra hp
        have := hr (by omega)
        rw [htq] at ht
        omega
      have := (hm hp).1
      have hq0 : q = 0 := by exact_mod_cast this
      omega
    · have htq1 : t = (q : Int) + 1 := by omega
      rw [htq1] at ht
      by_contra hcon
      have := Int.mul_le_mul_of_nonneg_right
        (show (g.CART_CARTRIDGE_SIZE : Int) ≤ (q : Int) + 1 by omega)
        (show (0 : Int) ≤ (g.CART_FRAME_SIZE : Int) - 1 by omega)
      omega
  -- blocks below the end of the block of the position
  have hbelow : ∀ j : Nat, (j : Int) ≤ q → j = 0 ∨
      (j : Int) * ((g.CART_FRAME_SIZE : Int) - 1) < (w.fs.files k).size := by
    intro j hj
    by_cases hp : (w.fs.files k).current_position = -1
    · left
      have := (hm hp).1
      have : q = 0 := by exact_mod_cast this
      omega
    · right
      have := hr (by omega)
      have := Int.mul_le_mul_of_nonneg_right hj
        (show (0 : Int) ≤ (g.CART_FRAME_SIZE : Int) - 1 by omega)
      omega
  unfold flush_advance
  simp only [hadv, hq]
  split
  · rename_i hcond
    obtain ⟨hqS1, hquot⟩ := hstep hcond.1
    -- the cursor is on the device
    have hcart : w.fs.cart_to_use < (g.CART_MAX_CARTRIDGES : Int) := by
      by_contra hcon
      have := Int.mul_le_mul_of_nonneg_right
        (show (g.CART_MAX_CARTRIDGES : Int) ≤ w.fs.cart_to_use by omega)
        (show (0 : Int) ≤ (g.CART_CARTRIDGE_SIZE : Int) by omega)
      omega
    have hix : index? g.CART_CARTRIDGE_SIZE ((q : Int) + 1) = some (q + 1) := by
      have := index?_natCast hqS1
      simpa using this
    rw [hix]
    simp only []
    obtain ⟨a1, a2, a3, a4, a5, a6, a7⟩ := advance_cursor_spec g
      { w.fs with files := (upd (upd w.fs.files k
          { w.fs.files k with
            current_position := (w.fs.files k).current_position + (hc + 1),
            size := (max (w.fs.files k).size ((w.fs.files k).current_position + (hc + 1) + 1)) }) k
          { w.fs.files k with
            current_position := (w.fs.files k).current_position + (hc + 1),
            size := (max (w.fs.files k).size ((w.fs.files k).current_position + (hc + 1) + 1)),
            data := (upd (w.fs.files k).data (q + 1)
              { cart := w.fs.cart_to_use, frame := w.fs.frame_to_use }) }) }
      hR.int16 hcur hcart
    refine ⟨_, rfl, ?_, ?_, ?_, rfl, rfl, a3⟩
    · refine ⟨hR.stride, hR.int16, ?_, ?_, ?_, ?_, ⟨a4, a5, a6⟩, ?_, ?_⟩
      all_goals simp only [a1, upd_same]
      · omega
      · omega
      · omega
      · intro j hj
        by_cases hjq : j = q + 1
        · subst hjq
          rw [upd_same]
          exact ⟨hcur.1, hcart, hcur.2.1, hcur.2.2⟩
        · rw [upd_other _ _ hjq]
          apply hR.blocks
          rcases hj with hj | hj
          · exact Or.inl hj
          · apply hbelow
            have h1 : (j : Int) ≤ (q : Int) + 1 :=
              le_succ_of_mul_le (show (0 : Int) < (g.CART_FRAME_SIZE : Int) - 1 by omega)
                (by omega)
            omega
      · simp only [a1, upd_same] at a7
        rw [hE]
        omega
      · rw [hE]; exact hroom
    · simp only [a1, upd_same]; omega
    · simp only [a1, upd_same]; omega
  · rename_i hcond
    refine ⟨_, rfl, ?_, ?_, ?_, rfl, rfl, rfl⟩
    · refine ⟨hR.stride, hR.int16, ?_, ?_, ?_, ?_, hcur, ?_, ?_⟩
      all_goals simp only [upd_same]
      · omega
      · omega
      · omega
      · intro j hj
        apply hR.blocks
        rcases hj with hj | hj
        · exact Or.inl hj
        · by_cases hlt : (j : Int) * ((g.CART_FRAME_SIZE : Int) - 1) < (w.fs.files k).size
          · exact Or.inr hlt
          · apply hbelow
            have h1 : (j : Int) ≤ (q : Int) + 1 :=
              le_succ_of_mul_le (show (0 : Int) < (g.CART_FRAME_SIZE : Int) - 1 by omega)
                (by omega)
            by_contra hgt
            have hj1 : (j : Int) = q + 1 := by omega
            have hmul : (j : Int) * ((g.CART_FRAME_SIZE : Int) - 1)
                = (q : Int) * ((g.CART_FRAME_SIZE : Int) - 1) + ((g.CART_FRAME_SIZE : Int) - 1) := by
              rw [hj1]; ring
            have hpos : (w.fs.files k).current_position + (hc + 1)
                = ((q : Int) + 1) * ((g.CART_FRAME_SIZE : Int) - 1) := by
              have : ((q : Int) + 1) * ((g.CART_FRAME_SIZE : Int) - 1)
                = (q : Int) * ((g.CART_FRAME_SIZE : Int) - 1) + ((g.CART_FRAME_SIZE : Int) - 1) := by
                ring
              omega
            apply hcond
            constructor
            · rw [hpos]; exact Int.mul_tmod_left _ _
            · omega
      · rw [hE]; omega
      · rw [hE]; exact hroom
    · simp only [upd_same]; omega
    · simp only [upd_same]; omega

theorem FsReady.congr {g : Geometry} {fs fs' : File_System} {k : Nat} {n : Int}
    (h : FsReady g fs k n) (hf : fs'.files = fs.files) (hc : fs'.cart_to_use = fs.cart_to_use)
    (hfr : fs'.frame_to_use = fs.frame_to_use) : FsReady g fs' k n := by
  refine ⟨h.stride, h.int16, ?_, ?_, ?_, ?_, ?_, ?_, ?_⟩
  · rw [hf]; exact h.pos_lo
  · rw [hf]; exact h.pos_hi
  · rw [hf]; exact h.int32
  · rw [hf]; exact h.blocks
  · rw [hc, hfr]; exact h.cursor
  · rw [hc, hfr, hf]; exact h.cursor_room
  · rw [hf]; exact h.room

theorem synced_of {w w' : World} (h : synced w) (hf : w'.dev.fault = w.dev.fault)
    (hl : w'.dev.loaded = w.dev.loaded)
    (hc : w'.fs.last_cart_loaded = w.fs.last_cart_loaded) : synced w' := by
  obtain ⟨h1, c, h2, h3⟩ := h
  exact ⟨fun t => by rw [hf]; exact h1 t, c, by rw [hl]; exact h2, by rw [hc]; exact h3⟩

/-- One flush of `cart_write` in a state ready for `n` bytes, with `hc + 1 <= n` staged
bytes that fit the block of the position: the flush is defined; when it succeeds the position
has moved on by `hc + 1`, the size is the larger of the old size and the new position plus
one, and the state is ready for the remaining bytes; and it does succeed on a device that
does not fail. -/
theorem write_flush_step (g : Geometry) (w : World) (k : Nat) (read_in hb : List Nat)
    (n hc : Int) (hW : Writable g w k n) (hc0 : 0 ≤ hc) (hn : hc + 1 ≤ n)
    (hfit : hc + Int.tmod (w.fs.files k).current_position ((g.CART_FRAME_SIZE : Int) - 1) + 1
      ≤ (g.CART_FRAME_SIZE : Int) - 1) :
    ∃ fl, write_flush g w k read_in hb hc
        (Int.tdiv (w.fs.files k).current_position ((g.CART_FRAME_SIZE : Int) - 1))
        (Int.tmod (w.fs.files k).current_position ((g.CART_FRAME_SIZE : Int) - 1)) = some fl ∧
      (fl.ok = true → Writable g fl.w k (n - (hc + 1)) ∧
        (fl.w.fs.files k).current_position = (w.fs.files k).current_position + hc + 1 ∧
        (fl.w.fs.files k).size
          = max (w.fs.files k).size ((w.fs.files k).current_position + hc + 2)) ∧
      (synced w → fl.ok = true ∧ synced fl.w) := by
  obtain ⟨hR, L, hrep⟩ := hW
  have hg : g.index16 := ⟨by have := hR.int16.1; omega, by have := hR.int16.2; omega⟩
  obtain ⟨q, hq, hqS, hslot⟩ := hR.block (by omega)
  obtain ⟨ci, hci⟩ := Int.eq_ofNat_of_zero_le hslot.1
  obtain ⟨fi, hfi⟩ := Int.eq_ofNat_of_zero_le hslot.2.2.1
  have hin : inTable g ci fi := by
    have h1 := hslot.2.1
    have h2 := hslot.2.2.2
    rw [hci] at h1; rw [hfi] at h2
    exact ⟨by exact_mod_cast h1, by exact_mod_cast h2⟩
  have hc16 : ci < 65536 := lt_of_lt_of_le hin.1 hg.1
  obtain ⟨l1, l2, l3, l4, l5, l6⟩ := flush_load_frame g w ((w.fs.files k).data q)
  have hrep1 : Rep g (flush_load g w ((w.fs.files k).data q)).1.cache L := by rw [l1]; exact hrep
  obtain ⟨fl1, f1, f2, f3, f4, f5⟩ := flush_fetch_spec g (flush_load g w ((w.fs.files k).data q)).1
    _ ci fi read_in L hrep1 hci hfi hin hg
  have hrep2 : Rep g fl1.w.cache L := by rw [f3]; exact hrep1
  obtain ⟨w2, r, L2, s1, s2, s3, s4, s5, s6, s7⟩ := flush_store_spec g fl1.w
    ((w.fs.files k).data q) ci fi
    (copy_at fl1.read_in (Int.tmod (w.fs.files k).current_position ((g.CART_FRAME_SIZE : Int) - 1))
      (hb.take (hc + 1).toNat)) L hrep2 hci hfi hin hg
  have hfiles2 : w2.fs.files = w.fs.files := by rw [s2, f2]; exact l2
  have hR2 : FsReady g w2.fs k n :=
    hR.congr hfiles2 (by rw [s2, f2]; exact l4) (by rw [s2, f2]; exact l5)
  have hfit2 : hc + Int.tmod (w2.fs.files k).current_position ((g.CART_FRAME_SIZE : Int) - 1) + 1
      ≤ (g.CART_FRAME_SIZE : Int) - 1 := by rw [hfiles2]; exact hfit
  obtain ⟨w3, a1, a2, a3, a4, a5, a6, a7⟩ := flush_advance_spec g w2 k n hc hR2 hc0 hn hfit2
  rw [hfiles2] at a1 a3 a4
  rw [hq] at a1
  -- the device side, when it does not fail
  have hdev : synced w → (flush_load g w ((w.fs.files k).data q)).2 = true ∧ fl1.ok = true ∧
      r = 0 ∧ synced w2 := by
    intro hs
    obtain ⟨o1, o2, o3, -⟩ := flush_load_ok g w _ ci hci hin.1 hc16 hs
    obtain ⟨p1, p2, -, -⟩ := f5 o2.1 o3
    have hl1 : fl1.w.dev.loaded = some ci := by rw [p2]; exact o3
    have hf1 : ∀ t, fl1.w.dev.fault t = false := by rw [f4]; exact o2.1
    obtain ⟨t1, t2, -⟩ := s7 hf1 hl1
    refine ⟨o1, p1, t1, ?_⟩
    refine synced_of o2 (by rw [s6, f4]) (by rw [t2, p2]) (by rw [s2, f2])
  unfold write_flush
  rw [hq, index?_natCast (show q < g.CART_CARTRIDGE_SIZE by omega)]
  simp only [Option.bind_eq_bind, Option.some_bind, Option.pure_def]
  by_cases hld : (flush_load g w ((w.fs.files k).data q)).2 = false
  · rw [if_pos hld]
    refine ⟨_, rfl, fun h => by simp at h, fun hs => ?_⟩
    have := (hdev hs).1
    rw [hld] at this
    simp at this
  rw [if_neg hld, f1]
  simp only [Option.some_bind]
  by_cases hfo : fl1.ok = false
  · rw [if_pos hfo]
    refine ⟨_, rfl, fun h => by rw [hfo] at h; simp at h, fun hs => ?_⟩
    have := (hdev hs).2.1
    rw [hfo] at this
    simp at this
  rw [if_neg hfo, s1]
  simp only [Option.some_bind]
  by_cases hr1 : r = -1
  · rw [if_pos hr1]
    refine ⟨_, rfl, fun h => by simp at h, fun hs => ?_⟩
    have := (hdev hs).2.2.1
    omega
  rw [if_neg hr1, a1]
  simp only [Option.some_bind]
  refine ⟨_, rfl, fun _ => ⟨⟨a2, L2, by rw [a5]; exact s4⟩, a3, a4⟩, fun hs => ⟨rfl, ?_⟩⟩
  exact synced_of (hdev hs).2.2.2 (by rw [a6]) (by rw [a6]) a7

/-- The byte loop of `cart_write`, entered with `hc` staged bytes and the bytes `bs` still to
come in a state ready for `hc + bs.length` bytes: the loop is defined; it returns `-1` or the
count, and in the latter case the position has moved on by `hc + bs.length` and the size is
the larger of the old size and the new position plus one. On a device that does not fail it
returns the count. -/
theorem write_loop_spec (g : Geometry) (k count : Nat) (bs : List Nat) :
    ∀ (w : World) (read_in hb : List Nat) (hc : Int), 0 ≤ hc →
      Writable g w k (hc + (bs.length : Int)) →
      hc + Int.tmod (w.fs.files k).current_position ((g.CART_FRAME_SIZE : Int) - 1) + 1
        ≤ (g.CART_FRAME_SIZE : Int) - 1 →
      (bs = [] → hc = 0) →
      ∃ w' r, write_loop g k count bs w read_in hb hc = some (w', r) ∧
        (r = -1 ∨ (r = (count : Int) ∧
          (w'.fs.files k).current_position
            = (w.fs.files k).current_position + hc + (bs.length : Int) ∧
          (w'.fs.files k).size = max (w.fs.files k).size
            ((w.fs.files k).current_position + hc + (bs.length : Int) + 1) ∧
          Writable g w' k 0)) ∧
        (synced w → r = (count : Int) ∧ synced w') := by
  induction bs with
  | nil =>
    intro w read_in hb hc hc0 hW _ hnil
    have h0 : hc = 0 := hnil rfl
    subst h0
    have hhi := hW.1.pos_hi
    refine ⟨w, count, rfl, Or.inr ⟨rfl, by simp, ?_, by simpa using hW⟩, fun hs => ⟨rfl, hs⟩⟩
    simp only [List.length_nil, Nat.cast_zero]
    omega
  | cons b rest ih =>
    intro w read_in hb hc hc0 hW hfit _
    have hD : (2 : Int) ≤ (g.CART_FRAME_SIZE : Int) - 1 := by have := hW.1.stride; omega
    obtain ⟨-, r0, r1, -, -, -⟩ := stride_div _ _ hD hW.1.pos_lo
    have hlen : ((b :: rest).length : Int) = (rest.length : Int) + 1 := by
      simp only [List.length_cons]; push_cast; rfl
    rw [hlen] at hW ⊢
    obtain ⟨j, hj⟩ := Int.eq_ofNat_of_zero_le hc0
    have hjF : j < g.CART_FRAME_SIZE := by omega
    have hix : index? g.CART_FRAME_SIZE hc = some j := by
      rw [hj]; exact index?_natCast hjF
    unfold write_loop
    simp only [hix]
    by_cases hcond : hc + Int.tmod (w.fs.files k).current_position ((g.CART_FRAME_SIZE : Int) - 1)
        + 1 = (g.CART_FRAME_SIZE : Int) - 1 ∨ rest = []
    · rw [if_pos hcond]
      obtain ⟨fl, f1, f2, f3⟩ := write_flush_step g w k read_in (hb.set j b)
        (hc + ((rest.length : Int) + 1)) hc hW hc0 (by omega) hfit
      rw [f1]
      simp only []
      by_cases hok : fl.ok = false
      · rw [if_pos hok]
        refine ⟨_, _, rfl, Or.inl rfl, fun hs => ?_⟩
        have := (f3 hs).1
        rw [hok] at this
        simp at this
      · rw [if_neg hok]
        have hok' : fl.ok = true := by simpa using hok
        obtain ⟨g1, g2, g3⟩ := f2 hok'
        have hW' : Writable g fl.w k (0 + (rest.length : Int)) := by
          have : hc + ((rest.length : Int) + 1) - (hc + 1) = 0 + (rest.length : Int) := by omega
          rw [← this]; exact g1
        have hD' := stride_div _ (fl.w.fs.files k).current_position hD hW'.1.pos_lo
        obtain ⟨w', r, i1, i2, i3⟩ := ih fl.w fl.read_in (hb.set j b) 0 (le_refl _) hW'
          (by have := hD'.2.2.1; omega) (fun _ => rfl)
        have i1' : write_loop g k count rest fl.w fl.read_in (hb.set j b) (-1 + 1)
            = some (w', r) := i1
        refine ⟨w', r, i1', ?_, fun hs => i3 (f3 hs).2⟩
        rcases i2 with i2 | ⟨e1, e2, e3, e4⟩
        · exact Or.inl i2
        · refine Or.inr ⟨e1, ?_, ?_, e4⟩
          · rw [e2, g2]; omega
          · rw [e3, g2, g3]; omega
    · rw [if_neg hcond]
      have hrest : rest ≠ [] := fun h => hcond (Or.inr h)
      have hW' : Writable g w k (hc + 1 + (rest.length : Int)) := by
        have : hc + ((rest.length : Int) + 1) = hc + 1 + (rest.length : Int) := by omega
        rw [← this]; exact hW
      obtain ⟨w', r, i1, i2, i3⟩ := ih w read_in (hb.set j b) (hc + 1) (by omega) hW'
        (by omega) (fun h => absurd h hrest)
      refine ⟨w', r, i1, ?_, i3⟩
      rcases i2 with i2 | ⟨e1, e2, e3, e4⟩
      · exact Or.inl i2
      · refine Or.inr ⟨e1, ?_, ?_, e4⟩
        · rw [e2]; omega
        · rw [e3]; omega

/-- A call of `cart_write` on a usable file in a state ready for `count` bytes is defined,
and when it does not return `-1` the state is well-formed afterwards. -/
theorem cart_write_writable (g : Geometry) (w : World) (fd : Int) (k : Nat) (buf : List Nat)
    (count : Nat) (hfd : index? FILES_SIZE fd = some k) (hopen : ¬ not_usable (w.fs.files k))
    (hbuf : count ≤ buf.length) (hW : Writable g w k (count : Int)) :
    ∃ w' r, cart_write g w fd buf count = some (w', r) ∧ (r ≠ -1 → Writable g w' k 0) := by
  have hD : (2 : Int) ≤ (g.CART_FRAME_SIZE : Int) - 1 := by have := hW.1.stride; omega
  have hlen : ((buf.take count).length : Int) = (count : Int) := by
    rw [List.length_take, Nat.min_eq_left hbuf]
  have hW' : Writable g w k (0 + ((buf.take count).length : Int)) := by
    rw [hlen, Int.zero_add]; exact hW
  obtain ⟨w', r, h1, h2, -⟩ := write_loop_spec g k count (buf.take count) w
    (List.replicate g.CART_FRAME_SIZE 0) (List.replicate g.CART_FRAME_SIZE 0) 0 (le_refl _) hW'
    (by have := (stride_div _ _ hD hW.1.pos_lo).2.2.1; omega)
    (fun _ => rfl)
  refine ⟨w', r, ?_, fun hr => ?_⟩
  · unfold cart_write
    simp only [hfd, Option.bind_eq_bind, Option.some_bind, Option.pure_def]
    rw [if_neg hopen, if_neg (by omega), if_neg (by omega)]
    exact h1
  · rcases h2 with h2 | h2
    · exact absurd h2 hr
    · exact h2.2.2.2

/-- C13 (as the code has it): write metadata postcondition. For an open file whose name does
not start with the character `'0'` (`not_usable` is the test at the start of `cart_write`),
with position `P` and size `s`, in a state that is ready for `count` bytes (`Writable`:
frames of at least 3 bytes, at most 32767 cartridges of 2 to 32767 frames; `P = -1` or
`0 <= P < s`; `s + count < 2^31`; block 0 and every block that starts below `s` assigned to
a frame of the device; the cursor in a cartridge; a frame of the device left from the cursor
on for every multiple of the stride among the positions `P + 1 .. P + count`;
`P + count < CART_CARTRIDGE_SIZE * (CART_FRAME_SIZE - 1)`; a well-formed cache list),
`cart_write(h, buf, count)` is defined and returns `-1` or `count`; when it returns `count`
the position is `P + count` and the size is `max(s, P + count + 1)`: the size is kept at the
position plus one. When no device command fails and the driver's record of the loaded
cartridge agrees with the device (`synced`), the call returns `count`. -/
theorem cart_write_metadata (g : Geometry) (w : World) (fd : Int) (k : Nat) (buf : List Nat)
    (count : Nat) (hfd : index? FILES_SIZE fd = some k) (hopen : ¬ not_usable (w.fs.files k))
    (hbuf : count ≤ buf.length) (hW : Writable g w k (count : Int)) :
    ∃ w' r, cart_write g w fd buf count = some (w', r) ∧
      (r = -1 ∨ (r = (count : Int) ∧
        (w'.fs.files k).current_position = (w.fs.files k).current_position + (count : Int) ∧
        (w'.fs.files k).size
          = max (w.fs.files k).size ((w.fs.files k).current_position + (count : Int) + 1))) ∧
      (synced w → r = (count : Int) ∧ synced w') := by
  have hD : (2 : Int) ≤ (g.CART_FRAME_SIZE : Int) - 1 := by have := hW.1.stride; omega
  have hlen : ((buf.take count).length : Int) = (count : Int) := by
    rw [List.length_take, Nat.min_eq_left hbuf]
  have hW' : Writable g w k (0 + ((buf.take count).length : Int)) := by
    rw [hlen, Int.zero_add]; exact hW
  obtain ⟨w', r, h1, h2, h3⟩ := write_loop_spec g k count (buf.take count) w
    (List.replicate g.CART_FRAME_SIZE 0) (List.replicate g.CART_FRAME_SIZE 0) 0 (le_refl _) hW'
    (by have := (stride_div _ _ hD hW.1.pos_lo).2.2.1; omega)
    (fun _ => rfl)
  refine ⟨w', r, ?_, ?_, h3⟩
  · unfold cart_write
    simp only [hfd, Option.bind_eq_bind, Option.some_bind, Option.pure_def]
    rw [if_neg hopen, if_neg (by omega), if_neg (by omega)]
    exact h1
  · rcases h2 with h2 | ⟨e1, e2, e3, -⟩
    · exact Or.inl h2
    · refine Or.inr ⟨e1, ?_, ?_⟩
      · rw [e2, hlen]; omega
      · rw [e3, hlen]; omega

set_option maxRecDepth 1000000 in
theorem freshFile_writable : Writable smallGeometry freshFile 0 ((2 : Nat) : Int) := by
  refine ⟨⟨by decide, by decide, by decide, by decide, by decide, ?_, by decide, by decide,
    by decide⟩, [], ?_⟩
  · intro j hj
    have hj0 : j = 0 := by
      rcases hj with hj | hj
      · exact hj
      · have h1 : (freshFile.fs.files 0).size = 0 := by decide
        rw [h1] at hj
        have h2 : ((smallGeometry.CART_FRAME_SIZE : Int) - 1) = 3 := by decide
        rw [h2] at hj
        omega
    subst hj0
    decide
  · exact Rep.init smallGeometry (set_cart_cache_size Cache.zero 1).1

set_option maxRecDepth 1000000 in
theorem writtenFile_writable : Writable smallGeometry writtenFile 0 ((2 : Nat) : Int) := by
  obtain ⟨w', r, h1, h2⟩ := cart_write_writable smallGeometry freshFile 0 0 [97, 98] 2
    (by decide) (by decide) (by decide) freshFile_writable
  have h3 : cart_write smallGeometry freshFile 0 [97, 98] 2 = some (writtenOnce, 2) := rfl
  rw [h3] at h1
  simp only [Option.some.injEq, Prod.mk.injEq] at h1
  obtain ⟨rfl, rfl⟩ := h1
  obtain ⟨-, L, hL⟩ := h2 (by decide)
  refine ⟨⟨by decide, by decide, by decide, by decide, by decide, ?_, by decide, by decide,
    by decide⟩, L, hL⟩
  intro j hj
  have hj0 : j = 0 := by
    rcases hj with hj | hj
    · exact hj
    · have h1 : (writtenFile.fs.files 0).size = 2 := by decide
      rw [h1] at hj
      have h2 : ((smallGeometry.CART_FRAME_SIZE : Int) - 1) = 3 := by decide
      rw [h2] at hj
      omega
  subst hj0
  decide

set_option maxRecDepth 1000000 in
theorem writtenFile_synced : synced writtenFile :=
  ⟨fun _ => rfl, 0, by decide, by decide⟩

set_option maxRecDepth 1000000 in
theorem freshFile_writable_five : Writable smallGeometry freshFile 0 ((5 : Nat) : Int) := by
  refine ⟨⟨by decide, by decide, by decide, by decide, by decide, ?_, by decide, by decide,
    by decide⟩, [], ?_⟩
  · intro j hj
    have hj0 : j = 0 := by
      rcases hj with hj | hj
      · exact hj
      · have h1 : (freshFile.fs.files 0).size = 0 := by decide
        rw [h1] at hj
        have h2 : ((smallGeometry.CART_FRAME_SIZE : Int) - 1) = 3 := by decide
        rw [h2] at hj
        omega
    subst hj0
    decide
  · exact Rep.init smallGeometry (set_cart_cache_size Cache.zero 1).1

set_option maxRecDepth 1000000 in
theorem freshFile_synced : synced freshFile :=
  ⟨fun _ => rfl, 1, by decide, by decide⟩

set_option maxRecDepth 1000000 in
/-- The new file on the device of the assignment (64 cartridges of 1024 frames of 1024
bytes) is ready for a write of 65536 bytes, which takes at most 66 of the 65535 frames left
from the cursor on. -/
theorem freshDevice_writable : Writable cartGeometry freshDevice 0 ((65536 : Nat) : Int) := by
  refine ⟨⟨by decide, by decide, by decide, by decide, by decide, ?_, by decide, by decide,
    by decide⟩, [], ?_⟩
  · intro j hj
    have hj0 : j = 0 := by
      rcases hj with hj | hj
      · exact hj
      · have h1 : (freshDevice.fs.files 0).size = 0 := by decide
        rw [h1] at hj
        have h2 : ((cartGeometry.CART_FRAME_SIZE : Int) - 1) = 1023 := by decide
        rw [h2] at hj
        omega
    subst hj0
    decide
  · exact Rep.init cartGeometry Cache.zero

set_option maxRecDepth 1000000 in
theorem freshDevice_synced : synced freshDevice :=
  ⟨fun _ => rfl, 63, by decide, by decide⟩

set_option maxRecDepth 1000000 in
/-- Witness of `cart_write_metadata`. In the small geometry (stride 3, 2 cartridges of 2
frames) the new file 0 has position `-1` and size 0 and three frames are left from the
cursor on; `cart_write(0, "xyzwv", 5)` takes two of them, returns 5 and leaves position 4 and
size 5. On the device of the assignment the new file is ready for a write of 65536 bytes,
which returns 65536 when no command fails. -/
theorem cart_write_metadata_witness :
    (index? FILES_SIZE 0 = some 0 ∧ ¬ not_usable (freshFile.fs.files 0) ∧
      5 ≤ [120, 121, 122, 119, 118].length ∧
      Writable smallGeometry freshFile 0 ((5 : Nat) : Int) ∧ synced freshFile ∧
      (freshFile.fs.files 0).current_position = -1 ∧ (freshFile.fs.files 0).size = 0 ∧
      cursor freshFile.fs = { cart := 0, frame := 1 }) ∧
    (∃ w' r, cart_write smallGeometry freshFile 0 [120, 121, 122, 119, 118] 5 = some (w', r) ∧
      (r = -1 ∨ (r = ((5 : Nat) : Int) ∧
        (w'.fs.files 0).current_position
          = (freshFile.fs.files 0).current_position + ((5 : Nat) : Int) ∧
        (w'.fs.files 0).size = max (freshFile.fs.files 0).size
          ((freshFile.fs.files 0).current_position + ((5 : Nat) : Int) + 1))) ∧
      (synced freshFile → r = ((5 : Nat) : Int) ∧ synced w')) ∧
    (cart_write smallGeometry freshFile 0 [120, 121, 122, 119, 118] 5).map
        (fun r => (r.2, (r.1.fs.files 0).current_position, (r.1.fs.files 0).size,
          cursor r.1.fs))
      = some (5, 4, 5, { cart := 1, frame := 0 }) ∧
    (¬ not_usable (freshDevice.fs.files 0) ∧
      Writable cartGeometry freshDevice 0 ((65536 : Nat) : Int) ∧ synced freshDevice ∧
      (freshDevice.fs.files 0).current_position = -1 ∧ (freshDevice.fs.files 0).size = 0 ∧
      cursor freshDevice.fs = { cart := 0, frame := 1 }) ∧
    (∃ w' r, cart_write cartGeometry freshDevice 0 (List.replicate 65536 0) 65536
        = some (w', r) ∧
      (r = -1 ∨ (r = ((65536 : Nat) : Int) ∧
        (w'.fs.files 0).current_position
          = (freshDevice.fs.files 0).current_position + ((65536 : Nat) : Int) ∧
        (w'.fs.files 0).size = max (freshDevice.fs.files 0).size
          ((freshDevice.fs.files 0).current_position + ((65536 : Nat) : Int) + 1))) ∧
      (synced freshDevice → r = ((65536 : Nat) : Int) ∧ synced w')) :=
  ⟨⟨by decide, by decide, by decide, freshFile_writable_five, freshFile_synced, by decide,
      by decide, by decide⟩,
    cart_write_metadata smallGeometry freshFile 0 0 [120, 121, 122, 119, 118] 5 (by decide)
      (by decide) (by decide) freshFile_writable_five,
    by decide,
    ⟨by decide, freshDevice_writable, freshDevice_synced, by decide, by decide, by decide⟩,
    cart_write_metadata cartGeometry freshDevice 0 0 (List.replicate 65536 0) 65536
      (by decide) (by decide) (by rw [List.length_replicate]) freshDevice_writable⟩

set_option maxRecDepth 1000000 in
/-- C13 fails as stated: in the small geometry, on the open file with position 0 and size 2,
`cart_write(0, "xy", 2)` returns 2 and leaves the position at 2, but the size is 3, not
`max(2, 0 + 2) = 2`. -/
theorem cart_write_size_one_past :
    ¬ not_usable (writtenFile.fs.files 0) ∧
    (writtenFile.fs.files 0).current_position = 0 ∧ (writtenFile.fs.files 0).size = 2 ∧
    (cart_write smallGeometry writtenFile 0 [120, 121] 2).map
        (fun r => (r.2, (r.1.fs.files 0).current_position, (r.1.fs.files 0).size))
      = some (2, 2, 3) ∧
    (3 : Int) ≠ max 2 (0 + 2) := by
  decide

theorem copy_at_length (src : List Nat) :
    ∀ (dst : List Nat) (off : Int), (copy_at dst off src).length = dst.length := by
  induction src with
  | nil => intro dst off; rfl
  | cons b bs ih =>
    intro dst off
    simp only [copy_at]
    rw [ih]
    split
    · simp
    · rfl

/-- The bytes of a buffer after `memcpy(&dst[o], src, len src)` with `o >= 0`: the bytes of
`src` at the indices `o .. o + len src - 1` that are indices of `dst`, the old bytes
elsewhere. -/
theorem copy_at_get? (src : List Nat) :
    ∀ (dst : List Nat) (o i : Nat),
      (copy_at dst (o : Int) src).get? i
        = if o ≤ i ∧ i < o + src.length ∧ i < dst.length then src.get? (i - o)
          else dst.get? i := by
  induction src with
  | nil =>
    intro dst o i
    simp only [copy_at, List.length_nil, Nat.add_zero]
    rw [if_neg (by omega)]
  | cons b bs ih =>
    intro dst o i
    simp only [copy_at]
    rw [if_pos (Int.natCast_nonneg o)]
    have h1 : ((o : Int) + 1) = ((o + 1 : Nat) : Int) := by push_cast; rfl
    rw [h1, ih]
    simp only [Int.toNat_ofNat, List.length_set, List.length_cons]
    by_cases hi : o = i
    · subst hi
      rw [if_neg (by omega)]
      by_cases hl : o < dst.length
      · rw [if_pos ⟨le_refl _, by omega, hl⟩]
        simp [List.get?_eq_getElem?, List.getElem?_set, hl]
      · rw [if_neg (by omega)]
        simp [List.get?_eq_getElem?, List.getElem?_set, hl]
        omega
    · by_cases hc : o + 1 ≤ i ∧ i < o + 1 + bs.length ∧ i < dst.length
      · rw [if_pos hc, if_pos ⟨by omega, by omega, hc.2.2⟩]
        have : i - o = (i - (o + 1)) + 1 := by omega
        rw [this]
        simp [List.get?_eq_getElem?]
      · rw [if_neg hc, if_neg (by omega)]
        simp [List.get?_eq_getElem?, List.getElem?_set, hi]

/-- C14: read-modify-write preservation. When `cart_write` flushes the staged bytes
`holding_buffer[0 .. hc]` to in-frame offset `o >= 0` of the block `q` of the position, whose
frame `(ci, fi)` is in the cache or marked visited, in a well-formed state with a device
that does not fail: the flush succeeds, and the frame sent to the device, stored there and
put into the cache is the frame's prior content (the cached copy if the frame is cached,
otherwise the device's copy) with the staged bytes copied to the offset: it has the staged
bytes at the indices `o .. o + n - 1` and the prior bytes at every other index. -/
theorem write_flush_read_modify_write (g : Geometry) (w : World) (k : Nat)
    (read_in hb : List Nat) (n hc : Int) (q ci fi o : Nat)
    (hW : Writable g w k n) (hs : synced w) (hcap : 1 ≤ w.cache.max_cache_size)
    (hc0 : 0 ≤ hc) (hn : hc + 1 ≤ n)
    (hq : Int.tdiv (w.fs.files k).current_position ((g.CART_FRAME_SIZE : Int) - 1) = (q : Int))
    (ho : Int.tmod (w.fs.files k).current_position ((g.CART_FRAME_SIZE : Int) - 1) = (o : Int))
    (hfit : hc + (o : Int) + 1 ≤ (g.CART_FRAME_SIZE : Int) - 1)
    (hci : ((w.fs.files k).data q).cart = (ci : Int))
    (hfi : ((w.fs.files k).data q).frame = (fi : Int))
    (hknown : cached_bytes g w.cache ci fi ≠ none ∨ w.fs.visited ci fi ≠ 0)
    (hlen : ((cached_bytes g w.cache ci fi).getD (w.dev.frames ci fi)).length
      = g.CART_FRAME_SIZE)
    (hri : read_in.length ≤ g.CART_FRAME_SIZE) :
    ∃ fl, write_flush g w k read_in hb hc (q : Int) (o : Int) = some fl ∧ fl.ok = true ∧
      fl.w.dev.frames ci fi
        = copy_at ((cached_bytes g w.cache ci fi).getD (w.dev.frames ci fi)) (o : Int)
            (hb.take (hc + 1).toNat) ∧
      cached_bytes g fl.w.cache ci fi
        = some (copy_at ((cached_bytes g w.cache ci fi).getD (w.dev.frames ci fi)) (o : Int)
            (hb.take (hc + 1).toNat)) ∧
      (∀ i, o ≤ i → i < o + (hb.take (hc + 1).toNat).length →
        (copy_at ((cached_bytes g w.cache ci fi).getD (w.dev.frames ci fi)) (o : Int)
            (hb.take (hc + 1).toNat)).get? i = (hb.take (hc + 1).toNat).get? (i - o)) ∧
      (∀ i, i < o ∨ o + (hb.take (hc + 1).toNat).length ≤ i →
        (copy_at ((cached_bytes g w.cache ci fi).getD (w.dev.frames ci fi)) (o : Int)
            (hb.take (hc + 1).toNat)).get? i
          = ((cached_bytes g w.cache ci fi).getD (w.dev.frames ci fi)).get? i) := by
  obtain ⟨hR, L, hrep⟩ := hW
  have hg : g.index16 := ⟨by have := hR.int16.1; omega, by have := hR.int16.2; omega⟩
  obtain ⟨q', hq', hqS, hslot⟩ := hR.block (by omega)
  have hqq : q' = q := by
    have := hq'.symm.trans hq; exact_mod_cast this
  subst hqq
  have hin : inTable g ci fi := by
    have h1 := hslot.2.1
    have h2 := hslot.2.2.2
    rw [hci] at h1; rw [hfi] at h2
    exact ⟨by exact_mod_cast h1, by exact_mod_cast h2⟩
  have hc16 : ci < 65536 := lt_of_lt_of_le hin.1 hg.1
  generalize hprior : (cached_bytes g w.cache ci fi).getD (w.dev.frames ci fi) = prior at hlen ⊢
  generalize hstaged : hb.take (hc + 1).toNat = staged
  have hsl : (staged.length : Int) ≤ hc + 1 := by
    rw [← hstaged, List.length_take]
    have : ((hc + 1).toNat : Int) = hc + 1 := Int.toNat_of_nonneg (by omega)
    omega
  -- load
  obtain ⟨l1, l2, l3, l4, l5, l6⟩ := flush_load_frame g w ((w.fs.files k).data q')
  obtain ⟨o1, o2, o3, o4⟩ := flush_load_ok g w _ ci hci hin.1 hc16 hs
  have hrep1 : Rep g (flush_load g w ((w.fs.files k).data q')).1.cache L := by
    rw [l1]; exact hrep
  -- fetch
  obtain ⟨fl1, f1, f2, f3, f4, f5⟩ := flush_fetch_spec g (flush_load g w ((w.fs.files k).data q')).1
    _ ci fi read_in L hrep1 hci hfi hin hg
  obtain ⟨p1, p2, p3, p4⟩ := f5 o2.1 o3
  rw [l1, l3, o4] at p4
  have hread : fl1.read_in = prior := by
    rw [p4, ← hprior]
    cases hcb : cached_bytes g w.cache ci fi with
    | some b =>
      simp only [Option.getD_some]
      have hb' : b.length = g.CART_FRAME_SIZE := by
        rw [← hprior, hcb] at hlen; simpa using hlen
      unfold memcpy
      rw [List.drop_eq_nil_of_le hri, List.append_nil, List.take_of_length_le (by omega)]
    | none =>
      simp only [Option.getD_none]
      have hv : w.fs.visited ci fi ≠ 0 := by
        rcases hknown with h | h
        · exact absurd hcb h
        · exact h
      rw [if_pos hv]
  have hrep2 : Rep g fl1.w.cache L := by rw [f3]; exact hrep1
  -- store
  obtain ⟨w2, r, L2, s1, s2, s3, s4, s5, s6, s7⟩ := flush_store_spec g fl1.w
    ((w.fs.files k).data q') ci fi (copy_at fl1.read_in (o : Int) staged) L hrep2 hci hfi hin hg
  have hl1 : fl1.w.dev.loaded = some ci := by rw [p2]; exact o3
  have hf1 : ∀ t, fl1.w.dev.fault t = false := by rw [f4]; exact o2.1
  obtain ⟨t1, t2, t3⟩ := s7 hf1 hl1
  rw [hread] at s1 s3 s5 t3
  have hcl : (copy_at prior (o : Int) staged).length = g.CART_FRAME_SIZE := by
    rw [copy_at_length]; exact hlen
  rw [List.take_of_length_le (by omega)] at t3
  have hcache2 : cached_bytes g w2.cache ci fi = some (copy_at prior (o : Int) staged) := by
    rw [s4.cached_bytes_eq hin, s5, f3, l1, spec_get_put_same _ _ _ _ _ (by omega),
      List.take_of_length_le (by omega)]
  -- advance
  have hfiles2 : w2.fs.files = w.fs.files := by rw [s2, f2]; exact l2
  have hR2 : FsReady g w2.fs k n :=
    hR.congr hfiles2 (by rw [s2, f2]; exact l4) (by rw [s2, f2]; exact l5)
  have hfit2 : hc + Int.tmod (w2.fs.files k).current_position ((g.CART_FRAME_SIZE : Int) - 1) + 1
      ≤ (g.CART_FRAME_SIZE : Int) - 1 := by rw [hfiles2, ho]; exact hfit
  obtain ⟨w3, a1, -, -, -, a5, a6, -⟩ := flush_advance_spec g w2 k n hc hR2 hc0 hn hfit2
  rw [hfiles2, hq'] at a1
  refine ⟨{ w := w3, read_in := copy_at prior (o : Int) staged, ok := true }, ?_, rfl, ?_, ?_,
    ?_, ?_⟩
  · unfold write_flush
    rw [index?_natCast (show q' < g.CART_CARTRIDGE_SIZE by omega)]
    simp only [Option.bind_eq_bind, Option.some_bind, Option.pure_def]
    rw [if_neg (by rw [o1]; decide), f1]
    simp only [Option.some_bind]
    rw [if_neg (by rw [p1]; decide), hread, hstaged, s1]
    simp only [Option.some_bind]
    rw [if_neg (by omega), a1]
    simp only [Option.some_bind]
  · simp only [a6, t3, upd2, and_self, if_true]
  · simp only [a5]; exact hcache2
  · intro i h1 h2
    rw [copy_at_get?, if_pos ⟨h1, h2, by omega⟩]
  · intro i h
    rw [copy_at_get?, if_neg (by omega)]

set_option maxRecDepth 1000000 in
theorem writtenAtOne_writable : Writable smallGeometry writtenAtOne 0 1 := by
  obtain ⟨w', r, h1, h2⟩ := cart_write_writable smallGeometry freshFile 0 0 [97, 98] 2
    (by decide) (by decide) (by decide) freshFile_writable
  have h3 : cart_write smallGeometry freshFile 0 [97, 98] 2 = some (writtenOnce, 2) := rfl
  rw [h3] at h1
  simp only [Option.some.injEq, Prod.mk.injEq] at h1
  obtain ⟨rfl, rfl⟩ := h1
  obtain ⟨-, L, hL⟩ := h2 (by decide)
  refine ⟨⟨by decide, by decide, by decide, by decide, by decide, ?_, by decide, by decide,
    by decide⟩, L, hL⟩
  intro j hj
  have hj0 : j = 0 := by
    rcases hj with hj | hj
    · exact hj
    · have h1 : (writtenAtOne.fs.files 0).size = 2 := by decide
      rw [h1] at hj
      have h2 : ((smallGeometry.CART_FRAME_SIZE : Int) - 1) = 3 := by decide
      rw [h2] at hj
      omega
  subst hj0
  decide

set_option maxRecDepth 1000000 in
theorem writtenAtOne_synced : synced writtenAtOne :=
  ⟨fun _ => rfl, 0, by decide, by decide⟩

set_option maxRecDepth 1000000 in
/-- Witness of `write_flush_read_modify_write`: in the small geometry the file 0 has
position 1 in block 0, whose frame (0,0) is cached with the bytes `98, 0, 0, 0`; the flush of
the one staged byte `120` to offset 1 sends and caches `98, 120, 0, 0`. -/
theorem write_flush_read_modify_write_witness :
    (Writable smallGeometry writtenAtOne 0 1 ∧ synced writtenAtOne ∧
      1 ≤ writtenAtOne.cache.max_cache_size ∧ (0 : Int) ≤ 0 ∧ (0 : Int) + 1 ≤ 1 ∧
      Int.tdiv (writtenAtOne.fs.files 0).current_position
        ((smallGeometry.CART_FRAME_SIZE : Int) - 1) = ((0 : Nat) : Int) ∧
      Int.tmod (writtenAtOne.fs.files 0).current_position
        ((smallGeometry.CART_FRAME_SIZE : Int) - 1) = ((1 : Nat) : Int) ∧
      (0 : Int) + ((1 : Nat) : Int) + 1 ≤ (smallGeometry.CART_FRAME_SIZE : Int) - 1 ∧
      ((writtenAtOne.fs.files 0).data 0).cart = ((0 : Nat) : Int) ∧
      ((writtenAtOne.fs.files 0).data 0).frame = ((0 : Nat) : Int) ∧
      (cached_bytes smallGeometry writtenAtOne.cache 0 0 ≠ none ∨
        writtenAtOne.fs.visited 0 0 ≠ 0) ∧
      ((cached_bytes smallGeometry writtenAtOne.cache 0 0).getD
        (writtenAtOne.dev.frames 0 0)).length = smallGeometry.CART_FRAME_SIZE ∧
      [0, 0, 0, 0].length ≤ smallGeometry.CART_FRAME_SIZE) ∧
    (∃ fl, write_flush smallGeometry writtenAtOne 0 [0, 0, 0, 0] [120, 0, 0, 0] 0
        ((0 : Nat) : Int) ((1 : Nat) : Int) = some fl ∧ fl.ok = true ∧
      fl.w.dev.frames 0 0
        = copy_at ((cached_bytes smallGeometry writtenAtOne.cache 0 0).getD
            (writtenAtOne.dev.frames 0 0)) ((1 : Nat) : Int)
            ([120, 0, 0, 0].take ((0 : Int) + 1).toNat) ∧
      cached_bytes smallGeometry fl.w.cache 0 0
        = some (copy_at ((cached_bytes smallGeometry writtenAtOne.cache 0 0).getD
            (writtenAtOne.dev.frames 0 0)) ((1 : Nat) : Int)
            ([120, 0, 0, 0].take ((0 : Int) + 1).toNat)) ∧
      (∀ i, 1 ≤ i → i < 1 + ([120, 0, 0, 0].take ((0 : Int) + 1).toNat).length →
        (copy_at ((cached_bytes smallGeometry writtenAtOne.cache 0 0).getD
            (writtenAtOne.dev.frames 0 0)) ((1 : Nat) : Int)
            ([120, 0, 0, 0].take ((0 : Int) + 1).toNat)).get? i
          = ([120, 0, 0, 0].take ((0 : Int) + 1).toNat).get? (i - 1)) ∧
      (∀ i, i < 1 ∨ 1 + ([120, 0, 0, 0].take ((0 : Int) + 1).toNat).length ≤ i →
        (copy_at ((cached_bytes smallGeometry writtenAtOne.cache 0 0).getD
            (writtenAtOne.dev.frames 0 0)) ((1 : Nat) : Int)
            ([120, 0, 0, 0].take ((0 : Int) + 1).toNat)).get? i
          = ((cached_bytes smallGeometry writtenAtOne.cache 0 0).getD
              (writtenAtOne.dev.frames 0 0)).get? i)) ∧
    cached_bytes smallGeometry writtenAtOne.cache 0 0 = some [98, 0, 0, 0] ∧
    (write_flush smallGeometry writtenAtOne 0 [0, 0, 0, 0] [120, 0, 0, 0] 0 0 1).map
        (fun fl => (fl.ok, fl.w.dev.frames 0 0, cached_bytes smallGeometry fl.w.cache 0 0))
      = some (true, [98, 120, 0, 0], some [98, 120, 0, 0]) :=
  ⟨⟨writtenAtOne_writable, writtenAtOne_synced, by decide, by decide, by decide, by decide,
      by decide, by decide, by decide, by decide, Or.inl (by decide), by decide, by decide⟩,
    write_flush_read_modify_write smallGeometry writtenAtOne 0 [0, 0, 0, 0] [120, 0, 0, 0] 1 0
      0 0 0 1 writtenAtOne_writable writtenAtOne_synced (by decide) (by decide) (by decide)
      (by decide) (by decide) (by decide) (by decide) (by decide) (Or.inl (by decide))
      (by decide) (by decide),
    by decide, by decide⟩

/-! ## Theorems: command words and the path hash -/

/-- C29: status decoding. For every response word `r`, `extract_opcode_response(r)` is 0
when bit 47 of `r` is clear and `-1` when it is set, whatever the other bits are; and
`run_opcode` returns this value for the response of `cart_io_bus`. -/
theorem extract_opcode_response_status_bit (r : Nat) :
    extract_opcode_response r = (if r.testBit 47 then -1 else 0) ∧
    (∀ r' : Nat, r'.testBit 47 = r.testBit 47 →
      extract_opcode_response r' = extract_opcode_response r) ∧
    (∀ (g : Geometry) (d : Device) (buf : Option (List Nat)),
      (run_opcode g d r buf).2.1 = extract_opcode_response (cart_io_bus g d r buf).2.1) := by
  have key : ∀ x : Nat, extract_opcode_response x = (if x.testBit 47 then -1 else 0) := by
    intro x
    unfold extract_opcode_response
    simp only [Nat.shiftLeft_eq, Nat.shiftRight_eq_div_pow, Nat.testBit_to_div_mod,
      decide_eq_true_eq]
    by_cases h : x / 2 ^ 47 % 2 = 1
    · rw [if_pos h, if_neg (by omega)]
    · rw [if_neg h, if_pos (by omega)]
  refine ⟨key r, fun r' h => ?_, fun g d buf => rfl⟩
  rw [key r', key r, h]

/-- C30: the hash stays in bounds. For every path, `hash(path)` is a multiple of 5 of the
form `5 * m` with `m < 1024`, so `0 <= hash(path) < 5120`, the declared length of `files[]`
and `all_handles[]`, and it is a valid index of these arrays. -/
theorem hash_in_bounds (str : List Nat) :
    0 ≤ hash str ∧ hash str < 5120 ∧ (∃ m : Nat, m < 1024 ∧ hash str = 5 * (m : Int)) ∧
    (FILES_SIZE : Int) = 5120 ∧ index? FILES_SIZE (hash str) = some (hash str).toNat := by
  have hidx := hash_index str
  refine ⟨?_, ?_, ?_, by decide, hidx⟩
  · unfold hash; exact Int.natCast_nonneg _
  · unfold hash
    simp only [CART_MAX_TOTAL_FILES]
    have := Nat.mod_lt (str.foldl
      (fun hash ch => ((hash * 13 + ch) % 2 ^ 64 % 1024 * 5) % 2 ^ 64) 0) (show 0 < 1024 by decide)
    omega
  · unfold hash
    simp only [CART_MAX_TOTAL_FILES]
    refine ⟨(str.foldl
      (fun hash ch => ((hash * 13 + ch) % 2 ^ 64 % 1024 * 5) % 2 ^ 64) 0) % 1024,
      Nat.mod_lt _ (by decide), ?_⟩
    push_cast
    ring

theorem generate_encoded_opcode_sum {ky1 ky2 ct fm : Nat} (h1 : ky1 < 2 ^ 8) (h2 : ky2 < 2 ^ 8)
    (h3 : ct < 2 ^ 16) (h4 : fm < 2 ^ 16) :
    generate_encoded_opcode ky1 ky2 ct fm
      = 2 ^ 56 * ky1 + (2 ^ 48 * ky2 + (2 ^ 31 * ct + 2 ^ 15 * fm)) := by
  have e1 : (ky1 <<< 56) % 2 ^ 64 = 2 ^ 56 * ky1 := by
    rw [Nat.shiftLeft_eq, Nat.mod_eq_of_lt (by omega)]; omega
  have e2 : (ky2 <<< 48) % 2 ^ 64 = 2 ^ 48 * ky2 := by
    rw [Nat.shiftLeft_eq, Nat.mod_eq_of_lt (by omega)]; omega
  have e3 : (ct <<< 31) % 2 ^ 64 = 2 ^ 31 * ct := by
    rw [Nat.shiftLeft_eq, Nat.mod_eq_of_lt (by omega)]; omega
  have e4 : (fm <<< 15) % 2 ^ 64 = 2 ^ 15 * fm := by
    rw [Nat.shiftLeft_eq, Nat.mod_eq_of_lt (by omega)]; omega
  simp only [generate_encoded_opcode, e1, e2, e3, e4, Nat.zero_or]
  rw [Nat.or_assoc, Nat.or_assoc,
    ← Nat.mul_add_lt_is_or (show 2 ^ 15 * fm < 2 ^ 31 by omega),
    ← Nat.mul_add_lt_is_or (show 2 ^ 31 * ct + 2 ^ 15 * fm < 2 ^ 48 by omega),
    ← Nat.mul_add_lt_is_or (show 2 ^ 48 * ky2 + (2 ^ 31 * ct + 2 ^ 15 * fm) < 2 ^ 56 by omega)]

/-- C28: the command encoding is lossless. For an opcode and a secondary key below `2^8` and
cartridge and frame numbers below `2^16`, the word built by `generate_encoded_opcode` is the
sum of the four fields shifted to the bit positions 56, 48, 31 and 15; it fits 64 bits; the
bits 56-63, 48-55, 31-46 and 15-30 of the word are the bits of the four fields and every
other bit (bit 47 and the bits 0-14) is clear; each field is recovered by a shift and a mask;
and two such tuples with the same word are equal. -/
theorem generate_encoded_opcode_lossless (ky1 ky2 ct fm ky1' ky2' ct' fm' : Nat)
    (h1 : ky1 < 2 ^ 8) (h2 : ky2 < 2 ^ 8) (h3 : ct < 2 ^ 16) (h4 : fm < 2 ^ 16)
    (h1' : ky1' < 2 ^ 8) (h2' : ky2' < 2 ^ 8) (h3' : ct' < 2 ^ 16) (h4' : fm' < 2 ^ 16) :
    generate_encoded_opcode ky1 ky2 ct fm
      = 2 ^ 56 * ky1 + (2 ^ 48 * ky2 + (2 ^ 31 * ct + 2 ^ 15 * fm)) ∧
    generate_encoded_opcode ky1 ky2 ct fm < 2 ^ 64 ∧
    generate_encoded_opcode ky1 ky2 ct fm >>> 56 = ky1 ∧
    (generate_encoded_opcode ky1 ky2 ct fm >>> 48) % 2 ^ 8 = ky2 ∧
    (generate_encoded_opcode ky1 ky2 ct fm >>> 31) % 2 ^ 16 = ct ∧
    (generate_encoded_opcode ky1 ky2 ct fm >>> 15) % 2 ^ 16 = fm ∧
    (∀ j, j < 8 → (generate_encoded_opcode ky1 ky2 ct fm).testBit (56 + j) = ky1.testBit j) ∧
    (∀ j, j < 8 → (generate_encoded_opcode ky1 ky2 ct fm).testBit (48 + j) = ky2.testBit j) ∧
    (∀ j, j < 16 → (generate_encoded_opcode ky1 ky2 ct fm).testBit (31 + j) = ct.testBit j) ∧
    (∀ j, j < 16 → (generate_encoded_opcode ky1 ky2 ct fm).testBit (15 + j) = fm.testBit j) ∧
    (generate_encoded_opcode ky1 ky2 ct fm).testBit 47 = false ∧
    (∀ j, j < 15 → (generate_encoded_opcode ky1 ky2 ct fm).testBit j = false) ∧
    (generate_encoded_opcode ky1 ky2 ct fm = generate_encoded_opcode ky1' ky2' ct' fm' →
      ky1 = ky1' ∧ ky2 = ky2' ∧ ct = ct' ∧ fm = fm') := by
  have hs := generate_encoded_opcode_sum h1 h2 h3 h4
  have hs' := generate_encoded_opcode_sum h1' h2' h3' h4'
  have f1 : generate_encoded_opcode ky1 ky2 ct fm >>> 56 = ky1 := by
    rw [hs, Nat.shiftRight_eq_div_pow]; omega
  have f2 : (generate_encoded_opcode ky1 ky2 ct fm >>> 48) % 2 ^ 8 = ky2 := by
    rw [hs, Nat.shiftRight_eq_div_pow]; omega
  have f3 : (generate_encoded_opcode ky1 ky2 ct fm >>> 31) % 2 ^ 16 = ct := by
    rw [hs, Nat.shiftRight_eq_div_pow]; omega
  have f4 : (generate_encoded_opcode ky1 ky2 ct fm >>> 15) % 2 ^ 16 = fm := by
    rw [hs, Nat.shiftRight_eq_div_pow]; omega
  have f5 : generate_encoded_opcode ky1 ky2 ct fm % 2 ^ 15 = 0 := by
    rw [hs]; omega
  refine ⟨hs, by rw [hs]; omega, f1, f2, f3, f4, ?_, ?_, ?_, ?_, ?_, ?_, ?_⟩
  · intro j _
    rw [← Nat.testBit_shiftRight, f1]
  · intro j hj
    have := congrArg (fun x => Nat.testBit x j) f2
    simp only [Nat.testBit_mod_two_pow, Nat.testBit_shiftRight, hj, decide_True,
      Bool.true_and] at this
    exact this
  · intro j hj
    have := congrArg (fun x => Nat.testBit x j) f3
    simp only [Nat.testBit_mod_two_pow, Nat.testBit_shiftRight, hj, decide_True,
      Bool.true_and] at this
    exact this
  · intro j hj
    have := congrArg (fun x => Nat.testBit x j) f4
    simp only [Nat.testBit_mod_two_pow, Nat.testBit_shiftRight, hj, decide_True,
      Bool.true_and] at this
    exact this
  · rw [hs, Nat.testBit_to_div_mod]
    simp only [decide_eq_false_iff_not]
    omega
  · intro j hj
    have := congrArg (fun x => Nat.testBit x j) f5
    simp only [Nat.testBit_mod_two_pow, hj, decide_True, Bool.true_and, Nat.zero_testBit] at this
    exact this
  · intro h
    rw [hs, hs'] at h
    omega

/-- Witness of `generate_encoded_opcode_lossless`: the write-frame command for frame 7 and a
load-cartridge command for cartridge 3. -/
theorem generate_encoded_opcode_lossless_witness :
    (4 < 2 ^ 8 ∧ 0 < 2 ^ 8 ∧ 0 < 2 ^ 16 ∧ 7 < 2 ^ 16 ∧ 2 < 2 ^ 8 ∧ 3 < 2 ^ 16) ∧
    generate_encoded_opcode 4 0 0 7 >>> 56 = 4 ∧
    (generate_encoded_opcode 4 0 0 7 >>> 15) % 2 ^ 16 = 7 ∧
    (generate_encoded_opcode 4 0 0 7 = generate_encoded_opcode 2 0 3 0 →
      4 = 2 ∧ 0 = 0 ∧ 0 = 3 ∧ 7 = 0) :=
  have h := generate_encoded_opcode_lossless 4 0 0 7 2 0 3 0 (by decide) (by decide) (by decide)
    (by decide) (by decide) (by decide) (by decide) (by decide)
  ⟨⟨by decide, by decide, by decide, by decide, by decide, by decide⟩,
    h.2.2.1, h.2.2.2.2.2.1, h.2.2.2.2.2.2.2.2.2.2.2.2⟩

theorem advance_cursor_tables (g : Geometry) (fs : File_System) :
    (advance_cursor g fs).files = fs.files ∧
    (advance_cursor g fs).all_handles = fs.all_handles ∧
    (advance_cursor g fs).visited = fs.visited ∧
    (advance_cursor g fs).last_cart_loaded = fs.last_cart_loaded := by
  unfold advance_cursor; simp only []; split <;> exact ⟨rfl, rfl, rfl, rfl⟩

/-- A `cart_open` of a path whose directory slot holds the handle `k`: it fails when the
file `k` is open, and re-opens it when a `cart_close` has just closed it. -/
theorem cart_open_taken (g : Geometry) (w : World) (path : List Nat) (k : Nat)
    (hk : k < FILES_SIZE) (hslot : w.fs.all_handles (hash path).toNat = (k : Int)) :
    ((w.fs.files k).is_open ≠ 0 → cart_open g w path = some (w, -1)) ∧
    (∀ w2, cart_close w (k : Int) = some (w2, 0) → cart_open g w2 path = some (w, (k : Int))) := by
  have hk16 : toInt16 (k : Int) = k :=
    toInt16_natCast (by unfold FILES_SIZE CART_MAX_TOTAL_FILES at hk; omega)
  have hne : (k : Int) ≠ -1 := by omega
  refine ⟨?_, ?_⟩
  · intro ho
    simp [cart_open, hash_index, hslot, hne, index?_natCast hk, ho]
  · intro w2 hc
    simp only [cart_close, index?_natCast hk, Option.bind_eq_bind, Option.some_bind] at hc
    split at hc
    · simp at hc
    · rename_i hu
      simp only [not_usable, not_or, not_not] at hu
      simp only [Option.pure_def, Option.some.injEq, Prod.mk.injEq, and_true] at hc
      subst hc
      simp only [cart_open, hash_index, hslot, hne, index?_natCast hk, hk16,
        Option.bind_eq_bind, Option.some_bind, upd_same, if_true, if_false, Option.pure_def,
        upd_upd]
      have hf : ({ w.fs.files k with is_open := 1 } : File) = w.fs.files k := by
        cases hfile : w.fs.files k
        rw [hfile] at hu
        simp only at hu
        simp [hu.2]
      simp [hf, upd_self]

/-- A `cart_open` of a path whose directory slot is free creates the file with the next
handle `k`, named by the path and open, and enters `k` in the directory slot. -/
theorem cart_open_new_entry (g : Geometry) (w : World) (p1 : List Nat) (k : Nat)
    (hk : k < FILES_SIZE) (hcnt : w.fs.current_handle = (k : Int))
    (hslot : w.fs.all_handles (hash p1).toNat = -1)
    (hlen : p1.length < CART_MAX_PATH_LENGTH) :
    ∃ w1, cart_open g w p1 = some (w1, (k : Int)) ∧
      (w1.fs.files k).name = p1 ++ [0] ∧ (w1.fs.files k).is_open = 1 ∧
      w1.fs.all_handles (hash p1).toNat = (k : Int) ∧
      w1.fs.current_handle = (k : Int) + 1 := by
  have hk16 : toInt16 (k : Int) = k :=
    toInt16_natCast (by unfold FILES_SIZE CART_MAX_TOTAL_FILES at hk; omega)
  have hlen' : ¬ CART_MAX_PATH_LENGTH ≤ p1.length := by omega
  obtain ⟨t1, t2, -, -⟩ := advance_cursor_tables g { w.fs with
      files := (upd w.fs.files k
        { name := p1 ++ [0], handle := (k : Int), size := 0, current_position := -1,
          is_open := 1,
          data := (fun i =>
            if i = 0 then { cart := w.fs.cart_to_use, frame := w.fs.frame_to_use }
            else { cart := -1, frame := -1 }) }),
      current_handle := (k : Int) + 1,
      all_handles := (upd w.fs.all_handles (hash p1).toNat (k : Int)) }
  refine ⟨{ w with fs := advance_cursor g { w.fs with
      files := (upd w.fs.files k
        { name := p1 ++ [0], handle := (k : Int), size := 0, current_position := -1,
          is_open := 1,
          data := (fun i =>
            if i = 0 then { cart := w.fs.cart_to_use, frame := w.fs.frame_to_use }
            else { cart := -1, frame := -1 }) }),
      current_handle := (k : Int) + 1,
      all_handles := (upd w.fs.all_handles (hash p1).toNat (k : Int)) } }, ?_, ?_, ?_, ?_, ?_⟩
  · simp only [cart_open, hash_index, hslot, Option.bind_eq_bind, Option.some_bind, if_true,
      hlen', if_false, hcnt, index?_natCast hk, Option.pure_def, hk16]
  · simp only [t1, upd_same]
  · simp only [t1, upd_same]
  · simp only [t2, upd_same]
  · exact advance_cursor_counter g _

/-- Aliasing by hash collision, for a path `p1` that does not start with the character `'0'`.
When `cart_open(p1)` creates a file with handle `k`,
every path `p2` with the same hash is taken for that file: `cart_open(p2)` returns `-1` and
changes nothing while the file is open, and after `cart_close(k)` it returns `k` and
re-opens the file of `p1` (same name, size, position and frames; no new handle, no new
frame). -/
theorem hash_collision_aliases (g : Geometry) (w : World) (p1 p2 : List Nat) (k : Nat)
    (hk : k < FILES_SIZE) (hcnt : w.fs.current_handle = (k : Int))
    (hslot : w.fs.all_handles (hash p1).toNat = -1)
    (hlen : p1.length < CART_MAX_PATH_LENGTH) (h0 : p1.headD 0 ≠ 48)
    (hh : hash p2 = hash p1) :
    ∃ w1, cart_open g w p1 = some (w1, (k : Int)) ∧
      (w1.fs.files k).name = p1 ++ [0] ∧ w1.fs.current_handle = (k : Int) + 1 ∧
      cart_open g w1 p2 = some (w1, -1) ∧
      ∃ w2, cart_close w1 (k : Int) = some (w2, 0) ∧
        (w2.fs.files k).is_open = 0 ∧ cart_open g w2 p2 = some (w1, (k : Int)) := by
  obtain ⟨w1, e1, e2, e3, e4, e5⟩ := cart_open_new_entry g w p1 k hk hcnt hslot hlen
  have hs2 : w1.fs.all_handles (hash p2).toNat = (k : Int) := by rw [hh]; exact e4
  obtain ⟨a1, a2⟩ := cart_open_taken g w1 p2 k hk hs2
  have hus : ¬ not_usable (w1.fs.files k) := by
    simp only [not_usable, File.name0, e2, e3, not_or, not_not]
    refine ⟨?_, trivial⟩
    cases p1 with
    | nil => simp
    | cons a r => simpa using h0
  have hclose : cart_close w1 (k : Int) = some ({ w1 with fs := { w1.fs with
      files := (upd w1.fs.files k { w1.fs.files k with is_open := 0 }) } }, 0) := by
    simp only [cart_close, index?_natCast hk, Option.bind_eq_bind, Option.some_bind,
      if_neg hus, Option.pure_def]
  refine ⟨w1, e1, e2, e5, a1 (by rw [e3]; decide), _, hclose, ?_, a2 _ hclose⟩
  simp only [upd_same]

set_option maxRecDepth 1000000 in
/-- Witness of `hash_collision_aliases`: after power-on the paths `"aq"` and `"b0"`, which
both hash to 1730; the open of `"aq"` creates the file 0. -/
theorem hash_collision_aliases_witness :
    (0 < FILES_SIZE ∧ poweredOn.fs.current_handle = ((0 : Nat) : Int) ∧
      poweredOn.fs.all_handles (hash path_aq).toNat = -1 ∧
      path_aq.length < CART_MAX_PATH_LENGTH ∧ path_aq.headD 0 ≠ 48 ∧
      hash path_b0 = hash path_aq ∧ path_aq ≠ path_b0 ∧ hash path_aq = 1730) ∧
    ∃ w1, cart_open cartGeometry poweredOn path_aq = some (w1, ((0 : Nat) : Int)) ∧
      (w1.fs.files 0).name = path_aq ++ [0] ∧ w1.fs.current_handle = ((0 : Nat) : Int) + 1 ∧
      cart_open cartGeometry w1 path_b0 = some (w1, -1) ∧
      ∃ w2, cart_close w1 ((0 : Nat) : Int) = some (w2, 0) ∧
        (w2.fs.files 0).is_open = 0 ∧
        cart_open cartGeometry w2 path_b0 = some (w1, ((0 : Nat) : Int)) :=
  ⟨⟨by decide, by decide, by decide, by decide, by decide, by decide, by decide, by decide⟩,
    hash_collision_aliases cartGeometry poweredOn path_aq path_b0 0 (by decide) (by decide)
      (by decide) (by decide) (by decide) (by decide)⟩

/-! ## Theorems: closing the cache and the list ends -/

/-- The loop of `close_cart_cache`, started at the head of a well-formed recency list with
at least as many iterations as entries, deletes every entry. -/
theorem close_loop_spec (g : Geometry) (hg : g.index16) :
    ∀ (L : List Entry) (fuel : Nat) (c : Cache) (p : Ptr), Rep g c L →
      p = headOr (L.map Entry.addr) none → L.length ≤ fuel →
      ∃ c', close_loop g fuel c p = some (some c') ∧ Rep g c' [] ∧
        c'.max_cache_size = c.max_cache_size := by
  intro L
  induction L with
  | nil =>
    intro fuel c p hr hp _
    subst hp
    exact ⟨c, by cases fuel <;> rfl, hr, rfl⟩
  | cons e L' ih =>
    intro fuel c p hr hp hlen
    obtain ⟨fuel', rfl⟩ : ∃ f, fuel = f + 1 := ⟨fuel - 1, by simp at hlen; omega⟩
    have hp' : p = some e.addr := by rw [hp]; rfl
    subst hp'
    have hseg := hr.links
    simp only [List.map_cons] at hseg
    obtain ⟨⟨x, hx, -, hxp⟩, -⟩ := hseg
    obtain ⟨y, hy, hyc, hyf, -⟩ := content_eq_some (hr.node e (List.mem_cons_self _ _))
    have hxy : x = y := by rw [hx] at hy; exact Option.some.inj hy
    subst hxy
    obtain ⟨hin, -⟩ := hr.table e (List.mem_cons_self _ _)
    have hc16 : toUInt16 x.cart = e.cart := by
      rw [hyc]; exact toUInt16_natCast (lt_of_lt_of_le hin.1 hg.1)
    have hf16 : toUInt16 x.frame = e.frame := by
      rw [hyf]; exact toUInt16_natCast (lt_of_lt_of_le hin.2 hg.2)
    obtain ⟨c', h1, h2, h3, -, -⟩ := delete_present g c [] e L' hr
    simp only [List.nil_append] at h2
    obtain ⟨c'', k1, k2, k3⟩ := ih fuel' c' x.prev h2 hxp (by simp at hlen; omega)
    refine ⟨c'', ?_, k2, by rw [k3, h3]⟩
    simp only [close_loop, deref, hx, hc16, hf16, h1]
    exact k1

/-- In a cache state that represents a non-empty recency list, or an empty one with a null
head, `close_cart_cache` returns 0 when its loop is given at least as many iterations as
there are entries, and leaves an empty cache with both list ends null. -/
theorem close_cart_cache_spec (g : Geometry) (hg : g.index16) (c : Cache) (L : List Entry)
    (fuel : Nat) (hr : Rep g c L) (hhead : L = [] → c.head = none) (hfuel : L.length ≤ fuel) :
    ∃ c', close_cart_cache g fuel c = some (some (c', 0)) ∧ Rep g c' [] ∧
      c'.head = none ∧ c'.tail = none ∧ c'.current_cache_size = 0 ∧
      (∀ i j, c'.filled_cache_frames i j = none) ∧
      c'.max_cache_size = c.max_cache_size := by
  have hp : c.head = headOr (L.map Entry.addr) none := by
    cases L with
    | nil => exact hhead rfl
    | cons e r => exact hr.head e rfl
  obtain ⟨c', h1, h2, h3⟩ := close_loop_spec g hg L fuel c c.head hr hp hfuel
  have h2' : Rep g { c' with head := none, tail := none } [] :=
    ⟨h2.nodup, h2.links, h2.node, h2.table, h2.slot, fun e he => by simp at he,
      fun e he => by simp at he, h2.size, h2.fresh, h2.len⟩
  refine ⟨{ c' with head := none, tail := none }, ?_, h2', rfl, rfl, ?_, ?_, h3⟩
  · simp only [close_cart_cache, h1, Option.map_some']
  · simpa using h2.size
  · intro i j
    exact h2.get_none_of_nil i j

set_option maxRecDepth 1000000 in
/-- C23 at its failing input: the cache holds the sole entry `(0,0)` at address 0;
`delete_cart_cache(0,0)` returns 0, frees the node and sets the entry count to 0, but `head`
and `tail` still hold the address of the freed node. The same happens in a full cache of
capacity 1, where this call is the eviction step of a put. -/
theorem delete_sole_leaves_list_ends :
    (cacheA.current_cache_size, cacheA.head, cacheA.tail) = (1, some 0, some 0) ∧
    (delete_cart_cache cacheGeometry cacheA 0 0).map
        (fun r => (r.2, r.1.current_cache_size, r.1.head, r.1.tail))
      = some (0, 0, some 0, some 0) ∧
    (delete_cart_cache cacheGeometry cacheA 0 0).map (fun r => r.1.heap 0) = some none ∧
    (cacheOneA.max_cache_size, cacheOneA.current_cache_size, cacheOneA.head, cacheOneA.tail)
      = (1, 1, some 0, some 0) ∧
    (delete_cart_cache cacheGeometry cacheOneA 0 0).map
        (fun r => (r.2, r.1.current_cache_size, r.1.head, r.1.tail))
      = some (0, 0, some 0, some 0) ∧
    (delete_cart_cache cacheGeometry cacheOneA 0 0).map (fun r => r.1.heap 0) = some none := by
  decide

set_option maxRecDepth 1000000 in
/-- C22 at its failing input: after `init_cart_cache`, `put(0,0,"AA")` and `delete(0,0)` the
cache is empty (entry count 0, no lookup slot filled), but its recency list is not: `head`
and `tail` hold the address 0 of the node that `delete_cart_cache` has freed. -/
theorem empty_cache_has_list_ends :
    cache_run cacheGeometry (init_cart_cache (set_cart_cache_size Cache.zero 2).1).1
      [.put 0 0 [65, 65], .delete 0 0] = some cacheAd ∧
    cacheAd.current_cache_size = 0 ∧ filled_count cacheGeometry cacheAd = 0 ∧
    cacheAd.head = some 0 ∧ cacheAd.tail = some 0 ∧ cacheAd.heap 0 = none :=
  ⟨rfl, by decide, by decide, by decide, by decide, by decide⟩

set_option maxRecDepth 1000000 in
/-- C21 at its failing input: after `init_cart_cache`, `put(0,0,"AA")` and `delete(0,0)`,
`close_cart_cache` reads `current->prev` through `head`, which still points to the node that
`delete_cart_cache` has freed: the call is undefined, however many iterations the loop is
given. On the cache holding `(0,0)` and `(0,1)` the call returns 0 and empties the cache. -/
theorem close_reads_freed_head :
    cache_run cacheGeometry (init_cart_cache (set_cart_cache_size Cache.zero 2).1).1
      [.put 0 0 [65, 65], .delete 0 0] = some cacheAd ∧
    (∀ fuel, close_cart_cache cacheGeometry (fuel + 1) cacheAd = some none) ∧
    (close_cart_cache cacheGeometry 2 cacheAB).map
        (fun r => r.map fun x => (x.2, x.1.head, x.1.tail, x.1.current_cache_size,
          filled_count cacheGeometry x.1))
      = some (some (0, none, none, 0, 0)) :=
  ⟨rfl, fun _ => rfl, by decide⟩

/-! ## Theorems: invariants of the driver -/

theorem extract_opcode_response_eq (x : Nat) :
    extract_opcode_response x = (if x.testBit 47 then -1 else 0) := by
  unfold extract_opcode_response
  simp only [Nat.shiftLeft_eq, Nat.shiftRight_eq_div_pow, Nat.testBit_to_div_mod,
    decide_eq_true_eq]
  by_cases h : x / 2 ^ 47 % 2 = 1
  · rw [if_pos h, if_neg (by omega)]
  · rw [if_neg h, if_pos (by omega)]

theorem status_bit_cleared (reg : Nat) :
    (reg - (if reg.testBit 47 then 2 ^ 47 else 0)) / 2 ^ 47 % 2 = 0 ∧
    ((reg - (if reg.testBit 47 then 2 ^ 47 else 0)) + 2 ^ 47) / 2 ^ 47 % 2 = 1 := by
  simp only [Nat.testBit_to_div_mod, decide_eq_true_eq]
  by_cases h : reg / 2 ^ 47 % 2 = 1
  · rw [if_pos h]; omega
  · rw [if_neg h]; omega

/-- The two responses of the device model: the register with the status bit cleared is
decoded as success, and with the status bit set as failure. -/
theorem extract_opcode_response_ok_ko (reg : Nat) :
    extract_opcode_response (reg - (if reg.testBit 47 then 2 ^ 47 else 0)) = 0 ∧
    extract_opcode_response ((reg - (if reg.testBit 47 then 2 ^ 47 else 0)) + 2 ^ 47) = -1 := by
  obtain ⟨h1, h2⟩ := status_bit_cleared reg
  rw [extract_opcode_response_eq, extract_opcode_response_eq]
  constructor
  · rw [if_neg]
    rw [Nat.testBit_to_div_mod, h1]; decide
  · rw [if_pos]
    rw [Nat.testBit_to_div_mod, h2]; decide

/-- The loaded cartridge after a command: a successful load-cartridge command loads the
cartridge of its operand, which is a cartridge of the device; a successful power-on command
unloads; every other command, and every failing command, leaves the loaded cartridge as it
was. A command returns 0 or `-1`, and `-1` when its opcode is none of the six. -/
theorem run_opcode_loaded (g : Geometry) (d : Device) (reg : Nat) (buf : Option (List Nat)) :
    ((run_opcode g d reg buf).2.1 = 0 ∨ (run_opcode g d reg buf).2.1 = -1) ∧
    ((run_opcode g d reg buf).2.1 = -1 → (run_opcode g d reg buf).1.loaded = d.loaded) ∧
    (reg >>> 56 ≠ CART_OP_INITMS → reg >>> 56 ≠ CART_OP_LDCART →
      (run_opcode g d reg buf).1.loaded = d.loaded) ∧
    (reg >>> 56 = CART_OP_LDCART → (run_opcode g d reg buf).2.1 = 0 →
      (run_opcode g d reg buf).1.loaded = some ((reg >>> 31) % 2 ^ 16) ∧
      (reg >>> 31) % 2 ^ 16 < g.CART_MAX_CARTRIDGES) ∧
    (5 < reg >>> 56 → (run_opcode g d reg buf).2.1 = -1) := by
  obtain ⟨hok, hko⟩ := extract_opcode_response_ok_ko reg
  have Lko : ∀ (r : Device × Nat × Option (List Nat)),
      r.2.1 = (reg - (if reg.testBit 47 then 2 ^ 47 else 0)) + 2 ^ 47 →
      r.1.loaded = d.loaded →
      (extract_opcode_response r.2.1 = 0 ∨ extract_opcode_response r.2.1 = -1) ∧
      (extract_opcode_response r.2.1 = -1 → r.1.loaded = d.loaded) ∧
      (reg >>> 56 ≠ CART_OP_INITMS → reg >>> 56 ≠ CART_OP_LDCART → r.1.loaded = d.loaded) ∧
      (reg >>> 56 = CART_OP_LDCART → extract_opcode_response r.2.1 = 0 →
        r.1.loaded = some ((reg >>> 31) % 2 ^ 16) ∧
        (reg >>> 31) % 2 ^ 16 < g.CART_MAX_CARTRIDGES) ∧
      (5 < reg >>> 56 → extract_opcode_response r.2.1 = -1) := by
    intro r h1 h2
    rw [h1, hko]
    exact ⟨Or.inr rfl, fun _ => h2, fun _ _ => h2, fun _ h => absurd h (by decide), fun _ => rfl⟩
  have Lok : ∀ (r : Device × Nat × Option (List Nat)),
      r.2.1 = reg - (if reg.testBit 47 then 2 ^ 47 else 0) →
      reg >>> 56 ≤ 5 →
      (reg >>> 56 ≠ CART_OP_INITMS → reg >>> 56 ≠ CART_OP_LDCART → r.1.loaded = d.loaded) →
      (reg >>> 56 = CART_OP_LDCART → r.1.loaded = some ((reg >>> 31) % 2 ^ 16) ∧
        (reg >>> 31) % 2 ^ 16 < g.CART_MAX_CARTRIDGES) →
      (extract_opcode_response r.2.1 = 0 ∨ extract_opcode_response r.2.1 = -1) ∧
      (extract_opcode_response r.2.1 = -1 → r.1.loaded = d.loaded) ∧
      (reg >>> 56 ≠ CART_OP_INITMS → reg >>> 56 ≠ CART_OP_LDCART → r.1.loaded = d.loaded) ∧
      (reg >>> 56 = CART_OP_LDCART → extract_opcode_response r.2.1 = 0 →
        r.1.loaded = some ((reg >>> 31) % 2 ^ 16) ∧
        (reg >>> 31) % 2 ^ 16 < g.CART_MAX_CARTRIDGES) ∧
      (5 < reg >>> 56 → extract_opcode_response r.2.1 = -1) := by
    intro r h1 h5 h2 h3
    rw [h1, hok]
    exact ⟨Or.inl rfl, fun h => absurd h (by decide), h2, fun h _ => h3 h,
      fun h => absurd h (by omega)⟩
  show (extract_opcode_response (cart_io_bus g d reg buf).2.1 = 0 ∨
      extract_opcode_response (cart_io_bus g d reg buf).2.1 = -1) ∧
    (extract_opcode_response (cart_io_bus g d reg buf).2.1 = -1 →
      (cart_io_bus g d reg buf).1.loaded = d.loaded) ∧
    (reg >>> 56 ≠ CART_OP_INITMS → reg >>> 56 ≠ CART_OP_LDCART →
      (cart_io_bus g d reg buf).1.loaded = d.loaded) ∧
    (reg >>> 56 = CART_OP_LDCART → extract_opcode_response (cart_io_bus g d reg buf).2.1 = 0 →
      (cart_io_bus g d reg buf).1.loaded = some ((reg >>> 31) % 2 ^ 16) ∧
      (reg >>> 31) % 2 ^ 16 < g.CART_MAX_CARTRIDGES) ∧
    (5 < reg >>> 56 → extract_opcode_response (cart_io_bus g d reg buf).2.1 = -1)
  unfold cart_io_bus
  simp only []
  by_cases h0 : d.fault d.clock = true
  · rw [if_pos h0]
    exact Lko _ rfl rfl
  rw [if_neg h0]
  by_cases h1 : reg >>> 56 = CART_OP_INITMS
  · rw [if_pos h1]
    refine Lok _ rfl ?_ (fun h => absurd h1 h) (fun h => ?_)
    · rw [h1]; decide
    · rw [h1] at h; exact absurd h (by decide)
  rw [if_neg h1]
  by_cases h2 : reg >>> 56 = CART_OP_POWOFF
  · rw [if_pos h2]
    refine Lok _ rfl ?_ (fun _ _ => rfl) (fun h => ?_)
    · rw [h2]; decide
    · rw [h2] at h; exact absurd h (by decide)
  rw [if_neg h2]
  by_cases h3 : reg >>> 56 = CART_OP_LDCART
  · rw [if_pos h3]
    by_cases hc : (reg >>> 31) % 2 ^ 16 < g.CART_MAX_CARTRIDGES
    · rw [if_pos hc]
      refine Lok _ rfl ?_ (fun _ h => absurd h3 h) (fun _ => ⟨rfl, hc⟩)
      rw [h3]; decide
    · rw [if_neg hc]
      exact Lko _ rfl rfl
  rw [if_neg h3]
  by_cases h4 : reg >>> 56 = CART_OP_BZERO
  · rw [if_pos h4]
    split
    · refine Lok _ rfl ?_ (fun _ _ => rfl) (fun h => absurd h h3)
      rw [h4]; decide
    · exact Lko _ rfl rfl
  rw [if_neg h4]
  by_cases h5 : reg >>> 56 = CART_OP_RDFRME
  · rw [if_pos h5]
    split
    · split
      · refine Lok _ rfl ?_ (fun _ _ => rfl) (fun h => absurd h h3)
        rw [h5]; decide
      · exact Lko _ rfl rfl
    · exact Lko _ rfl rfl
  rw [if_neg h5]
  by_cases h6 : reg >>> 56 = CART_OP_WRFRME
  · rw [if_pos h6]
    split
    · split
      · refine Lok _ rfl ?_ (fun _ _ => rfl) (fun h => absurd h h3)
        rw [h6]; decide
      · exact Lko _ rfl rfl
    · exact Lko _ rfl rfl
  rw [if_neg h6]
  exact Lko _ rfl rfl

/-- A bitwise or is at least its left operand. -/
theorem le_or_left (a : Nat) : ∀ b : Nat, a ≤ a ||| b := by
  induction a using Nat.strong_induction_on with
  | _ a ih =>
    intro b
    by_cases h0 : a = 0
    · omega
    have h1 := ih (a / 2) (by omega) (b / 2)
    rw [← Nat.or_div_two] at h1
    have h2 : a % 2 = 1 → (a ||| b) % 2 = 1 := fun h => Nat.or_mod_two_eq_one.2 (Or.inl h)
    omega

/-- A bitwise or is at least its right operand. -/
theorem le_or_right (a b : Nat) : b ≤ a ||| b := by
  rw [Nat.or_comm]; exact le_or_left b a

/-- The opcode field of a command register is at least the opcode given to
`generate_encoded_opcode`, whatever the other operands are. -/
theorem generate_encoded_opcode_ge (ky ky2 ct fm : Nat) (hk : ky < 256) :
    ky ≤ generate_encoded_opcode ky ky2 ct fm >>> 56 := by
  unfold generate_encoded_opcode
  simp only [Nat.zero_or]
  have h1 : (ky <<< 56) % 2 ^ 64 = ky * 2 ^ 56 := by
    rw [Nat.shiftLeft_eq]; omega
  rw [h1, Nat.shiftRight_eq_div_pow]
  have h2 : ky * 2 ^ 56 ≤
      ky * 2 ^ 56 ||| ky2 <<< 48 % 2 ^ 64 ||| ct <<< 31 % 2 ^ 64 ||| fm <<< 15 % 2 ^ 64 :=
    le_trans (le_trans (le_or_left _ _) (le_or_left _ _)) (le_or_left _ _)
  generalize ky * 2 ^ 56 ||| ky2 <<< 48 % 2 ^ 64 ||| ct <<< 31 % 2 ^ 64 ||| fm <<< 15 % 2 ^ 64
    = r at h2
  omega

/-- A write-frame command leaves the loaded cartridge as it was, whatever its operand. -/
theorem run_opcode_wrfrme_loaded (g : Geometry) (d : Device) (fm : Nat)
    (buf : Option (List Nat)) :
    (run_opcode g d (generate_encoded_opcode CART_OP_WRFRME 0 0 fm) buf).1.loaded
      = d.loaded := by
  have h := generate_encoded_opcode_ge CART_OP_WRFRME 0 0 fm (by decide)
  refine (run_opcode_loaded g d _ buf).2.2.1 ?_ ?_
  · intro e; rw [e] at h; exact absurd h (by decide)
  · intro e; rw [e] at h; exact absurd h (by decide)

/-- The register of the load-cartridge command for a cartridge number held in an `int16_t`:
for a number that is not negative the command is a load of that cartridge, and for a negative
number the sign extension overwrites the opcode field with a value that is no opcode. -/
theorem ldcart_register (cart : Int) (h0 : -32768 ≤ cart) (h1 : cart ≤ 32767) :
    (0 ≤ cart →
      generate_encoded_opcode CART_OP_LDCART 0 (toUInt64 cart) 0 >>> 56 = CART_OP_LDCART ∧
      ((generate_encoded_opcode CART_OP_LDCART 0 (toUInt64 cart) 0 >>> 31) % 2 ^ 16 : Nat)
        = cart.toNat) ∧
    (cart < 0 → 5 < generate_encoded_opcode CART_OP_LDCART 0 (toUInt64 cart) 0 >>> 56) := by
  constructor
  · intro h
    have e : toUInt64 cart = cart.toNat := by
      unfold toUInt64; congr 1; omega
    rw [e]
    have hf := @generate_encoded_opcode_fields CART_OP_LDCART cart.toNat 0
      (by decide) (by omega) (by decide)
    exact ⟨hf.1, hf.2.1⟩
  · intro h
    unfold generate_encoded_opcode
    simp only [Nat.zero_or, Nat.shiftLeft_eq, Nat.zero_mul, Nat.zero_mod, Nat.or_zero]
    have e : toUInt64 cart * 2 ^ 31 % 2 ^ 64 = (2 ^ 64 + cart * 2 ^ 31).toNat := by
      unfold toUInt64
      have e1 : cart % 2 ^ 64 = 2 ^ 64 + cart := by omega
      rw [e1]
      have e2 : ((2 ^ 64 + cart).toNat : Int) = 2 ^ 64 + cart := Int.toNat_of_nonneg (by omega)
      have e3 : (((2 ^ 64 + cart * 2 ^ 31).toNat : Nat) : Int) = 2 ^ 64 + cart * 2 ^ 31 :=
        Int.toNat_of_nonneg (by omega)
      omega
    rw [e, Nat.shiftRight_eq_div_pow]
    have h2 : (2 ^ 64 + cart * 2 ^ 31).toNat ≤
        CART_OP_LDCART * 2 ^ 56 % 2 ^ 64 ||| (2 ^ 64 + cart * 2 ^ 31).toNat := le_or_right _ _
    generalize CART_OP_LDCART * 2 ^ 56 % 2 ^ 64 ||| (2 ^ 64 + cart * 2 ^ 31).toNat = r at h2
    omega

/-- The cursor after an allocation depends on the cursor before it only. -/
theorem cursor_advance_congr (g : Geometry) (fs fs1 : File_System)
    (h : cursor fs1 = cursor fs) :
    cursor (advance_cursor g fs1) = cursor (advance_cursor g fs) := by
  unfold cursor at h
  simp only [data_structure.mk.injEq] at h
  unfold advance_cursor cursor
  simp only [h.1, h.2]
  split <;> rfl

theorem advance_cursor_core (g : Geometry) (fs : File_System) :
    (advance_cursor g fs).files = fs.files ∧
    (advance_cursor g fs).current_handle = fs.current_handle ∧
    (advance_cursor g fs).last_cart_loaded = fs.last_cart_loaded := by
  unfold advance_cursor
  simp only []
  split <;> exact ⟨rfl, rfl, rfl⟩

/-- The effect of `cart_open` on the files, the cursor and the handle counter. -/
theorem cart_open_core (g : Geometry) (w : World) (path : List Nat) (w2 : World) (r : Int)
    (h : cart_open g w path = some (w2, r)) :
    CoreStep g w.fs w2.fs ∧ w2.dev = w.dev ∧
    w2.fs.last_cart_loaded = w.fs.last_cart_loaded := by
  unfold cart_open at h
  simp only [Option.bind_eq_bind, Option.pure_def, Option.bind_eq_some] at h
  obtain ⟨hashed, -, h⟩ := h
  split at h
  · split at h
    · simp at h
    · simp only [Option.bind_eq_some, Option.some.injEq, Prod.mk.injEq] at h
      obtain ⟨k, hk, h, -⟩ := h
      subst h
      have hk' := (index?_eq_some hk).1
      refine ⟨CoreStep.create _ _ k (path ++ [0]) (toInt16 w.fs.current_handle) hk' ?_ ?_ ?_,
        rfl, ?_⟩
      · simp only [(advance_cursor_core g _).1]
        rfl
      · exact cursor_advance_congr g _ _ rfl
      · simp only [(advance_cursor_core g _).2.1, hk']
      · simp only [(advance_cursor_core g _).2.2]
  · simp only [Option.bind_eq_some] at h
    obtain ⟨k, -, h⟩ := h
    split at h
    · simp only [Option.some.injEq, Prod.mk.injEq] at h
      obtain ⟨h, -⟩ := h
      subst h
      exact ⟨CoreStep.flag _ _ k 1 rfl rfl rfl, rfl, rfl⟩
    · simp only [Option.some.injEq, Prod.mk.injEq] at h
      obtain ⟨h, -⟩ := h
      subst h
      exact ⟨CoreStep.same _ _ rfl rfl rfl, rfl, rfl⟩

/-- The effect of `cart_close` on the files, the cursor and the handle counter. -/
theorem cart_close_core (g : Geometry) (w : World) (fd : Int) (w2 : World) (r : Int)
    (h : cart_close w fd = some (w2, r)) :
    CoreStep g w.fs w2.fs ∧ w2.dev = w.dev ∧
    w2.fs.last_cart_loaded = w.fs.last_cart_loaded := by
  unfold cart_close at h
  simp only [Option.bind_eq_bind, Option.pure_def, Option.bind_eq_some] at h
  obtain ⟨k, -, h⟩ := h
  split at h
  · simp only [Option.some.injEq, Prod.mk.injEq] at h
    obtain ⟨h, -⟩ := h
    subst h
    exact ⟨CoreStep.same _ _ rfl rfl rfl, rfl, rfl⟩
  · simp only [Option.some.injEq, Prod.mk.injEq] at h
    obtain ⟨h, -⟩ := h
    subst h
    exact ⟨CoreStep.flag _ _ k 0 rfl rfl rfl, rfl, rfl⟩

/-- The effect of `cart_seek` on the files, the cursor and the handle counter. -/
theorem cart_seek_core (g : Geometry) (w : World) (fd : Int) (loc : Nat) (w2 : World) (r : Int)
    (h : cart_seek w fd loc = some (w2, r)) :
    CoreStep g w.fs w2.fs ∧ w2.dev = w.dev ∧
    w2.fs.last_cart_loaded = w.fs.last_cart_loaded := by
  unfold cart_seek at h
  simp only [Option.bind_eq_bind, Option.pure_def, Option.bind_eq_some] at h
  obtain ⟨k, -, h⟩ := h
  split at h
  · simp only [Option.some.injEq, Prod.mk.injEq] at h
    obtain ⟨h, -⟩ := h
    subst h
    exact ⟨CoreStep.same _ _ rfl rfl rfl, rfl, rfl⟩
  · rename_i hu
    split at h
    · simp only [Option.some.injEq, Prod.mk.injEq] at h
      obtain ⟨h, -⟩ := h
      subst h
      exact ⟨CoreStep.same _ _ rfl rfl rfl, rfl, rfl⟩
    · rename_i hg
      simp only [Option.some.injEq, Prod.mk.injEq] at h
      obtain ⟨h, -⟩ := h
      subst h
      exact ⟨CoreStep.seek _ _ k (loc % 2 ^ 32) hu (Nat.mod_lt _ (by decide)) hg rfl rfl rfl,
        rfl, rfl⟩

/-- The effect of `cart_read`: the file system is as it was, and so is the loaded
cartridge. -/
theorem cart_read_core (g : Geometry) (w : World) (fd : Int) (count : Nat)
    (r : World × Int × List Nat) (h : cart_read g w fd count = some r) :
    r.1.fs = w.fs ∧ r.1.dev.loaded = w.dev.loaded := by
  refine ⟨(cart_read_fs g w fd count r h).1, ?_⟩
  unfold cart_read at h
  simp only [Option.bind_eq_bind, Option.pure_def, Option.bind_eq_some] at h
  obtain ⟨k, -, h⟩ := h
  split at h
  · simp at h
  · simp only [Option.bind_eq_some] at h
    obtain ⟨f, hf, h⟩ := h
    have h1 := (read_fetch_dev g w _ _ _ f hf).2
    split at h
    · simp only [Option.some.injEq] at h
      subst h
      exact h1
    · exact ((read_loop_dev g _ count count _ _ _ _ _ r h).2.1).trans h1

/-- The driver's record of the loaded cartridge agrees with the device. -/
theorem flush_load_sync (g : Geometry) (w : World) (d : data_structure)
    (h16 : -32768 ≤ d.cart ∧ d.cart ≤ 32767)
    (hs : ∃ c : Nat, w.dev.loaded = some c ∧ w.fs.last_cart_loaded = (c : Int)) :
    (∃ c : Nat, (flush_load g w d).1.dev.loaded = some c ∧
      (flush_load g w d).1.fs.last_cart_loaded = (c : Int)) ∧
    ((flush_load g w d).2 = true →
      ∃ c : Nat, d.cart = (c : Int) ∧ (flush_load g w d).1.dev.loaded = some c) := by
  obtain ⟨c, hc1, hc2⟩ := hs
  unfold flush_load
  by_cases hne : w.fs.last_cart_loaded ≠ d.cart
  · rw [if_pos hne]
    simp only []
    obtain ⟨f1, f2, -, f4, f5⟩ := run_opcode_loaded g w.dev
      (generate_encoded_opcode CART_OP_LDCART 0 (toUInt64 d.cart) 0) none
    obtain ⟨r1, r2⟩ := ldcart_register d.cart h16.1 h16.2
    by_cases hr : (run_opcode g w.dev
        (generate_encoded_opcode CART_OP_LDCART 0 (toUInt64 d.cart) 0) none).2.1 = -1
    · rw [if_pos hr]
      refine ⟨⟨c, ?_, hc2⟩, fun h => by simp at h⟩
      exact (f2 hr).trans hc1
    · rw [if_neg hr]
      have h0 : (run_opcode g w.dev
          (generate_encoded_opcode CART_OP_LDCART 0 (toUInt64 d.cart) 0) none).2.1 = 0 := by
        rcases f1 with h | h
        · exact h
        · exact absurd h hr
      have hpos : 0 ≤ d.cart := by
        by_contra hn
        exact hr (f5 (r2 (by omega)))
      obtain ⟨e1, e2⟩ := r1 hpos
      obtain ⟨l1, -⟩ := f4 e1 h0
      rw [e2] at l1
      have hcast : ((d.cart.toNat : Nat) : Int) = d.cart := Int.toNat_of_nonneg hpos
      exact ⟨⟨d.cart.toNat, l1, hcast.symm⟩, fun _ => ⟨d.cart.toNat, hcast.symm, l1⟩⟩
  · rw [if_neg hne]
    have he : w.fs.last_cart_loaded = d.cart := by
      by_contra h; exact hne h
    exact ⟨⟨c, hc1, hc2⟩, fun _ => ⟨c, he ▸ hc2, hc1⟩⟩

/-- The frame fetch of a flush changes neither the file system nor the loaded cartridge. -/
theorem flush_fetch_core (g : Geometry) (w : World) (d : data_structure) (ri : List Nat)
    (fl : Flush) (h : flush_fetch g w d ri = some fl) :
    fl.w.fs = w.fs ∧ fl.w.dev.loaded = w.dev.loaded := by
  unfold flush_fetch at h
  simp only [Option.bind_eq_bind, Option.pure_def, Option.bind_eq_some] at h
  obtain ⟨rc, -, h⟩ := h
  split at h
  · simp only [Option.bind_eq_some, Option.some.injEq] at h
    obtain ⟨n, -, h⟩ := h
    subst h; exact ⟨rfl, rfl⟩
  · simp only [Option.bind_eq_some] at h
    obtain ⟨ci, -, fi, -, h⟩ := h
    split at h
    · split at h
      · simp only [Option.some.injEq] at h
        subst h
        exact ⟨rfl, (run_opcode_rdfrme_dev g w.dev _ _).2⟩
      · simp only [Option.some.injEq] at h
        subst h
        exact ⟨rfl, (run_opcode_rdfrme_dev g w.dev _ _).2⟩
    · simp only [Option.some.injEq] at h
      subst h; exact ⟨rfl, rfl⟩

/-- The frame store of a flush changes neither the files, the cursor, the handle counter and
the record of the loaded cartridge, nor the loaded cartridge. -/
theorem flush_store_core (g : Geometry) (w : World) (d : data_structure) (ri : List Nat)
    (r : World × Int) (h : flush_store g w d ri = some r) :
    r.1.fs.files = w.fs.files ∧ cursor r.1.fs = cursor w.fs ∧
    r.1.fs.current_handle = w.fs.current_handle ∧
    r.1.fs.last_cart_loaded = w.fs.last_cart_loaded ∧
    r.1.dev.loaded = w.dev.loaded := by
  unfold flush_store at h
  simp only [Option.bind_eq_bind, Option.pure_def, Option.bind_eq_some] at h
  obtain ⟨p, -, ci, -, fi, -, h⟩ := h
  simp only [Option.some.injEq] at h
  subst h
  exact ⟨rfl, rfl, rfl, rfl, run_opcode_wrfrme_loaded g w.dev _ _⟩

/-- The effect of the last part of a flush on the files, the cursor and the handle
counter. -/
theorem flush_advance_core (g : Geometry) (w : World) (k : Nat) (n : Int) (ix : Nat)
    (w2 : World) (hu : ¬ not_usable (w.fs.files k))
    (hi : index? g.CART_CARTRIDGE_SIZE
      (Int.tdiv (w.fs.files k).current_position ((g.CART_FRAME_SIZE : Int) - 1)) = some ix)
    (h0 : 1 ≤ n)
    (h1 : n + Int.tmod (w.fs.files k).current_position ((g.CART_FRAME_SIZE : Int) - 1)
      ≤ (g.CART_FRAME_SIZE : Int) - 1)
    (h : flush_advance g w k n
      (Int.tdiv (w.fs.files k).current_position ((g.CART_FRAME_SIZE : Int) - 1)) = some w2) :
    CoreStep g w.fs w2.fs ∧ w2.dev = w.dev ∧
    w2.fs.last_cart_loaded = w.fs.last_cart_loaded := by
  unfold flush_advance at h
  simp only [] at h
  split at h
  · rename_i hn
    split at h
    · simp at h
    · rename_i nx hx
      simp only [Option.some.injEq] at h
      subst h
      refine ⟨CoreStep.grow _ _ k n ix nx hu hi h0 h1 hx ?_ hn ?_ ?_, rfl, ?_⟩
      · simp only [(advance_cursor_core g _).1, upd_upd]
        rfl
      · exact cursor_advance_congr g _ _ rfl
      · simp only [(advance_cursor_core g _).2.1]
      · simp only [(advance_cursor_core g _).2.2]
  · rename_i hn
    simp only [Option.some.injEq] at h
    subst h
    exact ⟨CoreStep.write _ _ k n ix hu hi h0 h1 rfl hn rfl rfl, rfl, rfl⟩

/-- A step from a file system with the same files, cursor and handle counter. -/
theorem CoreStep.of_same_source (g : Geometry) (fs fs1 fs2 : File_System)
    (hf : fs1.files = fs.files) (hc : cursor fs1 = cursor fs)
    (hh : fs1.current_handle = fs.current_handle) (h : CoreStep g fs1 fs2) :
    CoreStep g fs fs2 := by
  cases h with
  | same hf2 hc2 hh2 => exact CoreStep.same _ _ (hf2.trans hf) (hc2.trans hc) (hh2.trans hh)
  | flag k v hf2 hc2 hh2 =>
    rw [hf] at hf2
    exact CoreStep.flag _ _ k v hf2 (hc2.trans hc) (hh2.trans hh)
  | seek k loc hu hloc hg hf2 hc2 hh2 =>
    rw [hf] at hf2 hu hg
    exact CoreStep.seek _ _ k loc hu hloc hg hf2 (hc2.trans hc) (hh2.trans hh)
  | create k name handle hk hf2 hc2 hh2 =>
    rw [hf, hc] at hf2
    rw [hh] at hk
    exact CoreStep.create _ _ k name handle hk hf2
      (hc2.trans (cursor_advance_congr g fs fs1 hc)) hh2
  | write k n ix hu hi h0 h1 hf2 hn hc2 hh2 =>
    rw [hf] at hf2 hu hi h1 hn
    exact CoreStep.write _ _ k n ix hu hi h0 h1 hf2 hn (hc2.trans hc) (hh2.trans hh)
  | grow k n ix nx hu hi h0 h1 hx hf2 hn hc2 hh2 =>
    rw [hf] at hu hi h1 hx hn
    rw [hf, hc] at hf2
    exact CoreStep.grow _ _ k n ix nx hu hi h0 h1 hx hf2 hn
      (hc2.trans (cursor_advance_congr g fs fs1 hc)) (hh2.trans hh)

/-- The effect of a flush of `cart_write` on the files, the cursor and the handle counter,
and on the agreement between the driver's record of the loaded cartridge and the device. -/
theorem write_flush_core (g : Geometry) (w : World) (k : Nat) (ri hb : List Nat) (hc : Int)
    (fl : Flush) (hu : ¬ not_usable (w.fs.files k)) (h0 : 0 ≤ hc)
    (h1 : hc + Int.tmod (w.fs.files k).current_position ((g.CART_FRAME_SIZE : Int) - 1) + 1
      ≤ (g.CART_FRAME_SIZE : Int) - 1)
    (h : write_flush g w k ri hb hc
      (Int.tdiv (w.fs.files k).current_position ((g.CART_FRAME_SIZE : Int) - 1))
      (Int.tmod (w.fs.files k).current_position ((g.CART_FRAME_SIZE : Int) - 1)) = some fl) :
    CoreStep g w.fs fl.w.fs ∧
    ((∀ j, -32768 ≤ ((w.fs.files k).data j).cart ∧ ((w.fs.files k).data j).cart ≤ 32767) →
      (∃ c : Nat, w.dev.loaded = some c ∧ w.fs.last_cart_loaded = (c : Int)) →
      ∃ c : Nat, fl.w.dev.loaded = some c ∧ fl.w.fs.last_cart_loaded = (c : Int)) := by
  unfold write_flush at h
  simp only [Option.bind_eq_bind, Option.pure_def, Option.bind_eq_some] at h
  obtain ⟨ix, hix, h⟩ := h
  obtain ⟨-, l1, -, l2, l3, -⟩ := flush_load_frame g w ((w.fs.files k).data ix)
  have l4 := flush_load_counter g w ((w.fs.files k).data ix)
  have lc : cursor (flush_load g w ((w.fs.files k).data ix)).1.fs = cursor w.fs := by
    unfold cursor; rw [l2, l3]
  split at h
  · simp only [Option.some.injEq] at h
    subst h
    exact ⟨CoreStep.same _ _ l1 lc l4,
      fun h16 hs => (flush_load_sync g w _ (h16 ix) hs).1⟩
  · simp only [Option.bind_eq_some] at h
    obtain ⟨fetched, hfetched, h⟩ := h
    obtain ⟨m1, m2⟩ := flush_fetch_core g _ _ _ _ hfetched
    split at h
    · simp only [Option.some.injEq] at h
      subst h
      refine ⟨CoreStep.same _ _ ?_ ?_ ?_, fun h16 hs => ?_⟩
      · rw [m1]; exact l1
      · rw [m1]; exact lc
      · rw [m1]; exact l4
      · rw [m1, m2]; exact (flush_load_sync g w _ (h16 ix) hs).1
    · simp only [Option.bind_eq_some] at h
      obtain ⟨stored, hstored, h⟩ := h
      obtain ⟨s1, s2, s3, s4, s5⟩ := flush_store_core g _ _ _ _ hstored
      rw [m1] at s1 s2 s3 s4
      rw [m2] at s5
      have t1 := s1.trans l1
      have t2 := s2.trans lc
      have t3 := s3.trans l4
      split at h
      · simp only [Option.some.injEq] at h
        subst h
        refine ⟨CoreStep.same _ _ t1 t2 t3, fun h16 hs => ?_⟩
        show ∃ c : Nat, stored.1.dev.loaded = some c ∧ stored.1.fs.last_cart_loaded = (c : Int)
        rw [s4, s5]; exact (flush_load_sync g w _ (h16 ix) hs).1
      · simp only [Option.bind_eq_some, Option.some.injEq] at h
        obtain ⟨w2, hw2, h⟩ := h
        subst h
        rw [← t1] at hu hix h1 hw2
        have a := flush_advance_core g stored.1 k (hc + 1) ix w2 hu hix (by omega)
          (by omega) hw2
        refine ⟨CoreStep.of_same_source g _ _ _ t1 t2 t3 a.1, fun h16 hs => ?_⟩
        show ∃ c : Nat, w2.dev.loaded = some c ∧ w2.fs.last_cart_loaded = (c : Int)
        rw [a.2.1, a.2.2, s4, s5]; exact (flush_load_sync g w _ (h16 ix) hs).1

theorem toInt16_range (x : Int) : -32768 ≤ toInt16 x ∧ toInt16 x ≤ 32767 := by
  unfold toInt16
  split <;> omega

theorem cursor_eq_iff (a b : File_System) :
    cursor a = cursor b ↔ a.cart_to_use = b.cart_to_use ∧ a.frame_to_use = b.frame_to_use := by
  unfold cursor
  simp only [data_structure.mk.injEq]

/-- The name, the open flag and the frame list of a file are not changed by the position
and size update of a flush. -/
theorem File.advanced_fields (f : File) (n : Int) :
    (f.advanced n).name = f.name ∧ (f.advanced n).is_open = f.is_open ∧
    (f.advanced n).data = f.data ∧ (f.advanced n).name0 = f.name0 := by
  unfold File.advanced File.name0
  simp only []
  split <;> exact ⟨rfl, rfl, rfl, rfl⟩

theorem advance_cursor_cart16 (g : Geometry) (fs : File_System)
    (h : -32768 ≤ fs.cart_to_use ∧ fs.cart_to_use ≤ 32767) :
    -32768 ≤ (advance_cursor g fs).cart_to_use ∧ (advance_cursor g fs).cart_to_use ≤ 32767 := by
  unfold advance_cursor
  simp only []
  split
  · exact toInt16_range _
  · exact h

/-- A usable file is a created file. -/
theorem BaseInv.usable {fs : File_System} (b : BaseInv fs) {k : Nat}
    (hu : ¬ not_usable (fs.files k)) : created fs k := by
  by_contra hc
  exact hu (Or.inl (b.unused k hc))

/-- The invariant `BaseInv` is kept by every step. -/
theorem BaseInv.step_base (g : Geometry) (fs fs2 : File_System) (h : CoreStep g fs fs2)
    (b : BaseInv fs) : BaseInv fs2 := by
  cases h with
  | same hf hc hh =>
    have hc' := (cursor_eq_iff _ _).1 hc
    refine ⟨fun k hk => ?_, ?_, fun k j hk => ?_⟩
    · rw [hf]; exact b.unused k (by unfold created at hk ⊢; rw [← hh]; exact hk)
    · rw [hc'.1]; exact b.cart16
    · rw [hf]; exact b.slot16 k j (by unfold created at hk ⊢; rw [← hh]; exact hk)
  | flag k0 v hf hc hh =>
    have hc' := (cursor_eq_iff _ _).1 hc
    refine ⟨fun k hk => ?_, ?_, fun k j hk => ?_⟩
    · have hk' : ¬ created fs k := by unfold created at hk ⊢; rw [← hh]; exact hk
      rw [hf]
      by_cases e : k = k0
      · subst e; rw [upd_same]; exact b.unused k hk'
      · rw [upd_other _ _ e]; exact b.unused k hk'
    · rw [hc'.1]; exact b.cart16
    · have hk' : created fs k := by unfold created at hk ⊢; rw [← hh]; exact hk
      rw [hf]
      by_cases e : k = k0
      · subst e; rw [upd_same]; exact b.slot16 k j hk'
      · rw [upd_other _ _ e]; exact b.slot16 k j hk'
  | seek k0 loc hu hloc hg hf hc hh =>
    have hc' := (cursor_eq_iff _ _).1 hc
    refine ⟨fun k hk => ?_, ?_, fun k j hk => ?_⟩
    · have hk' : ¬ created fs k := by unfold created at hk ⊢; rw [← hh]; exact hk
      rw [hf]
      by_cases e : k = k0
      · subst e; rw [upd_same]; exact b.unused k hk'
      · rw [upd_other _ _ e]; exact b.unused k hk'
    · rw [hc'.1]; exact b.cart16
    · have hk' : created fs k := by unfold created at hk ⊢; rw [← hh]; exact hk
      rw [hf]
      by_cases e : k = k0
      · subst e; rw [upd_same]; exact b.slot16 k j hk'
      · rw [upd_other _ _ e]; exact b.slot16 k j hk'
  | create k0 name handle hk0 hf hc hh =>
    have hc' := (cursor_eq_iff _ _).1 hc
    refine ⟨fun k hk => ?_, ?_, fun k j hk => ?_⟩
    · unfold created at hk
      rw [hh] at hk
      have e : k ≠ k0 := by omega
      rw [hf, upd_other _ _ e]
      exact b.unused k (by unfold created; omega)
    · rw [hc'.1]; exact advance_cursor_cart16 g fs b.cart16
    · unfold created at hk
      rw [hh] at hk
      rw [hf]
      by_cases e : k = k0
      · subst e
        rw [upd_same]
        unfold new_file
        simp only []
        split
        · exact b.cart16
        · unfold unassigned; simp only []; omega
      · rw [upd_other _ _ e]
        exact b.slot16 k j (by unfold created; omega)
  | write k0 n ix hu hi h0 h1 hf hn hc hh =>
    have hc' := (cursor_eq_iff _ _).1 hc
    obtain ⟨-, -, a3, a4⟩ := File.advanced_fields (fs.files k0) n
    refine ⟨fun k hk => ?_, ?_, fun k j hk => ?_⟩
    · have hk' : ¬ created fs k := by unfold created at hk ⊢; rw [← hh]; exact hk
      rw [hf]
      by_cases e : k = k0
      · subst e; rw [upd_same, a4]; exact b.unused k hk'
      · rw [upd_other _ _ e]; exact b.unused k hk'
    · rw [hc'.1]; exact b.cart16
    · have hk' : created fs k := by unfold created at hk ⊢; rw [← hh]; exact hk
      rw [hf]
      by_cases e : k = k0
      · subst e; rw [upd_same, a3]; exact b.slot16 k j hk'
      · rw [upd_other _ _ e]; exact b.slot16 k j hk'
  | grow k0 n ix nx hu hi h0 h1 hx hf hn hc hh =>
    have hc' := (cursor_eq_iff _ _).1 hc
    obtain ⟨-, -, a3, a4⟩ := File.advanced_fields (fs.files k0) n
    refine ⟨fun k hk => ?_, ?_, fun k j hk => ?_⟩
    · have hk' : ¬ created fs k := by unfold created at hk ⊢; rw [← hh]; exact hk
      rw [hf]
      by_cases e : k = k0
      · subst e; rw [upd_same]
        exact a4 ▸ b.unused k hk'
      · rw [upd_other _ _ e]; exact b.unused k hk'
    · rw [hc'.1]; exact advance_cursor_cart16 g fs b.cart16
    · have hk' : created fs k := by unfold created at hk ⊢; rw [← hh]; exact hk
      rw [hf]
      by_cases e : k = k0
      · subst e
        rw [upd_same]
        simp only [a3]
        by_cases e2 : j = nx
        · subst e2; rw [upd_same]; exact b.cart16
        · rw [upd_other _ _ e2]; exact b.slot16 k j hk'
      · rw [upd_other _ _ e]; exact b.slot16 k j hk'

/-- After a cartridge loop of `cart_poweron` in which every command succeeded, the cartridge
loaded last is the last cartridge of the loop, and `last_cart_loaded` records it. -/
theorem poweron_carts_sync (g : Geometry) :
    ∀ (n i : Nat) (fs : File_System) (d : Device),
      1 ≤ n → i + n ≤ 32768 → (poweron_carts g n i fs d).2.2 = true →
      (poweron_carts g n i fs d).2.1.loaded = some (i + n - 1) ∧
      (poweron_carts g n i fs d).1.last_cart_loaded = ((i + n - 1 : Nat) : Int) := by
  intro n
  induction n with
  | zero => intro i fs d h; omega
  | succ n ih =>
    intro i fs d _ hi
    simp only [poweron_carts]
    split
    · intro h; simp at h
    · rename_i hload
      split
      · intro h; simp at h
      · rename_i hclear
        by_cases hn : n = 0
        · subst hn
          intro _
          simp only [poweron_carts]
          obtain ⟨f1, -, -, f4, -⟩ := run_opcode_loaded g d
            (generate_encoded_opcode CART_OP_LDCART 0 i 0) none
          obtain ⟨-, -, c3, -, -⟩ := run_opcode_loaded g
            (run_opcode g d (generate_encoded_opcode CART_OP_LDCART 0 i 0) none).1
            (generate_encoded_opcode CART_OP_BZERO 0 0 0) none
          have hf := @generate_encoded_opcode_fields CART_OP_LDCART i 0
            (by decide) (by omega) (by decide)
          have h0 : (run_opcode g d (generate_encoded_opcode CART_OP_LDCART 0 i 0) none).2.1
              = 0 := by
            rcases f1 with h | h
            · exact h
            · exact absurd h hload
          have l1 := (f4 hf.1 h0).1
          rw [hf.2.1] at l1
          have hz := @generate_encoded_opcode_fields CART_OP_BZERO 0 0
            (by decide) (by decide) (by decide)
          have l2 := c3 (by rw [hz.1]; decide) (by rw [hz.1]; decide)
          refine ⟨l2.trans l1, ?_⟩
          show toInt16 (i : Int) = ((i + (0 + 1) - 1 : Nat) : Int)
          rw [toInt16_natCast (by omega)]
          rfl
        · intro h
          have := ih (i + 1) _ _ (by omega) (by omega) h
          have e : i + 1 + n - 1 = i + (n + 1) - 1 := by omega
          rw [e] at this
          exact this

/-- After a successful `cart_poweron` the invariant `BaseInv` holds, no file is created, the
cursor is at frame 0 of cartridge 0, and the cartridge loaded last is the last cartridge of
the device, which `last_cart_loaded` records. -/
theorem cart_poweron_inv (g : Geometry) (temp : File) (w0 : World)
    (h : (cart_poweron g temp w0).2 = 0) :
    BaseInv (cart_poweron g temp w0).1.fs ∧
    (cart_poweron g temp w0).1.fs.current_handle = 0 ∧
    cursor (cart_poweron g temp w0).1.fs = { cart := 0, frame := 0 } ∧
    (1 ≤ g.CART_MAX_CARTRIDGES → g.CART_MAX_CARTRIDGES ≤ 32768 →
      ∃ c : Nat, (cart_poweron g temp w0).1.dev.loaded = some c ∧
        (cart_poweron g temp w0).1.fs.last_cart_loaded = (c : Int)) := by
  obtain ⟨a1, a2, a3, -, a5, -⟩ := cart_poweron_ok g temp w0 _ (Prod.ext rfl h)
  refine ⟨⟨fun k _ => a5 k, by rw [a2]; omega, fun k j hk => ?_⟩, a1, ?_, fun h1 h2 => ?_⟩
  · unfold created at hk; rw [a1] at hk; omega
  · unfold cursor; rw [a2, a3]
  · unfold cart_poweron at h ⊢
    simp only [] at h ⊢
    split at h
    · simp at h
    · rename_i hs
      rw [if_neg hs]
      split at h
      · simp at h
      · rename_i hr
        rw [if_neg hr]
        have hr' : (poweron_carts g g.CART_MAX_CARTRIDGES 0
            { w0.fs with is_on := 1, current_handle := 0, cart_to_use := 0, frame_to_use := 0 }
            (run_opcode g w0.dev (generate_encoded_opcode CART_OP_INITMS 0 0 0) none).1).2.2
            = true := by
          revert hr
          cases (poweron_carts g g.CART_MAX_CARTRIDGES 0
            { w0.fs with is_on := 1, current_handle := 0, cart_to_use := 0, frame_to_use := 0 }
            (run_opcode g w0.dev (generate_encoded_opcode CART_OP_INITMS 0 0 0) none).1).2.2
            <;> simp
        obtain ⟨p1, p2⟩ := poweron_carts_sync g g.CART_MAX_CARTRIDGES 0 _ _ h1 (by omega) hr'
        exact ⟨0 + g.CART_MAX_CARTRIDGES - 1, p1, p2⟩

/-- The invariant `BaseInv` holds in every reachable state. -/
theorem reached_base (g : Geometry) (log : List data_structure) (w : World)
    (h : Reached g log w) : BaseInv w.fs := by
  induction h with
  | boot temp w0 h => exact (cart_poweron_inv g temp w0 h).1
  | copen log w path w2 r _ h ih => exact BaseInv.step_base g _ _ (cart_open_core g w path w2 r h).1 ih
  | cclose log w fd w2 r _ h ih => exact BaseInv.step_base g _ _ (cart_close_core g w fd w2 r h).1 ih
  | cseek log w fd loc w2 r _ h ih =>
    exact BaseInv.step_base g _ _ (cart_seek_core g w fd loc w2 r h).1 ih
  | cread log w fd count w2 r bytes _ h ih =>
    have e := (cart_read_core g w fd count _ h).1
    simp only [] at e
    rw [e]; exact ih
  | flush log w k ri hb hc fl _ hu h0 h1 h ih =>
    exact BaseInv.step_base g _ _ (write_flush_core g w k ri hb hc fl hu h0 h1 h).1 ih

/-- In every reachable state the driver's record of the loaded cartridge agrees with the
device. -/
theorem reached_sync (g : Geometry) (hC1 : 1 ≤ g.CART_MAX_CARTRIDGES)
    (hC2 : g.CART_MAX_CARTRIDGES ≤ 32768) (log : List data_structure) (w : World)
    (h : Reached g log w) :
    ∃ c : Nat, w.dev.loaded = some c ∧ w.fs.last_cart_loaded = (c : Int) := by
  induction h with
  | boot temp w0 h => exact (cart_poweron_inv g temp w0 h).2.2.2 hC1 hC2
  | copen log w path w2 r _ h ih =>
    obtain ⟨-, e1, e2⟩ := cart_open_core g w path w2 r h
    rw [e1, e2]; exact ih
  | cclose log w fd w2 r _ h ih =>
    obtain ⟨-, e1, e2⟩ := cart_close_core g w fd w2 r h
    rw [e1, e2]; exact ih
  | cseek log w fd loc w2 r _ h ih =>
    obtain ⟨-, e1, e2⟩ := cart_seek_core g w fd loc w2 r h
    rw [e1, e2]; exact ih
  | cread log w fd count w2 r bytes _ h ih =>
    obtain ⟨e1, e2⟩ := cart_read_core g w fd count _ h
    simp only [] at e1 e2
    rw [e1, e2]; exact ih
  | flush log w k ri hb hc fl hw hu h0 h1 h ih =>
    have b := reached_base g _ _ hw
    exact (write_flush_core g w k ri hb hc fl hu h0 h1 h).2
      (fun j => b.slot16 k j (b.usable hu)) ih

/-- The last part of a flush leaves the file usable. -/
theorem flush_advance_usable (g : Geometry) (w : World) (k : Nat) (n fi : Int) (w2 : World)
    (hu : ¬ not_usable (w.fs.files k)) (h : flush_advance g w k n fi = some w2) :
    ¬ not_usable (w2.fs.files k) := by
  obtain ⟨-, a2, -, a4⟩ := File.advanced_fields (w.fs.files k) n
  unfold not_usable at hu ⊢
  unfold flush_advance at h
  simp only [] at h
  split at h
  · split at h
    · simp at h
    · simp only [Option.some.injEq] at h
      subst h
      simp only [(advance_cursor_core g _).1, upd_upd, upd_same]
      exact a2 ▸ a4 ▸ hu
  · simp only [Option.some.injEq] at h
    subst h
    simp only [upd_same]
    rw [a2, a4]; exact hu

/-- A flush of `cart_write` leaves the file usable. -/
theorem write_flush_usable (g : Geometry) (w : World) (k : Nat) (ri hb : List Nat)
    (hc fi bi : Int) (fl : Flush) (hu : ¬ not_usable (w.fs.files k))
    (h : write_flush g w k ri hb hc fi bi = some fl) :
    ¬ not_usable (fl.w.fs.files k) := by
  unfold write_flush at h
  simp only [Option.bind_eq_bind, Option.pure_def, Option.bind_eq_some] at h
  obtain ⟨ix, hix, h⟩ := h
  obtain ⟨-, l1, -, -, -, -⟩ := flush_load_frame g w ((w.fs.files k).data ix)
  split at h
  · simp only [Option.some.injEq] at h
    subst h
    show ¬ not_usable ((flush_load g w ((w.fs.files k).data ix)).1.fs.files k)
    rw [l1]; exact hu
  · simp only [Option.bind_eq_some] at h
    obtain ⟨fetched, hfetched, h⟩ := h
    obtain ⟨m1, -⟩ := flush_fetch_core g _ _ _ _ hfetched
    split at h
    · simp only [Option.some.injEq] at h
      subst h
      rw [m1, l1]; exact hu
    · simp only [Option.bind_eq_some] at h
      obtain ⟨stored, hstored, h⟩ := h
      obtain ⟨s1, -, -, -, -⟩ := flush_store_core g _ _ _ _ hstored
      rw [m1] at s1
      split at h
      · simp only [Option.some.injEq] at h
        subst h
        show ¬ not_usable (stored.1.fs.files k)
        rw [s1, l1]; exact hu
      · simp only [Option.bind_eq_some, Option.some.injEq] at h
        obtain ⟨w2, hw2, h⟩ := h
        subst h
        exact flush_advance_usable g stored.1 k _ _ w2 (by rw [s1, l1]; exact hu) hw2

/-- The states of the byte loop of `cart_write` are reachable states. -/
theorem write_loop_reached (g : Geometry) (k count : Nat)
    (hD : 1 ≤ (g.CART_FRAME_SIZE : Int) - 1) :
    ∀ (bs : List Nat) (w : World) (ri hb : List Nat) (hc : Int) (log : List data_structure)
      (r : World × Int),
      Reached g log w → ¬ not_usable (w.fs.files k) → 0 ≤ hc →
      hc + Int.tmod (w.fs.files k).current_position ((g.CART_FRAME_SIZE : Int) - 1) + 1
        ≤ (g.CART_FRAME_SIZE : Int) - 1 →
      write_loop g k count bs w ri hb hc = some r →
      ∃ log2, Reached g (log ++ log2) r.1 := by
  intro bs
  induction bs with
  | nil =>
    intro w ri hb hc log r hw _ _ _ h
    simp only [write_loop, Option.some.injEq] at h
    subst h
    exact ⟨[], by rw [List.append_nil]; exact hw⟩
  | cons b rest ih =>
    intro w ri hb hc log r hw hu h0 h1 h
    simp only [write_loop] at h
    split at h
    · simp at h
    · rename_i j hj
      split at h
      · split at h
        · simp at h
        · rename_i fl hfl
          have hr := Reached.flush log w k ri (hb.set j b) hc fl hw hu h0 h1 hfl
          split at h
          · simp only [Option.some.injEq] at h
            subst h
            exact ⟨_, hr⟩
          · have hu2 := write_flush_usable g w k _ _ _ _ _ fl hu hfl
            have hlt := Int.tmod_lt_of_pos (fl.w.fs.files k).current_position
              (show (0 : Int) < (g.CART_FRAME_SIZE : Int) - 1 by omega)
            obtain ⟨log2, h2⟩ := ih fl.w fl.read_in (hb.set j b) (-1 + 1) _ r hr hu2
              (by omega) (by omega) h
            exact ⟨handed_out w fl.w ++ log2, by rw [← List.append_assoc]; exact h2⟩
      · rename_i hno
        exact ih w ri (hb.set j b) (hc + 1) log r hw hu (by omega) (by omega) h

/-- The state after `cart_write` is a reachable state. -/
theorem cart_write_reached (g : Geometry) (w : World) (fd : Int) (buf : List Nat)
    (count : Nat) (log : List data_structure) (r : World × Int)
    (hw : Reached g log w) (h : cart_write g w fd buf count = some r) :
    ∃ log2, Reached g (log ++ log2) r.1 := by
  unfold cart_write at h
  simp only [Option.bind_eq_bind, Option.pure_def, Option.bind_eq_some] at h
  obtain ⟨k, -, h⟩ := h
  split at h
  · simp only [Option.some.injEq] at h
    subst h
    exact ⟨[], by rw [List.append_nil]; exact hw⟩
  · rename_i hu
    split at h
    · simp at h
    · rename_i hlen
      split at h
      · simp at h
      · rename_i hD
        cases hbs : buf.take count with
        | nil =>
          rw [hbs] at h
          simp only [write_loop, Option.some.injEq] at h
          subst h
          exact ⟨[], by rw [List.append_nil]; exact hw⟩
        | cons b rest =>
          have hcount : 0 < count := by
            rcases Nat.eq_zero_or_pos count with e | e
            · rw [e] at hbs; simp at hbs
            · exact e
          by_cases hF : g.CART_FRAME_SIZE = 0
          · rw [hbs] at h
            simp only [write_loop, hF, index?] at h
            simp at h
          · have hD1 : 1 ≤ (g.CART_FRAME_SIZE : Int) - 1 := by
              have : ¬ (g.CART_FRAME_SIZE : Int) - 1 = 0 := fun e => hD ⟨e, hcount⟩
              omega
            have hlt := Int.tmod_lt_of_pos (w.fs.files k).current_position
              (show (0 : Int) < (g.CART_FRAME_SIZE : Int) - 1 by omega)
            exact write_loop_reached g k count hD1 _ w _ _ 0 log r hw hu (by omega)
              (by omega) h

/-- The state after a call of the file API is a reachable state. -/
theorem call_reached (g : Geometry) (w : World) (c : Call) (log : List data_structure)
    (r : World × Int × List Nat) (hw : Reached g log w) (h : call g w c = some r) :
    ∃ log2, Reached g (log ++ log2) r.1 := by
  cases c with
  | copen path =>
    simp only [call, Option.map_eq_some'] at h
    obtain ⟨a, ha, e⟩ := h
    subst e
    exact ⟨_, Reached.copen log w path a.1 a.2 hw ha⟩
  | cclose fd =>
    simp only [call, Option.map_eq_some'] at h
    obtain ⟨a, ha, e⟩ := h
    subst e
    exact ⟨_, Reached.cclose log w fd a.1 a.2 hw ha⟩
  | cseek fd loc =>
    simp only [call, Option.map_eq_some'] at h
    obtain ⟨a, ha, e⟩ := h
    subst e
    exact ⟨_, Reached.cseek log w fd loc a.1 a.2 hw ha⟩
  | cread fd count =>
    simp only [call] at h
    exact ⟨_, Reached.cread log w fd count r.1 r.2.1 r.2.2 hw h⟩
  | cwrite fd buf count =>
    simp only [call, Option.map_eq_some'] at h
    obtain ⟨a, ha, e⟩ := h
    subst e
    exact cart_write_reached g w fd buf count log a hw ha

/-- The state after a sequence of calls of the file API is a reachable state. -/
theorem calls_reached (g : Geometry) :
    ∀ (cs : List Call) (w : World) (log : List data_structure)
      (r : World × List (Int × List Nat)),
      Reached g log w → calls g w cs = some r → ∃ log2, Reached g (log ++ log2) r.1 := by
  intro cs
  induction cs with
  | nil =>
    intro w log r hw h
    simp only [calls, Option.some.injEq] at h
    subst h
    exact ⟨[], by rw [List.append_nil]; exact hw⟩
  | cons c cs ih =>
    intro w log r hw h
    simp only [calls] at h
    split at h
    · simp at h
    · rename_i a ha
      split at h
      · simp at h
      · rename_i rs hrs
        simp only [Option.some.injEq] at h
        subst h
        obtain ⟨l1, h1⟩ := call_reached g w c log a hw ha
        obtain ⟨l2, h2⟩ := ih a.1 _ rs h1 hrs
        exact ⟨l1 ++ l2, by rw [← List.append_assoc]; exact h2⟩

/-- The block `q` and the offset of a position `pos ≥ -1` for a stride `D ≥ 1`, when the
block index is not negative: the position is `q * D` plus the offset, the offset is below
the stride, and every block up to `q` other than block 0 starts at or below the position. -/
theorem stride_block (D pos : Int) (q : Nat) (hD : 1 ≤ D) (hpos : -1 ≤ pos)
    (hq : Int.tdiv pos D = (q : Int)) :
    pos = (q : Int) * D + Int.tmod pos D ∧ Int.tmod pos D < D ∧
    (∀ j : Nat, (j : Int) ≤ (q : Int) → j = 0 ∨ ((j : Int) * D ≤ pos ∧ 0 ≤ pos)) := by
  by_cases hD2 : 2 ≤ D
  · obtain ⟨-, -, r1, hid, hr, hm⟩ := stride_div D pos hD2 hpos
    rw [hq] at hid hm
    refine ⟨hid, r1, fun j hj => ?_⟩
    by_cases hp : pos = -1
    · left
      have := (hm hp).1
      omega
    · right
      have h0 : 0 ≤ pos := by omega
      have := hr h0
      have := Int.mul_le_mul_of_nonneg_right hj (show (0 : Int) ≤ D by omega)
      omega
  · have hD1 : D = 1 := by omega
    subst hD1
    rw [Int.tdiv_one] at hq
    rw [Int.tmod_one]
    refine ⟨by omega, by omega, fun j hj => Or.inr ⟨by omega, by omega⟩⟩

theorem FileOk.of_same_fields {g : Geometry} {f f2 : File} (ok : FileOk g f)
    (hp : f2.current_position = f.current_position) (hs : f2.size = f.size)
    (hd : f2.data = f.data) : FileOk g f2 := by
  refine ⟨?_, ?_, ?_, ?_⟩
  · rw [hp]; exact ok.pos_lo
  · rw [hp, hs]; exact ok.pos_hi
  · rw [hs]; exact ok.size_hi
  · rw [hs, hd]; exact ok.blocks

/-- The position and size update at the end of a flush keeps the invariant of the file: when
the flush ends at the end of the file on a stride boundary the block after the flushed one
gets a frame, and otherwise every block that starts below the new size has one already. -/
theorem FileOk.advanced (g : Geometry) (hF : 2 ≤ g.CART_FRAME_SIZE)
    (h32 : (g.CART_CARTRIDGE_SIZE : Int) * ((g.CART_FRAME_SIZE : Int) - 1) + 1 < 2 ^ 31)
    (f : File) (ok : FileOk g f) (n : Int) (ix : Nat)
    (hi : index? g.CART_CARTRIDGE_SIZE
      (Int.tdiv f.current_position ((g.CART_FRAME_SIZE : Int) - 1)) = some ix)
    (h0 : 1 ≤ n)
    (h1 : n + Int.tmod f.current_position ((g.CART_FRAME_SIZE : Int) - 1)
      ≤ (g.CART_FRAME_SIZE : Int) - 1) :
    (¬ (Int.tmod (f.advanced n).current_position ((g.CART_FRAME_SIZE : Int) - 1) = 0
        ∧ (f.advanced n).current_position + 1 = (f.advanced n).size) →
      FileOk g (f.advanced n)) ∧
    (Int.tmod (f.advanced n).current_position ((g.CART_FRAME_SIZE : Int) - 1) = 0
        ∧ (f.advanced n).current_position + 1 = (f.advanced n).size →
      ∀ (nx : Nat) (d : data_structure),
        index? g.CART_CARTRIDGE_SIZE
          (Int.tdiv f.current_position ((g.CART_FRAME_SIZE : Int) - 1) + 1) = some nx →
        0 ≤ d.frame ∧ d.frame < (g.CART_CARTRIDGE_SIZE : Int) →
        FileOk g { f.advanced n with data := (upd (f.advanced n).data nx d) }) := by
  have hD : (1 : Int) ≤ (g.CART_FRAME_SIZE : Int) - 1 := by omega
  obtain ⟨hq, hqS⟩ := index?_eq_some hi
  obtain ⟨hid, r1, hbelow⟩ := stride_block _ _ ix hD ok.pos_lo hq
  have hlo := ok.pos_lo
  have hhi := ok.pos_hi
  have hsz := ok.size_hi
  -- the flush ends in the block of the position or at the start of the next block
  have hqS' : (ix : Int) + 1 ≤ (g.CART_CARTRIDGE_SIZE : Int) := by omega
  have hmul : ((ix : Int) + 1) * ((g.CART_FRAME_SIZE : Int) - 1)
      ≤ (g.CART_CARTRIDGE_SIZE : Int) * ((g.CART_FRAME_SIZE : Int) - 1) :=
    Int.mul_le_mul_of_nonneg_right hqS' (by omega)
  have hexp : ((ix : Int) + 1) * ((g.CART_FRAME_SIZE : Int) - 1)
      = (ix : Int) * ((g.CART_FRAME_SIZE : Int) - 1) + ((g.CART_FRAME_SIZE : Int) - 1) := by
    ring
  have hadv := File.advanced_eq f n hlo (by omega) (by omega)
  rw [hadv]
  simp only []
  -- a block that starts below the new size is one of the old blocks or the next block
  have hold : ∀ j : Nat, (j : Int) ≠ (ix : Int) + 1 →
      (j = 0 ∨ (j : Int) * ((g.CART_FRAME_SIZE : Int) - 1)
        < max f.size (f.current_position + n + 1)) →
      (j = 0 ∨ (j : Int) * ((g.CART_FRAME_SIZE : Int) - 1) < f.size) := by
    intro j hne hj
    rcases hj with hj | hj
    · exact Or.inl hj
    · by_cases hlt : (j : Int) * ((g.CART_FRAME_SIZE : Int) - 1) < f.size
      · exact Or.inr hlt
      · have h1 : (j : Int) ≤ (ix : Int) + 1 :=
          le_succ_of_mul_le (show (0 : Int) < (g.CART_FRAME_SIZE : Int) - 1 by omega)
            (by omega)
        rcases hbelow j (by omega) with h | h
        · exact Or.inl h
        · omega
  constructor
  · intro hcond
    refine ⟨by simp only []; omega, by simp only []; omega, ?_, ?_⟩
    · simp only []
      by_contra hgt
      have hpos : f.current_position + n
          = ((ix : Int) + 1) * ((g.CART_FRAME_SIZE : Int) - 1) := by omega
      apply hcond
      constructor
      · rw [hpos]; exact Int.mul_tmod_left _ _
      · omega
    · intro j hj
      simp only [] at hj ⊢
      by_cases hne : (j : Int) = (ix : Int) + 1
      · rcases hj with hj | hj
        · exact ok.blocks j (Or.inl hj)
        · by_cases hlt : (j : Int) * ((g.CART_FRAME_SIZE : Int) - 1) < f.size
          · exact ok.blocks j (Or.inr hlt)
          · exfalso
            have hjm : (j : Int) * ((g.CART_FRAME_SIZE : Int) - 1)
                = ((ix : Int) + 1) * ((g.CART_FRAME_SIZE : Int) - 1) := by rw [hne]
            have hpos : f.current_position + n
                = ((ix : Int) + 1) * ((g.CART_FRAME_SIZE : Int) - 1) := by omega
            apply hcond
            constructor
            · rw [hpos]; exact Int.mul_tmod_left _ _
            · omega
      · exact ok.blocks j (hold j hne hj)
  · intro hcond nx d hx hd
    obtain ⟨hnx, hnxS⟩ := index?_eq_some hx
    rw [hq] at hnx
    have hmul2 : ((ix : Int) + 1) * ((g.CART_FRAME_SIZE : Int) - 1)
        ≤ ((g.CART_CARTRIDGE_SIZE : Int) - 1) * ((g.CART_FRAME_SIZE : Int) - 1) :=
      Int.mul_le_mul_of_nonneg_right (by omega) (by omega)
    have hexp2 : ((g.CART_CARTRIDGE_SIZE : Int) - 1) * ((g.CART_FRAME_SIZE : Int) - 1)
        = (g.CART_CARTRIDGE_SIZE : Int) * ((g.CART_FRAME_SIZE : Int) - 1)
          - ((g.CART_FRAME_SIZE : Int) - 1) := by ring
    refine ⟨by simp only []; omega, by simp only []; omega, by simp only []; omega, ?_⟩
    intro j hj
    simp only [] at hj ⊢
    by_cases hne : j = nx
    · subst hne; rw [upd_same]; exact hd
    · rw [upd_other _ _ hne]
      exact ok.blocks j (hold j (by omega) hj)

/-- The position that `cart_seek` stores when its bound check passes is `-1` or an offset
below the size. -/
theorem seek_position (size : Int) (loc : Nat) (h0 : 0 ≤ size) (h1 : size < 2 ^ 31)
    (hg : ¬ (loc + 1) % 2 ^ 32 > toUInt32 size) :
    -1 ≤ toInt32 loc ∧ toInt32 loc + 1 ≤ size := by
  unfold toUInt32 at hg
  have e : size % 2 ^ 32 = size := Int.emod_eq_of_lt h0 (by omega)
  rw [e] at hg
  have e2 : ((size.toNat : Nat) : Int) = size := Int.toNat_of_nonneg h0
  unfold toInt32
  split <;> omega

theorem advance_cursor_frame (g : Geometry) (hS : g.CART_CARTRIDGE_SIZE ≤ 32767)
    (fs : File_System)
    (h : 0 ≤ fs.frame_to_use ∧ fs.frame_to_use < (g.CART_CARTRIDGE_SIZE : Int)) :
    0 ≤ (advance_cursor g fs).frame_to_use ∧
    (advance_cursor g fs).frame_to_use < (g.CART_CARTRIDGE_SIZE : Int) := by
  unfold advance_cursor
  simp only [toInt16_of_range (show -32768 ≤ fs.frame_to_use + 1 by omega)
    (show fs.frame_to_use + 1 < 32768 by omega)]
  split
  · simp only []; omega
  · simp only []; omega

/-- The invariant `FilesInv` is kept by every step. -/
theorem FilesInv.step_files (g : Geometry) (hF : 2 ≤ g.CART_FRAME_SIZE)
    (hS : g.CART_CARTRIDGE_SIZE ≤ 32767)
    (h32 : (g.CART_CARTRIDGE_SIZE : Int) * ((g.CART_FRAME_SIZE : Int) - 1) + 1 < 2 ^ 31)
    (fs fs2 : File_System) (h : CoreStep g fs fs2) (a : FilesInv g fs) :
    FilesInv g fs2 := by
  cases h with
  | same hf hc hh =>
    have hc' := (cursor_eq_iff _ _).1 hc
    refine ⟨by rw [hc'.2]; exact a.frame, fun k hk => ?_⟩
    rw [hf]; exact a.file k (by unfold created at hk ⊢; rw [← hh]; exact hk)
  | flag k0 v hf hc hh =>
    have hc' := (cursor_eq_iff _ _).1 hc
    refine ⟨by rw [hc'.2]; exact a.frame, fun k hk => ?_⟩
    have hk' : created fs k := by unfold created at hk ⊢; rw [← hh]; exact hk
    rw [hf]
    by_cases e : k = k0
    · subst e; rw [upd_same]; exact (a.file k hk').of_same_fields rfl rfl rfl
    · rw [upd_other _ _ e]; exact a.file k hk'
  | seek k0 loc hu hloc hg hf hc hh =>
    have hc' := (cursor_eq_iff _ _).1 hc
    refine ⟨by rw [hc'.2]; exact a.frame, fun k hk => ?_⟩
    have hk' : created fs k := by unfold created at hk ⊢; rw [← hh]; exact hk
    rw [hf]
    by_cases e : k = k0
    · subst e
      rw [upd_same]
      have ok := a.file k hk'
      have hlo := ok.pos_lo
      have hhi := ok.pos_hi
      have hsz := ok.size_hi
      obtain ⟨p1, p2⟩ := seek_position _ loc (by omega) (by omega) hg
      exact ⟨p1, p2, ok.size_hi, ok.blocks⟩
    · rw [upd_other _ _ e]; exact a.file k hk'
  | create k0 name handle hk0 hf hc hh =>
    have hc' := (cursor_eq_iff _ _).1 hc
    refine ⟨by rw [hc'.2]; exact advance_cursor_frame g hS fs a.frame, fun k hk => ?_⟩
    unfold created at hk
    rw [hh] at hk
    rw [hf]
    by_cases e : k = k0
    · subst e
      rw [upd_same]
      have hfr := a.frame
      have hm : (0 : Int) ≤ (g.CART_CARTRIDGE_SIZE : Int) * ((g.CART_FRAME_SIZE : Int) - 1) :=
        Int.mul_nonneg (by omega) (by omega)
      refine ⟨by unfold new_file; simp only []; omega, by unfold new_file; simp only []; omega,
        by unfold new_file; simp only []; exact hm, fun j hj => ?_⟩
      have hj0 : j = 0 := by
        rcases hj with hj | hj
        · exact hj
        · exfalso
          have : (0 : Int) ≤ (j : Int) * ((g.CART_FRAME_SIZE : Int) - 1) :=
            Int.mul_nonneg (by omega) (by omega)
          unfold new_file at hj
          simp only [] at hj
          omega
      subst hj0
      unfold new_file cursor
      simp only [if_true]
      exact hfr
    · rw [upd_other _ _ e]
      exact a.file k (by unfold created; omega)
  | write k0 n ix hu hi h0 h1 hf hn hc hh =>
    have hc' := (cursor_eq_iff _ _).1 hc
    refine ⟨by rw [hc'.2]; exact a.frame, fun k hk => ?_⟩
    have hk' : created fs k := by unfold created at hk ⊢; rw [← hh]; exact hk
    rw [hf]
    by_cases e : k = k0
    · subst e
      rw [upd_same]
      exact (FileOk.advanced g hF h32 _ (a.file k hk') n ix hi h0 h1).1 hn
    · rw [upd_other _ _ e]; exact a.file k hk'
  | grow k0 n ix nx hu hi h0 h1 hx hf hn hc hh =>
    have hc' := (cursor_eq_iff _ _).1 hc
    refine ⟨by rw [hc'.2]; exact advance_cursor_frame g hS fs a.frame, fun k hk => ?_⟩
    have hk' : created fs k := by unfold created at hk ⊢; rw [← hh]; exact hk
    rw [hf]
    by_cases e : k = k0
    · subst e
      rw [upd_same]
      exact (FileOk.advanced g hF h32 _ (a.file k hk') n ix hi h0 h1).2 hn nx (cursor fs) hx
        a.frame
    · rw [upd_other _ _ e]; exact a.file k hk'

/-- The invariant `FilesInv` holds in every reachable state. -/
theorem reached_files (g : Geometry) (hF : 2 ≤ g.CART_FRAME_SIZE)
    (hS1 : 1 ≤ g.CART_CARTRIDGE_SIZE) (hS : g.CART_CARTRIDGE_SIZE ≤ 32767)
    (h32 : (g.CART_CARTRIDGE_SIZE : Int) * ((g.CART_FRAME_SIZE : Int) - 1) + 1 < 2 ^ 31)
    (log : List data_structure) (w : World) (h : Reached g log w) : FilesInv g w.fs := by
  induction h with
  | boot temp w0 h =>
    obtain ⟨-, a1, a2, -⟩ := cart_poweron_inv g temp w0 h
    have a2' : (cart_poweron g temp w0).1.fs.frame_to_use = 0 := by
      unfold cursor at a2
      simp only [data_structure.mk.injEq] at a2
      exact a2.2
    refine ⟨by rw [a2']; omega, fun k hk => ?_⟩
    unfold created at hk; rw [a1] at hk; omega
  | copen log w path w2 r hw h ih =>
    exact FilesInv.step_files g hF hS h32 _ _ (cart_open_core g w path w2 r h).1 ih
  | cclose log w fd w2 r hw h ih =>
    exact FilesInv.step_files g hF hS h32 _ _ (cart_close_core g w fd w2 r h).1 ih
  | cseek log w fd loc w2 r hw h ih =>
    exact FilesInv.step_files g hF hS h32 _ _ (cart_seek_core g w fd loc w2 r h).1 ih
  | cread log w fd count w2 r bytes _ h ih =>
    have e := (cart_read_core g w fd count _ h).1
    simp only [] at e
    rw [e]; exact ih
  | flush log w k ri hb hc fl hw hu h0 h1 h ih =>
    exact FilesInv.step_files g hF hS h32 _ _ (write_flush_core g w k ri hb hc fl hu h0 h1 h).1 ih

/-- Frame numbers are in one-to-one correspondence with the pairs they stand for. -/
theorem frame_number_inj (g : Geometry) (i j : Nat)
    (h : frame_number g i = frame_number g j) : i = j := by
  unfold frame_number at h
  simp only [data_structure.mk.injEq, Nat.cast_inj] at h
  rw [← Nat.div_add_mod i g.CART_CARTRIDGE_SIZE, ← Nat.div_add_mod j g.CART_CARTRIDGE_SIZE,
    h.1, h.2]

theorem frame_number_assigned (g : Geometry) (i : Nat) : frame_number g i ≠ unassigned := by
  unfold frame_number unassigned
  simp only [ne_eq, data_structure.mk.injEq, not_and]
  intro _
  omega

/-- The frame after frame number `n` in the order of the cursor is frame number `n + 1`,
as long as the cartridge number stays below 32767. -/
theorem advance_cursor_number (g : Geometry) (hS1 : 1 ≤ g.CART_CARTRIDGE_SIZE)
    (hS : g.CART_CARTRIDGE_SIZE ≤ 32767) (fs : File_System) (n : Nat)
    (hn : n / g.CART_CARTRIDGE_SIZE < 32767) (h : cursor fs = frame_number g n) :
    cursor (advance_cursor g fs) = frame_number g (n + 1) := by
  unfold cursor frame_number at h
  simp only [data_structure.mk.injEq] at h
  obtain ⟨hc, hf⟩ := h
  have hlt : n % g.CART_CARTRIDGE_SIZE < g.CART_CARTRIDGE_SIZE := Nat.mod_lt _ (by omega)
  have hdm := Nat.div_add_mod n g.CART_CARTRIDGE_SIZE
  have key1 : n % g.CART_CARTRIDGE_SIZE + 1 = g.CART_CARTRIDGE_SIZE →
      (n + 1) / g.CART_CARTRIDGE_SIZE = n / g.CART_CARTRIDGE_SIZE + 1 ∧
      (n + 1) % g.CART_CARTRIDGE_SIZE = 0 := by
    intro e
    rw [Nat.div_mod_unique (by omega)]
    constructor
    · rw [Nat.mul_add, Nat.mul_one]; omega
    · omega
  have key2 : ¬ n % g.CART_CARTRIDGE_SIZE + 1 = g.CART_CARTRIDGE_SIZE →
      (n + 1) / g.CART_CARTRIDGE_SIZE = n / g.CART_CARTRIDGE_SIZE ∧
      (n + 1) % g.CART_CARTRIDGE_SIZE = n % g.CART_CARTRIDGE_SIZE + 1 := by
    intro e
    rw [Nat.div_mod_unique (by omega)]
    constructor
    · omega
    · omega
  unfold advance_cursor cursor frame_number
  simp only []
  rw [hc, hf]
  generalize n / g.CART_CARTRIDGE_SIZE = q at hn key1 key2
  generalize n % g.CART_CARTRIDGE_SIZE = r at hlt key1 key2
  have hf16 : toInt16 ((r : Int) + 1) = (r : Int) + 1 :=
    toInt16_of_range (by omega) (by omega)
  have hc16 : toInt16 ((q : Int) + 1) = (q : Int) + 1 :=
    toInt16_of_range (by omega) (by omega)
  simp only [hf16, hc16]
  by_cases e : r + 1 = g.CART_CARTRIDGE_SIZE
  · have e' : (r : Int) + 1 = (g.CART_CARTRIDGE_SIZE : Int) := by omega
    rw [if_pos e', (key1 e).1, (key1 e).2]
    simp only [Nat.cast_add, Nat.cast_one, Nat.cast_zero]
  · have e' : ¬ (r : Int) + 1 = (g.CART_CARTRIDGE_SIZE : Int) := by omega
    rw [if_neg e', (key2 e).1, (key2 e).2]
    simp only [Nat.cast_add, Nat.cast_one]

/-- The cursor moves at every allocation. -/
theorem frame_number_succ_ne (g : Geometry) (n : Nat) :
    frame_number g (n + 1) ≠ frame_number g n := by
  intro h
  have := frame_number_inj g _ _ h
  omega

/-- Storing frame number `n` in one slot `(ks, js)`, in a table whose assigned slots hold
distinct frames with numbers below `n`, gives a table whose assigned slots hold distinct
frames with numbers below `n + 1`; other slots may be new and unassigned. -/
theorem alloc_update (g : Geometry) (n : Nat) (cr cr2 : Nat → Prop)
    (D1 D2 : Nat → Nat → data_structure) (ks js : Nat)
    (hslots : ∀ k j, cr k → D1 k j = unassigned ∨ ∃ i : Nat, i < n ∧ D1 k j = frame_number g i)
    (hdist : ∀ k1 j1 k2 j2, cr k1 → cr k2 → D1 k1 j1 ≠ unassigned →
      D1 k1 j1 = D1 k2 j2 → k1 = k2 ∧ j1 = j2)
    (hupd : ∀ k j, cr2 k → (k = ks ∧ j = js ∧ D2 k j = frame_number g n) ∨
      D2 k j = unassigned ∨ (cr k ∧ D2 k j = D1 k j)) :
    (∀ k j, cr2 k → D2 k j = unassigned ∨
      ∃ i : Nat, i < n + 1 ∧ D2 k j = frame_number g i) ∧
    (∀ k1 j1 k2 j2, cr2 k1 → cr2 k2 → D2 k1 j1 ≠ unassigned →
      D2 k1 j1 = D2 k2 j2 → k1 = k2 ∧ j1 = j2) := by
  have hold : ∀ k j, cr k → D1 k j ≠ unassigned → D1 k j ≠ frame_number g n := by
    intro k j hk hne he
    rcases hslots k j hk with h | ⟨i, hi, h⟩
    · exact hne h
    · rw [h] at he
      have := frame_number_inj g _ _ he
      omega
  constructor
  · intro k j hk
    rcases hupd k j hk with ⟨-, -, h⟩ | h | ⟨hc, h⟩
    · exact Or.inr ⟨n, by omega, h⟩
    · exact Or.inl h
    · rcases hslots k j hc with h' | ⟨i, hi, h'⟩
      · exact Or.inl (h.trans h')
      · exact Or.inr ⟨i, by omega, h.trans h'⟩
  · intro k1 j1 k2 j2 hk1 hk2 hne he
    rcases hupd k1 j1 hk1 with ⟨a1, a2, a3⟩ | a | ⟨ac, a⟩
    · rcases hupd k2 j2 hk2 with ⟨b1, b2, -⟩ | b | ⟨bc, b⟩
      · exact ⟨a1.trans b1.symm, a2.trans b2.symm⟩
      · exact absurd (he.trans b) hne
      · exfalso
        rw [b] at he
        rw [he] at hne a3
        exact hold k2 j2 bc hne a3
    · exact absurd a hne
    · rcases hupd k2 j2 hk2 with ⟨-, -, b3⟩ | b | ⟨bc, b⟩
      · exfalso
        rw [a] at hne he
        rw [b3] at he
        exact hold k1 j1 ac hne he
      · exact absurd (he.trans b) hne
      · rw [a] at hne he
        rw [b] at he
        exact hdist k1 j1 k2 j2 ac bc hne he

theorem AllocInv.of_same_slots {g : Geometry} {log : List data_structure} {fs fs2 : File_System}
    (a : AllocInv g log fs) (hd : ∀ k, (fs2.files k).data = (fs.files k).data)
    (hc : cursor fs2 = cursor fs) (hh : fs2.current_handle = fs.current_handle) :
    AllocInv g log fs2 := by
  have hcr : ∀ k, created fs2 k → created fs k := by
    intro k hk; unfold created at hk ⊢; rw [← hh]; exact hk
  refine ⟨a.log_eq, hc.trans a.cursor_eq, fun k j hk => ?_, fun k1 j1 k2 j2 h1 h2 => ?_⟩
  · rw [hd]; exact a.slots k j (hcr k hk)
  · rw [hd, hd]; exact a.distinct k1 j1 k2 j2 (hcr k1 h1) (hcr k2 h2)

theorem toInt16_succ_ne (x : Int) : toInt16 (x + 1) ≠ x := by
  unfold toInt16
  split <;> omega

/-- The allocation step moves the cursor. -/
theorem advance_cursor_moves (g : Geometry) (fs : File_System) :
    cursor (advance_cursor g fs) ≠ cursor fs := by
  have h1 := toInt16_succ_ne fs.cart_to_use
  have h2 := toInt16_succ_ne fs.frame_to_use
  unfold advance_cursor cursor
  simp only []
  split
  · simp only [ne_eq, data_structure.mk.injEq, not_and]
    intro e; exact absurd e h1
  · simp only [ne_eq, data_structure.mk.injEq, not_and]
    intro _; exact h2

/-- The invariant `AllocInv` is kept by every step that leaves the log within the frames of
the device: the log grows by the frame under the cursor when the step allocates. -/
theorem AllocInv.step_alloc (g : Geometry) (hS1 : 1 ≤ g.CART_CARTRIDGE_SIZE)
    (hS : g.CART_CARTRIDGE_SIZE ≤ 32767) (hC : g.CART_MAX_CARTRIDGES ≤ 32767)
    (fs fs2 : File_System) (log : List data_structure) (h : CoreStep g fs fs2)
    (a : AllocInv g log fs)
    (hlen : (log ++ (if cursor fs2 = cursor fs then [] else [cursor fs])).length
      ≤ g.CART_MAX_CARTRIDGES * g.CART_CARTRIDGE_SIZE) :
    AllocInv g (log ++ (if cursor fs2 = cursor fs then [] else [cursor fs])) fs2 := by
  have hn0 : log.length ≤ g.CART_MAX_CARTRIDGES * g.CART_CARTRIDGE_SIZE := by
    rw [List.length_append] at hlen; omega
  have hcur := a.cursor_eq
  -- the cursor moves at an allocation, so the log grows by the frame under the cursor
  have hmove : cursor (advance_cursor g fs) ≠ cursor fs := advance_cursor_moves g fs
  -- the new log and cursor at an allocation
  have hgrow : cursor fs2 = cursor (advance_cursor g fs) →
      (log ++ [cursor fs]).length ≤ g.CART_MAX_CARTRIDGES * g.CART_CARTRIDGE_SIZE →
      (log ++ [cursor fs]
        = (List.range (log ++ [cursor fs]).length).map (frame_number g)) ∧
      cursor fs2 = frame_number g (log ++ [cursor fs]).length := by
    intro hc hl
    rw [List.length_append, List.length_singleton] at hl ⊢
    have hq2 : log.length / g.CART_CARTRIDGE_SIZE < g.CART_MAX_CARTRIDGES :=
      Nat.div_lt_of_lt_mul (by rw [Nat.mul_comm]; omega)
    constructor
    · rw [List.range_succ, List.map_append, ← a.log_eq, hcur]
      rfl
    · rw [hc]
      exact advance_cursor_number g hS1 hS fs _ (by omega) hcur
  cases h with
  | same hf hc hh =>
    rw [if_pos hc, List.append_nil]
    exact a.of_same_slots (fun k => by rw [hf]) hc hh
  | flag k0 v hf hc hh =>
    rw [if_pos hc, List.append_nil]
    refine a.of_same_slots (fun k => ?_) hc hh
    rw [hf]
    by_cases e : k = k0
    · subst e; rw [upd_same]
    · rw [upd_other _ _ e]
  | seek k0 loc hu hloc hg hf hc hh =>
    rw [if_pos hc, List.append_nil]
    refine a.of_same_slots (fun k => ?_) hc hh
    rw [hf]
    by_cases e : k = k0
    · subst e; rw [upd_same]
    · rw [upd_other _ _ e]
  | write k0 n ix hu hi h0 h1 hf hn hc hh =>
    rw [if_pos hc, List.append_nil]
    refine a.of_same_slots (fun k => ?_) hc hh
    rw [hf]
    by_cases e : k = k0
    · subst e; rw [upd_same]; exact (File.advanced_fields _ n).2.2.1
    · rw [upd_other _ _ e]
  | create k0 name handle hk0 hf hc hh =>
    have hne : ¬ cursor fs2 = cursor fs := by rw [hc]; exact hmove
    rw [if_neg hne] at hlen ⊢
    obtain ⟨g1, g2⟩ := hgrow hc hlen
    have hu := alloc_update g log.length (created fs) (created fs2)
      (fun k j => (fs.files k).data j) (fun k j => (fs2.files k).data j) k0 0
      a.slots a.distinct (by
        intro k j hk
        unfold created at hk
        rw [hh] at hk
        beta_reduce
        rw [hf]
        by_cases e : k = k0
        · subst e
          rw [upd_same]
          unfold new_file
          simp only []
          by_cases ej : j = 0
          · rw [if_pos ej]; exact Or.inl ⟨trivial, ej, hcur⟩
          · rw [if_neg ej]; exact Or.inr (Or.inl rfl)
        · rw [upd_other _ _ e]
          exact Or.inr (Or.inr ⟨by unfold created; omega, rfl⟩))
    refine ⟨g1, g2, ?_, hu.2⟩
    rw [List.length_append, List.length_singleton]
    exact hu.1
  | grow k0 n ix nx hu hi h0 h1 hx hf hn hc hh =>
    have hne : ¬ cursor fs2 = cursor fs := by rw [hc]; exact hmove
    rw [if_neg hne] at hlen ⊢
    obtain ⟨g1, g2⟩ := hgrow hc hlen
    have hu := alloc_update g log.length (created fs) (created fs2)
      (fun k j => (fs.files k).data j) (fun k j => (fs2.files k).data j) k0 nx
      a.slots a.distinct (by
        intro k j hk
        have hk' : created fs k := by unfold created at hk ⊢; rw [← hh]; exact hk
        beta_reduce
        rw [hf]
        by_cases e : k = k0
        · subst e
          rw [upd_same]
          simp only [(File.advanced_fields _ n).2.2.1]
          by_cases ej : j = nx
          · subst ej; rw [upd_same]; exact Or.inl ⟨trivial, rfl, hcur⟩
          · rw [upd_other _ _ ej]; exact Or.inr (Or.inr ⟨hk', rfl⟩)
        · rw [upd_other _ _ e]
          exact Or.inr (Or.inr ⟨hk', rfl⟩))
    refine ⟨g1, g2, ?_, hu.2⟩
    rw [List.length_append, List.length_singleton]
    exact hu.1

/-- The invariant `AllocInv` holds in every reachable state whose log is within the frames
of the device. -/
theorem reached_alloc (g : Geometry) (hS1 : 1 ≤ g.CART_CARTRIDGE_SIZE)
    (hS : g.CART_CARTRIDGE_SIZE ≤ 32767) (hC : g.CART_MAX_CARTRIDGES ≤ 32767)
    (log : List data_structure) (w : World) (h : Reached g log w) :
    log.length ≤ g.CART_MAX_CARTRIDGES * g.CART_CARTRIDGE_SIZE → AllocInv g log w.fs := by
  induction h with
  | boot temp w0 h =>
    intro _
    obtain ⟨-, a1, a2, -⟩ := cart_poweron_inv g temp w0 h
    refine ⟨rfl, ?_, fun k j hk => ?_, fun k1 j1 k2 j2 hk => ?_⟩
    · rw [a2]
      unfold frame_number
      simp only [List.length_nil, Nat.zero_div, Nat.zero_mod, Nat.cast_zero]
    · unfold created at hk; rw [a1] at hk; omega
    · unfold created at hk; rw [a1] at hk; omega
  | copen log w path w2 r _ h ih =>
    intro hlen
    have hl : log.length ≤ g.CART_MAX_CARTRIDGES * g.CART_CARTRIDGE_SIZE := by
      rw [List.length_append] at hlen; omega
    exact AllocInv.step_alloc g hS1 hS hC _ _ log (cart_open_core g w path w2 r h).1 (ih hl) hlen
  | cclose log w fd w2 r _ h ih =>
    intro hlen
    have hl : log.length ≤ g.CART_MAX_CARTRIDGES * g.CART_CARTRIDGE_SIZE := by
      rw [List.length_append] at hlen; omega
    exact AllocInv.step_alloc g hS1 hS hC _ _ log (cart_close_core g w fd w2 r h).1 (ih hl) hlen
  | cseek log w fd loc w2 r _ h ih =>
    intro hlen
    have hl : log.length ≤ g.CART_MAX_CARTRIDGES * g.CART_CARTRIDGE_SIZE := by
      rw [List.length_append] at hlen; omega
    exact AllocInv.step_alloc g hS1 hS hC _ _ log (cart_seek_core g w fd loc w2 r h).1 (ih hl) hlen
  | cread log w fd count w2 r bytes _ h ih =>
    intro hlen
    have hl : log.length ≤ g.CART_MAX_CARTRIDGES * g.CART_CARTRIDGE_SIZE := by
      rw [List.length_append] at hlen; omega
    have e := (cart_read_core g w fd count _ h).1
    simp only [] at e
    exact AllocInv.step_alloc g hS1 hS hC _ _ log
      (CoreStep.same _ _ (by rw [e]) (by rw [e]) (by rw [e])) (ih hl) hlen
  | flush log w k ri hb hc fl _ hu h0 h1 h ih =>
    intro hlen
    have hl : log.length ≤ g.CART_MAX_CARTRIDGES * g.CART_CARTRIDGE_SIZE := by
      rw [List.length_append] at hlen; omega
    exact AllocInv.step_alloc g hS1 hS hC _ _ log (write_flush_core g w k ri hb hc fl hu h0 h1 h).1
      (ih hl) hlen

/-! ## C24: allocation is monotonic and collision-free -/

/-- A step that moves the cursor has stored the frame under the cursor in a slot of a
created file, and has moved the cursor by the allocation step. -/
theorem CoreStep.hands_out (g : Geometry) (fs fs2 : File_System) (h : CoreStep g fs fs2)
    (b : BaseInv fs) (hne : cursor fs2 ≠ cursor fs) :
    cursor fs2 = cursor (advance_cursor g fs) ∧
    ∃ k j : Nat, created fs2 k ∧ (fs2.files k).data j = cursor fs := by
  cases h with
  | same hf hc hh => exact absurd hc hne
  | flag k0 v hf hc hh => exact absurd hc hne
  | seek k0 loc hu hloc hg hf hc hh => exact absurd hc hne
  | write k0 n ix hu hi h0 h1 hf hn hc hh => exact absurd hc hne
  | create k0 name handle hk0 hf hc hh =>
    refine ⟨hc, k0, 0, ?_, ?_⟩
    · unfold created; rw [hh]; omega
    · rw [hf, upd_same]; rfl
  | grow k0 n ix nx hu hi h0 h1 hx hf hn hc hh =>
    refine ⟨hc, k0, nx, ?_, ?_⟩
    · have := b.usable hu
      unfold created at this ⊢
      rw [hh]; exact this
    · rw [hf, upd_same]
      simp only [upd_same]

/-- Frame numbers are ordered as their pairs are in the lexicographic order. -/
theorem frame_number_lex (g : Geometry) (i j : Nat)
    (h : i < j) : lex_lt (frame_number g i) (frame_number g j) := by
  have h1 := Nat.div_add_mod i g.CART_CARTRIDGE_SIZE
  have h2 := Nat.div_add_mod j g.CART_CARTRIDGE_SIZE
  have h3 : i / g.CART_CARTRIDGE_SIZE ≤ j / g.CART_CARTRIDGE_SIZE :=
    Nat.div_le_div_right (by omega)
  unfold lex_lt frame_number
  simp only [Nat.cast_lt, Nat.cast_inj]
  by_cases e : i / g.CART_CARTRIDGE_SIZE = j / g.CART_CARTRIDGE_SIZE
  · right
    refine ⟨e, ?_⟩
    rw [e] at h1
    omega
  · left
    omega

/-- C24: allocation is monotonic and collision-free. Let `w` be a reachable state (a state
after a successful `cart_poweron` and any calls of `cart_open`, `cart_close`, `cart_seek`,
`cart_read` and `cart_write`, or a state between two flushes of a `cart_write`) and `log`
the frames handed out on the way to it, in order: the cursor pairs at the moments the cursor
moved. For cartridges of 1 to 32767 frames and at most 32767 cartridges, as long as the log
has at most `CART_MAX_CARTRIDGES * CART_CARTRIDGE_SIZE` entries: the log holds the frames
number 0, 1, 2, ... of the device in this order (frame number `i` is frame `i % S` of
cartridge `i / S`), so it is strictly increasing in the lexicographic order, without
repetition, and its frame indices lie in `[0, CART_CARTRIDGE_SIZE)`; the cursor is the frame
whose number is the length of the log; every slot of a created file is unassigned or holds a
frame of the log; and no two slots of created files, in one file or in two, hold the same
assigned pair. Moreover a `cart_open` and a flush of `cart_write` that move the cursor store
the pair under the cursor in a slot of a created file and leave the cursor at the next frame
number; and every state after further calls is reachable with a log that extends `log`. -/
theorem allocation_monotonic (g : Geometry) (hS1 : 1 ≤ g.CART_CARTRIDGE_SIZE)
    (hS : g.CART_CARTRIDGE_SIZE ≤ 32767) (hC : g.CART_MAX_CARTRIDGES ≤ 32767)
    (log : List data_structure) (w : World) (h : Reached g log w)
    (hn : log.length ≤ g.CART_MAX_CARTRIDGES * g.CART_CARTRIDGE_SIZE) :
    log = (List.range log.length).map (frame_number g) ∧
    log.Pairwise lex_lt ∧ log.Nodup ∧
    (∀ d, d ∈ log → 0 ≤ d.frame ∧ d.frame < (g.CART_CARTRIDGE_SIZE : Int)) ∧
    cursor w.fs = frame_number g log.length ∧
    (∀ k j : Nat, created w.fs k →
      (w.fs.files k).data j = unassigned ∨ (w.fs.files k).data j ∈ log) ∧
    (∀ k1 j1 k2 j2 : Nat, created w.fs k1 → created w.fs k2 →
      (w.fs.files k1).data j1 ≠ unassigned →
      (w.fs.files k1).data j1 = (w.fs.files k2).data j2 → k1 = k2 ∧ j1 = j2) ∧
    (∀ (path : List Nat) (w2 : World) (r : Int),
      cart_open g w path = some (w2, r) → cursor w2.fs ≠ cursor w.fs →
      (∃ k j : Nat, created w2.fs k ∧ (w2.fs.files k).data j = cursor w.fs) ∧
      (log.length < g.CART_MAX_CARTRIDGES * g.CART_CARTRIDGE_SIZE →
        cursor w2.fs = frame_number g (log.length + 1))) ∧
    (∀ (k : Nat) (read_in hb : List Nat) (hc : Int) (fl : Flush),
      ¬ not_usable (w.fs.files k) → 0 ≤ hc →
      hc + Int.tmod (w.fs.files k).current_position ((g.CART_FRAME_SIZE : Int) - 1) + 1
        ≤ (g.CART_FRAME_SIZE : Int) - 1 →
      write_flush g w k read_in hb hc
        (Int.tdiv (w.fs.files k).current_position ((g.CART_FRAME_SIZE : Int) - 1))
        (Int.tmod (w.fs.files k).current_position ((g.CART_FRAME_SIZE : Int) - 1)) = some fl →
      cursor fl.w.fs ≠ cursor w.fs →
      (∃ k2 j : Nat, created fl.w.fs k2 ∧ (fl.w.fs.files k2).data j = cursor w.fs) ∧
      (log.length < g.CART_MAX_CARTRIDGES * g.CART_CARTRIDGE_SIZE →
        cursor fl.w.fs = frame_number g (log.length + 1))) ∧
    (∀ (cs : List Call) (w2 : World) (rs : List (Int × List Nat)),
      calls g w cs = some (w2, rs) → ∃ log2, Reached g (log ++ log2) w2) := by
  have a := reached_alloc g hS1 hS hC log w h hn
  have b := reached_base g log w h
  have hlog := a.log_eq
  have hnext : ∀ fs2 : File_System, CoreStep g w.fs fs2 → cursor fs2 ≠ cursor w.fs →
      (∃ k j : Nat, created fs2 k ∧ (fs2.files k).data j = cursor w.fs) ∧
      (log.length < g.CART_MAX_CARTRIDGES * g.CART_CARTRIDGE_SIZE →
        cursor fs2 = frame_number g (log.length + 1)) := by
    intro fs2 st hne
    obtain ⟨e1, e2⟩ := CoreStep.hands_out g _ _ st b hne
    refine ⟨e2, fun hlt => ?_⟩
    rw [e1]
    have hq : log.length / g.CART_CARTRIDGE_SIZE < g.CART_MAX_CARTRIDGES :=
      Nat.div_lt_of_lt_mul (by rw [Nat.mul_comm]; exact hlt)
    exact advance_cursor_number g hS1 hS w.fs _ (by omega) a.cursor_eq
  refine ⟨hlog, ?_, ?_, ?_, a.cursor_eq, fun k j hk => ?_, a.distinct, ?_, ?_, ?_⟩
  · rw [hlog, List.pairwise_map]
    exact List.Pairwise.imp (fun hij => frame_number_lex g _ _ hij)
      (List.pairwise_lt_range _)
  · rw [hlog]
    exact List.Nodup.map (fun i j hij => frame_number_inj g i j hij) (List.nodup_range _)
  · intro d hd
    rw [hlog, List.mem_map] at hd
    obtain ⟨i, -, rfl⟩ := hd
    unfold frame_number
    simp only []
    have : i % g.CART_CARTRIDGE_SIZE < g.CART_CARTRIDGE_SIZE := Nat.mod_lt _ (by omega)
    omega
  · rcases a.slots k j hk with e | ⟨i, hi, e⟩
    · exact Or.inl e
    · right
      rw [e, hlog, List.mem_map]
      exact ⟨i, List.mem_range.2 hi, rfl⟩
  · intro path w2 r ho hne
    exact hnext w2.fs (cart_open_core g w path w2 r ho).1 hne
  · intro k ri hb hc fl hu h0 h1 hf hne
    exact hnext fl.w.fs (write_flush_core g w k ri hb hc fl hu h0 h1 hf).1 hne
  · intro cs w2 rs hcs
    exact calls_reached g cs w log (w2, rs) h hcs

set_option maxRecDepth 1000000 in
/-- Witness of `allocation_monotonic`: in the small geometry (2 cartridges of 2 frames),
`cart_open("a")` after power-on hands out the frame (0,0), and the flush of the four bytes
`"abcd"` hands out the frame (0,1) for block 1 and leaves the cursor at (1,0). -/
theorem allocation_monotonic_witness :
    (Reached smallGeometry
        (([] ++ handed_out poweredOnSmall freshFile) ++ handed_out freshFile grownFlush.w)
        grownFlush.w ∧
      ([] ++ handed_out poweredOnSmall freshFile) ++ handed_out freshFile grownFlush.w
        = [{ cart := 0, frame := 0 }, { cart := 0, frame := 1 }] ∧
      cursor grownFlush.w.fs = { cart := 1, frame := 0 } ∧
      (grownFlush.w.fs.files 0).data 0 = { cart := 0, frame := 0 } ∧
      (grownFlush.w.fs.files 0).data 1 = { cart := 0, frame := 1 }) ∧
    ((([] ++ handed_out poweredOnSmall freshFile) ++ handed_out freshFile grownFlush.w)
        = (List.range
            (([] ++ handed_out poweredOnSmall freshFile)
              ++ handed_out freshFile grownFlush.w).length).map (frame_number smallGeometry) ∧
      (([] ++ handed_out poweredOnSmall freshFile)
        ++ handed_out freshFile grownFlush.w).Pairwise lex_lt ∧
      cursor grownFlush.w.fs = frame_number smallGeometry
        (([] ++ handed_out poweredOnSmall freshFile)
          ++ handed_out freshFile grownFlush.w).length ∧
      (∀ k1 j1 k2 j2 : Nat, created grownFlush.w.fs k1 → created grownFlush.w.fs k2 →
        (grownFlush.w.fs.files k1).data j1 ≠ unassigned →
        (grownFlush.w.fs.files k1).data j1 = (grownFlush.w.fs.files k2).data j2 →
        k1 = k2 ∧ j1 = j2)) :=
  have hr : Reached smallGeometry
      (([] ++ handed_out poweredOnSmall freshFile) ++ handed_out freshFile grownFlush.w)
      grownFlush.w :=
    Reached.flush _ freshFile 0 [0, 0, 0, 0] [97, 98, 99, 100] 3 grownFlush
      (Reached.copen [] poweredOnSmall [97] freshFile 0
        (Reached.boot File.blank _ (by decide)) (by rfl))
      (by decide) (by decide) (by decide) (by rfl)
  have t := allocation_monotonic smallGeometry (by decide) (by decide) (by decide) _
    grownFlush.w hr (by decide)
  ⟨⟨hr, by decide, by decide, by decide, by decide⟩, t.1, t.2.1, t.2.2.2.2.1, t.2.2.2.2.2.2.1⟩

/-! ## C25: the loaded cartridge at flush time -/

/-- C25: the cartridge of a frame is the loaded one when `cart_write` transfers the frame.
Let `w0` be a reachable state (a state after a successful `cart_poweron` and any calls, or a
state between two flushes of a `cart_write`), and `w` the state after a sequence of calls of
`cart_open`, `cart_close`, `cart_seek`, `cart_read` and `cart_write` from `w0`, on a device
of 1 to 32768 cartridges whose commands may fail. Then the device has a loaded cartridge,
the one of the most recent successful load-cartridge command, and `last_cart_loaded` is
its number. And in a flush of `cart_write` from `w` for a block of a usable file whose slot
holds the cartridge `c`, when the load step `flush_load` lets the flush go on, the device on
which the read-frame command of `flush_fetch` runs has the cartridge `c` loaded, and so has
the device after `flush_fetch`, on which the write-frame command of `flush_store` runs. -/
theorem loaded_cartridge_at_flush (g : Geometry) (hC1 : 1 ≤ g.CART_MAX_CARTRIDGES)
    (hC2 : g.CART_MAX_CARTRIDGES ≤ 32768)
    (log : List data_structure) (w0 : World) (h : Reached g log w0)
    (cs : List Call) (w : World) (rs : List (Int × List Nat))
    (hcs : calls g w0 cs = some (w, rs)) :
    (∃ c : Nat, w.dev.loaded = some c ∧ w.fs.last_cart_loaded = (c : Int)) ∧
    (∀ (k ix : Nat) (read_in : List Nat), ¬ not_usable (w.fs.files k) →
      (flush_load g w ((w.fs.files k).data ix)).2 = true →
      ∃ c : Nat, ((w.fs.files k).data ix).cart = (c : Int) ∧
        (flush_load g w ((w.fs.files k).data ix)).1.dev.loaded = some c ∧
        ∀ f : Flush,
          flush_fetch g (flush_load g w ((w.fs.files k).data ix)).1
            ((w.fs.files k).data ix) read_in = some f →
          f.w.dev.loaded = some c) := by
  obtain ⟨log2, hr⟩ := calls_reached g cs w0 log (w, rs) h hcs
  have hr2 : Reached g (log ++ log2) w := hr
  have hs := reached_sync g hC1 hC2 _ _ hr2
  have b := reached_base g _ _ hr2
  refine ⟨hs, fun k ix read_in hu hl => ?_⟩
  obtain ⟨c, e1, e2⟩ :=
    (flush_load_sync g w ((w.fs.files k).data ix) (b.slot16 k ix (b.usable hu)) hs).2 hl
  refine ⟨c, e1, e2, fun f hf => ?_⟩
  rw [(flush_fetch_core g _ _ _ f hf).2]
  exact e2

set_option maxRecDepth 1000000 in
/-- Witness of `loaded_cartridge_at_flush`: in the small geometry, after `cart_open("a")` and
`cart_write(0, "abcd", 4)` the cartridge 0 of the written frame is loaded and recorded, where
the power-on left cartridge 1 loaded. -/
theorem loaded_cartridge_at_flush_witness :
    (Reached smallGeometry [] poweredOnSmall ∧
      calls smallGeometry poweredOnSmall growCalls = some (grownFile, [(0, []), (4, [])]) ∧
      poweredOnSmall.dev.loaded = some 1 ∧ grownFile.dev.loaded = some 0 ∧
      grownFile.fs.last_cart_loaded = 0) ∧
    ((∃ c : Nat, grownFile.dev.loaded = some c ∧ grownFile.fs.last_cart_loaded = (c : Int)) ∧
      (∀ (k ix : Nat) (read_in : List Nat), ¬ not_usable (grownFile.fs.files k) →
        (flush_load smallGeometry grownFile ((grownFile.fs.files k).data ix)).2 = true →
        ∃ c : Nat, ((grownFile.fs.files k).data ix).cart = (c : Int) ∧
          (flush_load smallGeometry grownFile ((grownFile.fs.files k).data ix)).1.dev.loaded
            = some c ∧
          ∀ f : Flush,
            flush_fetch smallGeometry
              (flush_load smallGeometry grownFile ((grownFile.fs.files k).data ix)).1
              ((grownFile.fs.files k).data ix) read_in = some f →
            f.w.dev.loaded = some c)) :=
  ⟨⟨Reached.boot File.blank _ (by decide), by rfl, by decide, by decide, by decide⟩,
    loaded_cartridge_at_flush smallGeometry (by decide) (by decide) [] poweredOnSmall
      (Reached.boot File.blank _ (by decide)) growCalls grownFile [(0, []), (4, [])] (by rfl)⟩

/-! ## C26: every block inside a file is allocated -/

/-- C26: every block inside a created file holds a frame. Let `w0` be a reachable state (a
state after a successful `cart_poweron` and any calls, or a state between two flushes of a
`cart_write`), and `w` the state after a sequence of calls of `cart_open`, `cart_close`,
`cart_seek`, `cart_read` and `cart_write` from `w0`, whether the device commands succeed or
fail. For frames of at least 2 bytes and cartridges of 1 to 32767 frames whose byte count
fits `int32_t`, every created file of `w` (a slot below the handle counter) with size `s`
and stride `D = CART_FRAME_SIZE - 1` has `s <= CART_CARTRIDGE_SIZE * D`; every block index
`j` from 0 to `max(0, (s - 1) div D)` is an index of its frame list and holds a pair that is
not the unassigned pair `(-1, -1)` and whose frame is a frame index of a cartridge; hence
the block `p / D` consulted by `cart_read` and `cart_write` for a position `p` in `[0, s)`
is such a block. -/
theorem blocks_allocated (g : Geometry) (hF : 2 ≤ g.CART_FRAME_SIZE)
    (hS1 : 1 ≤ g.CART_CARTRIDGE_SIZE) (hS : g.CART_CARTRIDGE_SIZE ≤ 32767)
    (h32 : (g.CART_CARTRIDGE_SIZE : Int) * ((g.CART_FRAME_SIZE : Int) - 1) + 1 < 2 ^ 31)
    (log : List data_structure) (w0 : World) (h : Reached g log w0)
    (cs : List Call) (w : World) (rs : List (Int × List Nat))
    (hcs : calls g w0 cs = some (w, rs)) (k : Nat) (hk : created w.fs k) :
    (w.fs.files k).size ≤ (g.CART_CARTRIDGE_SIZE : Int) * ((g.CART_FRAME_SIZE : Int) - 1) ∧
    (∀ j : Nat,
      (j : Int) ≤ max 0 (((w.fs.files k).size - 1) / ((g.CART_FRAME_SIZE : Int) - 1)) →
      j < g.CART_CARTRIDGE_SIZE ∧ (w.fs.files k).data j ≠ unassigned ∧
      0 ≤ ((w.fs.files k).data j).frame ∧
      ((w.fs.files k).data j).frame < (g.CART_CARTRIDGE_SIZE : Int)) ∧
    (∀ p : Int, 0 ≤ p → p < (w.fs.files k).size →
      ∃ j : Nat,
        index? g.CART_CARTRIDGE_SIZE (Int.tdiv p ((g.CART_FRAME_SIZE : Int) - 1)) = some j ∧
        (w.fs.files k).data j ≠ unassigned ∧
        0 ≤ ((w.fs.files k).data j).frame ∧
        ((w.fs.files k).data j).frame < (g.CART_CARTRIDGE_SIZE : Int)) := by
  obtain ⟨log2, hr⟩ := calls_reached g cs w0 log (w, rs) h hcs
  have hr2 : Reached g (log ++ log2) w := hr
  have ok := (reached_files g hF hS1 hS h32 _ _ hr2).file k hk
  have hD : (0 : Int) < (g.CART_FRAME_SIZE : Int) - 1 := by omega
  have hsz := ok.size_hi
  have hne : ∀ j : Nat, 0 ≤ ((w.fs.files k).data j).frame →
      (w.fs.files k).data j ≠ unassigned := by
    intro j h0 e
    rw [e] at h0
    unfold unassigned at h0
    simp only [] at h0
    omega
  -- a block that starts below the size is a block of the frame list
  have hidx : ∀ q : Int, q * ((g.CART_FRAME_SIZE : Int) - 1) < (w.fs.files k).size →
      q < (g.CART_CARTRIDGE_SIZE : Int) := by
    intro q hq
    by_contra hge
    have := Int.mul_le_mul_of_nonneg_right (show (g.CART_CARTRIDGE_SIZE : Int) ≤ q by omega)
      (show (0 : Int) ≤ (g.CART_FRAME_SIZE : Int) - 1 by omega)
    omega
  refine ⟨hsz, fun j hj => ?_, fun p hp0 hp => ?_⟩
  · have hblock : j = 0 ∨ (j : Int) * ((g.CART_FRAME_SIZE : Int) - 1) < (w.fs.files k).size := by
      by_cases hj0 : j = 0
      · exact Or.inl hj0
      · right
        have hj1 : (j : Int) ≤ ((w.fs.files k).size - 1) / ((g.CART_FRAME_SIZE : Int) - 1) := by
          rcases le_max_iff.1 hj with h0 | h0
          · omega
          · exact h0
        have := (Int.le_ediv_iff_mul_le hD).1 hj1
        omega
    obtain ⟨b1, b2⟩ := ok.blocks j hblock
    refine ⟨?_, hne j b1, b1, b2⟩
    rcases hblock with h0 | h0
    · omega
    · have := hidx _ h0
      omega
  · have hq : Int.tdiv p ((g.CART_FRAME_SIZE : Int) - 1) = p / ((g.CART_FRAME_SIZE : Int) - 1) :=
      Int.tdiv_eq_ediv hp0 (by omega)
    have hq0 : 0 ≤ p / ((g.CART_FRAME_SIZE : Int) - 1) := Int.ediv_nonneg hp0 (by omega)
    have hqm : p / ((g.CART_FRAME_SIZE : Int) - 1) * ((g.CART_FRAME_SIZE : Int) - 1) ≤ p :=
      Int.ediv_mul_le p (by omega)
    have hqS := hidx (p / ((g.CART_FRAME_SIZE : Int) - 1)) (by omega)
    rw [hq]
    generalize p / ((g.CART_FRAME_SIZE : Int) - 1) = q at hq0 hqm hqS
    have hcast : ((q.toNat : Nat) : Int) = q := Int.toNat_of_nonneg hq0
    have hix : index? g.CART_CARTRIDGE_SIZE q = some q.toNat := by
      rw [← hcast]
      exact index?_natCast (by omega)
    obtain ⟨b1, b2⟩ := ok.blocks q.toNat (Or.inr (by rw [hcast]; omega))
    exact ⟨q.toNat, hix, hne _ b1, b1, b2⟩

set_option maxRecDepth 1000000 in
/-- Witness of `blocks_allocated`: in the small geometry (stride 3, 2 frames per cartridge)
the file 0 has size 4 after `cart_open("a")` and `cart_write(0, "abcd", 4)`, and its blocks
0 and 1 hold the frames (0,0) and (0,1). -/
theorem blocks_allocated_witness :
    (Reached smallGeometry [] poweredOnSmall ∧
      calls smallGeometry poweredOnSmall growCalls = some (grownFile, [(0, []), (4, [])]) ∧
      created grownFile.fs 0 ∧ (grownFile.fs.files 0).size = 4 ∧
      (grownFile.fs.files 0).data 0 = { cart := 0, frame := 0 } ∧
      (grownFile.fs.files 0).data 1 = { cart := 0, frame := 1 }) ∧
    ((grownFile.fs.files 0).size
        ≤ (smallGeometry.CART_CARTRIDGE_SIZE : Int) * ((smallGeometry.CART_FRAME_SIZE : Int) - 1) ∧
      (∀ j : Nat,
        (j : Int) ≤ max 0 (((grownFile.fs.files 0).size - 1)
          / ((smallGeometry.CART_FRAME_SIZE : Int) - 1)) →
        j < smallGeometry.CART_CARTRIDGE_SIZE ∧ (grownFile.fs.files 0).data j ≠ unassigned ∧
        0 ≤ ((grownFile.fs.files 0).data j).frame ∧
        ((grownFile.fs.files 0).data j).frame < (smallGeometry.CART_CARTRIDGE_SIZE : Int)) ∧
      (∀ p : Int, 0 ≤ p → p < (grownFile.fs.files 0).size →
        ∃ j : Nat,
          index? smallGeometry.CART_CARTRIDGE_SIZE
            (Int.tdiv p ((smallGeometry.CART_FRAME_SIZE : Int) - 1)) = some j ∧
          (grownFile.fs.files 0).data j ≠ unassigned ∧
          0 ≤ ((grownFile.fs.files 0).data j).frame ∧
          ((grownFile.fs.files 0).data j).frame < (smallGeometry.CART_CARTRIDGE_SIZE : Int))) :=
  ⟨⟨Reached.boot File.blank _ (by decide), by rfl, by decide, by decide, by decide, by decide⟩,
    blocks_allocated smallGeometry (by decide) (by decide) (by decide) (by decide) []
      poweredOnSmall (Reached.boot File.blank _ (by decide)) growCalls grownFile
      [(0, []), (4, [])] (by rfl) 0 (by decide)⟩

/-! ## C27: hash collisions, and the name mark of unused files -/

set_option maxRecDepth 1000000 in
/-- C27 at its failing input: the paths `"0a"` and `"1 "` are distinct and have the same
hash 3625. After power-on `cart_open("0a")` creates the file 0, and `cart_open("1 ")`
returns `-1` while it is open; but `cart_close(0)` returns `-1` and leaves the file open,
because its `name[0]` is the character `'0'` that marks an unused file, so the following
`cart_open("1 ")` returns `-1` again and not the handle 0. For a first path that does not
start with `'0'` the file is closed and the second path re-opens it
(`hash_collision_aliases`). -/
theorem hash_collision_zero_name_stays_open :
    path_0a ≠ path_1sp ∧ hash path_0a = 3625 ∧ hash path_1sp = 3625 ∧
    results cartGeometry poweredOn
        [.copen path_0a, .copen path_1sp, .cclose 0, .copen path_1sp]
      = some [(0, []), (-1, []), (-1, []), (-1, [])] ∧
    ((after cartGeometry poweredOn
        [.copen path_0a, .copen path_1sp, .cclose 0]).fs.files 0).is_open = 1 ∧
    (after cartGeometry poweredOn
        [.copen path_0a, .copen path_1sp, .cclose 0, .copen path_1sp]).fs.current_handle
      = 1 := by
  decide

end Cart
